import Mathlib

/-!
# pool: worktree pool orchestration

A shallow embedding of the claim flow (`cmd/worktree.go`), the return flow
(`cmd/use.go`), the commands that set up, top up and clean the pool (`cmd/init.go`,
`cmd/refill.go`, `cmd/clean.go`, `cmd/root.go`), the configuration (`internal/config`),
the errors (`internal/errors`) and the git adapter they call (`internal/git`).  The package
`internal/pool` is a parameter of the flows; the definitions marked
`Modelled from the spec` describe it the way the specification does.

Conventions of the embedding.

* Go strings are Lean strings; the string functions of the Go standard library
  that the code calls are written out on lists of characters so that they
  evaluate by structural recursion.  Where a string is written to a file as JSON
  its bytes matter, and there a Go string is a list of bytes.
* Every effect of the program (starting a process, `os.Stat`, a call of the
  pool manager, ...) is answered by an environment `Env` and recorded, with its
  answer, as one `Step` of a trace.  The environment's answer may depend on how
  many steps were taken before, so the same command can be answered differently
  at different moments and quantifying over `Env` covers every run.
* A Go function `f(args) (T, error)` becomes a function returning a pair whose
  second component is `Option Error` (`none` is `nil`).
* Calls of `logger.*` and `fmt.Println` only print and are left out.
-/

namespace Pool

/-! ## Go standard library: `strings`, `unicode`, `path/filepath`, `bufio` -/

namespace unicode

/-- Go `unicode.IsSpace`: the Unicode White_Space property. -/
def IsSpace (c : Char) : Bool :=
  let n := c.toNat
  (9 ≤ n && n ≤ 13) || n == 0x20 || n == 0x85 || n == 0xA0 || n == 0x1680 ||
    (0x2000 ≤ n && n ≤ 0x200A) || n == 0x2028 || n == 0x2029 || n == 0x202F ||
    n == 0x205F || n == 0x3000

end unicode

namespace strings

/-- Split a list of characters at every occurrence of `sep`; the result is never empty. -/
def splitChars (sep : Char) : List Char → List (List Char)
  | [] => [[]]
  | c :: cs =>
    if c = sep then [] :: splitChars sep cs
    else
      match splitChars sep cs with
      | [] => [[c]]
      | hd :: tl => (c :: hd) :: tl

/-- Whether `sub` occurs in `s` as a contiguous block. -/
def containsChars (sub : List Char) : List Char → Bool
  | [] => sub.isEmpty
  | c :: cs => sub.isPrefixOf (c :: cs) || containsChars sub cs

/-- Replace the non-overlapping occurrences of a non-empty `old`, left to right. -/
def replaceChars (old new : List Char) : Nat → List Char → List Char
  | 0, s => s
  | _ + 1, [] => []
  | fuel + 1, c :: cs =>
    if old.isPrefixOf (c :: cs) then new ++ replaceChars old new fuel ((c :: cs).drop old.length)
    else c :: replaceChars old new fuel cs

/-- Go `strings.ReplaceAll(s, old, new)`. -/
def ReplaceAll (s old new : String) : String :=
  if old.data = [] then
    String.mk (new.data ++ s.data.flatMap (fun c => c :: new.data))
  else
    String.mk (replaceChars old.data new.data s.data.length s.data)

/-- Go `strings.HasPrefix(s, p)`. -/
def HasPrefix (s p : String) : Bool :=
  p.data.isPrefixOf s.data

/-- Go `strings.TrimPrefix(s, p)`. -/
def TrimPrefix (s p : String) : String :=
  if HasPrefix s p then String.mk (s.data.drop p.data.length) else s

/-- Go `strings.Contains(s, sub)`. -/
def Contains (s sub : String) : Bool :=
  containsChars sub.data s.data

/-- Go `strings.TrimSpace(s)`: drop leading and trailing white space. -/
def TrimSpace (s : String) : String :=
  String.mk ((s.data.dropWhile unicode.IsSpace).reverse.dropWhile unicode.IsSpace).reverse

/-- Go `strings.Join(elems, sep)`. -/
def Join (elems : List String) (sep : String) : String :=
  sep.intercalate elems

/-- Go `strings.Split(s, sep)` for a one-character separator. -/
def Split (s : String) (sep : Char) : List String :=
  (splitChars sep s.data).map String.mk

end strings

namespace filepath

/-- One path element of `Clean` applied to the elements kept so far (last kept element first). -/
def cleanStep (rooted : Bool) (kept : List (List Char)) (c : List Char) : List (List Char) :=
  if c = [] ∨ c = ['.'] then kept
  else if c = ['.', '.'] then
    match kept with
    | [] => if rooted then [] else [c]
    | top :: rest => if top = ['.', '.'] then c :: kept else rest
  else c :: kept

/-- Go `filepath.Clean` on a Unix system: the shortest lexically equivalent path. -/
def Clean (path : String) : String :=
  if path = "" then "."
  else
    let rooted := path.data.head? = some '/'
    let kept := (strings.splitChars '/' path.data).foldl (cleanStep rooted) []
    let body := "/".intercalate (kept.reverse.map String.mk)
    let out := (if rooted then "/" else "") ++ body
    if out = "" then "." else out

/-- Go `filepath.Join`: empty elements are ignored, the rest is joined by `/` and cleaned. -/
def Join : List String → String
  | [] => ""
  | e :: es => if e = "" then Join es else Clean (strings.Join (e :: es) "/")

/-- The characters of `s` up to and including its last `/` (empty when there is none). -/
def dirChars : List Char → List Char
  | [] => []
  | c :: cs =>
    if cs.contains '/' then c :: dirChars cs
    else if c = '/' then [c] else []

/-- Go `filepath.Dir` on a Unix system. -/
def Dir (path : String) : String :=
  Clean (String.mk (dirChars path.data))

end filepath

namespace bufio

/-- The largest token a `bufio.Scanner` accepts (`bufio.MaxScanTokenSize`). -/
def MaxScanTokenSize : Nat := 64 * 1024

/-- Go `dropCR`: remove one trailing carriage return. -/
def dropCR (line : List Char) : List Char :=
  match line.reverse with
  | '\r' :: rest => rest.reverse
  | _ => line

/-- The pieces between newlines; a final piece that is empty yields no token. -/
def rawLines (s : List Char) : List (List Char) :=
  let parts := strings.splitChars '\n' s
  if parts.getLast? = some [] then parts.dropLast else parts

/-- The tokens of `bufio.NewScanner(strings.NewReader(s))` with the default
`ScanLines` split function: scanning stops, without a token, at the first line
that does not fit the scanner's buffer. -/
def ScanLines (s : String) : List String :=
  ((rawLines s.data).takeWhile
      (fun l => decide ((String.mk l).utf8ByteSize < MaxScanTokenSize))).map
    (fun l => String.mk (dropCR l))

end bufio

/-! ## Errors (`internal/errors`) -/

/-- Go `error` values that reach the orchestration code. -/
inductive Error where
  /-- A package-level `errors.New(msg)` value. -/
  | sentinel (msg : String)
  /-- An error produced outside this repository (`os`, `os/exec`, the pool package). -/
  | external (msg : String)
  /-- A `*GitError{Command, Output, Err}`. -/
  | git (Command : String) (Output : String) (Err : Error)
  /-- The value of `fmt.Errorf("%s: %w", msg, err)`. -/
  | wrapped (msg : String) (err : Error)
  /-- The value of `fmt.Errorf` without a wrapped error. -/
  | errorf (msg : String)
  /-- A `*ValidationError{Field, Value, Msg}`. -/
  | validation (Field : String) (Value : String) (Msg : String)
  deriving DecidableEq, Repr

namespace errors

def ErrNotGitRepo : Error := Error.sentinel "not a git repository"
def ErrAlreadyBare : Error := Error.sentinel "repository is already bare"
def ErrInWorktree : Error := Error.sentinel "cannot perform operation from within a worktree"
def ErrUncommitted : Error := Error.sentinel "uncommitted changes present"
def ErrNoPoolAvailable : Error := Error.sentinel "no available pool worktrees"
def ErrPoolNotFound : Error := Error.sentinel "worktree pool not found"
def ErrWorktreeExists : Error := Error.sentinel "worktree already exists"
def ErrBranchNotFound : Error := Error.sentinel "branch not found"

/-- Go `NewGitError(command, err, output)`. -/
def NewGitError (command : String) (err : Error) (output : String) : Error :=
  Error.git command output err

/-- Go `NewValidationError(field, value, msg)`. -/
def NewValidationError (field value msg : String) : Error :=
  Error.validation field value msg

/-- Go `Wrap(err, msg)`. -/
def Wrap (err : Option Error) (msg : String) : Option Error :=
  match err with
  | none => none
  | some e => some (Error.wrapped msg e)

/-- Go `Wrapf(err, format, args...)` with the format already expanded to `msg`. -/
def Wrapf (err : Option Error) (msg : String) : Option Error :=
  match err with
  | none => none
  | some e => some (Error.wrapped msg e)

end errors

/-! ## The environment and the trace of a run -/

/-- What the code can tell from `_, err := os.Stat(path)`. -/
inductive StatResult where
  /-- The case `err == nil`. -/
  | found
  /-- The case `os.IsNotExist(err)`. -/
  | notExist
  /-- Any other error. -/
  | failed
  deriving DecidableEq, Repr

/-- What a finished process leaves behind: the error of `cmd.Run()` and its two output streams. -/
structure ExecResult where
  err : Option Error
  stdout : String
  stderr : String
  deriving DecidableEq, Repr

/-- One effect of a run together with the answer it received. -/
inductive Step where
  /-- The process `name args...` was run with working directory `dir` (the field `cmd.Dir`). -/
  | exec (dir : String) (name : String) (args : List String) (res : ExecResult)
  /-- The call `os.Stat(path)`. -/
  | stat (path : String) (res : StatResult)
  /-- The call `os.Getwd()`. -/
  | getwd (dir : String) (err : Option Error)
  /-- The call `os.Chdir(dir)`. -/
  | chdir (dir : String) (err : Option Error)
  /-- The call `pool.NewManager(repo)`. -/
  | NewManager (err : Option Error)
  /-- The call `manager.GetAvailable()`. -/
  | GetAvailable (path name : String) (err : Option Error)
  /-- The call `manager.MarkInUse(name)`. -/
  | MarkInUse (name : String) (err : Option Error)
  /-- The call `manager.MarkAvailable(name)`. -/
  | MarkAvailable (name : String) (err : Option Error)
  /-- The call `manager.GetStatus()`. -/
  | GetStatus (total available : Int)
  /-- The statement `go refillPoolAsync(manager)`. -/
  | goRefill
  /-- The call `manager.Initialize(size)`. -/
  | Initialize (size : Int) (err : Option Error)
  /-- The call `manager.Refill(size)`. -/
  | Refill (size : Int) (err : Option Error)
  /-- The call `reader.ReadString('\n')` on the standard input. -/
  | readLine (line : String) (err : Option Error)
  deriving DecidableEq, Repr

/-- The world outside the program.  Each answer may depend on the number of steps
already taken, that is on the moment of the call. -/
structure Env where
  exec : Nat → String → String → List String → ExecResult
  stat : Nat → String → StatResult
  getwd : Nat → String × Option Error
  chdir : Nat → String → Option Error
  /-- The line the user types when the program reads the standard input; without a
  terminal the read fails. -/
  readLine : Nat → String × Option Error := fun _ => ("", some (Error.external "EOF"))

/-- A computation that extends the trace of the run. -/
abbrev Sim := StateM (List Step)

/-- Go `cmd := exec.Command(name, args...); cmd.Dir = dir; cmd.Run()`. -/
def runCommand (env : Env) (dir name : String) (args : List String) : Sim ExecResult :=
  fun tr =>
    let res := env.exec tr.length dir name args
    (res, tr ++ [Step.exec dir name args res])

/-- Go `os.Stat(path)`. -/
def osStat (env : Env) (path : String) : Sim StatResult :=
  fun tr =>
    let res := env.stat tr.length path
    (res, tr ++ [Step.stat path res])

/-- Go `os.Getwd()`. -/
def osGetwd (env : Env) : Sim (String × Option Error) :=
  fun tr =>
    let res := env.getwd tr.length
    (res, tr ++ [Step.getwd res.1 res.2])

/-- Go `os.Chdir(dir)`. -/
def osChdir (env : Env) (dir : String) : Sim (Option Error) :=
  fun tr =>
    let res := env.chdir tr.length dir
    (res, tr ++ [Step.chdir dir res])

/-! ## The git adapter (`internal/git`) -/

namespace git

structure Repository where
  Path : String
  IsBare : Bool
  DefaultBranch : String
  deriving DecidableEq, Repr

structure Worktree where
  Path : String
  Branch : String
  Commit : String
  Bare : Bool
  deriving DecidableEq, Repr

/-- Go `(*Repository).run`: the command's error becomes a `GitError` without output. -/
def Repository.run (env : Env) (r : Repository) (args : List String) : Sim (Option Error) := do
  let res ← runCommand env r.Path "git" args
  match res.err with
  | some err => pure (some (errors.NewGitError (strings.Join args " ") err ""))
  | none => pure none

/-- Go `(*Repository).output`: standard output, or a `GitError` carrying standard error. -/
def Repository.output (env : Env) (r : Repository) (args : List String) :
    Sim (String × Option Error) := do
  let res ← runCommand env r.Path "git" args
  match res.err with
  | some err => pure ("", some (errors.NewGitError (strings.Join args " ") err res.stderr))
  | none => pure (res.stdout, none)

/-- Go `RunInDir(dir, args...)`. -/
def RunInDir (env : Env) (dir : String) (args : List String) : Sim (Option Error) := do
  let res ← runCommand env dir "git" args
  match res.err with
  | some err => pure (some (errors.NewGitError (strings.Join args " ") err ""))
  | none => pure none

/-- Go `NewRepository(path)`. -/
def NewRepository (env : Env) (path : String) : Sim (Except Error Repository) := do
  let repo : Repository := { Path := path, IsBare := false, DefaultBranch := "" }
  match ← repo.run env ["rev-parse", "--git-dir"] with
  | some _ => pure (.error errors.ErrNotGitRepo)
  | none =>
    let (output, err) ← repo.output env ["rev-parse", "--is-bare-repository"]
    let repo : Repository :=
      match err with
      | none => { repo with IsBare := decide (strings.TrimSpace output = "true") }
      | some _ => repo
    let (output, err) ← repo.output env ["symbolic-ref", "refs/remotes/origin/HEAD"]
    let repo : Repository :=
      match err with
      | none =>
        { repo with
          DefaultBranch := strings.TrimPrefix (strings.TrimSpace output) "refs/remotes/origin/" }
      | some _ => { repo with DefaultBranch := "main" }
    pure (.ok repo)

/-- Go `(*Repository).GetTopLevel`. -/
def Repository.GetTopLevel (env : Env) (r : Repository) : Sim (String × Option Error) := do
  let (output, err) ← r.output env ["rev-parse", "--show-toplevel"]
  match err with
  | some _ =>
    let (output, err) ← r.output env ["rev-parse", "--git-dir"]
    match err with
    | some e => pure ("", some e)
    | none => pure (filepath.Dir (strings.TrimSpace output), none)
  | none => pure (strings.TrimSpace output, none)

/-- Go `(*Repository).RemoteBranchExists`. -/
def Repository.RemoteBranchExists (env : Env) (r : Repository) (branch : String) : Sim Bool := do
  let (output, err) ← r.output env ["ls-remote", "--heads", "origin", branch]
  pure (err.isNone && strings.Contains output branch)

/-- The loop body of `ListWorktrees`: the worktrees finished so far and the one being read. -/
def parseLine (acc : List Worktree × Worktree) (line : String) : List Worktree × Worktree :=
  let (worktrees, current) := acc
  if strings.HasPrefix line "worktree " then
    let worktrees := if current.Path ≠ "" then worktrees ++ [current] else worktrees
    (worktrees,
      { Path := strings.TrimPrefix line "worktree ", Branch := "", Commit := "", Bare := false })
  else if strings.HasPrefix line "branch refs/heads/" then
    (worktrees, { current with Branch := strings.TrimPrefix line "branch refs/heads/" })
  else if strings.HasPrefix line "HEAD " then
    (worktrees, { current with Commit := strings.TrimPrefix line "HEAD " })
  else if line = "bare" then
    (worktrees, { current with Bare := true })
  else (worktrees, current)

/-- The parsing part of `ListWorktrees`, applied to the output of
`git worktree list --porcelain`. -/
def parseWorktrees (output : String) : List Worktree :=
  let (worktrees, current) :=
    (bufio.ScanLines output).foldl parseLine
      ([], { Path := "", Branch := "", Commit := "", Bare := false })
  if current.Path ≠ "" then worktrees ++ [current] else worktrees

/-- Go `(*Repository).ListWorktrees`. -/
def Repository.ListWorktrees (env : Env) (r : Repository) :
    Sim (List Worktree × Option Error) := do
  let (output, err) ← r.output env ["worktree", "list", "--porcelain"]
  match err with
  | some e => pure ([], some e)
  | none => pure (parseWorktrees output, none)

/-- Go `(*Repository).AddWorktree(path, branch)` (no extra options). -/
def Repository.AddWorktree (env : Env) (r : Repository) (path branch : String) :
    Sim (Option Error) :=
  r.run env ["worktree", "add", path, "-b", branch, r.DefaultBranch]

/-- Go `(*Repository).AddWorktreeFromBranch(path, branch, source)`. -/
def Repository.AddWorktreeFromBranch (env : Env) (r : Repository) (path branch source : String) :
    Sim (Option Error) :=
  r.run env ["worktree", "add", path, "-b", branch, source]

/-- Go `(*Repository).RemoveWorktree(path)`. -/
def Repository.RemoveWorktree (env : Env) (r : Repository) (path : String) : Sim (Option Error) :=
  r.run env ["worktree", "remove", path]

/-- Go `(*Repository).MoveWorktree(from, to)`. -/
def Repository.MoveWorktree (env : Env) (r : Repository) (src dst : String) :
    Sim (Option Error) :=
  r.run env ["worktree", "move", src, dst]

/-- Go `(*Repository).RepairWorktrees()`. -/
def Repository.RepairWorktrees (env : Env) (r : Repository) : Sim (Option Error) :=
  r.run env ["worktree", "repair"]

/-- Go `CheckoutNewBranch(branch, source)`: the checkout runs in the directory `"."`. -/
def CheckoutNewBranch (env : Env) (branch source : String) : Sim (Option Error) :=
  RunInDir env "." ["checkout", "-B", branch, source]

end git

/-! ## Configuration (`internal/config`) -/

namespace config

/-- The Go struct `Config`; a `nil` map of aliases is `none`. -/
structure Config where
  PoolSize : Int
  PoolPrefix : String
  DefaultBranch : String
  Editor : String
  AutoRefill : Bool
  CleanupOnExit : Bool
  Aliases : Option (List (String × String))
  deriving DecidableEq, Repr

end config

/-! ## The pool manager (`internal/pool`)

The package `internal/pool` is used by the commands but is not among the
sources.  Its constants and the methods of `*pool.Manager` are parameters of
the embedding: the commands are modelled for an arbitrary manager. -/

namespace pool

/-- The exported constants of package `pool` that the commands read. -/
structure Constants where
  PoolDir : String
  PoolPrefix : String
  DefaultPoolSize : Int

/-- The methods of `*pool.Manager` that the commands call, for a manager whose
state has type `M`.  Every method receives the manager and returns it, possibly
changed, next to its Go results. -/
structure ManagerOps (M : Type) where
  NewManager : git.Repository → Except Error M
  GetAvailable : M → (String × String × Option Error) × M
  MarkInUse : M → String → Option Error × M
  MarkAvailable : M → String → Option Error × M
  GetStatus : M → (Int × Int) × M

variable {M : Type}

/-- The call `pool.NewManager(repo)`, recorded in the trace. -/
def NewManager (ops : ManagerOps M) (repo : git.Repository) : Sim (Except Error M) :=
  fun tr =>
    match ops.NewManager repo with
    | .error e => (.error e, tr ++ [Step.NewManager (some e)])
    | .ok m => (.ok m, tr ++ [Step.NewManager none])

/-- The call `manager.GetAvailable()`, recorded in the trace. -/
def GetAvailable (ops : ManagerOps M) (m : M) : Sim ((String × String × Option Error) × M) :=
  fun tr =>
    let res := ops.GetAvailable m
    (res, tr ++ [Step.GetAvailable res.1.1 res.1.2.1 res.1.2.2])

/-- The call `manager.MarkInUse(name)`, recorded in the trace. -/
def MarkInUse (ops : ManagerOps M) (m : M) (name : String) : Sim (Option Error × M) :=
  fun tr =>
    let res := ops.MarkInUse m name
    (res, tr ++ [Step.MarkInUse name res.1])

/-- The call `manager.MarkAvailable(name)`, recorded in the trace. -/
def MarkAvailable (ops : ManagerOps M) (m : M) (name : String) : Sim (Option Error × M) :=
  fun tr =>
    let res := ops.MarkAvailable m name
    (res, tr ++ [Step.MarkAvailable name res.1])

/-- The call `manager.GetStatus()`, recorded in the trace. -/
def GetStatus (ops : ManagerOps M) (m : M) : Sim ((Int × Int) × M) :=
  fun tr =>
    let res := ops.GetStatus m
    (res, tr ++ [Step.GetStatus res.1.1 res.1.2])

end pool

/-! ## The commands (`cmd`) -/

namespace cmd

variable {M : Type}

/-- Go `openInEditor(path)`; `cfg` is the package variable of that name. -/
def openInEditor (env : Env) (cfg : config.Config) (path : String) : Sim (Option Error) := do
  let editor := if cfg.Editor = "" then "code" else cfg.Editor
  let args : List String :=
    if editor = "code" ∨ editor = "subl" ∨ editor = "atom" then ["."]
    else if editor = "vim" ∨ editor = "nvim" ∨ editor = "emacs" then []
    else ["."]
  let res ← runCommand env path editor args
  pure res.err

/-- Go `createWorktreeDirect(repo, worktreePath, branchName)`. -/
def createWorktreeDirect (env : Env) (repo : git.Repository) (worktreePath branchName : String) :
    Sim (Option Error) := do
  if ← repo.RemoteBranchExists env branchName then
    repo.AddWorktreeFromBranch env worktreePath branchName ("origin/" ++ branchName)
  else
    repo.AddWorktree env worktreePath branchName

/-- Go `setupBranchInPool(repo, poolPath, branchName)`.  The source writes the
checkout as `repo.CheckoutNewBranch(...)`; the only `CheckoutNewBranch` of
package `git` is the function of `worktree.go`. -/
def setupBranchInPool (env : Env) (repo : git.Repository) (poolPath branchName : String) :
    Sim (Option Error) := do
  match ← git.RunInDir env poolPath ["fetch", "origin"] with
  | some err => pure (some err)
  | none =>
    if ← repo.RemoteBranchExists env branchName then
      git.CheckoutNewBranch env branchName ("origin/" ++ branchName)
    else
      git.CheckoutNewBranch env branchName repo.DefaultBranch

/-- The statement `go refillPoolAsync(manager)`: the goroutine is started and not
awaited; what it does later is not part of the run of the command. -/
def goRefillPoolAsync : Sim Unit :=
  fun tr => ((), tr ++ [Step.goRefill])

/-- Go `createWorktree(branchName)`.  Next to the returned error the embedding
returns the manager as the run left it (`none` when no manager was created). -/
def createWorktree (env : Env) (ops : pool.ManagerOps M) (cfg : config.Config)
    (branchName : String) : Sim (Option Error × Option M) := do
  match ← git.NewRepository env "." with
  | .error err => pure (some err, none)
  | .ok repo =>
    let (topLevel, err) ← repo.GetTopLevel env
    match err with
    | some err => pure (some err, none)
    | none =>
      let safeBranchName := strings.ReplaceAll branchName "/" "-"
      let worktreePath := filepath.Join [topLevel, safeBranchName]
      let (worktrees, err) ← repo.ListWorktrees env
      match err with
      | some err => pure (some err, none)
      | none =>
        if worktrees.any (fun wt => wt.Path == worktreePath) then do
          let err ← openInEditor env cfg worktreePath
          pure (err, none)
        else
          match ← pool.NewManager ops repo with
          | .error err => pure (some err, none)
          | .ok manager =>
            let ((poolPath, poolName, err), manager) ← pool.GetAvailable ops manager
            match err with
            | some _ => do
              let err ← createWorktreeDirect env repo worktreePath branchName
              pure (err, some manager)
            | none =>
              let (err, manager) ← pool.MarkInUse ops manager poolName
              match err with
              | some err => pure (some err, some manager)
              | none =>
                match ← osStat env worktreePath with
                | .found => do
                  let (_, manager) ← pool.MarkAvailable ops manager poolName
                  let err ← openInEditor env cfg worktreePath
                  pure (err, some manager)
                | _ =>
                  match ← setupBranchInPool env repo poolPath branchName with
                  | some err => do
                    let (_, manager) ← pool.MarkAvailable ops manager poolName
                    pure (some err, some manager)
                  | none =>
                    match ← repo.MoveWorktree env poolPath worktreePath with
                    | some err => do
                      let (_, manager) ← pool.MarkAvailable ops manager poolName
                      pure (some err, some manager)
                    | none => do
                      let _ ← repo.RepairWorktrees env
                      goRefillPoolAsync
                      let err ← openInEditor env cfg worktreePath
                      pure (err, some manager)

/-- The loop of `findOrCreatePoolSlot`: `n` more candidates starting at index `i`. -/
def findSlotLoop (env : Env) (consts : pool.Constants) (topLevel : String) :
    Nat → Nat → Sim (Option String)
  | 0, _ => pure none
  | n + 1, i => do
    let poolName := consts.PoolPrefix ++ toString i
    let poolPath := filepath.Join [topLevel, consts.PoolDir, poolName]
    match ← osStat env poolPath with
    | .notExist => pure (some poolName)
    | _ => findSlotLoop env consts topLevel n (i + 1)

/-- Go `findOrCreatePoolSlot(manager, repo)`.  The loop `for i := 1; i <= total+1; i++`
makes `total + 1` rounds (none when that is not positive); `total` is the size of
a map held in memory, so `total + 1` is computed without overflow. -/
def findOrCreatePoolSlot (env : Env) (ops : pool.ManagerOps M) (consts : pool.Constants)
    (manager : M) (repo : git.Repository) : Sim ((String × Option Error) × M) := do
  let (topLevel, err) ← repo.GetTopLevel env
  match err with
  | some err => pure (("", some err), manager)
  | none =>
    let ((total, _), manager) ← pool.GetStatus ops manager
    match ← findSlotLoop env consts topLevel (total + 1).toNat 1 with
    | some poolName => pure ((poolName, none), manager)
    | none => pure (("", some (Error.errorf "unable to find available pool slot")), manager)

/-- Go `returnWorktreeToPool(branchName)`.  The deferred `os.Chdir(originalDir)` is
the last step of every return that follows the `defer` statement. -/
def returnWorktreeToPool (env : Env) (ops : pool.ManagerOps M) (consts : pool.Constants)
    (branchName : String) : Sim (Option Error × Option M) := do
  match ← git.NewRepository env "." with
  | .error err => pure (some err, none)
  | .ok repo =>
    let (topLevel, err) ← repo.GetTopLevel env
    match err with
    | some err => pure (some err, none)
    | none =>
      let safeBranchName := strings.ReplaceAll branchName "/" "-"
      let worktreePath := filepath.Join [topLevel, safeBranchName]
      let (worktrees, err) ← repo.ListWorktrees env
      match err with
      | some err => pure (some err, none)
      | none =>
        let found := worktrees.any (fun wt => wt.Path == worktreePath)
        if !found then
          pure (some (Error.errorf
            ("no worktree found for branch " ++ branchName ++ " at " ++ worktreePath)), none)
        else
          match ← pool.NewManager ops repo with
          | .error err => pure (some err, none)
          | .ok manager =>
            let ((poolSlot, err), manager) ← findOrCreatePoolSlot env ops consts manager repo
            match err with
            | some err => pure (some err, some manager)
            | none =>
              let poolPath := filepath.Join [topLevel, consts.PoolDir, poolSlot]
              let removed ←
                (do
                  match ← osStat env poolPath with
                  | .found => repo.RemoveWorktree env poolPath
                  | _ => pure none : Sim (Option Error))
              match removed with
              | some err =>
                pure (errors.Wrapf (some err) "failed to remove existing pool worktree",
                  some manager)
              | none =>
                match ← repo.MoveWorktree env worktreePath poolPath with
                | some err =>
                  pure (errors.Wrapf (some err) "failed to move worktree to pool", some manager)
                | none =>
                  let _ ← repo.RepairWorktrees env
                  let (originalDir, err) ← osGetwd env
                  match err with
                  | some err => pure (some err, some manager)
                  | none =>
                    match ← osChdir env poolPath with
                    | some err => do
                      let _ ← osChdir env originalDir
                      pure (some err, some manager)
                    | none =>
                      match ← git.RunInDir env poolPath
                          ["checkout", "-B", poolSlot, repo.DefaultBranch] with
                      | some err => do
                        let _ ← osChdir env originalDir
                        pure (errors.Wrapf (some err) "failed to reset pool worktree",
                          some manager)
                      | none =>
                        let (err, manager) ← pool.MarkAvailable ops manager poolSlot
                        let _ ← osChdir env originalDir
                        pure (err, some manager)

end cmd


/-! ## Vocabulary for statements about runs -/

/-- The trace of a computation that starts with the process (empty trace). -/
def Sim.trace {α : Type} (x : Sim α) : List Step := (x.run []).2

/-- The value a computation returns when it starts with the process. -/
def Sim.result {α : Type} (x : Sim α) : α := (x.run []).1

/-- The Go error that `Repository.run` and `RunInDir` make of a recorded git command. -/
def Step.gitError : Step → Option Error
  | .exec _ _ args res => res.err.map (fun e => errors.NewGitError (strings.Join args " ") e "")
  | _ => none

/-- The git queries made by `NewRepository` and `GetTopLevel`. -/
def Step.isQuery : Step → Bool
  | .exec _ name args _ =>
    name == "git" && (args.head? == some "rev-parse" || args.head? == some "symbolic-ref")
  | _ => false

/-- A call of the pool manager that allocates or releases a slot. -/
def Step.isSlotCall : Step → Bool
  | .GetAvailable _ _ _ => true
  | .MarkInUse _ _ => true
  | .MarkAvailable _ _ => true
  | _ => false

/-- A git command whose arguments start with `sub`. -/
def Step.isGit (sub : List String) : Step → Bool
  | .exec _ name args _ => name == "git" && sub.isPrefixOf args
  | _ => false

namespace cmd

/-- The repository value both flows obtain at their first line, `git.NewRepository(".")`. -/
def repoIn (env : Env) : git.Repository :=
  match ((git.NewRepository env ".").run []).1 with
  | .ok repo => repo
  | .error _ => { Path := ".", IsBare := false, DefaultBranch := "" }

/-- The path `worktreePath` both flows compute for a branch name: the branch name
with `/` replaced by `-`, joined to the result of `GetTopLevel`. -/
def targetPath (env : Env) (branchName : String) : String :=
  filepath.Join
    [(((repoIn env).GetTopLevel env).run ((git.NewRepository env ".").run []).2).1.1,
      strings.ReplaceAll branchName "/" "-"]

/-- The program `openInEditor` starts. -/
def editorName (cfg : config.Config) : String :=
  if cfg.Editor = "" then "code" else cfg.Editor

/-- The arguments `openInEditor` passes to the editor. -/
def editorArgs (cfg : config.Config) : List String :=
  if editorName cfg = "code" ∨ editorName cfg = "subl" ∨ editorName cfg = "atom" then ["."]
  else if editorName cfg = "vim" ∨ editorName cfg = "nvim" ∨ editorName cfg = "emacs" then []
  else ["."]

/-- The step `openInEditor(path)` records. -/
def editorStep (cfg : config.Config) (path : String) (res : ExecResult) : Step :=
  Step.exec path (editorName cfg) (editorArgs cfg) res

/-- The step `repo.ListWorktrees()` records. -/
def listStep (res : ExecResult) : Step :=
  Step.exec "." "git" ["worktree", "list", "--porcelain"] res

/-- The step `repo.RemoteBranchExists(branch)` records. -/
def lsRemoteStep (branch : String) (res : ExecResult) : Step :=
  Step.exec "." "git" ["ls-remote", "--heads", "origin", branch] res

/-- The value of `repo.RemoteBranchExists(branch)` for the answer `res` of `git ls-remote`. -/
def remoteExists (branch : String) (res : ExecResult) : Bool :=
  res.err.isNone && strings.Contains res.stdout branch

/-- The start point of the new branch: `origin/<branch>` when the remote branch
exists, the default branch otherwise. -/
def branchSource (env : Env) (branch : String) (res : ExecResult) : String :=
  if remoteExists branch res then "origin/" ++ branch else (repoIn env).DefaultBranch

/-- The step `git worktree add <path> -b <branch> <source>` made through `repo.run`. -/
def addStep (path branch source : String) (res : ExecResult) : Step :=
  Step.exec "." "git" ["worktree", "add", path, "-b", branch, source] res

/-- The step `git fetch origin` run in directory `dir`. -/
def fetchStep (dir : String) (res : ExecResult) : Step :=
  Step.exec dir "git" ["fetch", "origin"] res

/-- The step `git checkout -B <branch> <source>` run in directory `dir`. -/
def checkoutStep (dir branch source : String) (res : ExecResult) : Step :=
  Step.exec dir "git" ["checkout", "-B", branch, source] res

/-- The step `repo.MoveWorktree(src, dst)` records. -/
def moveStep (src dst : String) (res : ExecResult) : Step :=
  Step.exec "." "git" ["worktree", "move", src, dst] res

/-- The step `repo.RepairWorktrees()` records. -/
def repairStep (res : ExecResult) : Step :=
  Step.exec "." "git" ["worktree", "repair"] res

/-- The runs of `createWorktree`: the returned error, the manager left behind and
the trace, one constructor for each `return` of the function.  In every case
`pre` holds the queries of `NewRepository` and `GetTopLevel`. -/
inductive ClaimRun {M : Type} (env : Env) (ops : pool.ManagerOps M) (cfg : config.Config)
    (b : String) : Option Error → Option M → List Step → Prop
  /-- `NewRepository` or `GetTopLevel` failed. -/
  | early (pre : List Step) (e : Error) (hpre : ∀ s ∈ pre, s.isQuery = true) :
      ClaimRun env ops cfg b (some e) none pre
  /-- `ListWorktrees` failed. -/
  | listFailed (pre : List Step) (l : ExecResult) (e : Error)
      (hpre : ∀ s ∈ pre, s.isQuery = true) (hl : l.err ≠ none) :
      ClaimRun env ops cfg b (some e) none (pre ++ [listStep l])
  /-- A worktree is listed at the target path: the editor is opened there. -/
  | resume (pre : List Step) (l r : ExecResult)
      (hpre : ∀ s ∈ pre, s.isQuery = true) (hl : l.err = none)
      (hin : ∃ wt ∈ git.parseWorktrees l.stdout, wt.Path = targetPath env b) :
      ClaimRun env ops cfg b r.err none
        (pre ++ [listStep l, editorStep cfg (targetPath env b) r])
  /-- `pool.NewManager` failed. -/
  | noManager (pre : List Step) (l : ExecResult) (e : Error)
      (hpre : ∀ s ∈ pre, s.isQuery = true) (hl : l.err = none)
      (hout : ∀ wt ∈ git.parseWorktrees l.stdout, wt.Path ≠ targetPath env b) :
      ClaimRun env ops cfg b (some e) none (pre ++ [listStep l, Step.NewManager (some e)])
  /-- `GetAvailable` failed: the worktree is created directly. -/
  | direct (pre : List Step) (l : ExecResult) (p n : String) (e : Error) (m : M)
      (q a : ExecResult)
      (hpre : ∀ s ∈ pre, s.isQuery = true) (hl : l.err = none)
      (hout : ∀ wt ∈ git.parseWorktrees l.stdout, wt.Path ≠ targetPath env b)
      (hrun : createWorktreeDirect env (repoIn env) (targetPath env b) b
          (pre ++ [listStep l, Step.NewManager none, Step.GetAvailable p n (some e)]) =
        ((addStep (targetPath env b) b (branchSource env b q) a).gitError,
          pre ++ [listStep l, Step.NewManager none, Step.GetAvailable p n (some e),
            lsRemoteStep b q, addStep (targetPath env b) b (branchSource env b q) a])) :
      ClaimRun env ops cfg b
        (addStep (targetPath env b) b (branchSource env b q) a).gitError (some m)
        (pre ++ [listStep l, Step.NewManager none, Step.GetAvailable p n (some e),
          lsRemoteStep b q, addStep (targetPath env b) b (branchSource env b q) a])
  /-- `MarkInUse` failed. -/
  | markFailed (pre : List Step) (l : ExecResult) (p n : String) (e : Error) (m : M)
      (hpre : ∀ s ∈ pre, s.isQuery = true) (hl : l.err = none)
      (hout : ∀ wt ∈ git.parseWorktrees l.stdout, wt.Path ≠ targetPath env b) :
      ClaimRun env ops cfg b (some e) (some m)
        (pre ++ [listStep l, Step.NewManager none, Step.GetAvailable p n none,
          Step.MarkInUse n (some e)])
  /-- A directory turned up at the target path after the slot was marked. -/
  | raced (pre : List Step) (l : ExecResult) (p n : String) (m₁ m₂ : M) (r : ExecResult)
      (hpre : ∀ s ∈ pre, s.isQuery = true) (hl : l.err = none)
      (hout : ∀ wt ∈ git.parseWorktrees l.stdout, wt.Path ≠ targetPath env b)
      (hmark : ops.MarkInUse m₁ n = (none, m₂)) :
      ClaimRun env ops cfg b r.err (some (ops.MarkAvailable m₂ n).2)
        (pre ++ [listStep l, Step.NewManager none, Step.GetAvailable p n none,
          Step.MarkInUse n none, Step.stat (targetPath env b) StatResult.found,
          Step.MarkAvailable n (ops.MarkAvailable m₂ n).1,
          editorStep cfg (targetPath env b) r])
  /-- The fetch of `setupBranchInPool` failed. -/
  | fetchFailed (pre : List Step) (l : ExecResult) (p n : String) (m₁ m₂ : M)
      (st : StatResult) (f : ExecResult)
      (hpre : ∀ s ∈ pre, s.isQuery = true) (hl : l.err = none)
      (hout : ∀ wt ∈ git.parseWorktrees l.stdout, wt.Path ≠ targetPath env b)
      (hmark : ops.MarkInUse m₁ n = (none, m₂)) (hst : st ≠ StatResult.found)
      (hf : f.err ≠ none) :
      ClaimRun env ops cfg b (fetchStep p f).gitError (some (ops.MarkAvailable m₂ n).2)
        (pre ++ [listStep l, Step.NewManager none, Step.GetAvailable p n none,
          Step.MarkInUse n none, Step.stat (targetPath env b) st, fetchStep p f,
          Step.MarkAvailable n (ops.MarkAvailable m₂ n).1])
  /-- The checkout of `setupBranchInPool` failed. -/
  | checkoutFailed (pre : List Step) (l : ExecResult) (p n : String) (m₁ m₂ : M)
      (st : StatResult) (f q c : ExecResult)
      (hpre : ∀ s ∈ pre, s.isQuery = true) (hl : l.err = none)
      (hout : ∀ wt ∈ git.parseWorktrees l.stdout, wt.Path ≠ targetPath env b)
      (hmark : ops.MarkInUse m₁ n = (none, m₂)) (hst : st ≠ StatResult.found)
      (hf : f.err = none) (hc : c.err ≠ none) :
      ClaimRun env ops cfg b (checkoutStep "." b (branchSource env b q) c).gitError
        (some (ops.MarkAvailable m₂ n).2)
        (pre ++ [listStep l, Step.NewManager none, Step.GetAvailable p n none,
          Step.MarkInUse n none, Step.stat (targetPath env b) st, fetchStep p f,
          lsRemoteStep b q, checkoutStep "." b (branchSource env b q) c,
          Step.MarkAvailable n (ops.MarkAvailable m₂ n).1])
  /-- `MoveWorktree` failed. -/
  | moveFailed (pre : List Step) (l : ExecResult) (p n : String) (m₁ m₂ : M)
      (st : StatResult) (f q c v : ExecResult)
      (hpre : ∀ s ∈ pre, s.isQuery = true) (hl : l.err = none)
      (hout : ∀ wt ∈ git.parseWorktrees l.stdout, wt.Path ≠ targetPath env b)
      (hmark : ops.MarkInUse m₁ n = (none, m₂)) (hst : st ≠ StatResult.found)
      (hf : f.err = none) (hc : c.err = none) (hv : v.err ≠ none) :
      ClaimRun env ops cfg b (moveStep p (targetPath env b) v).gitError
        (some (ops.MarkAvailable m₂ n).2)
        (pre ++ [listStep l, Step.NewManager none, Step.GetAvailable p n none,
          Step.MarkInUse n none, Step.stat (targetPath env b) st, fetchStep p f,
          lsRemoteStep b q, checkoutStep "." b (branchSource env b q) c,
          moveStep p (targetPath env b) v,
          Step.MarkAvailable n (ops.MarkAvailable m₂ n).1])
  /-- The worktree was moved to the target path. -/
  | moved (pre : List Step) (l : ExecResult) (p n : String) (m₁ m₂ : M)
      (st : StatResult) (f q c v x r : ExecResult)
      (hpre : ∀ s ∈ pre, s.isQuery = true) (hl : l.err = none)
      (hout : ∀ wt ∈ git.parseWorktrees l.stdout, wt.Path ≠ targetPath env b)
      (hmark : ops.MarkInUse m₁ n = (none, m₂)) (hst : st ≠ StatResult.found)
      (hf : f.err = none) (hc : c.err = none) (hv : v.err = none) :
      ClaimRun env ops cfg b r.err (some m₂)
        (pre ++ [listStep l, Step.NewManager none, Step.GetAvailable p n none,
          Step.MarkInUse n none, Step.stat (targetPath env b) st, fetchStep p f,
          lsRemoteStep b q, checkoutStep "." b (branchSource env b q) c,
          moveStep p (targetPath env b) v, repairStep x, Step.goRefill,
          editorStep cfg (targetPath env b) r])

end cmd

/-- Any call of the pool manager. -/
def Step.isManagerCall : Step → Bool
  | .NewManager _ => true
  | .GetAvailable _ _ _ => true
  | .MarkInUse _ _ => true
  | .MarkAvailable _ _ => true
  | .GetStatus _ _ => true
  | .Initialize _ _ => true
  | .Refill _ _ => true
  | _ => false

/-- A call of `MarkInUse` or `MarkAvailable`. -/
def Step.isMark : Step → Bool
  | .MarkInUse _ _ => true
  | .MarkAvailable _ _ => true
  | _ => false

/-- A call of `os.Stat`. -/
def Step.isStat : Step → Bool
  | .stat _ _ => true
  | _ => false

/-! ## The pool manager as the specification describes it

The claims that speak of the state of a slot need a manager with a state.  The
package `internal/pool` is not among the sources, so this manager follows the
specification (§3, §4.1, §6). -/

namespace pool

/-- Modelled from the spec: the state of a slot, `"available"` or `"in-use"` in the
persisted record (§3, §6); the type is declared in the missing package `internal/pool`. -/
inductive SlotState where
  | Available
  | InUse
  deriving DecidableEq, Repr

/-- Modelled from the spec: the Pool Status `{ worktrees: map<slotName, state> }` of §3,
declared in the missing package `internal/pool`.  The map is a list of pairs whose
keys are distinct. -/
structure PoolStatus where
  Worktrees : List (String × SlotState)
  deriving DecidableEq, Repr

/-- Modelled from the spec: the Pool Manager of §4.1 (missing package `internal/pool`):
the pool directory, the prefix of the slot names and the status store it owns. -/
structure Manager where
  PoolDir : String
  SlotPrefix : String
  Status : PoolStatus
  deriving DecidableEq, Repr

/-- Modelled from the spec: writing the state of one slot of the store (the state
transition of `MarkInUse` and `MarkAvailable`, missing with `internal/pool`). -/
def PoolStatus.set (s : PoolStatus) (name : String) (st : SlotState) : PoolStatus :=
  { Worktrees := s.Worktrees.map (fun kv => if kv.1 = name then (kv.1, st) else kv) }

/-- Modelled from the spec: `Load(repository)` of §4.1 (missing `pool.NewManager`):
the persisted status of the pool directory, or the empty status when there is none;
loading never fails. -/
def Manager.Load (poolDir slotPrefix : String) (stored : Option PoolStatus) : Manager :=
  { PoolDir := poolDir, SlotPrefix := slotPrefix,
    Status := stored.getD { Worktrees := [] } }

/-- Modelled from the spec: the scan of `GetAvailable` (missing with `internal/pool`),
`n` more slots in ascending index order starting at index `i`. -/
def Manager.firstAvailable (m : Manager) : Nat → Nat → Option String
  | 0, _ => none
  | n + 1, i =>
    if m.Status.Worktrees.lookup (m.SlotPrefix ++ toString i) = some SlotState.Available then
      some (m.SlotPrefix ++ toString i)
    else m.firstAvailable n (i + 1)

/-- Modelled from the spec: `GetAvailable()` of §4.1 (missing with `internal/pool`): the
first Available slot in ascending index order with its path `<poolDir>/<name>`, or
`NoPoolAvailable`. -/
def Manager.GetAvailable (m : Manager) : (String × String × Option Error) × Manager :=
  match m.firstAvailable m.Status.Worktrees.length 1 with
  | some name => ((filepath.Join [m.PoolDir, name], name, none), m)
  | none => (("", "", some errors.ErrNoPoolAvailable), m)

/-- Modelled from the spec: `MarkInUse(name)` of §4.1 (missing with `internal/pool`):
the slot becomes InUse; the call fails with the slot-not-found error of the
`BranchNotFound` class when the name is unknown. -/
def Manager.MarkInUse (m : Manager) (name : String) : Option Error × Manager :=
  if (m.Status.Worktrees.lookup name).isSome then
    (none, { m with Status := m.Status.set name SlotState.InUse })
  else (some errors.ErrBranchNotFound, m)

/-- Modelled from the spec: `MarkAvailable(name)` of §4.1 (missing with `internal/pool`):
the slot becomes Available; the call fails with the slot-not-found error of the
`BranchNotFound` class when the name is unknown. -/
def Manager.MarkAvailable (m : Manager) (name : String) : Option Error × Manager :=
  if (m.Status.Worktrees.lookup name).isSome then
    (none, { m with Status := m.Status.set name SlotState.Available })
  else (some errors.ErrBranchNotFound, m)

/-- Modelled from the spec: `Status()` of §4.1 (missing `GetStatus` of `internal/pool`):
the number of slots and the number of Available slots. -/
def Manager.GetStatus (m : Manager) : (Int × Int) × Manager :=
  ((m.Status.Worktrees.length,
    (m.Status.Worktrees.filter (fun kv => kv.2 = SlotState.Available)).length), m)

/-- Modelled from the spec: the manager of §4.1 as an implementation of the methods the
commands call (missing package `internal/pool`), for a pool directory `poolDir`, slot
names `<slotPrefix><index>` and a persisted status `stored`. -/
def specManager (poolDir slotPrefix : String) (stored : Option PoolStatus) :
    ManagerOps Manager where
  NewManager := fun _ => Except.ok (Manager.Load poolDir slotPrefix stored)
  GetAvailable := Manager.GetAvailable
  MarkInUse := Manager.MarkInUse
  MarkAvailable := Manager.MarkAvailable
  GetStatus := Manager.GetStatus

end pool

/-! ## Sample environments -/

namespace sample

/-- The error of a process that exits with status 1. -/
def exitError : Error := Error.external "exit status 1"

/-- A world with a repository at `/repo`: `git worktree list` prints `listing`, `os.Stat`
answers `fs path`, and the commands whose arguments are listed in `failing` (for the
editor: its name) exit with status 1. -/
def env (listing : String) (fs : String → StatResult) (failing : List (List String)) : Env where
  exec := fun _ _ name args =>
    if name = "git" then
      if args ∈ failing then { err := some exitError, stdout := "", stderr := "fatal" }
      else if args = ["rev-parse", "--show-toplevel"] then
        { err := none, stdout := "/repo\n", stderr := "" }
      else if args = ["worktree", "list", "--porcelain"] then
        { err := none, stdout := listing, stderr := "" }
      else { err := none, stdout := "", stderr := "" }
    else if [name] ∈ failing then { err := some exitError, stdout := "", stderr := "" }
    else { err := none, stdout := "", stderr := "" }
  stat := fun _ path => fs path
  getwd := fun _ => ("/repo", none)
  chdir := fun _ _ => none

/-- A file system on which no path exists. -/
def nothing : String → StatResult := fun _ => StatResult.notExist

/-- A file system on which only `path` exists. -/
def only (path : String) : String → StatResult :=
  fun p => if p = path then StatResult.found else StatResult.notExist

/-- The output of `git worktree list --porcelain` for the main worktree alone. -/
def mainOnly : String := "worktree /repo\nHEAD 1111\nbranch refs/heads/main\n"

/-- The output of `git worktree list --porcelain` with a worktree at `/repo/feature-a`. -/
def withFeature : String :=
  "worktree /repo\nHEAD 1111\nbranch refs/heads/main\n\nworktree /repo/feature-a\nHEAD 2222\nbranch refs/heads/feature/a\n"

/-- The default configuration. -/
def cfg : config.Config :=
  { PoolSize := 5, PoolPrefix := "pool-", DefaultBranch := "main", Editor := "code",
    AutoRefill := true, CleanupOnExit := false, Aliases := some [] }

/-- The constants of package `pool`, as the tests and the default configuration show them. -/
def consts : pool.Constants :=
  { PoolDir := ".worktree-pool", PoolPrefix := "pool-", DefaultPoolSize := 5 }

/-- A pool of three slots, the first of them in use. -/
def stored : pool.PoolStatus :=
  { Worktrees := [("pool-1", pool.SlotState.InUse), ("pool-2", pool.SlotState.Available),
      ("pool-3", pool.SlotState.Available)] }

/-- The manager of the specification over the pool of `stored`. -/
def manager : pool.ManagerOps pool.Manager :=
  pool.specManager "/repo/.worktree-pool" "pool-" (some stored)

/-- A manager whose pool is exhausted. -/
def emptyManager : pool.ManagerOps pool.Manager :=
  pool.specManager "/repo/.worktree-pool" "pool-" none

/-- A manager that hands out `pool-1` and then cannot mark it. -/
def brokenManager : pool.ManagerOps Unit where
  NewManager := fun _ => Except.ok ()
  GetAvailable := fun m => (("/repo/.worktree-pool/pool-1", "pool-1", none), m)
  MarkInUse := fun m _ => (some (Error.external "permission denied"), m)
  MarkAvailable := fun m _ => (none, m)
  GetStatus := fun m => ((1, 1), m)

end sample

/-! ## Vocabulary for the scan of `findOrCreatePoolSlot` -/

namespace cmd

/-- The path the loop of `findOrCreatePoolSlot` computes for the candidate with index `i`:
`filepath.Join(topLevel, pool.PoolDir, <prefix>i)`. -/
def candidatePath (consts : pool.Constants) (topLevel : String) (i : Nat) : String :=
  filepath.Join [topLevel, consts.PoolDir, consts.PoolPrefix ++ toString i]

/-- The indices the loop `for i := 1; i <= total+1; i++` runs through. -/
def candidates (total : Int) : List Nat :=
  (List.range (total + 1).toNat).map (fun k => k + 1)

end cmd

namespace sample

/-- The repository value of the sample world. -/
def repo : git.Repository := { Path := ".", IsBare := false, DefaultBranch := "main" }

/-- The loaded manager of the sample world: three slots. -/
def loaded : pool.Manager := pool.Manager.Load "/repo/.worktree-pool" "pool-" (some stored)

/-- A file system on which exactly the paths of `paths` exist. -/
def among (paths : List String) : String → StatResult :=
  fun p => if p ∈ paths then StatResult.found else StatResult.notExist

end sample

/-! ## Vocabulary for the repair of the worktree metadata -/

/-- A step that is neither `git worktree move` nor `git worktree repair`. -/
def Step.quiet (s : Step) : Bool :=
  !s.isGit ["worktree", "move"] && !s.isGit ["worktree", "repair"]

/-- The step with the answer of `git worktree repair` blanked out; any other step is kept. -/
def Step.forgetRepair : Step → Step
  | .exec dir name args res =>
    if name = "git" ∧ args = ["worktree", "repair"] then
      .exec dir name args { err := none, stdout := "", stderr := "" }
    else .exec dir name args res
  | s => s

/-- The world `env` in which `git worktree repair` is answered with `x`; every other
answer is that of `env`. -/
def Env.withRepair (env : Env) (x : ExecResult) : Env :=
  { env with
    exec := fun n dir name args =>
      if name = "git" ∧ args = ["worktree", "repair"] then x else env.exec n dir name args }

/-- Two computations agree: started on traces that differ in answers of
`git worktree repair` only, they return the same value and leave traces that again
differ in such answers only. -/
def Sim.Agree {α : Type} (a b : Sim α) : Prop :=
  ∀ tr tr' : List Step, tr.map Step.forgetRepair = tr'.map Step.forgetRepair →
    (a tr).1 = (b tr').1 ∧
      (a tr).2.map Step.forgetRepair = (b tr').2.map Step.forgetRepair

/-- Two computations agree on the trace, whatever they return. -/
def Sim.AgreeTrace {α : Type} (a b : Sim α) : Prop :=
  ∀ tr tr' : List Step, tr.map Step.forgetRepair = tr'.map Step.forgetRepair →
    (a tr).2.map Step.forgetRepair = (b tr').2.map Step.forgetRepair

/-- A computation that runs neither `git worktree move` nor `git worktree repair`. -/
def Sim.Quiet {α : Type} (a : Sim α) : Prop :=
  ∀ tr : List Step, ∃ ext, (a tr).2 = tr ++ ext ∧ ∀ s ∈ ext, s.quiet = true

namespace cmd

/-- What a flow records from its `MoveWorktree` on: nothing when it never gets there;
a failed move and then neither a move nor a repair; or a successful move, at once
`repo.RepairWorktrees()`, and then neither a move nor a repair. -/
inductive RepairTail : List Step → Prop
  | unmoved : RepairTail []
  | failed (m : Step) (rest : List Step) (hm : m.isGit ["worktree", "move"] = true)
      (he : m.gitError ≠ none) (hrest : ∀ s ∈ rest, s.quiet = true) : RepairTail (m :: rest)
  | repaired (m : Step) (x : ExecResult) (rest : List Step)
      (hm : m.isGit ["worktree", "move"] = true) (he : m.gitError = none)
      (hrest : ∀ s ∈ rest, s.quiet = true) : RepairTail (m :: repairStep x :: rest)

/-- The rule of the repair on a trace: wherever a `git worktree move` occurs, the next
step is `repo.RepairWorktrees()` when the move succeeded, and no `git worktree repair`
occurs later in the trace when it failed. -/
def RepairDiscipline (t : List Step) : Prop :=
  ∀ (pre : List Step) (s : Step) (post : List Step), t = pre ++ s :: post →
    s.isGit ["worktree", "move"] = true →
      (s.gitError = none → ∃ x rest, post = repairStep x :: rest) ∧
      (s.gitError ≠ none → ∀ r ∈ post, r.isGit ["worktree", "repair"] = false)

end cmd

/-- A computation that runs `git worktree move` at most once, repairs after a
successful move, and runs no `git worktree repair` otherwise. -/
def Sim.Disciplined {α : Type} (a : Sim α) : Prop :=
  ∀ tr : List Step, ∃ quiet tail, (a tr).2 = tr ++ (quiet ++ tail) ∧
    (∀ s ∈ quiet, s.quiet = true) ∧ cmd.RepairTail tail

/-! ## Vocabulary for the runs of the return flow -/

/-- The computation `a`, started on the trace `tr`, returns `v` and leaves the trace `tr'`. -/
def Sim.Runs {α : Type} (a : Sim α) (tr : List Step) (v : α) (tr' : List Step) : Prop :=
  a tr = (v, tr')

/-- The error an operating-system call or a call of the pool manager answered with. -/
def Step.answeredError : Step → Option Error
  | .getwd _ err => err
  | .chdir _ err => err
  | .NewManager err => err
  | .GetAvailable _ _ err => err
  | .MarkInUse _ err => err
  | .MarkAvailable _ err => err
  | .Initialize _ err => err
  | .Refill _ err => err
  | _ => none

/-- A step of the scan for a free slot: a git query, `manager.GetStatus()` or `os.Stat`. -/
def Step.isScan : Step → Bool
  | .GetStatus _ _ => true
  | .stat _ _ => true
  | s => s.isQuery

/-- An error made by the git adapter: `ErrNotGitRepo` or a `GitError`. -/
def Error.fromGit : Error → Bool
  | .sentinel _ => true
  | .git _ _ _ => true
  | _ => false

namespace cmd

/-- The top-level directory both flows obtain at their second step, `repo.GetTopLevel()`. -/
def topLevel (env : Env) : String :=
  (((repoIn env).GetTopLevel env).run ((git.NewRepository env ".").run []).2).1.1

/-- The error of the return flow for a branch without a worktree. -/
def notFoundError (env : Env) (branchName : String) : Error :=
  Error.errorf ("no worktree found for branch " ++ branchName ++ " at " ++
    targetPath env branchName)

/-- The path of a pool slot as the return flow computes it:
`filepath.Join(topLevel, pool.PoolDir, poolSlot)`. -/
def slotPath (env : Env) (consts : pool.Constants) (poolSlot : String) : String :=
  filepath.Join [topLevel env, consts.PoolDir, poolSlot]

/-- The step `repo.RemoveWorktree(path)` records. -/
def removeStep (path : String) (res : ExecResult) : Step :=
  Step.exec "." "git" ["worktree", "remove", path] res

/-- The steps of `os.Stat(poolPath)` and, when the path is found, of `RemoveWorktree`. -/
def clearSteps (path : String) (st : StatResult) (r : ExecResult) : List Step :=
  if st = StatResult.found then [Step.stat path st, removeStep path r] else [Step.stat path st]

/-- The runs of `returnWorktreeToPool` from `findOrCreatePoolSlot` on, for the
repository `repo`, the manager `m` and the trace `tr` so far: the returned error, the
manager left behind and the trace, one constructor for each `return`. -/
inductive ReturnTail {M : Type} (env : Env) (ops : pool.ManagerOps M) (consts : pool.Constants)
    (b : String) (repo : git.Repository) (m : M) (tr : List Step) :
    Option Error → Option M → List Step → Prop
  /-- `findOrCreatePoolSlot` failed. -/
  | slotFailed (slot : String) (e : Error) (m' : M) (scan : List Step)
      (hslot : findOrCreatePoolSlot env ops consts m repo tr = (((slot, some e), m'), scan)) :
      ReturnTail env ops consts b repo m tr (some e) (some m') scan
  /-- A leftover worktree at the slot path could not be removed. -/
  | removeFailed (slot : String) (m' : M) (scan : List Step) (r : ExecResult) (e : Error)
      (hslot : findOrCreatePoolSlot env ops consts m repo tr = (((slot, none), m'), scan))
      (hr : r.err = some e) :
      ReturnTail env ops consts b repo m tr
        (some (Error.wrapped "failed to remove existing pool worktree"
          (errors.NewGitError (strings.Join ["worktree", "remove", slotPath env consts slot] " ")
            e "")))
        (some m')
        (scan ++ [Step.stat (slotPath env consts slot) StatResult.found,
          removeStep (slotPath env consts slot) r])
  /-- `MoveWorktree` failed. -/
  | moveFailed (slot : String) (m' : M) (scan : List Step) (st : StatResult)
      (r v : ExecResult) (e : Error)
      (hslot : findOrCreatePoolSlot env ops consts m repo tr = (((slot, none), m'), scan))
      (hr : r.err = none) (hv : v.err = some e) :
      ReturnTail env ops consts b repo m tr
        (some (Error.wrapped "failed to move worktree to pool"
          (errors.NewGitError
            (strings.Join ["worktree", "move", targetPath env b, slotPath env consts slot] " ")
            e "")))
        (some m')
        (scan ++ clearSteps (slotPath env consts slot) st r ++
          [moveStep (targetPath env b) (slotPath env consts slot) v])
  /-- `os.Getwd` failed. -/
  | getwdFailed (slot : String) (m' : M) (scan : List Step) (st : StatResult)
      (r v x : ExecResult) (d : String) (e : Error)
      (hslot : findOrCreatePoolSlot env ops consts m repo tr = (((slot, none), m'), scan))
      (hr : r.err = none) (hv : v.err = none) :
      ReturnTail env ops consts b repo m tr (some e) (some m')
        (scan ++ clearSteps (slotPath env consts slot) st r ++
          [moveStep (targetPath env b) (slotPath env consts slot) v, repairStep x,
            Step.getwd d (some e)])
  /-- `os.Chdir(poolPath)` failed; the deferred `os.Chdir(originalDir)` runs. -/
  | chdirFailed (slot : String) (m' : M) (scan : List Step) (st : StatResult)
      (r v x : ExecResult) (d : String) (e : Error) (back : Option Error)
      (hslot : findOrCreatePoolSlot env ops consts m repo tr = (((slot, none), m'), scan))
      (hr : r.err = none) (hv : v.err = none) :
      ReturnTail env ops consts b repo m tr (some e) (some m')
        (scan ++ clearSteps (slotPath env consts slot) st r ++
          [moveStep (targetPath env b) (slotPath env consts slot) v, repairStep x,
            Step.getwd d none, Step.chdir (slotPath env consts slot) (some e),
            Step.chdir d back])
  /-- The checkout that resets the slot failed. -/
  | checkoutFailed (slot : String) (m' : M) (scan : List Step) (st : StatResult)
      (r v x c : ExecResult) (d : String) (e : Error) (back : Option Error)
      (hslot : findOrCreatePoolSlot env ops consts m repo tr = (((slot, none), m'), scan))
      (hr : r.err = none) (hv : v.err = none) (hc : c.err = some e) :
      ReturnTail env ops consts b repo m tr
        (some (Error.wrapped "failed to reset pool worktree"
          (errors.NewGitError
            (strings.Join ["checkout", "-B", slot, repo.DefaultBranch] " ") e "")))
        (some m')
        (scan ++ clearSteps (slotPath env consts slot) st r ++
          [moveStep (targetPath env b) (slotPath env consts slot) v, repairStep x,
            Step.getwd d none, Step.chdir (slotPath env consts slot) none,
            checkoutStep (slotPath env consts slot) slot repo.DefaultBranch c,
            Step.chdir d back])
  /-- The slot was reset; `MarkAvailable` decides the result. -/
  | marked (slot : String) (m' : M) (scan : List Step) (st : StatResult)
      (r v x c : ExecResult) (d : String) (back : Option Error)
      (hslot : findOrCreatePoolSlot env ops consts m repo tr = (((slot, none), m'), scan))
      (hr : r.err = none) (hv : v.err = none) (hc : c.err = none) :
      ReturnTail env ops consts b repo m tr (ops.MarkAvailable m' slot).1
        (some (ops.MarkAvailable m' slot).2)
        (scan ++ clearSteps (slotPath env consts slot) st r ++
          [moveStep (targetPath env b) (slotPath env consts slot) v, repairStep x,
            Step.getwd d none, Step.chdir (slotPath env consts slot) none,
            checkoutStep (slotPath env consts slot) slot repo.DefaultBranch c,
            Step.MarkAvailable slot (ops.MarkAvailable m' slot).1,
            Step.chdir d back])

/-- The runs of `returnWorktreeToPool`: the returned error, the manager left behind
and the trace.  In every case `pre` holds the queries of `NewRepository` and
`GetTopLevel`. -/
inductive ReturnRun {M : Type} (env : Env) (ops : pool.ManagerOps M) (consts : pool.Constants)
    (b : String) : Option Error → Option M → List Step → Prop
  /-- `NewRepository` or `GetTopLevel` failed. -/
  | early (pre : List Step) (e : Error) (hpre : ∀ s ∈ pre, s.isQuery = true)
      (he : e.fromGit = true) : ReturnRun env ops consts b (some e) none pre
  /-- `ListWorktrees` failed. -/
  | listFailed (pre : List Step) (l : ExecResult) (e : Error)
      (hpre : ∀ s ∈ pre, s.isQuery = true) (hl : l.err ≠ none) (he : e.fromGit = true) :
      ReturnRun env ops consts b (some e) none (pre ++ [listStep l])
  /-- No worktree is listed at the target path. -/
  | notFound (pre : List Step) (l : ExecResult)
      (hpre : ∀ s ∈ pre, s.isQuery = true) (hl : l.err = none)
      (hout : ∀ wt ∈ git.parseWorktrees l.stdout, wt.Path ≠ targetPath env b) :
      ReturnRun env ops consts b (some (notFoundError env b)) none (pre ++ [listStep l])
  /-- `pool.NewManager` failed. -/
  | noManager (pre : List Step) (l : ExecResult) (e : Error)
      (hpre : ∀ s ∈ pre, s.isQuery = true) (hl : l.err = none)
      (hin : ∃ wt ∈ git.parseWorktrees l.stdout, wt.Path = targetPath env b) :
      ReturnRun env ops consts b (some e) none (pre ++ [listStep l, Step.NewManager (some e)])
  /-- The manager was loaded and the flow went on to find a slot. -/
  | found (pre : List Step) (l : ExecResult) (m : M) (err : Option Error) (left : Option M)
      (t : List Step)
      (hpre : ∀ s ∈ pre, s.isQuery = true) (hl : l.err = none)
      (hin : ∃ wt ∈ git.parseWorktrees l.stdout, wt.Path = targetPath env b)
      (hm : ops.NewManager (repoIn env) = Except.ok m)
      (htail : ReturnTail env ops consts b (repoIn env) m
        (pre ++ [listStep l, Step.NewManager none]) err left t) :
      ReturnRun env ops consts b err left t

end cmd

namespace sample

/-- A pool of two slots, both in use. -/
def fullStore : pool.PoolStatus :=
  { Worktrees := [("pool-1", pool.SlotState.InUse), ("pool-2", pool.SlotState.InUse)] }

/-- The manager of the specification over the pool of `fullStore`. -/
def fullManager : pool.ManagerOps pool.Manager :=
  pool.specManager "/repo/.worktree-pool" "pool-" (some fullStore)

/-- The answer of a command that succeeds without output. -/
def ok : ExecResult := { err := none, stdout := "", stderr := "" }

end sample

/-! ## The messages of the errors (`internal/errors`) -/

/-- Go `Error()`: the message of an error value.  For a `*GitError` and a
`*ValidationError` this is the method of `errors.go`; `%v` and `%w` print the
message of the error they are given. -/
def Error.message : Error → String
  | .sentinel msg => msg
  | .external msg => msg
  | .git command output err =>
    if output ≠ "" then
      "git " ++ command ++ " failed: " ++ err.message ++ "\nOutput: " ++ output
    else "git " ++ command ++ " failed: " ++ err.message
  | .wrapped msg err => msg ++ ": " ++ err.message
  | .errorf msg => msg
  | .validation field value msg =>
    if value ≠ "" then "validation failed for " ++ field ++ "=" ++ value ++ ": " ++ msg
    else "validation failed for " ++ field ++ ": " ++ msg

/-! ## The configuration (`internal/config`) and the package variables (`cmd/root.go`) -/

namespace config

/-- Go `DefaultConfig()`. -/
def DefaultConfig : Config :=
  { PoolSize := 5, PoolPrefix := "pool-", DefaultBranch := "main", Editor := "code",
    AutoRefill := true, CleanupOnExit := false, Aliases := some [] }

/-- Go `(*Config).Validate`. -/
def Config.Validate (c : Config) : Option Error :=
  if c.PoolSize < 1 then some (errors.NewValidationError "pool_size" "" "must be at least 1")
  else if c.PoolSize > 50 then
    some (errors.NewValidationError "pool_size" "" "must be at most 50")
  else if c.PoolPrefix = "" then
    some (errors.NewValidationError "pool_prefix" "" "cannot be empty")
  else if c.DefaultBranch = "" then
    some (errors.NewValidationError "default_branch" "" "cannot be empty")
  else if c.Editor = "" then some (errors.NewValidationError "editor" "" "cannot be empty")
  else none

/-- The assignment `c.Aliases[k] = v` on a map kept as a list of pairs. -/
def setAlias (aliases : List (String × String)) (kv : String × String) :
    List (String × String) :=
  if aliases.any (fun a => a.1 == kv.1) then
    aliases.map (fun a => if a.1 = kv.1 then kv else a)
  else aliases ++ [kv]

/-- Go `(*Config).merge`. -/
def Config.merge (c other : Config) : Config :=
  { PoolSize := if other.PoolSize > 0 then other.PoolSize else c.PoolSize,
    PoolPrefix := if other.PoolPrefix ≠ "" then other.PoolPrefix else c.PoolPrefix,
    DefaultBranch := if other.DefaultBranch ≠ "" then other.DefaultBranch else c.DefaultBranch,
    Editor := if other.Editor ≠ "" then other.Editor else c.Editor,
    AutoRefill := if other.AutoRefill ≠ c.AutoRefill then other.AutoRefill else c.AutoRefill,
    CleanupOnExit :=
      if other.CleanupOnExit ≠ c.CleanupOnExit then other.CleanupOnExit else c.CleanupOnExit,
    Aliases :=
      match other.Aliases with
      | none => c.Aliases
      | some more => some (more.foldl setAlias (c.Aliases.getD [])) }

/-- What `loadFromFile` finds for one configuration file. -/
inductive FileLoad where
  /-- There is no path to load: no home directory, or `findLocalConfig` failed. -/
  | skipped
  /-- `loadFromFile` returned `err`; `notExist` is `os.IsNotExist(err)`. -/
  | failed (err : Error) (notExist : Bool)
  /-- The file was read and parsed into `fileConfig`. -/
  | loaded (fileConfig : Config)

/-- What `Load` reads from outside the program. -/
structure Sources where
  /-- The number `fmt.Sscanf` reads from `WORKTREE_POOL_SIZE`; `none` when the variable
  is empty or `Sscanf` fails. -/
  PoolSizeEnv : Option Int
  /-- The variable `EDITOR`. -/
  EditorEnv : String
  /-- The variable `POOL_EDITOR`. -/
  PoolEditorEnv : String
  /-- The file `.poolrc` of the home directory. -/
  Global : FileLoad
  /-- The file `.poolrc.json` found by `findLocalConfig`. -/
  Local : FileLoad

/-- Go `(*Config).loadFromEnv`. -/
def Config.loadFromEnv (c : Config) (s : Sources) : Config :=
  let c := match s.PoolSizeEnv with
    | some size => { c with PoolSize := size }
    | none => c
  let c := if s.EditorEnv ≠ "" then { c with Editor := s.EditorEnv } else c
  if s.PoolEditorEnv ≠ "" then { c with Editor := s.PoolEditorEnv } else c

/-- Go `Load()`. -/
def Load (s : Sources) : Except Error Config :=
  let config := DefaultConfig.loadFromEnv s
  let global : Except Error Config :=
    match s.Global with
    | .skipped => .ok config
    | .failed err notExist =>
      if notExist then .ok config
      else .error (Error.wrapped "failed to load global config" err)
    | .loaded fileConfig => .ok (config.merge fileConfig)
  match global with
  | .error err => .error err
  | .ok config =>
    let loaded : Except Error Config :=
      match s.Local with
      | .skipped => .ok config
      | .failed err _ => .error (Error.wrapped "failed to load local config" err)
      | .loaded fileConfig => .ok (config.merge fileConfig)
    match loaded with
    | .error err => .error err
    | .ok config =>
      match config.Validate with
      | some err => .error err
      | none => .ok config

end config

namespace pool

/-- The methods of `*pool.Manager` that set up and top up the pool, for a manager
whose state has type `M`. -/
structure SetupOps (M : Type) where
  Initialize : M → Int → Option Error × M
  Refill : M → Int → Option Error × M

variable {M : Type}

/-- The call `manager.Initialize(size)`, recorded in the trace. -/
def Initialize (setup : SetupOps M) (m : M) (size : Int) : Sim (Option Error × M) :=
  fun tr =>
    let res := setup.Initialize m size
    (res, tr ++ [Step.Initialize size res.1])

/-- The call `manager.Refill(size)`, recorded in the trace. -/
def Refill (setup : SetupOps M) (m : M) (size : Int) : Sim (Option Error × M) :=
  fun tr =>
    let res := setup.Refill m size
    (res, tr ++ [Step.Refill size res.1])

end pool

namespace git

/-- Go `(*Repository).IsInWorktree`. -/
def Repository.IsInWorktree (env : Env) (r : Repository) : Sim Bool := do
  let (gitDir, _) ← r.output env ["rev-parse", "--git-dir"]
  let (commonDir, _) ← r.output env ["rev-parse", "--git-common-dir"]
  pure (strings.TrimSpace gitDir != strings.TrimSpace commonDir)

end git

namespace cmd

variable {M : Type}

/-- The package variables `cfg` and `poolSize` of `cmd/root.go`. -/
structure Globals where
  cfg : config.Config
  poolSize : Int
  deriving DecidableEq, Repr

/-- Go `init()` of `cmd/root.go`: the configuration is loaded, the default configuration
stands in when loading fails, and the flag `--pool-size` is registered with the
configured size as its default value. -/
def rootInit (s : config.Sources) : Globals :=
  let cfg :=
    match config.Load s with
    | .ok c => c
    | .error _ => config.DefaultConfig
  { cfg := cfg, poolSize := cfg.PoolSize }

/-- The hook `rootCmd.PersistentPreRun`; `flag` is the value given with `--pool-size`,
`none` when the flag was not given. -/
def persistentPreRun (g : Globals) (flag : Option Int) : Globals :=
  match flag with
  | some size => { cfg := { g.cfg with PoolSize := size }, poolSize := size }
  | none => { g with poolSize := g.cfg.PoolSize }

/-- Go `initializePool()`; `poolSize` is the package variable of that name. -/
def initializePool (env : Env) (ops : pool.ManagerOps M) (setup : pool.SetupOps M)
    (poolSize : Int) : Sim (Option Error × Option M) := do
  match ← git.NewRepository env "." with
  | .error err => pure (some err, none)
  | .ok repo =>
    if ← repo.IsInWorktree env then
      pure (some (Error.errorf
        "cannot initialize pool from within a worktree. Please run from the main repository"),
        none)
    else
      match ← pool.NewManager ops repo with
      | .error err => pure (some err, none)
      | .ok manager =>
        let (err, manager) ← pool.Initialize setup manager poolSize
        pure (err, some manager)

/-- Go `refillPool()`; `poolSize` is the package variable of that name. -/
def refillPool (env : Env) (ops : pool.ManagerOps M) (setup : pool.SetupOps M)
    (poolSize : Int) : Sim (Option Error × Option M) := do
  match ← git.NewRepository env "." with
  | .error err => pure (some err, none)
  | .ok repo =>
    match ← pool.NewManager ops repo with
    | .error err => pure (some err, none)
    | .ok manager =>
      let (err, manager) ← pool.Refill setup manager poolSize
      pure (err, some manager)

/-- The command `pool init` without `--bare` and `--convert`: the hook sets the package
variables, then `initializePool` runs. -/
def runInit (env : Env) (ops : pool.ManagerOps M) (setup : pool.SetupOps M)
    (s : config.Sources) (flag : Option Int) : Sim (Option Error × Option M) :=
  initializePool env ops setup (persistentPreRun (rootInit s) flag).poolSize

end cmd

/-! ## Setting up and topping up the pool, as the specification describes it -/

namespace pool

/-- Modelled from the spec: the name `<prefix><index>` of the slot with index `i` (§3);
the naming is done by the missing package `internal/pool`. -/
def slotName (slotPrefix : String) (i : Nat) : String :=
  slotPrefix ++ toString i

/-- Modelled from the spec: the `n` slots `<prefix>1 .. <prefix>n`, all Available, that
`Initialize(n)` records (§4.1, missing with `internal/pool`). -/
def freshSlots (slotPrefix : String) (n : Nat) : List (String × SlotState) :=
  (List.range n).map (fun k => (slotName slotPrefix (k + 1), SlotState.Available))

/-- Modelled from the spec: the pool directory as `os.ReadDir` shows it, the names of
its entries, or `none` when the directory is missing; the directory is written by the
missing package `internal/pool`. -/
abbrev Directory := Option (List String)

/-- Modelled from the spec: `Initialize(size)` of §4.1 (missing with `internal/pool`).
It requires `size ≥ 1` and fails validation otherwise, creating nothing; when the
store already has slots it is a no-op; otherwise it creates the pool directory if
missing, materializes the slots `<prefix>1 .. <prefix>size` as worktrees in it,
records them Available and persists the store once, to the file `statusFile` of the
pool directory.  The spec does not give the text of the validation error, which is
taken from `Config.Validate`, and does not say what happens when the adapter fails;
the model is the run in which it succeeds. -/
def Manager.Initialize (m : Manager) (statusFile : String) (dir : Directory) (size : Int) :
    Option Error × Manager × Directory :=
  if size < 1 then
    (some (errors.NewValidationError "pool_size" "" "must be at least 1"), m, dir)
  else if m.Status.Worktrees ≠ [] then (none, m, dir)
  else
    (none, { m with Status := { Worktrees := freshSlots m.SlotPrefix size.toNat } },
      some (dir.getD [] ++ (freshSlots m.SlotPrefix size.toNat).map Prod.fst ++ [statusFile]))

/-- Modelled from the spec: the lowest index from `i` on whose slot name is not in the
store, among `n` candidates (the slot names are "contiguous and gap-filling", §3, and
`Refill` never reuses an index already present, §4.1); missing with `internal/pool`. -/
def PoolStatus.freeIndex (s : PoolStatus) (slotPrefix : String) : Nat → Nat → Nat
  | 0, i => i
  | n + 1, i =>
    if (s.Worktrees.lookup (slotName slotPrefix i)).isSome then
      s.freeIndex slotPrefix n (i + 1)
    else i

/-- Modelled from the spec: `n` new Available slots appended to the store, each under
the lowest index not yet present (the creation step of `Refill`, §4.1; missing with
`internal/pool`). -/
def PoolStatus.grow (slotPrefix : String) : Nat → PoolStatus → PoolStatus
  | 0, s => s
  | n + 1, s =>
    grow slotPrefix n
      { Worktrees := s.Worktrees ++
          [(slotName slotPrefix (s.freeIndex slotPrefix s.Worktrees.length 1),
            SlotState.Available)] }

/-- Modelled from the spec: `Refill(size)` of §4.1 (missing with `internal/pool`).
Refill needs an initialized pool: the status of a repository that was never initialized
is absent, `Load` treats it as empty, and for such a manager, one without slots, Refill
fails with `PoolNotFound` (§4.1 `Load`, §7) and changes nothing.  Otherwise
`deficit = size - total`; a no-op when `deficit ≤ 0`; otherwise `deficit` new Available
slots are created and the existing entries are not touched.  For an initialized pool
the model is the run in which the adapter succeeds. -/
def Manager.Refill (m : Manager) (size : Int) : Option Error × Manager :=
  if m.Status.Worktrees = [] then (some errors.ErrPoolNotFound, m)
  else
    let deficit := size - m.Status.Worktrees.length
    if deficit ≤ 0 then (none, m)
    else (none, { m with Status := PoolStatus.grow m.SlotPrefix deficit.toNat m.Status })

/-- Modelled from the spec: the scenario of §8, `GetAvailable()` followed by `MarkInUse`
of the returned name, `k` times in a row; the names returned, in order, and the
manager left behind.  The scenario stops at the first `GetAvailable` that fails. -/
def Manager.claim : Nat → Manager → List String × Manager
  | 0, m => ([], m)
  | k + 1, m =>
    match m.GetAvailable with
    | ((_, name, none), m₁) =>
      ((name :: (Manager.claim k (m₁.MarkInUse name).2).1),
        (Manager.claim k (m₁.MarkInUse name).2).2)
    | ((_, _, some _), m₁) => ([], m₁)

/-- Modelled from the spec: `Initialize` and `Refill` of §4.1 as an implementation of
the methods the commands call (missing package `internal/pool`), for a pool directory
that does not exist yet and a status file named `statusFile`. -/
def specSetup (statusFile : String) : SetupOps Manager where
  Initialize := fun m size =>
    ((m.Initialize statusFile none size).1, (m.Initialize statusFile none size).2.1)
  Refill := Manager.Refill

end pool

/-! ## Decimal notation -/

/-- The value of a decimal digit. -/
def digitValue (c : Char) : Nat := c.toNat - 48

/-- The number a list of decimal digits stands for, after the digits read so far. -/
def digitsValue (acc : Nat) (cs : List Char) : Nat :=
  cs.foldl (fun a c => a * 10 + digitValue c) acc

/-! ## The records of `git worktree list --porcelain` -/

namespace git

/-- One record of the output of `git worktree list --porcelain`: the line
`worktree <Path>`, then the optional lines `HEAD <hash>`, `branch refs/heads/<name>` and
`bare`, and the empty line that separates it from the next record when `Blank` is set. -/
structure PorcelainRecord where
  Path : String
  Head : Option String
  Branch : Option String
  Bare : Bool
  Blank : Bool
  deriving DecidableEq, Repr

/-- The lines of a record. -/
def PorcelainRecord.lines (r : PorcelainRecord) : List String :=
  ["worktree " ++ r.Path] ++ (r.Head.map (fun h => "HEAD " ++ h)).toList ++
    (r.Branch.map (fun b => "branch refs/heads/" ++ b)).toList ++
    (if r.Bare then ["bare"] else []) ++ (if r.Blank then [""] else [])

/-- The output that consists of the given records, every line ended by a newline. -/
def renderPorcelain (recs : List PorcelainRecord) : String :=
  String.join ((recs.flatMap PorcelainRecord.lines).map (fun l => l ++ "\n"))

/-- The worktree a record describes. -/
def PorcelainRecord.worktree (r : PorcelainRecord) : Worktree :=
  { Path := r.Path, Branch := r.Branch.getD "", Commit := r.Head.getD "", Bare := r.Bare }

/-- A line that a `bufio.Scanner` hands over as it stands: there is no newline inside, no
carriage return at its end, and it fits the buffer of the scanner. -/
def scannable (l : String) : Bool :=
  !l.data.contains '\n' && bufio.dropCR l.data == l.data &&
    decide (l.utf8ByteSize < bufio.MaxScanTokenSize)

end git

namespace sample

/-- The records of `withFeature`. -/
def records : List git.PorcelainRecord :=
  [{ Path := "/repo", Head := some "1111", Branch := some "main", Bare := false, Blank := true },
   { Path := "/repo/feature-a", Head := some "2222", Branch := some "feature/a", Bare := false,
     Blank := false }]

/-- A process environment without configuration: no `WORKTREE_POOL_SIZE`, no editor
variables, no `.poolrc` in the home directory and no local `.poolrc.json`. -/
def sources : config.Sources :=
  { PoolSizeEnv := none, EditorEnv := "", PoolEditorEnv := "",
    Global := config.FileLoad.failed (Error.external "no such file or directory") true,
    Local := config.FileLoad.skipped }

end sample

/-! ## More of the errors and of the git adapter -/

/-- Go `errors.Unwrap(err)`: the error inside a `*GitError` (its method `Unwrap`) and
inside the value of `fmt.Errorf` with `%w`; `none` for an error that wraps nothing. -/
def Error.Unwrap : Error → Option Error
  | .git _ _ err => some err
  | .wrapped _ err => some err
  | _ => none

namespace git

/-- The loop body of `GetMergedBranches`: the branches kept so far and the next line. -/
def mergedLine (defaultBranch : String) (branches : List String) (line : String) :
    List String :=
  let branch := strings.TrimSpace line
  if !strings.Contains branch defaultBranch && strings.HasPrefix branch "origin/" then
    branches ++ [strings.TrimPrefix branch "origin/"]
  else branches

/-- Go `(*Repository).GetMergedBranches`. -/
def Repository.GetMergedBranches (env : Env) (r : Repository) :
    Sim (List String × Option Error) := do
  let (output, err) ← r.output env ["branch", "-r", "--merged", "origin/" ++ r.DefaultBranch]
  match err with
  | some e => pure ([], some e)
  | none =>
    let lines := strings.Split (strings.TrimSpace output) '\n'
    pure (lines.foldl (mergedLine r.DefaultBranch) [], none)

/-- Go `(*Repository).FetchOriginPrune`. -/
def Repository.FetchOriginPrune (env : Env) (r : Repository) : Sim (Option Error) :=
  r.run env ["fetch", "origin", "--prune"]

/-- Go `(*Repository).PruneWorktrees`. -/
def Repository.PruneWorktrees (env : Env) (r : Repository) : Sim (Option Error) :=
  r.run env ["worktree", "prune"]

/-- Go `(*Repository).HasUncommittedChanges`. -/
def Repository.HasUncommittedChanges (env : Env) (r : Repository) : Sim Bool := do
  let err ← r.run env ["diff-index", "--quiet", "HEAD", "--"]
  pure err.isSome

end git

namespace sample

/-- An output of `git branch -r --merged origin/main`. -/
def mergedOutput : String :=
  "  origin/HEAD -> origin/main\n  origin/domain\n  origin/feature-a\n  origin/main\n  origin/main-fix\n  upstream/old\n  origin/fix/b\n"

/-- The base configuration of the test `TestConfigMerge`. -/
def mergeBase : config.Config :=
  { PoolSize := 5, PoolPrefix := "pool-", DefaultBranch := "main", Editor := "code",
    AutoRefill := true, CleanupOnExit := false, Aliases := some [("f", "feature")] }

/-- The override of the test `TestConfigMerge`. -/
def mergeOverride : config.Config :=
  { PoolSize := 10, PoolPrefix := "", DefaultBranch := "", Editor := "nvim",
    AutoRefill := false, CleanupOnExit := false, Aliases := some [("b", "bugfix")] }

end sample

/-! ## Vocabulary for the steps a run may take -/

/-- A computation that only adds steps with the property `P` to the trace. -/
def Sim.Emits {α : Type} (P : Step → Prop) (a : Sim α) : Prop :=
  ∀ tr : List Step, ∃ ext, (a tr).2 = tr ++ ext ∧ ∀ s ∈ ext, P s

/-- A step that leaves what is found on the file system `fs` alone: it is no
`git worktree remove`, and when it is a `git worktree move` the path it moves to is
missing. -/
def Step.spares (fs : String → StatResult) (s : Step) : Prop :=
  s.isGit ["worktree", "remove"] = false ∧
    ∀ src dst v, s = cmd.moveStep src dst v → fs dst = StatResult.notExist

/-! ## The clean-up commands (`cmd/clean.go`) -/

namespace unicode

/-- Go `unicode.ToLower` on the letters of ASCII.  The mapping of the letters outside
ASCII is not modelled, they are left as they are: the only use of `ToLower` compares
its result with `y` and `yes`, and Go maps no letter outside ASCII to `y`, `e` or `s`. -/
def ToLower (c : Char) : Char :=
  if 'A' ≤ c ∧ c ≤ 'Z' then Char.ofNat (c.toNat + 32) else c

end unicode

namespace strings

/-- Go `strings.ToLower(s)`, with the mapping of `unicode.ToLower` above. -/
def ToLower (s : String) : String :=
  String.mk (s.data.map unicode.ToLower)

end strings

namespace filepath

/-- Go `filepath.Base` on a Unix system: the last element of the path, after the
trailing slashes are removed; `.` for the empty path and `/` for a path of slashes. -/
def Base (path : String) : String :=
  if path = "" then "."
  else
    let stripped := (path.data.reverse.dropWhile (fun c => c == '/')).reverse
    let last := (stripped.reverse.takeWhile (fun c => c != '/')).reverse
    if last = [] then "/" else String.mk last

end filepath

/-- Go `reader.ReadString('\n')` on `bufio.NewReader(os.Stdin)`. -/
def osReadLine (env : Env) : Sim (String × Option Error) :=
  fun tr =>
    let res := env.readLine tr.length
    (res, tr ++ [Step.readLine res.1 res.2])

namespace cmd

variable {M : Type}

/-- Go `confirm(prompt)`; the prompt is printed and plays no other role. -/
def confirm (env : Env) (_prompt : String) : Sim Bool := do
  let (response, err) ← osReadLine env
  match err with
  | some _ => pure false
  | none =>
    let response := strings.TrimSpace (strings.ToLower response)
    pure (response == "y" || response == "yes")

/-- Go `cleanOrphaned(repo)`; `dryRun` is the package variable of that name. -/
def cleanOrphaned (env : Env) (dryRun : Bool) (repo : git.Repository) : Sim (Option Error) :=
  if dryRun then pure none
  else do
    match ← repo.PruneWorktrees env with
    | some err => pure (some err)
    | none => pure none

/-- The loop of `cleanStale` over the worktrees. -/
def cleanStaleLoop (env : Env) (consts : pool.Constants) (dryRun : Bool)
    (repo : git.Repository) : List git.Worktree → Sim Unit
  | [] => pure ()
  | wt :: rest =>
    if strings.Contains wt.Path consts.PoolDir then
      cleanStaleLoop env consts dryRun repo rest
    else if wt.Branch ≠ "" then do
      let found ← repo.RemoteBranchExists env wt.Branch
      if !found then
        if !dryRun then do
          let yes ← confirm env ("Remove worktree for deleted branch '" ++ wt.Branch ++ "'?")
          if yes then do
            let _ ← repo.RemoveWorktree env wt.Path
            cleanStaleLoop env consts dryRun repo rest
          else cleanStaleLoop env consts dryRun repo rest
        else cleanStaleLoop env consts dryRun repo rest
      else cleanStaleLoop env consts dryRun repo rest
    else cleanStaleLoop env consts dryRun repo rest

/-- Go `cleanStale(repo)`. -/
def cleanStale (env : Env) (consts : pool.Constants) (dryRun : Bool)
    (repo : git.Repository) : Sim (Option Error) := do
  let (worktrees, err) ← repo.ListWorktrees env
  match err with
  | some err => pure (some err)
  | none => do
    cleanStaleLoop env consts dryRun repo worktrees
    pure none

/-- The inner loop of `cleanMerged`: the merged branches are compared with the branch of
one worktree, and the loop ends at the first that is equal. -/
def cleanMergedBranch (env : Env) (dryRun : Bool) (repo : git.Repository)
    (wt : git.Worktree) : List String → Sim Unit
  | [] => pure ()
  | merged :: rest =>
    if wt.Branch = merged then
      if !dryRun then do
        let yes ← confirm env ("Remove worktree for merged branch '" ++ wt.Branch ++ "'?")
        if yes then do
          let _ ← repo.RemoveWorktree env wt.Path
          pure ()
        else pure ()
      else pure ()
    else cleanMergedBranch env dryRun repo wt rest

/-- The loop of `cleanMerged` over the worktrees. -/
def cleanMergedLoop (env : Env) (consts : pool.Constants) (dryRun : Bool)
    (repo : git.Repository) (mergedBranches : List String) : List git.Worktree → Sim Unit
  | [] => pure ()
  | wt :: rest =>
    if strings.Contains wt.Path consts.PoolDir || wt.Bare then
      cleanMergedLoop env consts dryRun repo mergedBranches rest
    else do
      cleanMergedBranch env dryRun repo wt mergedBranches
      cleanMergedLoop env consts dryRun repo mergedBranches rest

/-- Go `cleanMerged(repo)` from the call of `GetMergedBranches` on. -/
def cleanMergedFetched (env : Env) (consts : pool.Constants) (dryRun : Bool)
    (repo : git.Repository) : Sim (Option Error) := do
  let (mergedBranches, err) ← repo.GetMergedBranches env
  match err with
  | some err => pure (some err)
  | none =>
    let (worktrees, err) ← repo.ListWorktrees env
    match err with
    | some err => pure (some err)
    | none => do
      cleanMergedLoop env consts dryRun repo mergedBranches worktrees
      pure none

/-- Go `cleanMerged(repo)`: the pruning fetch comes first, before `dryRun` is looked at. -/
def cleanMerged (env : Env) (consts : pool.Constants) (dryRun : Bool)
    (repo : git.Repository) : Sim (Option Error) := do
  match ← repo.FetchOriginPrune env with
  | some err => pure (some err)
  | none => cleanMergedFetched env consts dryRun repo

/-- The loop of `cleanPool` over the worktrees; `available manager name` is the test
`status, ok := manager.Status.Worktrees[name]; ok && status == pool.StatusAvailable`
on the manager of the missing package `internal/pool`. -/
def cleanPoolLoop (env : Env) (consts : pool.Constants) (dryRun : Bool)
    (available : M → String → Bool) (repo : git.Repository) (manager : M) :
    List git.Worktree → Sim Unit
  | [] => pure ()
  | wt :: rest =>
    if strings.Contains wt.Path consts.PoolDir then
      if available manager (filepath.Base wt.Path) then do
        let (oldDir, _) ← osGetwd env
        let _ ← osChdir env wt.Path
        let dirty ← repo.HasUncommittedChanges env
        if dirty then
          if !dryRun then do
            let yes ← confirm env ("Reset pool worktree " ++ filepath.Base wt.Path ++ "?")
            if yes then do
              let _ ← git.RunInDir env wt.Path ["reset", "--hard"]
              let _ ← git.RunInDir env wt.Path ["clean", "-fd"]
              let _ ← osChdir env oldDir
              cleanPoolLoop env consts dryRun available repo manager rest
            else do
              let _ ← osChdir env oldDir
              cleanPoolLoop env consts dryRun available repo manager rest
          else do
            let _ ← osChdir env oldDir
            cleanPoolLoop env consts dryRun available repo manager rest
        else do
          let _ ← osChdir env oldDir
          cleanPoolLoop env consts dryRun available repo manager rest
      else cleanPoolLoop env consts dryRun available repo manager rest
    else cleanPoolLoop env consts dryRun available repo manager rest

/-- Go `cleanPool(repo)`. -/
def cleanPool (env : Env) (ops : pool.ManagerOps M) (consts : pool.Constants)
    (dryRun : Bool) (available : M → String → Bool) (repo : git.Repository) :
    Sim (Option Error) := do
  match ← pool.NewManager ops repo with
  | .error err => pure (some err)
  | .ok manager =>
    let (worktrees, err) ← repo.ListWorktrees env
    match err with
    | some err => pure (some err)
    | none => do
      cleanPoolLoop env consts dryRun available repo manager worktrees
      pure none

/-- Go `runClean(cleanType)`; with `all` the errors of the four tasks are logged and
dropped. -/
def runClean (env : Env) (ops : pool.ManagerOps M) (consts : pool.Constants)
    (dryRun : Bool) (available : M → String → Bool) (cleanType : String) :
    Sim (Option Error) := do
  match ← git.NewRepository env "." with
  | .error err => pure (some err)
  | .ok repo =>
    if cleanType = "orphaned" then cleanOrphaned env dryRun repo
    else if cleanType = "stale" then cleanStale env consts dryRun repo
    else if cleanType = "merged" then cleanMerged env consts dryRun repo
    else if cleanType = "pool" then cleanPool env ops consts dryRun available repo
    else if cleanType = "all" then do
      let _ ← cleanOrphaned env dryRun repo
      let _ ← cleanStale env consts dryRun repo
      let _ ← cleanPool env ops consts dryRun available repo
      let _ ← cleanMerged env consts dryRun repo
      pure none
    else pure (some (Error.errorf ("unknown clean type: " ++ cleanType)))

end cmd

namespace pool

/-- Modelled from the spec: the test `manager.Status.Worktrees[name] == StatusAvailable`
that `cleanPool` makes on the manager of §4.1 (missing package `internal/pool`). -/
def Manager.isAvailable (m : Manager) (name : String) : Bool :=
  m.Status.Worktrees.lookup name == some SlotState.Available

end pool

/-- A git command that cleans: `worktree prune`, `worktree remove`, `reset` or `clean`. -/
def Step.cleans (s : Step) : Bool :=
  s.isGit ["worktree", "prune"] || s.isGit ["worktree", "remove"] || s.isGit ["reset"] ||
    s.isGit ["clean"]

/-- A step a dry run of the clean type `cleanType` may take: it does not clean, and it is
a `git fetch` for the types `merged` and `all` only. -/
def Step.previews (cleanType : String) (s : Step) : Prop :=
  s.cleans = false ∧
    (s.isGit ["fetch"] = true → cleanType = "merged" ∨ cleanType = "all")

namespace sample

/-- The output of `git worktree list --porcelain` with a worktree at `/repo/a-b` that
holds the branch `a/b`. -/
def withSlashBranch : String :=
  "worktree /repo\nHEAD 1111\nbranch refs/heads/main\n\nworktree /repo/a-b\nHEAD 2222\nbranch refs/heads/a/b\n"

end sample

/-! ## Go standard library: `unicode/utf8` and `encoding/json`

A Go string is a sequence of bytes and need not be text.  Where the configuration is
written to a file the bytes matter, so they are modelled here: a byte is a natural
number below 256, and a Lean string is the text that a sequence of bytes encodes. -/

namespace utf8

/-- Go `utf8.RuneError`, the replacement character U+FFFD. -/
def RuneError : Nat := 0xFFFD

/-- Go `utf8.AppendRune` on an empty slice: the encoding of the rune `r`; a surrogate
and a value above `utf8.MaxRune` are encoded as `RuneError`. -/
def EncodeRune (r : Nat) : List Nat :=
  if r ≤ 0x7F then [r]
  else if r ≤ 0x7FF then [0xC0 + r / 64, 0x80 + r % 64]
  else if 0x10FFFF < r ∨ (0xD800 ≤ r ∧ r ≤ 0xDFFF) then [0xEF, 0xBF, 0xBD]
  else if r ≤ 0xFFFF then [0xE0 + r / 4096, 0x80 + r / 64 % 64, 0x80 + r % 64]
  else [0xF0 + r / 262144, 0x80 + r / 4096 % 64, 0x80 + r / 64 % 64, 0x80 + r % 64]

/-- The lowest second byte Go accepts after the first byte `p0` (the table
`acceptRanges`). -/
def acceptLo (p0 : Nat) : Nat :=
  if p0 = 0xE0 then 0xA0 else if p0 = 0xF0 then 0x90 else 0x80

/-- The highest second byte Go accepts after the first byte `p0` (the table
`acceptRanges`). -/
def acceptHi (p0 : Nat) : Nat :=
  if p0 = 0xED then 0x9F else if p0 = 0xF4 then 0x8F else 0xBF

/-- Go `utf8.DecodeRune(p)`: the first rune of `p` and its width in bytes;
`(RuneError, 0)` for the empty sequence and `(RuneError, 1)` for an encoding that is
invalid or cut short. -/
def DecodeRune : List Nat → Nat × Nat
  | [] => (RuneError, 0)
  | p0 :: rest =>
    if p0 < 0x80 then (p0, 1)
    else if p0 < 0xC2 ∨ 0xF4 < p0 then (RuneError, 1)
    else if p0 < 0xE0 then
      match rest with
      | b1 :: _ =>
        if 0x80 ≤ b1 ∧ b1 ≤ 0xBF then ((p0 - 0xC0) * 64 + (b1 - 0x80), 2)
        else (RuneError, 1)
      | [] => (RuneError, 1)
    else if p0 < 0xF0 then
      match rest with
      | b1 :: b2 :: _ =>
        if acceptLo p0 ≤ b1 ∧ b1 ≤ acceptHi p0 ∧ 0x80 ≤ b2 ∧ b2 ≤ 0xBF then
          ((p0 - 0xE0) * 4096 + (b1 - 0x80) * 64 + (b2 - 0x80), 3)
        else (RuneError, 1)
      | _ => (RuneError, 1)
    else
      match rest with
      | b1 :: b2 :: b3 :: _ =>
        if acceptLo p0 ≤ b1 ∧ b1 ≤ acceptHi p0 ∧ 0x80 ≤ b2 ∧ b2 ≤ 0xBF ∧
            0x80 ≤ b3 ∧ b3 ≤ 0xBF then
          ((p0 - 0xF0) * 262144 + (b1 - 0x80) * 4096 + (b2 - 0x80) * 64 + (b3 - 0x80), 4)
        else (RuneError, 1)
      | _ => (RuneError, 1)

/-- The runes of a Go string as a loop with `DecodeRune` reads them, `fuel` runes at
most: an invalid byte yields `RuneError` and the loop moves on by one byte. -/
def runesLoop : Nat → List Nat → List Nat
  | 0, _ => []
  | _ + 1, [] => []
  | fuel + 1, b :: p =>
    (DecodeRune (b :: p)).1 :: runesLoop fuel ((b :: p).drop (DecodeRune (b :: p)).2)

/-- The runes of a Go string (`for _, r := range s`). -/
def runes (p : List Nat) : List Nat :=
  runesLoop p.length p

/-- The bytes of the Go string that holds the text `s`. -/
def bytes (s : String) : List Nat :=
  s.data.flatMap (fun c => EncodeRune c.toNat)

end utf8

namespace json

/-- A JSON document, as far as it matters for a `Config`: numbers are integers written
as such or any other number, and the elements of an array play no role. -/
inductive Value where
  | null
  | bool (b : Bool)
  | integer (n : Int)
  | real
  | string (s : String)
  | array
  | object (members : List (String × Value))

/-- The JSON string that `encoding/json` writes for a Go string: the text of its runes,
with U+FFFD for every byte that is not part of a valid encoding. -/
def coerce (p : List Nat) : String :=
  String.mk ((utf8.runes p).map Char.ofNat)

/-- Go `foldRune` of `encoding/json`: the smallest rune of the fold set of `r`.  Modelled
for the fold sets that hold a letter of ASCII, which are the letters of ASCII with the
long s (U+017F) and the Kelvin sign (U+212A); any other rune is left as it is, it never
matches a letter of a field name. -/
def foldRune (c : Char) : Char :=
  if 'a' ≤ c ∧ c ≤ 'z' then Char.ofNat (c.toNat - 32)
  else if c = Char.ofNat 0x17F then 'S'
  else if c = Char.ofNat 0x212A then 'K'
  else c

/-- Go `foldName` of `encoding/json`: two names match without regard to case when their
folded names are equal. -/
def foldName (s : String) : String :=
  String.mk (s.data.map foldRune)

/-- The error of `json.Unmarshal` for a value that does not fit the Go type. -/
def typeError : Error := Error.external "json: cannot unmarshal value into Go struct field"

end json

namespace config

/-- The Go struct `Config` as it lies in memory, its strings as sequences of bytes.
`Config` is the part of it whose strings are text. -/
structure RawConfig where
  PoolSize : Int
  PoolPrefix : List Nat
  DefaultBranch : List Nat
  Editor : List Nat
  AutoRefill : Bool
  CleanupOnExit : Bool
  Aliases : Option (List (List Nat × List Nat))
  deriving DecidableEq, Repr

/-- The Go value of a configuration whose strings are text. -/
def Config.raw (c : Config) : RawConfig :=
  { PoolSize := c.PoolSize, PoolPrefix := utf8.bytes c.PoolPrefix,
    DefaultBranch := utf8.bytes c.DefaultBranch, Editor := utf8.bytes c.Editor,
    AutoRefill := c.AutoRefill, CleanupOnExit := c.CleanupOnExit,
    Aliases := c.Aliases.map (fun m => m.map (fun kv => (utf8.bytes kv.1, utf8.bytes kv.2))) }

/-- The order of Go strings, byte by byte. -/
def bytesLe : List Nat → List Nat → Bool
  | [], _ => true
  | _ :: _, [] => false
  | a :: p, b :: q => decide (a < b) || (a == b && bytesLe p q)

/-- The members `encoding/json` writes for a map of strings: in the order of the keys. -/
def aliasMembers (m : List (List Nat × List Nat)) : List (String × json.Value) :=
  (m.insertionSort (fun a b => bytesLe a.1 b.1 = true)).map
    (fun kv => (json.coerce kv.1, json.Value.string (json.coerce kv.2)))

/-- The document `json.MarshalIndent(c, "", "  ")` describes, which `Save` writes to the
file: the fields in the order of the struct, every one left out when it is empty
(`omitempty`: the number 0, the empty string, `false`, a map without entries). -/
def RawConfig.Marshal (r : RawConfig) : json.Value :=
  json.Value.object
    ((if r.PoolSize = 0 then [] else [("pool_size", json.Value.integer r.PoolSize)]) ++
      (if r.PoolPrefix = [] then []
        else [("pool_prefix", json.Value.string (json.coerce r.PoolPrefix))]) ++
      (if r.DefaultBranch = [] then []
        else [("default_branch", json.Value.string (json.coerce r.DefaultBranch))]) ++
      (if r.Editor = [] then [] else [("editor", json.Value.string (json.coerce r.Editor))]) ++
      (if r.AutoRefill then [("auto_refill", json.Value.bool true)] else []) ++
      (if r.CleanupOnExit then [("cleanup_on_exit", json.Value.bool true)] else []) ++
      (if (r.Aliases.getD []) = [] then []
        else [("aliases", json.Value.object (aliasMembers (r.Aliases.getD [])))]))

/-- The zero value of `Config`, as `var fileConfig Config` declares it. -/
def zero : Config :=
  { PoolSize := 0, PoolPrefix := "", DefaultBranch := "", Editor := "", AutoRefill := false,
    CleanupOnExit := false, Aliases := none }

/-- The decoding of the members of a JSON object into a Go map of strings: a later
member with the same key replaces an earlier one, and `null` stores the empty string. -/
def decodeAliases : List (String × String) → List (String × json.Value) →
    Except Error (List (String × String))
  | m, [] => .ok m
  | m, (k, v) :: rest =>
    match v with
    | .string s => decodeAliases (setAlias m (k, s)) rest
    | .null => decodeAliases (setAlias m (k, "")) rest
    | _ => .error json.typeError

/-- The decoding of one member of the document into the struct: the member goes to the
field whose name matches its key without regard to case, a member that matches no field
is passed over, `null` leaves a number, a string and a boolean as they are and makes a
map `nil`, and a value of the wrong kind is an error. -/
def decodeMember (c : Config) (key : String) (v : json.Value) : Except Error Config :=
  if json.foldName key = json.foldName "pool_size" then
    match v with
    | .integer n =>
      if -(2 : Int) ^ 63 ≤ n ∧ n < (2 : Int) ^ 63 then .ok { c with PoolSize := n }
      else .error json.typeError
    | .null => .ok c
    | _ => .error json.typeError
  else if json.foldName key = json.foldName "pool_prefix" then
    match v with
    | .string s => .ok { c with PoolPrefix := s }
    | .null => .ok c
    | _ => .error json.typeError
  else if json.foldName key = json.foldName "default_branch" then
    match v with
    | .string s => .ok { c with DefaultBranch := s }
    | .null => .ok c
    | _ => .error json.typeError
  else if json.foldName key = json.foldName "editor" then
    match v with
    | .string s => .ok { c with Editor := s }
    | .null => .ok c
    | _ => .error json.typeError
  else if json.foldName key = json.foldName "auto_refill" then
    match v with
    | .bool b => .ok { c with AutoRefill := b }
    | .null => .ok c
    | _ => .error json.typeError
  else if json.foldName key = json.foldName "cleanup_on_exit" then
    match v with
    | .bool b => .ok { c with CleanupOnExit := b }
    | .null => .ok c
    | _ => .error json.typeError
  else if json.foldName key = json.foldName "aliases" then
    match v with
    | .object members =>
      match decodeAliases (c.Aliases.getD []) members with
      | .ok m => .ok { c with Aliases := some m }
      | .error e => .error e
    | .null => .ok { c with Aliases := none }
    | _ => .error json.typeError
  else .ok c

/-- The decoding of the members of the document, one after the other. -/
def decodeMembers : Config → List (String × json.Value) → Except Error Config
  | c, [] => .ok c
  | c, (k, v) :: rest =>
    match decodeMember c k v with
    | .ok c' => decodeMembers c' rest
    | .error e => .error e

/-- Go `json.Unmarshal(data, &fileConfig)` for a fresh `fileConfig`, on the document the
data describes: `null` leaves the zero value, an object is decoded member by member,
anything else is an error. -/
def Unmarshal (doc : json.Value) : Except Error Config :=
  match doc with
  | .null => .ok zero
  | .object members => decodeMembers zero members
  | _ => .error json.typeError

end config

namespace sample

/-- The configuration of the test `TestConfigSaveLoad`. -/
def saved : config.Config :=
  { PoolSize := 8, PoolPrefix := "wp-", DefaultBranch := "develop", Editor := "vim",
    AutoRefill := false, CleanupOnExit := true,
    Aliases := some [("feat", "feature"), ("fix", "bugfix")] }

/-- A Go configuration whose pool prefix is the single byte `0xff`, which is no text. -/
def broken : config.RawConfig :=
  { PoolSize := 5, PoolPrefix := [0xff], DefaultBranch := utf8.bytes "main",
    Editor := utf8.bytes "code", AutoRefill := true, CleanupOnExit := false, Aliases := none }

end sample

/-! ## Vocabulary for the slot scan and the return flow in a repository that stays as it is -/

namespace cmd

/-- A candidate whose path exists on disk: `os.Stat` answers for it without an error. -/
def existing (fs : String → StatResult) (consts : pool.Constants) (topLevel : String)
    (i : Nat) : Bool :=
  fs (candidatePath consts topLevel i) == StatResult.found

/-- The name `findOrCreatePoolSlot` gives to the candidate with index `i`:
`fmt.Sprintf("%s%d", pool.PoolPrefix, i)`. -/
def candidateName (consts : pool.Constants) (i : Nat) : String :=
  consts.PoolPrefix ++ toString i

end cmd

namespace pool

/-- Modelled from the spec: the store of a pool of `n` slots `<prefix>1 .. <prefix>n`
(§3) all of which are InUse, so that `total = n` and `available = 0`; the store is kept
by the missing package `internal/pool`. -/
def claimedSlots (slotPrefix : String) (n : Nat) : List (String × SlotState) :=
  (List.range n).map (fun k => (slotName slotPrefix (k + 1), SlotState.InUse))

/-- Modelled from the spec: `MarkAvailable(name)` as the return flow of §4.2 (step 2, "it
is allowed to grow the pool by one") and the scenario of §8 presuppose it: a name the
store does not know is added to the store as an Available slot.  This is not the
`MarkAvailable` of §4.1, which fails for an unknown name; the method belongs to the
missing package `internal/pool`. -/
def Manager.MarkAvailableOrAdd (m : Manager) (name : String) : Option Error × Manager :=
  if (m.Status.Worktrees.lookup name).isSome then
    (none, { m with Status := m.Status.set name SlotState.Available })
  else
    (none, { m with
      Status := { Worktrees := m.Status.Worktrees ++ [(name, SlotState.Available)] } })

/-- Modelled from the spec: the manager of `specManager` with the `MarkAvailable` that
adds an unknown name (missing package `internal/pool`). -/
def growingManager (poolDir slotPrefix : String) (stored : Option PoolStatus) :
    ManagerOps Manager where
  NewManager := fun _ => Except.ok (Manager.Load poolDir slotPrefix stored)
  GetAvailable := Manager.GetAvailable
  MarkInUse := Manager.MarkInUse
  MarkAvailable := Manager.MarkAvailableOrAdd
  GetStatus := Manager.GetStatus

end pool

namespace sample

/-- The answers of git in the sample world; they do not depend on the moment of the
call. -/
def git (listing : String) (failing : List (List String)) (dir : String)
    (args : List String) : ExecResult :=
  (env listing nothing failing).exec 0 dir "git" args

/-- A file system on which `os.Stat` fails for every path with an error other than
"does not exist", as it does below a pool directory that is a regular file or cannot
be searched. -/
def unreadable : String → StatResult := fun _ => StatResult.failed

end sample

/-! ## Lemmas on the git adapter -/

section Adapter

variable {M : Type}

theorem bind_apply {α β : Type} (x : Sim α) (k : α → Sim β) (tr : List Step) :
    StateT.bind x k tr = k (x tr).1 (x tr).2 := rfl

theorem pure_apply {α : Type} (a : α) (tr : List Step) :
    (StateT.pure a : Sim α) tr = (a, tr) := rfl

theorem runCommand_apply (env : Env) (dir name : String) (args : List String) (tr : List Step) :
    runCommand env dir name args tr =
      (env.exec tr.length dir name args,
        tr ++ [Step.exec dir name args (env.exec tr.length dir name args)]) := rfl

theorem run_apply (env : Env) (r : git.Repository) (args : List String) (tr : List Step) :
    r.run env args tr =
      ((Step.exec r.Path "git" args (env.exec tr.length r.Path "git" args)).gitError,
        tr ++ [Step.exec r.Path "git" args (env.exec tr.length r.Path "git" args)]) := by
  simp only [git.Repository.run, bind, StateT.bind, runCommand_apply, Step.gitError]
  cases (env.exec tr.length r.Path "git" args).err <;> rfl

theorem RunInDir_apply (env : Env) (dir : String) (args : List String) (tr : List Step) :
    git.RunInDir env dir args tr =
      ((Step.exec dir "git" args (env.exec tr.length dir "git" args)).gitError,
        tr ++ [Step.exec dir "git" args (env.exec tr.length dir "git" args)]) := by
  simp only [git.RunInDir, bind, StateT.bind, runCommand_apply, Step.gitError]
  cases (env.exec tr.length dir "git" args).err <;> rfl

theorem output_apply (env : Env) (r : git.Repository) (args : List String) (tr : List Step) :
    r.output env args tr =
      (match (env.exec tr.length r.Path "git" args).err with
        | some err => ("", some (errors.NewGitError (strings.Join args " ") err
            (env.exec tr.length r.Path "git" args).stderr))
        | none => ((env.exec tr.length r.Path "git" args).stdout, none),
        tr ++ [Step.exec r.Path "git" args (env.exec tr.length r.Path "git" args)]) := by
  simp only [git.Repository.output, bind, StateT.bind, runCommand_apply]
  cases (env.exec tr.length r.Path "git" args).err <;> rfl

theorem queries_one {t tr : List Step} {a : Step} (h : t = tr ++ [a])
    (ha : a.isQuery = true) :
    ∃ ext, t = tr ++ ext ∧ ∀ s ∈ ext, s.isQuery = true :=
  ⟨[a], h, by simpa using ha⟩

theorem queries_two {t tr : List Step} {a c : Step} (h : t = tr ++ [a] ++ [c])
    (ha : a.isQuery = true) (hc : c.isQuery = true) :
    ∃ ext, t = tr ++ ext ∧ ∀ s ∈ ext, s.isQuery = true :=
  ⟨[a, c], by simpa using h, by simp [ha, hc]⟩

theorem queries_three {t tr : List Step} {a c d : Step} (h : t = tr ++ [a] ++ [c] ++ [d])
    (ha : a.isQuery = true) (hc : c.isQuery = true) (hd : d.isQuery = true) :
    ∃ ext, t = tr ++ ext ∧ ∀ s ∈ ext, s.isQuery = true :=
  ⟨[a, c, d], by simpa using h, by simp [ha, hc, hd]⟩

/-- `NewRepository` only makes queries. -/
theorem NewRepository_ext (env : Env) (path : String) (tr : List Step) :
    ∃ ext, (git.NewRepository env path tr).2 = tr ++ ext ∧ ∀ s ∈ ext, s.isQuery = true := by
  simp only [git.NewRepository, bind, StateT.bind, run_apply, Step.gitError]
  generalize env.exec tr.length path "git" ["rev-parse", "--git-dir"] = a
  rcases a with ⟨_ | ae, ao, ax⟩
  · simp only [Option.map_none', StateT.bind, output_apply, pure, StateT.pure]
    generalize env.exec _ path "git" ["rev-parse", "--is-bare-repository"] = c
    rcases c with ⟨_ | ce, co, cx⟩ <;>
      exact queries_three rfl (by simp [Step.isQuery]) (by simp [Step.isQuery])
        (by simp [Step.isQuery])
  · exact queries_one rfl (by simp [Step.isQuery])

/-- The repository `NewRepository` returns has the given path. -/
theorem NewRepository_path (env : Env) (path : String) (tr : List Step) :
    ∀ repo, (git.NewRepository env path tr).1 = Except.ok repo → repo.Path = path := by
  simp only [git.NewRepository, bind, StateT.bind, run_apply, Step.gitError]
  generalize env.exec tr.length path "git" ["rev-parse", "--git-dir"] = a
  rcases a with ⟨_ | ae, ao, ax⟩
  · simp only [Option.map_none', bind, StateT.bind, output_apply, pure, StateT.pure]
    generalize env.exec _ path "git" ["rev-parse", "--is-bare-repository"] = c
    generalize env.exec _ _ "git" ["symbolic-ref", "refs/remotes/origin/HEAD"] = d
    rcases c with ⟨_ | ce, co, cx⟩ <;> rcases d with ⟨_ | de, do', dx⟩ <;>
      (intro repo h; cases h; rfl)
  · intro repo h
    simp [pure, StateT.pure] at h

/-- `GetTopLevel` only makes queries. -/
theorem GetTopLevel_ext (env : Env) (r : git.Repository) (tr : List Step) :
    ∃ ext, (r.GetTopLevel env tr).2 = tr ++ ext ∧ ∀ s ∈ ext, s.isQuery = true := by
  simp only [git.Repository.GetTopLevel, bind, StateT.bind, output_apply]
  generalize env.exec tr.length r.Path "git" ["rev-parse", "--show-toplevel"] = a
  rcases a with ⟨_ | ae, ao, ax⟩
  · exact queries_one rfl (by simp [Step.isQuery])
  · simp only [StateT.bind, output_apply]
    generalize env.exec _ r.Path "git" ["rev-parse", "--git-dir"] = c
    rcases c with ⟨_ | ce, co, cx⟩ <;>
      exact queries_two rfl (by simp [Step.isQuery]) (by simp [Step.isQuery])

/-- `ListWorktrees` makes one step, `git worktree list --porcelain`, and parses its output. -/
theorem ListWorktrees_apply (env : Env) (r : git.Repository) (tr : List Step) :
    r.ListWorktrees env tr =
      (match (env.exec tr.length r.Path "git" ["worktree", "list", "--porcelain"]).err with
        | some err => ([], some (errors.NewGitError "worktree list --porcelain" err
            (env.exec tr.length r.Path "git" ["worktree", "list", "--porcelain"]).stderr))
        | none => (git.parseWorktrees
            (env.exec tr.length r.Path "git" ["worktree", "list", "--porcelain"]).stdout, none),
        tr ++ [Step.exec r.Path "git" ["worktree", "list", "--porcelain"]
          (env.exec tr.length r.Path "git" ["worktree", "list", "--porcelain"])]) := by
  simp only [git.Repository.ListWorktrees, bind, StateT.bind, output_apply, pure, StateT.pure]
  cases (env.exec tr.length r.Path "git" ["worktree", "list", "--porcelain"]).err <;> rfl

/-- `RemoteBranchExists` makes one step, `git ls-remote --heads origin <branch>`. -/
theorem RemoteBranchExists_apply (env : Env) (r : git.Repository) (branch : String)
    (tr : List Step) :
    r.RemoteBranchExists env branch tr =
      (cmd.remoteExists branch (env.exec tr.length r.Path "git"
          ["ls-remote", "--heads", "origin", branch]),
        tr ++ [Step.exec r.Path "git" ["ls-remote", "--heads", "origin", branch]
          (env.exec tr.length r.Path "git" ["ls-remote", "--heads", "origin", branch])]) := by
  simp only [git.Repository.RemoteBranchExists, bind, StateT.bind, output_apply, pure,
    StateT.pure, cmd.remoteExists]
  cases (env.exec tr.length r.Path "git" ["ls-remote", "--heads", "origin", branch]).err <;> rfl

/-- `openInEditor` makes one step and returns the error of the editor process. -/
theorem openInEditor_apply (env : Env) (cfg : config.Config) (path : String) (tr : List Step) :
    cmd.openInEditor env cfg path tr =
      ((env.exec tr.length path (cmd.editorName cfg) (cmd.editorArgs cfg)).err,
        tr ++ [cmd.editorStep cfg path
          (env.exec tr.length path (cmd.editorName cfg) (cmd.editorArgs cfg))]) := rfl

theorem osStat_apply (env : Env) (path : String) (tr : List Step) :
    osStat env path tr = (env.stat tr.length path, tr ++ [Step.stat path (env.stat tr.length path)]) :=
  rfl

theorem osGetwd_apply (env : Env) (tr : List Step) :
    osGetwd env tr =
      (env.getwd tr.length, tr ++ [Step.getwd (env.getwd tr.length).1 (env.getwd tr.length).2]) :=
  rfl

theorem osChdir_apply (env : Env) (dir : String) (tr : List Step) :
    osChdir env dir tr = (env.chdir tr.length dir, tr ++ [Step.chdir dir (env.chdir tr.length dir)]) :=
  rfl

theorem GetAvailable_apply (ops : pool.ManagerOps M) (m : M) (tr : List Step) :
    pool.GetAvailable ops m tr =
      (ops.GetAvailable m,
        tr ++ [Step.GetAvailable (ops.GetAvailable m).1.1 (ops.GetAvailable m).1.2.1
          (ops.GetAvailable m).1.2.2]) := rfl

theorem MarkInUse_apply (ops : pool.ManagerOps M) (m : M) (name : String) (tr : List Step) :
    pool.MarkInUse ops m name tr =
      (ops.MarkInUse m name, tr ++ [Step.MarkInUse name (ops.MarkInUse m name).1]) := rfl

theorem MarkAvailable_apply (ops : pool.ManagerOps M) (m : M) (name : String) (tr : List Step) :
    pool.MarkAvailable ops m name tr =
      (ops.MarkAvailable m name, tr ++ [Step.MarkAvailable name (ops.MarkAvailable m name).1]) :=
  rfl

theorem GetStatus_apply (ops : pool.ManagerOps M) (m : M) (tr : List Step) :
    pool.GetStatus ops m tr =
      (ops.GetStatus m, tr ++ [Step.GetStatus (ops.GetStatus m).1.1 (ops.GetStatus m).1.2]) := rfl

theorem goRefillPoolAsync_apply (tr : List Step) :
    cmd.goRefillPoolAsync tr = ((), tr ++ [Step.goRefill]) := rfl

end Adapter

/-! ## The runs of `createWorktree` -/

section ClaimFlow

variable {M : Type}

theorem gitError_ok (dir name : String) (args : List String) (o x : String) :
    (Step.exec dir name args ⟨none, o, x⟩).gitError = none := rfl

theorem gitError_failed (dir name : String) (args : List String) (e : Error) (o x : String) :
    (Step.exec dir name args ⟨some e, o, x⟩).gitError =
      some (errors.NewGitError (strings.Join args " ") e "") := rfl

/-- `createWorktreeDirect` asks for the remote branch and adds the worktree, from
`origin/<branch>` when the remote branch exists and from the default branch otherwise;
it returns the error of the `git worktree add`. -/
theorem createWorktreeDirect_run (env : Env) (repo : git.Repository) (path b : String)
    (tr : List Step) (hpath : repo.Path = ".") :
    ∃ q a, cmd.createWorktreeDirect env repo path b tr =
      ((cmd.addStep path b
          (if cmd.remoteExists b q = true then "origin/" ++ b else repo.DefaultBranch) a).gitError,
        tr ++ [cmd.lsRemoteStep b q, cmd.addStep path b
          (if cmd.remoteExists b q = true then "origin/" ++ b else repo.DefaultBranch) a]) := by
  simp only [cmd.createWorktreeDirect, bind, bind_apply, RemoteBranchExists_apply, hpath]
  generalize env.exec _ "." "git" ["ls-remote", "--heads", "origin", b] = q
  by_cases hre : cmd.remoteExists b q = true
  · simp only [hre, if_true, git.Repository.AddWorktreeFromBranch, run_apply, hpath,
      List.append_assoc, List.singleton_append]
    exact ⟨q, _, by simp only [hre, if_true]; rfl⟩
  · simp only [hre, if_false, Bool.false_eq_true, git.Repository.AddWorktree, run_apply, hpath,
      List.append_assoc, List.singleton_append]
    exact ⟨q, _, by simp only [hre, if_false, Bool.false_eq_true]; rfl⟩

/-- Every run of `createWorktree` has one of the shapes of `ClaimRun`. -/
theorem createWorktree_run (env : Env) (ops : pool.ManagerOps M) (cfg : config.Config)
    (b : String) :
    cmd.ClaimRun env ops cfg b (cmd.createWorktree env ops cfg b).result.1
      (cmd.createWorktree env ops cfg b).result.2 (cmd.createWorktree env ops cfg b).trace := by
  obtain ⟨ext1, h1, hq1⟩ := NewRepository_ext env "." []
  have hp1 := NewRepository_path env "." []
  unfold Sim.result Sim.trace
  simp only [cmd.createWorktree, bind, pure, StateT.run, bind_apply]
  rcases hx : git.NewRepository env "." [] with ⟨(e | repo), s⟩
  · rw [hx] at h1
    simp only [List.nil_append] at h1
    subst h1
    exact cmd.ClaimRun.early _ _ hq1
  · rw [hx] at h1 hp1
    simp only [List.nil_append] at h1
    subst h1
    have hpath : repo.Path = "." := hp1 repo rfl
    have hrepo : cmd.repoIn env = repo := by simp [cmd.repoIn, StateT.run, hx]
    subst hrepo
    obtain ⟨ext2, h2, hq2⟩ := GetTopLevel_ext env (cmd.repoIn env) s
    have hq : ∀ st ∈ s ++ ext2, st.isQuery = true := by
      intro st hst
      rcases List.mem_append.1 hst with h | h
      · exact hq1 st h
      · exact hq2 st h
    simp only [bind_apply]
    rcases hy : (cmd.repoIn env).GetTopLevel env s with ⟨⟨top, (_ | e)⟩, s2⟩
    · rw [hy] at h2
      simp only at h2
      subst h2
      have ht : filepath.Join [top, strings.ReplaceAll b "/" "-"] = cmd.targetPath env b := by
        simp [cmd.targetPath, StateT.run, hx, hy]
      simp only [ht, bind_apply, ListWorktrees_apply, hpath]
      generalize s ++ ext2 = pre at hq ⊢
      generalize env.exec _ "." "git" ["worktree", "list", "--porcelain"] = l
      rcases l with ⟨_ | le, lo, lx⟩
      · simp only []
        by_cases hany :
            ((git.parseWorktrees lo).any fun wt => wt.Path == cmd.targetPath env b) = true
        · simp only [hany, if_true, bind_apply, pure_apply, openInEditor_apply,
            List.append_assoc, List.singleton_append]
          refine cmd.ClaimRun.resume pre ⟨none, lo, lx⟩ _ hq rfl ?_
          simpa using hany
        · have hout : ∀ wt ∈ git.parseWorktrees lo, wt.Path ≠ cmd.targetPath env b := by
            simpa using hany
          simp only [hany, if_false, Bool.false_eq_true, bind_apply, pool.NewManager]
          rcases hm : ops.NewManager (cmd.repoIn env) with e | m₀
          · simp only [pure_apply, List.append_assoc, List.singleton_append]
            exact cmd.ClaimRun.noManager pre ⟨none, lo, lx⟩ e hq rfl hout
          · simp only [bind_apply, GetAvailable_apply]
            rcases hg : ops.GetAvailable m₀ with ⟨⟨p, n, (_ | e)⟩, m₁⟩
            · simp only [bind_apply, MarkInUse_apply]
              rcases hmk : ops.MarkInUse m₁ n with ⟨(_ | e), m₂⟩
              · simp only [bind_apply, osStat_apply]
                generalize env.stat _ (cmd.targetPath env b) = st
                rcases st with _ | _ | _
                · simp only [bind_apply, pure_apply, MarkAvailable_apply, openInEditor_apply,
                    List.append_assoc, List.singleton_append, List.cons_append, List.nil_append]
                  exact cmd.ClaimRun.raced pre ⟨none, lo, lx⟩ p n m₁ m₂ _ hq rfl hout hmk
                all_goals
                  simp only [bind_apply, cmd.setupBranchInPool, bind, pure, RunInDir_apply]
                  generalize env.exec _ p "git" ["fetch", "origin"] = f
                  rcases f with ⟨_ | fe, fo, fx⟩
                  · simp only [gitError_ok, bind_apply, RemoteBranchExists_apply, hpath]
                    generalize env.exec _ "." "git" ["ls-remote", "--heads", "origin", b] = q
                    have hco : (if cmd.remoteExists b q = true then
                          git.CheckoutNewBranch env b ("origin/" ++ b)
                        else git.CheckoutNewBranch env b (cmd.repoIn env).DefaultBranch) =
                        git.CheckoutNewBranch env b (cmd.branchSource env b q) := by
                      simp only [cmd.branchSource]
                      split <;> rfl
                    rw [hco]
                    simp only [git.CheckoutNewBranch, RunInDir_apply]
                    generalize env.exec _ "." "git" ["checkout", "-B", b, _] = c
                    rcases c with ⟨_ | ce, co, cx⟩
                    · simp only [gitError_ok, bind_apply, git.Repository.MoveWorktree, run_apply,
                        hpath]
                      generalize env.exec _ "." "git" ["worktree", "move", p, _] = v
                      rcases v with ⟨_ | ve, vo, vx⟩
                      · simp only [gitError_ok, bind_apply, pure_apply,
                          git.Repository.RepairWorktrees, run_apply, hpath,
                          goRefillPoolAsync_apply, openInEditor_apply,
                          List.append_assoc, List.singleton_append, List.cons_append,
                          List.nil_append]
                        generalize env.exec _ "." "git" ["worktree", "repair"] = x
                        refine cmd.ClaimRun.moved pre ⟨none, lo, lx⟩ p n m₁ m₂ _ ⟨none, fo, fx⟩ q
                          ⟨none, co, cx⟩ ⟨none, vo, vx⟩ x _ hq rfl hout hmk ?_ rfl rfl rfl
                        simp
                      · simp only [gitError_failed, bind_apply, pure_apply, MarkAvailable_apply,
                          List.append_assoc, List.singleton_append, List.cons_append,
                          List.nil_append]
                        refine cmd.ClaimRun.moveFailed pre ⟨none, lo, lx⟩ p n m₁ m₂ _
                          ⟨none, fo, fx⟩ q ⟨none, co, cx⟩ ⟨some ve, vo, vx⟩ hq rfl hout hmk
                          ?_ rfl rfl ?_ <;> simp
                    · simp only [gitError_failed, bind_apply, pure_apply, MarkAvailable_apply,
                        List.append_assoc, List.singleton_append, List.cons_append,
                        List.nil_append]
                      refine cmd.ClaimRun.checkoutFailed pre ⟨none, lo, lx⟩ p n m₁ m₂ _
                        ⟨none, fo, fx⟩ q ⟨some ce, co, cx⟩ hq rfl hout hmk ?_ rfl ?_ <;> simp
                  · simp only [gitError_failed, bind_apply, pure_apply, MarkAvailable_apply,
                      List.append_assoc, List.singleton_append, List.cons_append,
                      List.nil_append]
                    refine cmd.ClaimRun.fetchFailed pre ⟨none, lo, lx⟩ p n m₁ m₂ _
                      ⟨some fe, fo, fx⟩ hq rfl hout hmk ?_ ?_ <;> simp
              · simp only [pure_apply, List.append_assoc, List.singleton_append,
                  List.cons_append, List.nil_append]
                exact cmd.ClaimRun.markFailed pre ⟨none, lo, lx⟩ p n e m₂ hq rfl hout
            · simp only [bind_apply, pure_apply]
              obtain ⟨q, a, hd⟩ := createWorktreeDirect_run env (cmd.repoIn env)
                (cmd.targetPath env b) b
                (pre ++ [Step.exec "." "git" ["worktree", "list", "--porcelain"] ⟨none, lo, lx⟩] ++
                  [Step.NewManager none] ++ [Step.GetAvailable p n (some e)]) hpath
              simp only [List.append_assoc, List.singleton_append, List.cons_append,
                List.nil_append] at hd ⊢
              simp only [hd]
              exact cmd.ClaimRun.direct pre ⟨none, lo, lx⟩ p n e m₁ q a hq rfl hout hd
      · exact cmd.ClaimRun.listFailed _ ⟨some le, lo, lx⟩ _ hq (by simp)
    · rw [hy] at h2
      simp only at h2
      subst h2
      exact cmd.ClaimRun.early _ _ hq

end ClaimFlow

/-! ## Claims on the claim flow -/

section ClaimFlowClaims

variable {M : Type}

/-- A query of `NewRepository` or `GetTopLevel` is not a call of the manager or of `os.Stat`. -/
theorem isQuery_other (s : Step) (h : s.isQuery = true) :
    s.isManagerCall = false ∧ s.isMark = false ∧ s.isStat = false := by
  cases s <;> simp_all [Step.isQuery, Step.isManagerCall, Step.isMark, Step.isStat]

/-- A query of `NewRepository` or `GetTopLevel` is no other git command. -/
theorem isQuery_isGit (s : Step) (h : s.isQuery = true) (w : String) (sub : List String)
    (h1 : w ≠ "rev-parse") (h2 : w ≠ "symbolic-ref") : s.isGit (w :: sub) = false := by
  cases s <;> simp_all [Step.isQuery, Step.isGit]
  rename_i dir name args res
  rcases args with _ | ⟨a, args⟩
  · simp
  · rcases h with ⟨_, h | h⟩ <;> simp_all [List.isPrefixOf]

/-- The editor receives `.` as its only argument, or no argument. -/
theorem editorArgs_cases (cfg : config.Config) :
    cmd.editorArgs cfg = ["."] ∨ cmd.editorArgs cfg = [] := by
  unfold cmd.editorArgs
  split <;> [skip; split] <;> simp

/-- The step of the editor is no call of the manager, no `os.Stat` and no git command
with arguments. -/
theorem editorStep_other (cfg : config.Config) (path : String) (r : ExecResult) :
    (cmd.editorStep cfg path r).isManagerCall = false ∧
      (cmd.editorStep cfg path r).isMark = false ∧ (cmd.editorStep cfg path r).isStat = false :=
  ⟨rfl, rfl, rfl⟩

/-- The editor is never started as a git command with a subcommand. -/
theorem editorStep_isGit (cfg : config.Config) (path : String) (r : ExecResult) (w : String)
    (sub : List String) (hw : w ≠ ".") : (cmd.editorStep cfg path r).isGit (w :: sub) = false := by
  rcases editorArgs_cases cfg with h | h <;> simp [cmd.editorStep, Step.isGit, h, List.isPrefixOf]
  intro _ h
  exact absurd h hw

/-- C4: when the list answered by `git worktree list` holds a worktree at the computed
target path, `createWorktree` makes no call of the pool manager, runs no
`git worktree add` and no `git worktree move`, and its last step opens the editor in
the target path, whose error it returns. -/
theorem createWorktree_resumes_listed_worktree (env : Env) (ops : pool.ManagerOps M)
    (cfg : config.Config) (b : String) (l : ExecResult)
    (hstep : cmd.listStep l ∈ (cmd.createWorktree env ops cfg b).trace)
    (hl : l.err = none)
    (hin : ∃ wt ∈ git.parseWorktrees l.stdout, wt.Path = cmd.targetPath env b) :
    (∀ s ∈ (cmd.createWorktree env ops cfg b).trace,
      s.isManagerCall = false ∧ s.isGit ["worktree", "add"] = false ∧
        s.isGit ["worktree", "move"] = false) ∧
    ∃ pre r, (cmd.createWorktree env ops cfg b).trace =
        pre ++ [cmd.editorStep cfg (cmd.targetPath env b) r] ∧
      (cmd.createWorktree env ops cfg b).result.1 = r.err := by
  have h := createWorktree_run env ops cfg b
  generalize (cmd.createWorktree env ops cfg b).trace = tr at h hstep ⊢
  generalize (cmd.createWorktree env ops cfg b).result.1 = err at h ⊢
  generalize (cmd.createWorktree env ops cfg b).result.2 = mgr at h ⊢
  have hql : ∀ pre : List Step, (∀ t ∈ pre, t.isQuery = true) → cmd.listStep l ∉ pre := by
    intro pre hpre hmem
    have := hpre _ hmem
    simp [cmd.listStep, Step.isQuery] at this
  cases h
  case early e hpre => exact absurd hstep (hql _ hpre)
  case resume pre l' r hpre hl' hin' =>
    refine ⟨?_, pre ++ [cmd.listStep l'], r, by simp, rfl⟩
    intro s hs
    simp only [List.mem_append, List.mem_cons, List.mem_singleton, List.not_mem_nil,
      or_false] at hs
    rcases hs with hs | rfl | rfl
    · exact ⟨(isQuery_other s (hpre s hs)).1,
        isQuery_isGit s (hpre s hs) _ _ (by decide) (by decide),
        isQuery_isGit s (hpre s hs) _ _ (by decide) (by decide)⟩
    · simp [cmd.listStep, Step.isManagerCall, Step.isGit, List.isPrefixOf]
    · exact ⟨(editorStep_other cfg _ r).1, editorStep_isGit cfg _ r _ _ (by decide),
        editorStep_isGit cfg _ r _ _ (by decide)⟩
  all_goals
    exfalso
    simp only [List.mem_append, List.mem_cons, List.mem_singleton, List.not_mem_nil,
      or_false] at hstep
    rcases hstep with hs | hs
    · exact hql _ (by assumption) hs
    · rcases editorArgs_cases cfg with h | h <;>
        simp [cmd.listStep, cmd.lsRemoteStep, cmd.addStep, cmd.fetchStep, cmd.checkoutStep,
          cmd.moveStep, cmd.repairStep, cmd.editorStep, h] at hs <;>
        (subst hs; obtain ⟨wt, hwt, hp⟩ := hin; simp_all)

/-- C3: when `GetAvailable` fails with `NoPoolAvailable`, `createWorktree` returns what
`createWorktreeDirect` returns for the target path and never that error: after
`GetAvailable` it asks `git ls-remote` for the branch and runs one `git worktree add` at
the target path, from `origin/<branch>` when the remote branch exists and from the
default branch otherwise; no `MarkInUse`, `MarkAvailable` or `git worktree move` occurs
in the run. -/
theorem createWorktree_falls_back_when_pool_exhausted (env : Env) (ops : pool.ManagerOps M)
    (cfg : config.Config) (b p n : String)
    (hget : Step.GetAvailable p n (some errors.ErrNoPoolAvailable) ∈
      (cmd.createWorktree env ops cfg b).trace) :
    (∃ pre q a,
      (cmd.createWorktree env ops cfg b).trace =
        pre ++ [Step.GetAvailable p n (some errors.ErrNoPoolAvailable), cmd.lsRemoteStep b q,
          cmd.addStep (cmd.targetPath env b) b
            (if cmd.remoteExists b q = true then "origin/" ++ b
              else (cmd.repoIn env).DefaultBranch) a] ∧
      cmd.createWorktreeDirect env (cmd.repoIn env) (cmd.targetPath env b) b
          (pre ++ [Step.GetAvailable p n (some errors.ErrNoPoolAvailable)]) =
        ((cmd.createWorktree env ops cfg b).result.1,
          (cmd.createWorktree env ops cfg b).trace)) ∧
    (cmd.createWorktree env ops cfg b).result.1 ≠ some errors.ErrNoPoolAvailable ∧
    ∀ s ∈ (cmd.createWorktree env ops cfg b).trace,
      s.isMark = false ∧ s.isGit ["worktree", "move"] = false := by
  have h := createWorktree_run env ops cfg b
  generalize (cmd.createWorktree env ops cfg b).trace = tr at h hget ⊢
  generalize (cmd.createWorktree env ops cfg b).result.1 = err at h ⊢
  generalize (cmd.createWorktree env ops cfg b).result.2 = mgr at h ⊢
  have hqg : ∀ pre : List Step, (∀ t ∈ pre, t.isQuery = true) →
      Step.GetAvailable p n (some errors.ErrNoPoolAvailable) ∉ pre := by
    intro pre hpre hmem
    have := hpre _ hmem
    simp [Step.isQuery] at this
  cases h
  case direct pre l p' n' e m q a hpre hl hout hrun =>
    have hpn : p = p' ∧ n = n' ∧ errors.ErrNoPoolAvailable = e := by
      simp only [List.mem_append, List.mem_cons, List.mem_singleton, List.not_mem_nil,
        or_false] at hget
      rcases hget with hs | hs
      · exact absurd hs (hqg pre hpre)
      · simpa [cmd.listStep, cmd.lsRemoteStep, cmd.addStep] using hs
    obtain ⟨rfl, rfl, rfl⟩ := hpn
    refine ⟨⟨pre ++ [cmd.listStep l, Step.NewManager none], q, a, by simp [cmd.branchSource],
      ?_⟩, ?_, ?_⟩
    · simpa [cmd.branchSource] using hrun
    · rcases a with ⟨_ | ae, ao, ax⟩ <;>
        simp [cmd.addStep, Step.gitError, errors.NewGitError, errors.ErrNoPoolAvailable]
    · intro s hs
      simp only [List.mem_append, List.mem_cons, List.mem_singleton, List.not_mem_nil,
        or_false] at hs
      rcases hs with hs | rfl | rfl | rfl | rfl | rfl
      · exact ⟨(isQuery_other s (hpre s hs)).2.1,
          isQuery_isGit s (hpre s hs) _ _ (by decide) (by decide)⟩
      all_goals
        simp [cmd.listStep, cmd.lsRemoteStep, cmd.addStep, Step.isMark, Step.isGit,
          List.isPrefixOf]
  case early e' hpre => exact absurd hget (hqg _ hpre)
  all_goals
    exfalso
    simp only [List.mem_append, List.mem_cons, List.mem_singleton, List.not_mem_nil,
      or_false] at hget
    rcases hget with hs | hs
    · exact hqg _ (by assumption) hs
    · simp [cmd.listStep, cmd.lsRemoteStep, cmd.addStep, cmd.fetchStep, cmd.checkoutStep,
        cmd.moveStep, cmd.repairStep, cmd.editorStep] at hs

end ClaimFlowClaims

section Compensation

variable {M : Type}

/-- After a successful `MarkInUse`, a failure of the fetch, of the checkout or of the move
is followed by `MarkAvailable` on the same slot, which is the last step of the run, and
the error of the failed command is returned. -/
theorem createWorktree_compensates (env : Env) (ops : pool.ManagerOps M) (cfg : config.Config)
    (b name : String) (s : Step) (e : Error)
    (hmark : Step.MarkInUse name none ∈ (cmd.createWorktree env ops cfg b).trace)
    (hs : s ∈ (cmd.createWorktree env ops cfg b).trace)
    (hkind : s.isGit ["fetch"] = true ∨ s.isGit ["checkout"] = true ∨
      s.isGit ["worktree", "move"] = true)
    (hfail : s.gitError = some e) :
    ∃ pre m₁ m₂, ops.MarkInUse m₁ name = (none, m₂) ∧
      (cmd.createWorktree env ops cfg b).trace =
        pre ++ [Step.MarkAvailable name (ops.MarkAvailable m₂ name).1] ∧
      Step.MarkInUse name none ∈ pre ∧ s ∈ pre ∧
      (cmd.createWorktree env ops cfg b).result.1 = some e ∧
      (cmd.createWorktree env ops cfg b).result.2 = some (ops.MarkAvailable m₂ name).2 := by
  have h := createWorktree_run env ops cfg b
  generalize (cmd.createWorktree env ops cfg b).trace = tr at h hmark hs ⊢
  generalize (cmd.createWorktree env ops cfg b).result.1 = err at h ⊢
  generalize (cmd.createWorktree env ops cfg b).result.2 = mgr at h ⊢
  have hq : ∀ pre : List Step, (∀ t ∈ pre, t.isQuery = true) → s ∉ pre := by
    intro pre hpre hmem
    have h1 := isQuery_isGit s (hpre s hmem) "fetch" [] (by decide) (by decide)
    have h2 := isQuery_isGit s (hpre s hmem) "checkout" [] (by decide) (by decide)
    have h3 := isQuery_isGit s (hpre s hmem) "worktree" ["move"] (by decide) (by decide)
    simp_all
  have hqm : ∀ pre : List Step, (∀ t ∈ pre, t.isQuery = true) →
      Step.MarkInUse name none ∉ pre := by
    intro pre hpre hmem
    have := hpre _ hmem
    simp [Step.isQuery] at this
  have hed : ∀ path r, s ≠ cmd.editorStep cfg path r := by
    rintro path r rfl
    have h1 := editorStep_isGit cfg path r "fetch" [] (by decide)
    have h2 := editorStep_isGit cfg path r "checkout" [] (by decide)
    have h3 := editorStep_isGit cfg path r "worktree" ["move"] (by decide)
    simp_all
  cases h
  case fetchFailed pre l p n m₁ m₂ st f hpre hl hout hmk hst hf =>
    simp only [List.mem_append, List.mem_cons, List.mem_singleton, List.not_mem_nil,
      or_false] at hmark hs
    have hn : name = n := by
      rcases hmark with h | h
      · exact absurd h (hqm pre hpre)
      · simpa [cmd.listStep, cmd.fetchStep] using h
    subst hn
    rcases hs with h | h
    · exact absurd h (hq pre hpre)
    · rcases h with rfl | rfl | rfl | rfl | rfl | rfl | rfl <;>
        first
          | (simp [cmd.listStep, Step.isGit, List.isPrefixOf] at hkind; done)
          | exact ⟨pre ++ [cmd.listStep l, Step.NewManager none, Step.GetAvailable p name none,
              Step.MarkInUse name none, Step.stat (cmd.targetPath env b) st, cmd.fetchStep p f],
              m₁, m₂, hmk, by simp, by simp, by simp, hfail, rfl⟩
  case checkoutFailed pre l p n m₁ m₂ st f q c hpre hl hout hmk hst hf hc =>
    simp only [List.mem_append, List.mem_cons, List.mem_singleton, List.not_mem_nil,
      or_false] at hmark hs
    have hn : name = n := by
      rcases hmark with h | h
      · exact absurd h (hqm pre hpre)
      · simpa [cmd.listStep, cmd.fetchStep, cmd.lsRemoteStep, cmd.checkoutStep] using h
    subst hn
    rcases hs with h | h
    · exact absurd h (hq pre hpre)
    · rcases h with rfl | rfl | rfl | rfl | rfl | rfl | rfl | rfl | rfl <;>
        first
          | (simp [cmd.listStep, cmd.lsRemoteStep, Step.isGit, List.isPrefixOf] at hkind; done)
          | (simp [cmd.fetchStep, Step.gitError, hf] at hfail; done)
          | exact ⟨pre ++ [cmd.listStep l, Step.NewManager none, Step.GetAvailable p name none,
              Step.MarkInUse name none, Step.stat (cmd.targetPath env b) st, cmd.fetchStep p f,
              cmd.lsRemoteStep b q, cmd.checkoutStep "." b (cmd.branchSource env b q) c],
              m₁, m₂, hmk, by simp, by simp, by simp, hfail, rfl⟩
  case moveFailed pre l p n m₁ m₂ st f q c v hpre hl hout hmk hst hf hc hv =>
    simp only [List.mem_append, List.mem_cons, List.mem_singleton, List.not_mem_nil,
      or_false] at hmark hs
    have hn : name = n := by
      rcases hmark with h | h
      · exact absurd h (hqm pre hpre)
      · simpa [cmd.listStep, cmd.fetchStep, cmd.lsRemoteStep, cmd.checkoutStep, cmd.moveStep]
          using h
    subst hn
    rcases hs with h | h
    · exact absurd h (hq pre hpre)
    · rcases h with rfl | rfl | rfl | rfl | rfl | rfl | rfl | rfl | rfl | rfl <;>
        first
          | (simp [cmd.listStep, cmd.lsRemoteStep, Step.isGit, List.isPrefixOf] at hkind; done)
          | (simp [cmd.fetchStep, cmd.checkoutStep, Step.gitError, hf, hc] at hfail; done)
          | exact ⟨pre ++ [cmd.listStep l, Step.NewManager none, Step.GetAvailable p name none,
              Step.MarkInUse name none, Step.stat (cmd.targetPath env b) st, cmd.fetchStep p f,
              cmd.lsRemoteStep b q, cmd.checkoutStep "." b (cmd.branchSource env b q) c,
              cmd.moveStep p (cmd.targetPath env b) v],
              m₁, m₂, hmk, by simp, by simp, by simp, hfail, rfl⟩
  case early e' hpre => exact absurd hmark (hqm _ hpre)
  case raced pre l p n m₁ m₂ r hpre hl hout hmk =>
    exfalso
    simp only [List.mem_append, List.mem_cons, List.mem_singleton, List.not_mem_nil,
      or_false] at hs
    rcases hs with h | h
    · exact hq pre hpre h
    · rcases h with rfl | rfl | rfl | rfl | rfl | rfl | rfl <;>
        first
          | exact hed _ _ rfl
          | (simp [cmd.listStep, Step.isGit, List.isPrefixOf] at hkind)
  case moved pre l p n m₁ m₂ st f q c v x r hpre hl hout hmk hst hf hc hv =>
    exfalso
    simp only [List.mem_append, List.mem_cons, List.mem_singleton, List.not_mem_nil,
      or_false] at hs
    rcases hs with h | h
    · exact hq pre hpre h
    · rcases h with rfl | rfl | rfl | rfl | rfl | rfl | rfl | rfl | rfl | rfl | rfl | rfl <;>
        first
          | exact hed _ _ rfl
          | (simp [cmd.listStep, cmd.lsRemoteStep, cmd.repairStep, Step.isGit,
              List.isPrefixOf] at hkind; done)
          | (simp [cmd.fetchStep, cmd.checkoutStep, cmd.moveStep, Step.gitError, hf, hc,
              hv] at hfail)
  all_goals
    exfalso
    simp only [List.mem_append, List.mem_cons, List.mem_singleton, List.not_mem_nil,
      or_false] at hmark
    rcases hmark with h | h
    · exact hqm _ (by assumption) h
    · simp [cmd.listStep, cmd.lsRemoteStep, cmd.addStep, cmd.editorStep] at h

end Compensation

section SlotState

/-- Writing the state of a known slot makes it the state that is read back. -/
theorem PoolStatus_lookup_set (ws : List (String × pool.SlotState)) (name : String)
    (st : pool.SlotState) (h : (ws.lookup name).isSome = true) :
    (pool.PoolStatus.set { Worktrees := ws } name st).Worktrees.lookup name = some st := by
  induction ws with
  | nil => simp at h
  | cons kv ws ih =>
    obtain ⟨k, v⟩ := kv
    simp only [pool.PoolStatus.set, List.map_cons] at ih ⊢
    by_cases hk : k = name
    · have e1 : (if (k, v).1 = name then ((k, v).1, st) else (k, v)) = (name, st) := by
        simp [hk]
      rw [e1]
      simp [List.lookup]
    · have e1 : (if (k, v).1 = name then ((k, v).1, st) else (k, v)) = (k, v) := by
        simp [hk]
      have hne : (name == k) = false := by
        simpa using fun h' => hk h'.symm
      rw [e1]
      simp only [List.lookup, hne] at h ⊢
      exact ih h

/-- In the manager of the specification, `MarkAvailable` after a successful `MarkInUse`
of the same slot leaves the slot Available. -/
theorem Manager_available_after_release (m₁ m₂ : pool.Manager) (name : String)
    (h : pool.Manager.MarkInUse m₁ name = (none, m₂)) :
    (pool.Manager.MarkAvailable m₂ name).2.Status.Worktrees.lookup name =
      some pool.SlotState.Available := by
  unfold pool.Manager.MarkInUse at h
  split at h
  · rename_i hk
    simp only [Prod.mk.injEq, true_and] at h
    subst h
    have h2 := PoolStatus_lookup_set m₁.Status.Worktrees name pool.SlotState.InUse hk
    have h3 : ((pool.PoolStatus.set m₁.Status name pool.SlotState.InUse).Worktrees.lookup
        name).isSome = true := by
      rw [show m₁.Status = { Worktrees := m₁.Status.Worktrees } from rfl, h2]
      rfl
    simp only [pool.Manager.MarkAvailable, h3, if_true]
    exact PoolStatus_lookup_set _ name pool.SlotState.Available h3
  · simp at h

end SlotState

section ClaimFlowClaims2

variable {M : Type}

/-- C1: in every run of `createWorktree` over the manager of the specification in which
`MarkInUse` succeeded for a slot, if the fetch or the checkout of `setupBranchInPool`
or the `git worktree move` fails, then `MarkAvailable` is called on that slot as the
last step of the run (after `MarkInUse` and after the failed command), the error
returned is the error of the failed command, and the slot is Available in the manager
the run leaves behind. -/
theorem createWorktree_releases_slot_on_failure (env : Env) (cfg : config.Config)
    (poolDir slotPrefix : String) (stored : Option pool.PoolStatus) (b name : String)
    (s : Step) (e : Error)
    (hmark : Step.MarkInUse name none ∈
      (cmd.createWorktree env (pool.specManager poolDir slotPrefix stored) cfg b).trace)
    (hs : s ∈ (cmd.createWorktree env (pool.specManager poolDir slotPrefix stored) cfg b).trace)
    (hkind : s.isGit ["fetch"] = true ∨ s.isGit ["checkout"] = true ∨
      s.isGit ["worktree", "move"] = true)
    (hfail : s.gitError = some e) :
    ∃ pre r m,
      (cmd.createWorktree env (pool.specManager poolDir slotPrefix stored) cfg b).trace =
        pre ++ [Step.MarkAvailable name r] ∧
      Step.MarkInUse name none ∈ pre ∧ s ∈ pre ∧
      (cmd.createWorktree env (pool.specManager poolDir slotPrefix stored) cfg b).result.1 =
        some e ∧
      (cmd.createWorktree env (pool.specManager poolDir slotPrefix stored) cfg b).result.2 =
        some m ∧
      m.Status.Worktrees.lookup name = some pool.SlotState.Available := by
  obtain ⟨pre, m₁, m₂, hmk, htr, hin, hsin, herr, hmgr⟩ :=
    createWorktree_compensates env (pool.specManager poolDir slotPrefix stored) cfg b name s e
      hmark hs hkind hfail
  exact ⟨pre, _, _, htr, hin, hsin, herr, hmgr, Manager_available_after_release m₁ m₂ name hmk⟩

/-- C2 (as amended): an error that `createWorktree` returns after `MarkInUse` succeeded
for a slot is preceded by `MarkAvailable` on that slot whenever no `git worktree move`
of the run succeeded. -/
theorem createWorktree_error_before_move_releases (env : Env) (ops : pool.ManagerOps M)
    (cfg : config.Config) (b name : String) (e : Error)
    (hmark : Step.MarkInUse name none ∈ (cmd.createWorktree env ops cfg b).trace)
    (herr : (cmd.createWorktree env ops cfg b).result.1 = some e)
    (hmove : ∀ src dst v, cmd.moveStep src dst v ∈ (cmd.createWorktree env ops cfg b).trace →
      v.err ≠ none) :
    ∃ pre r post,
      (cmd.createWorktree env ops cfg b).trace = pre ++ Step.MarkAvailable name r :: post ∧
      Step.MarkInUse name none ∈ pre := by
  have h := createWorktree_run env ops cfg b
  generalize (cmd.createWorktree env ops cfg b).trace = tr at h hmark hmove ⊢
  generalize (cmd.createWorktree env ops cfg b).result.1 = err at h herr ⊢
  generalize (cmd.createWorktree env ops cfg b).result.2 = mgr at h ⊢
  have hqm : ∀ pre : List Step, (∀ t ∈ pre, t.isQuery = true) →
      Step.MarkInUse name none ∉ pre := by
    intro pre hpre hmem
    have := hpre _ hmem
    simp [Step.isQuery] at this
  cases h
  case early e' hpre => exact absurd hmark (hqm _ hpre)
  case moved pre l p n m₁ m₂ st f q c v x r hpre hl hout hmk hst hf hc hv =>
    exact absurd hv (hmove p (cmd.targetPath env b) v (by simp))
  case raced pre l p n m₁ m₂ r hpre hl hout hmk =>
    simp only [List.mem_append, List.mem_cons, List.mem_singleton, List.not_mem_nil,
      or_false] at hmark
    have hn : name = n := by
      rcases hmark with h | h
      · exact absurd h (hqm pre hpre)
      · simpa [cmd.listStep, cmd.editorStep] using h
    subst hn
    exact ⟨pre ++ [cmd.listStep l, Step.NewManager none, Step.GetAvailable p name none,
      Step.MarkInUse name none, Step.stat (cmd.targetPath env b) StatResult.found],
      (ops.MarkAvailable m₂ name).1,
      [cmd.editorStep cfg (cmd.targetPath env b) r], by simp, by simp⟩
  case fetchFailed pre l p n m₁ m₂ st f hpre hl hout hmk hst hf =>
    simp only [List.mem_append, List.mem_cons, List.mem_singleton, List.not_mem_nil,
      or_false] at hmark
    have hn : name = n := by
      rcases hmark with h | h
      · exact absurd h (hqm pre hpre)
      · simpa [cmd.listStep, cmd.fetchStep] using h
    subst hn
    exact ⟨pre ++ [cmd.listStep l, Step.NewManager none, Step.GetAvailable p name none,
      Step.MarkInUse name none, Step.stat (cmd.targetPath env b) st, cmd.fetchStep p f],
      (ops.MarkAvailable m₂ name).1, [],
      by simp, by simp⟩
  case checkoutFailed pre l p n m₁ m₂ st f q c hpre hl hout hmk hst hf hc =>
    simp only [List.mem_append, List.mem_cons, List.mem_singleton, List.not_mem_nil,
      or_false] at hmark
    have hn : name = n := by
      rcases hmark with h | h
      · exact absurd h (hqm pre hpre)
      · simpa [cmd.listStep, cmd.fetchStep, cmd.lsRemoteStep, cmd.checkoutStep] using h
    subst hn
    exact ⟨pre ++ [cmd.listStep l, Step.NewManager none, Step.GetAvailable p name none,
      Step.MarkInUse name none, Step.stat (cmd.targetPath env b) st, cmd.fetchStep p f,
      cmd.lsRemoteStep b q, cmd.checkoutStep "." b (cmd.branchSource env b q) c],
      (ops.MarkAvailable m₂ name).1, [],
      by simp, by simp⟩
  case moveFailed pre l p n m₁ m₂ st f q c v hpre hl hout hmk hst hf hc hv =>
    simp only [List.mem_append, List.mem_cons, List.mem_singleton, List.not_mem_nil,
      or_false] at hmark
    have hn : name = n := by
      rcases hmark with h | h
      · exact absurd h (hqm pre hpre)
      · simpa [cmd.listStep, cmd.fetchStep, cmd.lsRemoteStep, cmd.checkoutStep, cmd.moveStep]
          using h
    subst hn
    exact ⟨pre ++ [cmd.listStep l, Step.NewManager none, Step.GetAvailable p name none,
      Step.MarkInUse name none, Step.stat (cmd.targetPath env b) st, cmd.fetchStep p f,
      cmd.lsRemoteStep b q, cmd.checkoutStep "." b (cmd.branchSource env b q) c,
      cmd.moveStep p (cmd.targetPath env b) v], (ops.MarkAvailable m₂ name).1, [], by simp,
      by simp⟩
  all_goals
    exfalso
    simp only [List.mem_append, List.mem_cons, List.mem_singleton, List.not_mem_nil,
      or_false] at hmark
    rcases hmark with h | h
    · exact hqm _ (by assumption) h
    · simp [cmd.listStep, cmd.lsRemoteStep, cmd.addStep, cmd.editorStep] at h

end ClaimFlowClaims2

section ClaimFlowClaims3

variable {M : Type}

/-- C5: when `os.Stat` finds the target path after the slot was marked, the run ends with
`MarkInUse`, the `os.Stat`, `MarkAvailable` on the same slot and the editor opened in
the target path, whose error is returned; the run contains no fetch, no checkout and no
`git worktree move`. -/
theorem createWorktree_race_releases_and_resumes (env : Env) (ops : pool.ManagerOps M)
    (cfg : config.Config) (b : String)
    (hstat : Step.stat (cmd.targetPath env b) StatResult.found ∈
      (cmd.createWorktree env ops cfg b).trace) :
    (∃ pre n r r',
      (cmd.createWorktree env ops cfg b).trace =
        pre ++ [Step.MarkInUse n none, Step.stat (cmd.targetPath env b) StatResult.found,
          Step.MarkAvailable n r, cmd.editorStep cfg (cmd.targetPath env b) r'] ∧
      (cmd.createWorktree env ops cfg b).result.1 = r'.err) ∧
    ∀ s ∈ (cmd.createWorktree env ops cfg b).trace,
      s.isGit ["fetch"] = false ∧ s.isGit ["checkout"] = false ∧
        s.isGit ["worktree", "move"] = false := by
  have h := createWorktree_run env ops cfg b
  generalize (cmd.createWorktree env ops cfg b).trace = tr at h hstat ⊢
  generalize (cmd.createWorktree env ops cfg b).result.1 = err at h ⊢
  generalize (cmd.createWorktree env ops cfg b).result.2 = mgr at h ⊢
  have hqs : ∀ pre : List Step, (∀ t ∈ pre, t.isQuery = true) →
      Step.stat (cmd.targetPath env b) StatResult.found ∉ pre := by
    intro pre hpre hmem
    have := hpre _ hmem
    simp [Step.isQuery] at this
  cases h
  case early e' hpre => exact absurd hstat (hqs _ hpre)
  case raced pre l p n m₁ m₂ r hpre hl hout hmk =>
    refine ⟨⟨pre ++ [cmd.listStep l, Step.NewManager none, Step.GetAvailable p n none], n,
      (ops.MarkAvailable m₂ n).1, r, by simp, rfl⟩, ?_⟩
    intro s hs
    simp only [List.mem_append, List.mem_cons, List.mem_singleton, List.not_mem_nil,
      or_false] at hs
    rcases hs with hs | rfl | rfl | rfl | rfl | rfl | rfl | rfl
    · exact ⟨isQuery_isGit s (hpre s hs) _ _ (by decide) (by decide),
        isQuery_isGit s (hpre s hs) _ _ (by decide) (by decide),
        isQuery_isGit s (hpre s hs) _ _ (by decide) (by decide)⟩
    all_goals
      first
        | exact ⟨editorStep_isGit cfg _ r _ _ (by decide),
            editorStep_isGit cfg _ r _ _ (by decide), editorStep_isGit cfg _ r _ _ (by decide)⟩
        | simp [cmd.listStep, Step.isGit, List.isPrefixOf]
  all_goals
    exfalso
    simp only [List.mem_append, List.mem_cons, List.mem_singleton, List.not_mem_nil,
      or_false] at hstat
    rcases hstat with h | h
    · exact hqs _ (by assumption) h
    · simp [cmd.listStep, cmd.lsRemoteStep, cmd.addStep, cmd.fetchStep, cmd.checkoutStep,
        cmd.moveStep, cmd.repairStep, cmd.editorStep] at h
      try exact absurd h.symm (by assumption)

/-- C6: when `GetAvailable` returns a slot, the next step of `createWorktree` is
`MarkInUse` on that slot; before it the run made no `os.Stat`, no fetch, no checkout and
no `git worktree move`, and if `MarkInUse` fails the run ends there and returns its
error. -/
theorem createWorktree_marks_slot_first (env : Env) (ops : pool.ManagerOps M)
    (cfg : config.Config) (b p n : String)
    (hget : Step.GetAvailable p n none ∈ (cmd.createWorktree env ops cfg b).trace) :
    ∃ pre r post,
      (cmd.createWorktree env ops cfg b).trace =
        pre ++ Step.GetAvailable p n none :: Step.MarkInUse n r :: post ∧
      (∀ s ∈ pre, s.isStat = false ∧ s.isGit ["fetch"] = false ∧
        s.isGit ["checkout"] = false ∧ s.isGit ["worktree", "move"] = false) ∧
      ∀ e, r = some e →
        post = [] ∧ (cmd.createWorktree env ops cfg b).result.1 = some e := by
  have h := createWorktree_run env ops cfg b
  generalize (cmd.createWorktree env ops cfg b).trace = tr at h hget ⊢
  generalize (cmd.createWorktree env ops cfg b).result.1 = err at h ⊢
  generalize (cmd.createWorktree env ops cfg b).result.2 = mgr at h ⊢
  have hqg : ∀ pre : List Step, (∀ t ∈ pre, t.isQuery = true) →
      Step.GetAvailable p n none ∉ pre := by
    intro pre hpre hmem
    have := hpre _ hmem
    simp [Step.isQuery] at this
  have hclean : ∀ (pre : List Step) (l : ExecResult), (∀ t ∈ pre, t.isQuery = true) →
      ∀ s ∈ pre ++ [cmd.listStep l, Step.NewManager none],
        s.isStat = false ∧ s.isGit ["fetch"] = false ∧
          s.isGit ["checkout"] = false ∧ s.isGit ["worktree", "move"] = false := by
    intro pre l hpre s hs
    simp only [List.mem_append, List.mem_cons, List.mem_singleton, List.not_mem_nil,
      or_false] at hs
    rcases hs with hs | rfl | rfl
    · exact ⟨(isQuery_other s (hpre s hs)).2.2,
        isQuery_isGit s (hpre s hs) _ _ (by decide) (by decide),
        isQuery_isGit s (hpre s hs) _ _ (by decide) (by decide),
        isQuery_isGit s (hpre s hs) _ _ (by decide) (by decide)⟩
    · simp [cmd.listStep, Step.isStat, Step.isGit, List.isPrefixOf]
    · simp [Step.isStat, Step.isGit]
  have hpn : ∀ (pre : List Step) (l : ExecResult) (p' n' : String) (rest : List Step),
      (∀ t ∈ pre, t.isQuery = true) →
      Step.GetAvailable p n none ∈
        pre ++ cmd.listStep l :: Step.NewManager none :: Step.GetAvailable p' n' none :: rest →
      (∀ t ∈ rest, t ≠ Step.GetAvailable p n none) → p = p' ∧ n = n' := by
    intro pre l p' n' rest hpre hmem hrest
    simp only [List.mem_append, List.mem_cons] at hmem
    rcases hmem with h | h | h | h | h
    · exact absurd h (hqg pre hpre)
    · simp [cmd.listStep] at h
    · simp at h
    · simpa using h
    · exact absurd rfl (hrest _ h)
  cases h
  case early e' hpre => exact absurd hget (hqg _ hpre)
  case markFailed pre l p' n' e' m hpre hl hout =>
    obtain ⟨rfl, rfl⟩ := hpn pre l p' n' _ hpre hget (by simp)
    refine ⟨pre ++ [cmd.listStep l, Step.NewManager none], some e', [], by simp,
      hclean pre l hpre, ?_⟩
    intro e he
    exact ⟨rfl, he⟩
  case raced pre l p' n' m₁ m₂ r hpre hl hout hmk =>
    obtain ⟨rfl, rfl⟩ := hpn pre l p' n' _ hpre hget (by simp [cmd.editorStep])
    exact ⟨pre ++ [cmd.listStep l, Step.NewManager none], none, _,
      by rw [List.append_assoc]; rfl, hclean pre l hpre, by simp⟩
  case fetchFailed pre l p' n' m₁ m₂ st f hpre hl hout hmk hst hf =>
    obtain ⟨rfl, rfl⟩ := hpn pre l p' n' _ hpre hget (by simp [cmd.fetchStep])
    exact ⟨pre ++ [cmd.listStep l, Step.NewManager none], none, _,
      by rw [List.append_assoc]; rfl, hclean pre l hpre, by simp⟩
  case checkoutFailed pre l p' n' m₁ m₂ st f q c hpre hl hout hmk hst hf hc =>
    obtain ⟨rfl, rfl⟩ := hpn pre l p' n' _ hpre hget
      (by simp [cmd.fetchStep, cmd.lsRemoteStep, cmd.checkoutStep])
    exact ⟨pre ++ [cmd.listStep l, Step.NewManager none], none, _,
      by rw [List.append_assoc]; rfl, hclean pre l hpre, by simp⟩
  case moveFailed pre l p' n' m₁ m₂ st f q c v hpre hl hout hmk hst hf hc hv =>
    obtain ⟨rfl, rfl⟩ := hpn pre l p' n' _ hpre hget
      (by simp [cmd.fetchStep, cmd.lsRemoteStep, cmd.checkoutStep, cmd.moveStep])
    exact ⟨pre ++ [cmd.listStep l, Step.NewManager none], none, _,
      by rw [List.append_assoc]; rfl, hclean pre l hpre, by simp⟩
  case moved pre l p' n' m₁ m₂ st f q c v x r hpre hl hout hmk hst hf hc hv =>
    obtain ⟨rfl, rfl⟩ := hpn pre l p' n' _ hpre hget
      (by simp [cmd.fetchStep, cmd.lsRemoteStep, cmd.checkoutStep, cmd.moveStep,
        cmd.repairStep, cmd.editorStep])
    exact ⟨pre ++ [cmd.listStep l, Step.NewManager none], none, _,
      by rw [List.append_assoc]; rfl, hclean pre l hpre, by simp⟩
  all_goals
    exfalso
    simp only [List.mem_append, List.mem_cons, List.mem_singleton, List.not_mem_nil,
      or_false] at hget
    rcases hget with h | h
    · exact hqg _ (by assumption) h
    · simp [cmd.listStep, cmd.lsRemoteStep, cmd.addStep, cmd.editorStep] at h

end ClaimFlowClaims3

/-! ## Sample runs of the claim flow -/

section ClaimFlowSamples

/-- Witness of C1: the fetch fails in the sample world. -/
theorem createWorktree_releases_slot_on_failure_witness :
    ∃ pre r m,
      (cmd.createWorktree (sample.env sample.mainOnly sample.nothing [["fetch", "origin"]])
          (pool.specManager "/repo/.worktree-pool" "pool-" (some sample.stored)) sample.cfg
          "feature/a").trace = pre ++ [Step.MarkAvailable "pool-2" r] ∧
      Step.MarkInUse "pool-2" none ∈ pre ∧
      cmd.fetchStep "/repo/.worktree-pool/pool-2"
        { err := some sample.exitError, stdout := "", stderr := "fatal" } ∈ pre ∧
      (cmd.createWorktree (sample.env sample.mainOnly sample.nothing [["fetch", "origin"]])
          (pool.specManager "/repo/.worktree-pool" "pool-" (some sample.stored)) sample.cfg
          "feature/a").result.1 = some (Error.git "fetch origin" "" sample.exitError) ∧
      (cmd.createWorktree (sample.env sample.mainOnly sample.nothing [["fetch", "origin"]])
          (pool.specManager "/repo/.worktree-pool" "pool-" (some sample.stored)) sample.cfg
          "feature/a").result.2 = some m ∧
      m.Status.Worktrees.lookup "pool-2" = some pool.SlotState.Available :=
  createWorktree_releases_slot_on_failure
    (sample.env sample.mainOnly sample.nothing [["fetch", "origin"]]) sample.cfg
    "/repo/.worktree-pool" "pool-" (some sample.stored) "feature/a" "pool-2"
    (cmd.fetchStep "/repo/.worktree-pool/pool-2"
      { err := some sample.exitError, stdout := "", stderr := "fatal" })
    (Error.git "fetch origin" "" sample.exitError) (by decide) (by decide) (by decide)
    (by decide)

/-- Counterexample to C2: in the sample world the editor fails after the worktree was
moved; `createWorktree` returns the error although `MarkInUse` succeeded for `pool-2`,
and `MarkAvailable` is never called. -/
theorem createWorktree_editor_failure_keeps_slot :
    Step.MarkInUse "pool-2" none ∈
      (cmd.createWorktree (sample.env sample.mainOnly sample.nothing [["code"]]) sample.manager
        sample.cfg "feature/a").trace ∧
    (cmd.createWorktree (sample.env sample.mainOnly sample.nothing [["code"]]) sample.manager
        sample.cfg "feature/a").result.1 = some sample.exitError ∧
    ¬ ∃ name r, Step.MarkAvailable name r ∈
      (cmd.createWorktree (sample.env sample.mainOnly sample.nothing [["code"]]) sample.manager
        sample.cfg "feature/a").trace := by
  refine ⟨by decide, by decide, ?_⟩
  rintro ⟨name, r, h⟩
  have hall : ((cmd.createWorktree (sample.env sample.mainOnly sample.nothing [["code"]])
      sample.manager sample.cfg "feature/a").trace.all
        (fun s => !s.isMark || s == Step.MarkInUse "pool-2" none)) = true := by decide
  have := List.all_eq_true.1 hall _ h
  simp [Step.isMark] at this

/-- Witness of the amended C2: the fetch fails in the sample world. -/
theorem createWorktree_error_before_move_releases_witness :
    ∃ pre r post,
      (cmd.createWorktree (sample.env sample.mainOnly sample.nothing [["fetch", "origin"]])
        sample.manager sample.cfg "feature/a").trace =
          pre ++ Step.MarkAvailable "pool-2" r :: post ∧
      Step.MarkInUse "pool-2" none ∈ pre :=
  createWorktree_error_before_move_releases
    (sample.env sample.mainOnly sample.nothing [["fetch", "origin"]]) sample.manager sample.cfg
    "feature/a" "pool-2" (Error.git "fetch origin" "" sample.exitError) (by decide) (by decide)
    (by
      intro src dst v hv
      have hall : ((cmd.createWorktree
          (sample.env sample.mainOnly sample.nothing [["fetch", "origin"]]) sample.manager
          sample.cfg "feature/a").trace.all
            (fun s => !s.isGit ["worktree", "move"])) = true := by decide
      have := List.all_eq_true.1 hall _ hv
      simp [cmd.moveStep, Step.isGit, List.isPrefixOf] at this)

/-- Witness of C3: the pool of the sample world is empty. -/
theorem createWorktree_falls_back_when_pool_exhausted_witness :
    (∃ pre q a,
      (cmd.createWorktree (sample.env sample.mainOnly sample.nothing []) sample.emptyManager
          sample.cfg "feature/a").trace =
        pre ++ [Step.GetAvailable "" "" (some errors.ErrNoPoolAvailable),
          cmd.lsRemoteStep "feature/a" q,
          cmd.addStep (cmd.targetPath (sample.env sample.mainOnly sample.nothing []) "feature/a")
            "feature/a"
            (if cmd.remoteExists "feature/a" q = true then "origin/" ++ "feature/a"
              else (cmd.repoIn (sample.env sample.mainOnly sample.nothing [])).DefaultBranch) a] ∧
      cmd.createWorktreeDirect (sample.env sample.mainOnly sample.nothing [])
          (cmd.repoIn (sample.env sample.mainOnly sample.nothing []))
          (cmd.targetPath (sample.env sample.mainOnly sample.nothing []) "feature/a") "feature/a"
          (pre ++ [Step.GetAvailable "" "" (some errors.ErrNoPoolAvailable)]) =
        ((cmd.createWorktree (sample.env sample.mainOnly sample.nothing []) sample.emptyManager
            sample.cfg "feature/a").result.1,
          (cmd.createWorktree (sample.env sample.mainOnly sample.nothing []) sample.emptyManager
            sample.cfg "feature/a").trace)) ∧
    (cmd.createWorktree (sample.env sample.mainOnly sample.nothing []) sample.emptyManager
        sample.cfg "feature/a").result.1 ≠ some errors.ErrNoPoolAvailable ∧
    ∀ s ∈ (cmd.createWorktree (sample.env sample.mainOnly sample.nothing []) sample.emptyManager
        sample.cfg "feature/a").trace,
      s.isMark = false ∧ s.isGit ["worktree", "move"] = false :=
  createWorktree_falls_back_when_pool_exhausted (sample.env sample.mainOnly sample.nothing [])
    sample.emptyManager sample.cfg "feature/a" "" "" (by decide)

/-- Witness of C4: the sample world lists a worktree at `/repo/feature-a`. -/
theorem createWorktree_resumes_listed_worktree_witness :
    (∀ s ∈ (cmd.createWorktree (sample.env sample.withFeature sample.nothing []) sample.manager
        sample.cfg "feature/a").trace,
      s.isManagerCall = false ∧ s.isGit ["worktree", "add"] = false ∧
        s.isGit ["worktree", "move"] = false) ∧
    ∃ pre r, (cmd.createWorktree (sample.env sample.withFeature sample.nothing [])
        sample.manager sample.cfg "feature/a").trace =
        pre ++ [cmd.editorStep sample.cfg
          (cmd.targetPath (sample.env sample.withFeature sample.nothing []) "feature/a") r] ∧
      (cmd.createWorktree (sample.env sample.withFeature sample.nothing []) sample.manager
        sample.cfg "feature/a").result.1 = r.err :=
  createWorktree_resumes_listed_worktree (sample.env sample.withFeature sample.nothing [])
    sample.manager sample.cfg "feature/a"
    { err := none, stdout := sample.withFeature, stderr := "" } (by decide) rfl
    ⟨{ Path := "/repo/feature-a", Branch := "feature/a", Commit := "2222", Bare := false },
      by decide, by decide⟩

/-- Witness of C5: in the sample world every path exists. -/
theorem createWorktree_race_releases_and_resumes_witness :
    (∃ pre n r r',
      (cmd.createWorktree (sample.env sample.mainOnly (fun _ => StatResult.found) [])
          sample.manager sample.cfg "feature/a").trace =
        pre ++ [Step.MarkInUse n none,
          Step.stat (cmd.targetPath (sample.env sample.mainOnly (fun _ => StatResult.found) [])
            "feature/a") StatResult.found,
          Step.MarkAvailable n r,
          cmd.editorStep sample.cfg
            (cmd.targetPath (sample.env sample.mainOnly (fun _ => StatResult.found) [])
              "feature/a") r'] ∧
      (cmd.createWorktree (sample.env sample.mainOnly (fun _ => StatResult.found) [])
          sample.manager sample.cfg "feature/a").result.1 = r'.err) ∧
    ∀ s ∈ (cmd.createWorktree (sample.env sample.mainOnly (fun _ => StatResult.found) [])
        sample.manager sample.cfg "feature/a").trace,
      s.isGit ["fetch"] = false ∧ s.isGit ["checkout"] = false ∧
        s.isGit ["worktree", "move"] = false :=
  createWorktree_race_releases_and_resumes
    (sample.env sample.mainOnly (fun _ => StatResult.found) []) sample.manager sample.cfg
    "feature/a" (by decide)

/-- Witness of C6: the manager of the sample world hands out `pool-1` and cannot mark it. -/
theorem createWorktree_marks_slot_first_witness :
    ∃ pre r post,
      (cmd.createWorktree (sample.env sample.mainOnly sample.nothing []) sample.brokenManager
          sample.cfg "feature/a").trace =
        pre ++ Step.GetAvailable "/repo/.worktree-pool/pool-1" "pool-1" none ::
          Step.MarkInUse "pool-1" r :: post ∧
      (∀ s ∈ pre, s.isStat = false ∧ s.isGit ["fetch"] = false ∧
        s.isGit ["checkout"] = false ∧ s.isGit ["worktree", "move"] = false) ∧
      ∀ e, r = some e →
        post = [] ∧
          (cmd.createWorktree (sample.env sample.mainOnly sample.nothing [])
            sample.brokenManager sample.cfg "feature/a").result.1 = some e :=
  createWorktree_marks_slot_first (sample.env sample.mainOnly sample.nothing [])
    sample.brokenManager sample.cfg "feature/a" "/repo/.worktree-pool/pool-1" "pool-1"
    (by decide)

/-- C8 (the code at a concrete input): for the slot `/repo/.worktree-pool/pool-2`,
`setupBranchInPool` runs the fetch in the slot, but `git ls-remote` and the checkout run
in the directory `"."` of the process. -/
theorem setupBranchInPool_checkout_outside_slot :
    (cmd.setupBranchInPool (sample.env sample.mainOnly sample.nothing [])
        { Path := ".", IsBare := false, DefaultBranch := "main" } "/repo/.worktree-pool/pool-2"
        "feature-a").trace =
      [cmd.fetchStep "/repo/.worktree-pool/pool-2" { err := none, stdout := "", stderr := "" },
        cmd.lsRemoteStep "feature-a" { err := none, stdout := "", stderr := "" },
        cmd.checkoutStep "." "feature-a" "main" { err := none, stdout := "", stderr := "" }] ∧
    "." ≠ "/repo/.worktree-pool/pool-2" := by
  decide

end ClaimFlowSamples

/-! ## The scan of `findOrCreatePoolSlot` -/

section SlotScan

variable {M : Type}

/-- The loop over `n` candidates from index `i`, on a file system that does not change
during the scan: either it returns the first candidate reported missing, or it returns
nothing and no candidate is reported missing. -/
theorem findSlotLoop_spec (env : Env) (consts : pool.Constants) (topLevel : String)
    (fs : String → StatResult) (hfs : ∀ n p, env.stat n p = fs p) :
    ∀ (n i : Nat) (tr : List Step),
      ((cmd.findSlotLoop env consts topLevel n i tr).1 = none ∧
        ∀ j, i ≤ j → j < i + n →
          fs (cmd.candidatePath consts topLevel j) ≠ StatResult.notExist) ∨
      ∃ k, i ≤ k ∧ k < i + n ∧
        (cmd.findSlotLoop env consts topLevel n i tr).1 =
          some (consts.PoolPrefix ++ toString k) ∧
        fs (cmd.candidatePath consts topLevel k) = StatResult.notExist ∧
        ∀ j, i ≤ j → j < k →
          fs (cmd.candidatePath consts topLevel j) ≠ StatResult.notExist := by
  intro n
  induction n with
  | zero =>
    intro i tr
    left
    refine ⟨rfl, ?_⟩
    intro j h1 h2
    omega
  | succ n ih =>
    intro i tr
    have hstep : cmd.findSlotLoop env consts topLevel (n + 1) i tr =
        (match fs (cmd.candidatePath consts topLevel i) with
          | StatResult.notExist =>
            (some (consts.PoolPrefix ++ toString i),
              tr ++ [Step.stat (cmd.candidatePath consts topLevel i) StatResult.notExist])
          | st => cmd.findSlotLoop env consts topLevel n (i + 1)
              (tr ++ [Step.stat (cmd.candidatePath consts topLevel i) st])) := by
      simp only [cmd.findSlotLoop, bind, bind_apply, osStat_apply, hfs, cmd.candidatePath]
      cases fs (filepath.Join [topLevel, consts.PoolDir, consts.PoolPrefix ++ toString i]) <;>
        rfl
    rw [hstep]
    cases hst : fs (cmd.candidatePath consts topLevel i)
    case notExist =>
      right
      refine ⟨i, le_refl _, by omega, rfl, hst, ?_⟩
      intro j h1 h2
      omega
    all_goals
      simp only
      rcases ih (i + 1) (tr ++ [Step.stat (cmd.candidatePath consts topLevel i) _]) with
        ⟨hn, hall⟩ | ⟨k, hk1, hk2, hres, hk, hall⟩
      · left
        refine ⟨hn, ?_⟩
        intro j h1 h2
        rcases Nat.eq_or_lt_of_le h1 with h | h
        · subst h
          rw [hst]
          simp
        · exact hall j h (by omega)
      · right
        refine ⟨k, by omega, by omega, hres, hk, ?_⟩
        intro j h1 h2
        rcases Nat.eq_or_lt_of_le h1 with h | h
        · subst h
          rw [hst]
          simp
        · exact hall j h h2

/-- The value of `findOrCreatePoolSlot`, in terms of its three stages. -/
theorem findOrCreatePoolSlot_apply (env : Env) (ops : pool.ManagerOps M)
    (consts : pool.Constants) (manager : M) (repo : git.Repository) (tr : List Step) :
    (cmd.findOrCreatePoolSlot env ops consts manager repo tr).1 =
      match (repo.GetTopLevel env tr).1.2 with
      | some err => (("", some err), manager)
      | none =>
        match (cmd.findSlotLoop env consts (repo.GetTopLevel env tr).1.1
            ((ops.GetStatus manager).1.1 + 1).toNat 1
            ((repo.GetTopLevel env tr).2 ++
              [Step.GetStatus (ops.GetStatus manager).1.1 (ops.GetStatus manager).1.2])).1 with
        | some poolName => ((poolName, none), (ops.GetStatus manager).2)
        | none =>
          (("", some (Error.errorf "unable to find available pool slot")),
            (ops.GetStatus manager).2) := by
  simp only [cmd.findOrCreatePoolSlot, bind, bind_apply]
  cases (repo.GetTopLevel env tr).1.2
  · simp only [bind_apply, GetStatus_apply, pure, pure_apply]
    cases (cmd.findSlotLoop env consts (repo.GetTopLevel env tr).1.1
      ((ops.GetStatus manager).1.1 + 1).toNat 1
      ((repo.GetTopLevel env tr).2 ++
        [Step.GetStatus (ops.GetStatus manager).1.1 (ops.GetStatus manager).1.2])).1 <;> rfl
  · rfl

theorem mem_candidates (total : Int) (i : Nat) :
    i ∈ cmd.candidates total ↔ 1 ≤ i ∧ (i : Int) ≤ total + 1 := by
  simp only [cmd.candidates, List.mem_map, List.mem_range]
  constructor
  · rintro ⟨k, hk, rfl⟩
    omega
  · rintro ⟨h1, h2⟩
    exact ⟨i - 1, by omega, by omega⟩

theorem length_candidates (total : Int) :
    (cmd.candidates total).length = (total + 1).toNat := by
  simp [cmd.candidates]

end SlotScan

/-! ## Claims on `findOrCreatePoolSlot` -/

section SlotScanClaims

variable {M : Type}

/-- C9: on a file system that stays as it is during the scan, a name returned by
`findOrCreatePoolSlot` is `<prefix>i` for an index `i` of `1 .. total+1` whose path
`<topLevel>/<poolDir>/<prefix>i` `os.Stat` reports missing, and `i` is the smallest such
index: for every smaller index `os.Stat` does not report the path missing, hence finds
it whenever it can tell at all.  This holds for every `total`; a negative one yields
no name. -/
theorem findOrCreatePoolSlot_returns_first_missing (env : Env) (ops : pool.ManagerOps M)
    (consts : pool.Constants) (manager : M) (repo : git.Repository)
    (fs : String → StatResult) (tr : List Step) (name : String)
    (hfs : ∀ n p, env.stat n p = fs p)
    (hret : (cmd.findOrCreatePoolSlot env ops consts manager repo tr).1.1 = (name, none)) :
    ∃ i : Nat, 1 ≤ i ∧ (i : Int) ≤ (ops.GetStatus manager).1.1 + 1 ∧
      name = consts.PoolPrefix ++ toString i ∧
      fs (cmd.candidatePath consts (repo.GetTopLevel env tr).1.1 i) = StatResult.notExist ∧
      ∀ j : Nat, 1 ≤ j → j < i →
        fs (cmd.candidatePath consts (repo.GetTopLevel env tr).1.1 j) ≠ StatResult.notExist ∧
        (fs (cmd.candidatePath consts (repo.GetTopLevel env tr).1.1 j) ≠ StatResult.failed →
          fs (cmd.candidatePath consts (repo.GetTopLevel env tr).1.1 j) = StatResult.found) := by
  rw [findOrCreatePoolSlot_apply] at hret
  cases htop : (repo.GetTopLevel env tr).1.2 with
  | some err =>
    rw [htop] at hret
    simp at hret
  | none =>
    rw [htop] at hret
    simp only at hret
    rcases findSlotLoop_spec env consts (repo.GetTopLevel env tr).1.1 fs hfs
        ((ops.GetStatus manager).1.1 + 1).toNat 1
        ((repo.GetTopLevel env tr).2 ++
          [Step.GetStatus (ops.GetStatus manager).1.1 (ops.GetStatus manager).1.2]) with
      ⟨hn, _⟩ | ⟨k, hk1, hk2, hres, hk, hall⟩
    · rw [hn] at hret
      simp at hret
    · rw [hres] at hret
      simp only [Prod.mk.injEq, and_true] at hret
      refine ⟨k, hk1, by omega, hret.symm, hk, ?_⟩
      intro j h1 h2
      refine ⟨hall j h1 h2, ?_⟩
      intro hf
      have := hall j h1 h2
      cases hj : fs (cmd.candidatePath consts (repo.GetTopLevel env tr).1.1 j) <;> simp_all

/-- C10 (as amended): on a file system that stays as it is during the scan.  When
`GetTopLevel` fails, `findOrCreatePoolSlot` fails with the error of `GetTopLevel`.  When
`GetTopLevel` succeeds, a slot name is returned exactly when `os.Stat` reports one of the
`total+1` candidate paths missing; the error `unable to find available pool slot` is
returned exactly when no candidate is reported missing, each candidate being found or
one on which `os.Stat` failed for another reason; and a slot name is returned in
particular whenever `os.Stat` answers for every candidate and at most `total` of the
`total+1` candidate paths exist. -/
theorem findOrCreatePoolSlot_progress (env : Env) (ops : pool.ManagerOps M)
    (consts : pool.Constants) (manager : M) (repo : git.Repository)
    (fs : String → StatResult) (tr : List Step)
    (hfs : ∀ n p, env.stat n p = fs p) :
    (∀ e, (repo.GetTopLevel env tr).1.2 = some e →
      (cmd.findOrCreatePoolSlot env ops consts manager repo tr).1.1 = ("", some e)) ∧
    ((repo.GetTopLevel env tr).1.2 = none →
      ((∃ name, (cmd.findOrCreatePoolSlot env ops consts manager repo tr).1.1 = (name, none)) ↔
        ∃ i ∈ cmd.candidates (ops.GetStatus manager).1.1,
          fs (cmd.candidatePath consts (repo.GetTopLevel env tr).1.1 i) = StatResult.notExist) ∧
      ((cmd.findOrCreatePoolSlot env ops consts manager repo tr).1.1 =
          ("", some (Error.errorf "unable to find available pool slot")) ↔
        ∀ i ∈ cmd.candidates (ops.GetStatus manager).1.1,
          fs (cmd.candidatePath consts (repo.GetTopLevel env tr).1.1 i) = StatResult.found ∨
          fs (cmd.candidatePath consts (repo.GetTopLevel env tr).1.1 i) = StatResult.failed) ∧
      ((∀ i ∈ cmd.candidates (ops.GetStatus manager).1.1,
          fs (cmd.candidatePath consts (repo.GetTopLevel env tr).1.1 i) ≠ StatResult.failed) →
        ((((cmd.candidates (ops.GetStatus manager).1.1).filter
          (cmd.existing fs consts (repo.GetTopLevel env tr).1.1)).length : Nat) : Int) ≤
            (ops.GetStatus manager).1.1 →
        ∃ name, (cmd.findOrCreatePoolSlot env ops consts manager repo tr).1.1 =
          (name, none))) := by
  constructor
  · intro e he
    rw [findOrCreatePoolSlot_apply, he]
  · intro htop
    rw [findOrCreatePoolSlot_apply, htop]
    simp only
    have hcases : ∀ st : StatResult, st ≠ StatResult.notExist ↔
        (st = StatResult.found ∨ st = StatResult.failed) := by
      intro st
      cases st <;> simp
    rcases findSlotLoop_spec env consts (repo.GetTopLevel env tr).1.1 fs hfs
        ((ops.GetStatus manager).1.1 + 1).toNat 1
        ((repo.GetTopLevel env tr).2 ++
          [Step.GetStatus (ops.GetStatus manager).1.1 (ops.GetStatus manager).1.2]) with
      ⟨hn, hall⟩ | ⟨k, hk1, hk2, hres, hk, hall⟩
    · rw [hn]
      simp only
      have hocc : ∀ i ∈ cmd.candidates (ops.GetStatus manager).1.1,
          fs (cmd.candidatePath consts (repo.GetTopLevel env tr).1.1 i) ≠
            StatResult.notExist := by
        intro i hi
        rw [mem_candidates] at hi
        exact hall i hi.1 (by omega)
      refine ⟨⟨?_, ?_⟩, ⟨fun _ i hi => (hcases _).1 (hocc i hi), fun _ => trivial⟩, ?_⟩
      · rintro ⟨name, hname⟩
        simp at hname
      · rintro ⟨i, hi, hmiss⟩
        exact absurd hmiss (hocc i hi)
      · intro hnofail hcount
        exfalso
        have hself : (cmd.candidates (ops.GetStatus manager).1.1).filter
            (cmd.existing fs consts (repo.GetTopLevel env tr).1.1) =
              cmd.candidates (ops.GetStatus manager).1.1 := by
          rw [List.filter_eq_self]
          intro i hi
          have h1 := hocc i hi
          have h2 := hnofail i hi
          simp only [cmd.existing, beq_iff_eq]
          cases hst : fs (cmd.candidatePath consts (repo.GetTopLevel env tr).1.1 i)
          · rfl
          · exact absurd hst h1
          · exact absurd hst h2
        rw [hself, length_candidates] at hcount
        omega
    · rw [hres]
      simp only
      have hmem : k ∈ cmd.candidates (ops.GetStatus manager).1.1 := by
        rw [mem_candidates]
        omega
      refine ⟨⟨fun _ => ⟨k, hmem, hk⟩, fun _ => ⟨_, rfl⟩⟩, ⟨?_, ?_⟩, fun _ _ => ⟨_, rfl⟩⟩
      · intro h
        simp at h
      · intro h
        exfalso
        exact (hcases _).2 (h k hmem) hk

end SlotScanClaims

/-! ## Sample runs of the scan -/

section SlotScanSamples

/-- Witness of C9: `pool-1` and `pool-2` exist in the sample world, so the scan over
`pool-1 .. pool-4` returns `pool-3`. -/
theorem findOrCreatePoolSlot_returns_first_missing_witness :
    ∃ i : Nat, 1 ≤ i ∧ (i : Int) ≤ (sample.manager.GetStatus sample.loaded).1.1 + 1 ∧
      "pool-3" = sample.consts.PoolPrefix ++ toString i ∧
      sample.among ["/repo/.worktree-pool/pool-1", "/repo/.worktree-pool/pool-2"]
        (cmd.candidatePath sample.consts
          (sample.repo.GetTopLevel
            (sample.env sample.mainOnly
              (sample.among ["/repo/.worktree-pool/pool-1", "/repo/.worktree-pool/pool-2"]) [])
            []).1.1 i) = StatResult.notExist ∧
      ∀ j : Nat, 1 ≤ j → j < i →
        sample.among ["/repo/.worktree-pool/pool-1", "/repo/.worktree-pool/pool-2"]
          (cmd.candidatePath sample.consts
            (sample.repo.GetTopLevel
              (sample.env sample.mainOnly
                (sample.among ["/repo/.worktree-pool/pool-1", "/repo/.worktree-pool/pool-2"]) [])
              []).1.1 j) ≠ StatResult.notExist ∧
        (sample.among ["/repo/.worktree-pool/pool-1", "/repo/.worktree-pool/pool-2"]
          (cmd.candidatePath sample.consts
            (sample.repo.GetTopLevel
              (sample.env sample.mainOnly
                (sample.among ["/repo/.worktree-pool/pool-1", "/repo/.worktree-pool/pool-2"]) [])
              []).1.1 j) ≠ StatResult.failed →
          sample.among ["/repo/.worktree-pool/pool-1", "/repo/.worktree-pool/pool-2"]
            (cmd.candidatePath sample.consts
              (sample.repo.GetTopLevel
                (sample.env sample.mainOnly
                  (sample.among ["/repo/.worktree-pool/pool-1", "/repo/.worktree-pool/pool-2"])
                  [])
                []).1.1 j) = StatResult.found) :=
  findOrCreatePoolSlot_returns_first_missing
    (sample.env sample.mainOnly
      (sample.among ["/repo/.worktree-pool/pool-1", "/repo/.worktree-pool/pool-2"]) [])
    sample.manager sample.consts sample.loaded sample.repo
    (sample.among ["/repo/.worktree-pool/pool-1", "/repo/.worktree-pool/pool-2"]) [] "pool-3"
    (fun _ _ => rfl) (by decide)

/-- Witness of the amended C10: the three slots of the sample pool all exist on disk,
three of the four candidates, `os.Stat` answers for each of them, and the scan returns
the fourth, `pool-4`. -/
theorem findOrCreatePoolSlot_progress_witness :
    (cmd.findOrCreatePoolSlot
        (sample.env sample.mainOnly
          (sample.among ["/repo/.worktree-pool/pool-1", "/repo/.worktree-pool/pool-2",
            "/repo/.worktree-pool/pool-3"]) [])
        sample.manager sample.consts sample.loaded sample.repo []).1.1 = ("pool-4", none) ∧
    ∃ name, (cmd.findOrCreatePoolSlot
        (sample.env sample.mainOnly
          (sample.among ["/repo/.worktree-pool/pool-1", "/repo/.worktree-pool/pool-2",
            "/repo/.worktree-pool/pool-3"]) [])
        sample.manager sample.consts sample.loaded sample.repo []).1.1 = (name, none) :=
  ⟨by decide,
    (findOrCreatePoolSlot_progress
      (sample.env sample.mainOnly
        (sample.among ["/repo/.worktree-pool/pool-1", "/repo/.worktree-pool/pool-2",
          "/repo/.worktree-pool/pool-3"]) [])
      sample.manager sample.consts sample.loaded sample.repo
      (sample.among ["/repo/.worktree-pool/pool-1", "/repo/.worktree-pool/pool-2",
        "/repo/.worktree-pool/pool-3"]) [] (fun _ _ => rfl)).2 (by decide) |>.2.2
      (by decide) (by decide)⟩

/-- Counterexample to C10: two runs of the scan over the four candidates of the sample
pool in which none of the candidate paths exists and the scan fails all the same.  In
the first `os.Stat` fails on every path with an error other than "does not exist" (the
pool directory is a regular file, or may not be searched): the loop passes over every
candidate and the error is `unable to find available pool slot`.  In the second no path
exists at all and `GetTopLevel` fails: the error of git is returned before any
candidate is looked at. -/
theorem findOrCreatePoolSlot_fails_without_full_pool :
    (sample.manager.GetStatus sample.loaded).1.1 = 3 ∧
    ((cmd.candidates (sample.manager.GetStatus sample.loaded).1.1).filter
      (cmd.existing sample.unreadable sample.consts "/repo")).length = 0 ∧
    (cmd.findOrCreatePoolSlot
        (sample.env sample.mainOnly sample.unreadable [])
        sample.manager sample.consts sample.loaded sample.repo []).1.1 =
      ("", some (Error.errorf "unable to find available pool slot")) ∧
    ((cmd.candidates (sample.manager.GetStatus sample.loaded).1.1).filter
      (cmd.existing sample.nothing sample.consts "/repo")).length = 0 ∧
    (cmd.findOrCreatePoolSlot
        (sample.env sample.mainOnly sample.nothing
          [["rev-parse", "--show-toplevel"], ["rev-parse", "--git-dir"]])
        sample.manager sample.consts sample.loaded sample.repo []).1.1 =
      ("", some (Error.git "rev-parse --git-dir" "fatal" sample.exitError)) ∧
    (cmd.findOrCreatePoolSlot
        (sample.env sample.mainOnly sample.nothing
          [["rev-parse", "--show-toplevel"], ["rev-parse", "--git-dir"]])
        sample.manager sample.consts sample.loaded sample.repo []).2.filter
          (fun s => s.isStat) = [] := by
  decide

end SlotScanSamples

/-! ## Computations that agree up to the answer of `git worktree repair` -/

section Agreement

variable {M : Type}

theorem Agree_pure {α : Type} (v : α) : Sim.Agree (pure v : Sim α) (pure v) :=
  fun _ _ h => ⟨rfl, h⟩

theorem Agree_bind {α β : Type} {a b : Sim α} {f g : α → Sim β} (hab : Sim.Agree a b)
    (hfg : ∀ v, Sim.Agree (f v) (g v)) : Sim.Agree (a >>= f) (b >>= g) := by
  intro tr tr' h
  obtain ⟨h1, h2⟩ := hab tr tr' h
  simp only [bind, bind_apply]
  rw [h1]
  exact hfg _ _ _ h2

theorem Agree_bind_ignore {α β : Type} {a b : Sim α} {k k' : Sim β}
    (hab : Sim.AgreeTrace a b) (hk : Sim.Agree k k') :
    Sim.Agree (a >>= fun _ => k) (b >>= fun _ => k') := by
  intro tr tr' h
  simp only [bind, bind_apply]
  exact hk _ _ (hab tr tr' h)

theorem forget_length {tr tr' : List Step}
    (h : tr.map Step.forgetRepair = tr'.map Step.forgetRepair) : tr.length = tr'.length := by
  have := congrArg List.length h
  simpa using this

/-- A command other than `git worktree repair` is answered alike in both worlds. -/
theorem Agree_runCommand (env : Env) (x : ExecResult) (dir name : String) (args : List String)
    (hne : ¬ (name = "git" ∧ args = ["worktree", "repair"])) :
    Sim.Agree (runCommand env dir name args) (runCommand (env.withRepair x) dir name args) := by
  intro tr tr' h
  simp only [runCommand_apply, Env.withRepair, if_neg hne, forget_length h, List.map_append, h,
    and_self]

/-- The command `git worktree repair` leaves the same trace in both worlds, up to its answer. -/
theorem AgreeTrace_repair (env : Env) (x : ExecResult) (dir : String) :
    Sim.AgreeTrace (runCommand env dir "git" ["worktree", "repair"])
      (runCommand (env.withRepair x) dir "git" ["worktree", "repair"]) := by
  intro tr tr' h
  simp [runCommand_apply, h, Step.forgetRepair]

theorem Agree_osStat (env : Env) (x : ExecResult) (path : String) :
    Sim.Agree (osStat env path) (osStat (env.withRepair x) path) := by
  intro tr tr' h
  simp only [osStat_apply, Env.withRepair, forget_length h, List.map_append, h, and_self]

theorem Agree_osGetwd (env : Env) (x : ExecResult) :
    Sim.Agree (osGetwd env) (osGetwd (env.withRepair x)) := by
  intro tr tr' h
  simp only [osGetwd_apply, Env.withRepair, forget_length h, List.map_append, h, and_self]

theorem Agree_osChdir (env : Env) (x : ExecResult) (dir : String) :
    Sim.Agree (osChdir env dir) (osChdir (env.withRepair x) dir) := by
  intro tr tr' h
  simp only [osChdir_apply, Env.withRepair, forget_length h, List.map_append, h, and_self]

/-- A computation that asks nothing of the world agrees with itself when each step
it records is kept by `forgetRepair`. -/
theorem Agree_record {α : Type} (v : α) (s : Step) :
    Sim.Agree (fun tr => (v, tr ++ [s]) : Sim α) (fun tr => (v, tr ++ [s])) := by
  intro tr tr' h
  simp [h]

theorem Agree_run (env : Env) (x : ExecResult) (r : git.Repository) (args : List String)
    (hne : args ≠ ["worktree", "repair"]) :
    Sim.Agree (r.run env args) (r.run (env.withRepair x) args) := by
  unfold git.Repository.run
  apply Agree_bind (Agree_runCommand env x _ _ _ (fun h => hne h.2))
  intro res
  cases res.err <;> exact Agree_pure _

theorem Agree_output (env : Env) (x : ExecResult) (r : git.Repository) (args : List String)
    (hne : args ≠ ["worktree", "repair"]) :
    Sim.Agree (r.output env args) (r.output (env.withRepair x) args) := by
  unfold git.Repository.output
  apply Agree_bind (Agree_runCommand env x _ _ _ (fun h => hne h.2))
  intro res
  cases res.err <;> exact Agree_pure _

theorem Agree_RunInDir (env : Env) (x : ExecResult) (dir : String) (args : List String)
    (hne : args ≠ ["worktree", "repair"]) :
    Sim.Agree (git.RunInDir env dir args) (git.RunInDir (env.withRepair x) dir args) := by
  unfold git.RunInDir
  apply Agree_bind (Agree_runCommand env x _ _ _ (fun h => hne h.2))
  intro res
  cases res.err <;> exact Agree_pure _

theorem AgreeTrace_RepairWorktrees (env : Env) (x : ExecResult) (r : git.Repository) :
    Sim.AgreeTrace (r.RepairWorktrees env) (r.RepairWorktrees (env.withRepair x)) := by
  intro tr tr' h
  simp [git.Repository.RepairWorktrees, run_apply, h, Step.forgetRepair]

theorem Agree_NewRepository (env : Env) (x : ExecResult) (path : String) :
    Sim.Agree (git.NewRepository env path) (git.NewRepository (env.withRepair x) path) := by
  unfold git.NewRepository
  apply Agree_bind (Agree_run env x _ _ (by decide))
  intro e
  cases e
  · apply Agree_bind (Agree_output env x _ _ (by decide))
    rintro ⟨o, e⟩
    apply Agree_bind (Agree_output env x _ _ (by decide))
    rintro ⟨o', e'⟩
    exact Agree_pure _
  · exact Agree_pure _

theorem Agree_GetTopLevel (env : Env) (x : ExecResult) (r : git.Repository) :
    Sim.Agree (r.GetTopLevel env) (r.GetTopLevel (env.withRepair x)) := by
  unfold git.Repository.GetTopLevel
  apply Agree_bind (Agree_output env x _ _ (by decide))
  rintro ⟨o, e⟩
  cases e
  · exact Agree_pure _
  · apply Agree_bind (Agree_output env x _ _ (by decide))
    rintro ⟨o', e'⟩
    cases e' <;> exact Agree_pure _

theorem Agree_ListWorktrees (env : Env) (x : ExecResult) (r : git.Repository) :
    Sim.Agree (r.ListWorktrees env) (r.ListWorktrees (env.withRepair x)) := by
  unfold git.Repository.ListWorktrees
  apply Agree_bind (Agree_output env x _ _ (by decide))
  rintro ⟨o, e⟩
  cases e <;> exact Agree_pure _

theorem Agree_RemoteBranchExists (env : Env) (x : ExecResult) (r : git.Repository)
    (branch : String) :
    Sim.Agree (r.RemoteBranchExists env branch)
      (r.RemoteBranchExists (env.withRepair x) branch) := by
  unfold git.Repository.RemoteBranchExists
  apply Agree_bind (Agree_output env x _ _ (by simp))
  rintro ⟨o, e⟩
  exact Agree_pure _

theorem Agree_openInEditor (env : Env) (x : ExecResult) (cfg : config.Config) (path : String) :
    Sim.Agree (cmd.openInEditor env cfg path) (cmd.openInEditor (env.withRepair x) cfg path) := by
  have hne : ¬ (cmd.editorName cfg = "git" ∧ cmd.editorArgs cfg = ["worktree", "repair"]) := by
    rintro ⟨_, h⟩
    rcases editorArgs_cases cfg with h' | h' <;> rw [h'] at h <;> simp at h
  exact Agree_bind (Agree_runCommand env x path _ _ hne) (fun _ => Agree_pure _)

theorem Agree_createWorktreeDirect (env : Env) (x : ExecResult) (repo : git.Repository)
    (path b : String) :
    Sim.Agree (cmd.createWorktreeDirect env repo path b)
      (cmd.createWorktreeDirect (env.withRepair x) repo path b) := by
  unfold cmd.createWorktreeDirect
  apply Agree_bind (Agree_RemoteBranchExists env x _ _)
  intro v
  cases v
  · exact Agree_run env x _ _ (by simp)
  · exact Agree_run env x _ _ (by simp)

theorem Agree_setupBranchInPool (env : Env) (x : ExecResult) (repo : git.Repository)
    (poolPath b : String) :
    Sim.Agree (cmd.setupBranchInPool env repo poolPath b)
      (cmd.setupBranchInPool (env.withRepair x) repo poolPath b) := by
  unfold cmd.setupBranchInPool
  apply Agree_bind (Agree_RunInDir env x _ _ (by decide))
  intro e
  cases e
  · apply Agree_bind (Agree_RemoteBranchExists env x _ _)
    intro v
    cases v
    · exact Agree_RunInDir env x _ _ (by simp)
    · exact Agree_RunInDir env x _ _ (by simp)
  · exact Agree_pure _

theorem Agree_self_NewManager (ops : pool.ManagerOps M) (repo : git.Repository) :
    Sim.Agree (pool.NewManager ops repo) (pool.NewManager ops repo) := by
  intro tr tr' h
  unfold pool.NewManager
  cases ops.NewManager repo <;> simp [h, Step.forgetRepair]

theorem Agree_self_GetAvailable (ops : pool.ManagerOps M) (m : M) :
    Sim.Agree (pool.GetAvailable ops m) (pool.GetAvailable ops m) := by
  intro tr tr' h
  simp [GetAvailable_apply, h, Step.forgetRepair]

theorem Agree_self_MarkInUse (ops : pool.ManagerOps M) (m : M) (name : String) :
    Sim.Agree (pool.MarkInUse ops m name) (pool.MarkInUse ops m name) := by
  intro tr tr' h
  simp [MarkInUse_apply, h, Step.forgetRepair]

theorem Agree_self_MarkAvailable (ops : pool.ManagerOps M) (m : M) (name : String) :
    Sim.Agree (pool.MarkAvailable ops m name) (pool.MarkAvailable ops m name) := by
  intro tr tr' h
  simp [MarkAvailable_apply, h, Step.forgetRepair]

theorem Agree_self_GetStatus (ops : pool.ManagerOps M) (m : M) :
    Sim.Agree (pool.GetStatus ops m) (pool.GetStatus ops m) := by
  intro tr tr' h
  simp [GetStatus_apply, h, Step.forgetRepair]

theorem Agree_self_goRefill : Sim.Agree cmd.goRefillPoolAsync cmd.goRefillPoolAsync := by
  intro tr tr' h
  simp [goRefillPoolAsync_apply, h, Step.forgetRepair]

end Agreement

/-! ## Both flows agree up to the answer of `git worktree repair` -/

section FlowAgreement

variable {M : Type}

theorem Agree_createWorktree (env : Env) (x : ExecResult) (ops : pool.ManagerOps M)
    (cfg : config.Config) (b : String) :
    Sim.Agree (cmd.createWorktree env ops cfg b)
      (cmd.createWorktree (env.withRepair x) ops cfg b) := by
  unfold cmd.createWorktree
  apply Agree_bind (Agree_NewRepository env x _)
  intro r
  cases r with
  | error e => exact Agree_pure _
  | ok repo =>
    apply Agree_bind (Agree_GetTopLevel env x _)
    rintro ⟨topLevel, e⟩
    cases e with
    | some e => exact Agree_pure _
    | none =>
      apply Agree_bind (Agree_ListWorktrees env x _)
      rintro ⟨worktrees, e⟩
      cases e with
      | some e => exact Agree_pure _
      | none =>
        dsimp only
        split
        · exact Agree_bind (Agree_openInEditor env x _ _) (fun _ => Agree_pure _)
        · apply Agree_bind (Agree_self_NewManager ops repo)
          intro m
          cases m with
          | error e => exact Agree_pure _
          | ok manager =>
            apply Agree_bind (Agree_self_GetAvailable ops manager)
            rintro ⟨⟨poolPath, poolName, e⟩, manager⟩
            cases e with
            | some e =>
              exact Agree_bind (Agree_createWorktreeDirect env x _ _ _) (fun _ => Agree_pure _)
            | none =>
              apply Agree_bind (Agree_self_MarkInUse ops manager poolName)
              rintro ⟨e, manager⟩
              cases e with
              | some e => exact Agree_pure _
              | none =>
                apply Agree_bind (Agree_osStat env x _)
                intro st
                have hrest : Sim.Agree
                    (do
                      match ← cmd.setupBranchInPool env repo poolPath b with
                      | some err => do
                        let (_, manager) ← pool.MarkAvailable ops manager poolName
                        pure (some err, some manager)
                      | none =>
                        match ← repo.MoveWorktree env poolPath
                            (filepath.Join [topLevel, strings.ReplaceAll b "/" "-"]) with
                        | some err => do
                          let (_, manager) ← pool.MarkAvailable ops manager poolName
                          pure (some err, some manager)
                        | none => do
                          let _ ← repo.RepairWorktrees env
                          cmd.goRefillPoolAsync
                          let err ← cmd.openInEditor env cfg
                            (filepath.Join [topLevel, strings.ReplaceAll b "/" "-"])
                          pure (err, some manager) : Sim (Option Error × Option M))
                    (do
                      match ← cmd.setupBranchInPool (env.withRepair x) repo poolPath b with
                      | some err => do
                        let (_, manager) ← pool.MarkAvailable ops manager poolName
                        pure (some err, some manager)
                      | none =>
                        match ← repo.MoveWorktree (env.withRepair x) poolPath
                            (filepath.Join [topLevel, strings.ReplaceAll b "/" "-"]) with
                        | some err => do
                          let (_, manager) ← pool.MarkAvailable ops manager poolName
                          pure (some err, some manager)
                        | none => do
                          let _ ← repo.RepairWorktrees (env.withRepair x)
                          cmd.goRefillPoolAsync
                          let err ← cmd.openInEditor (env.withRepair x) cfg
                            (filepath.Join [topLevel, strings.ReplaceAll b "/" "-"])
                          pure (err, some manager)) := by
                  apply Agree_bind (Agree_setupBranchInPool env x _ _ _)
                  intro e
                  cases e with
                  | some e =>
                    exact Agree_bind (Agree_self_MarkAvailable ops manager poolName)
                      (fun _ => Agree_pure _)
                  | none =>
                    apply Agree_bind (Agree_run env x _ _ (by simp))
                    intro e
                    cases e with
                    | some e =>
                      exact Agree_bind (Agree_self_MarkAvailable ops manager poolName)
                        (fun _ => Agree_pure _)
                    | none =>
                      apply Agree_bind_ignore (AgreeTrace_RepairWorktrees env x _)
                      apply Agree_bind Agree_self_goRefill
                      intro _
                      exact Agree_bind (Agree_openInEditor env x _ _) (fun _ => Agree_pure _)
                cases st with
                | found =>
                  apply Agree_bind (Agree_self_MarkAvailable ops manager poolName)
                  rintro ⟨_, manager⟩
                  exact Agree_bind (Agree_openInEditor env x _ _) (fun _ => Agree_pure _)
                | notExist => exact hrest
                | failed => exact hrest

theorem Agree_findSlotLoop (env : Env) (x : ExecResult) (consts : pool.Constants)
    (topLevel : String) :
    ∀ n i : Nat, Sim.Agree (cmd.findSlotLoop env consts topLevel n i)
      (cmd.findSlotLoop (env.withRepair x) consts topLevel n i) := by
  intro n
  induction n with
  | zero =>
    intro i
    exact Agree_pure _
  | succ n ih =>
    intro i
    unfold cmd.findSlotLoop
    apply Agree_bind (Agree_osStat env x _)
    intro st
    cases st
    · exact ih _
    · exact Agree_pure _
    · exact ih _

theorem Agree_findOrCreatePoolSlot (env : Env) (x : ExecResult) (ops : pool.ManagerOps M)
    (consts : pool.Constants) (manager : M) (repo : git.Repository) :
    Sim.Agree (cmd.findOrCreatePoolSlot env ops consts manager repo)
      (cmd.findOrCreatePoolSlot (env.withRepair x) ops consts manager repo) := by
  unfold cmd.findOrCreatePoolSlot
  apply Agree_bind (Agree_GetTopLevel env x _)
  rintro ⟨topLevel, e⟩
  cases e with
  | some e => exact Agree_pure _
  | none =>
    apply Agree_bind (Agree_self_GetStatus ops manager)
    rintro ⟨⟨total, _⟩, manager⟩
    apply Agree_bind (Agree_findSlotLoop env x consts topLevel _ _)
    intro r
    cases r <;> exact Agree_pure _

theorem Agree_returnWorktreeToPool (env : Env) (x : ExecResult) (ops : pool.ManagerOps M)
    (consts : pool.Constants) (b : String) :
    Sim.Agree (cmd.returnWorktreeToPool env ops consts b)
      (cmd.returnWorktreeToPool (env.withRepair x) ops consts b) := by
  unfold cmd.returnWorktreeToPool
  apply Agree_bind (Agree_NewRepository env x _)
  intro r
  cases r with
  | error e => exact Agree_pure _
  | ok repo =>
    apply Agree_bind (Agree_GetTopLevel env x _)
    rintro ⟨topLevel, e⟩
    cases e with
    | some e => exact Agree_pure _
    | none =>
      apply Agree_bind (Agree_ListWorktrees env x _)
      rintro ⟨worktrees, e⟩
      cases e with
      | some e => exact Agree_pure _
      | none =>
        dsimp only
        split
        · exact Agree_pure _
        · apply Agree_bind (Agree_self_NewManager ops repo)
          intro m
          cases m with
          | error e => exact Agree_pure _
          | ok manager =>
            apply Agree_bind (Agree_findOrCreatePoolSlot env x ops consts manager repo)
            rintro ⟨⟨poolSlot, e⟩, manager⟩
            cases e with
            | some e => exact Agree_pure _
            | none =>
              apply Agree_bind
              · apply Agree_bind (Agree_osStat env x _)
                intro st
                cases st
                · exact Agree_run env x _ _ (by simp)
                · exact Agree_pure _
                · exact Agree_pure _
              · intro removed
                cases removed with
                | some e => exact Agree_pure _
                | none =>
                  apply Agree_bind (Agree_run env x _ _ (by simp))
                  intro e
                  cases e with
                  | some e => exact Agree_pure _
                  | none =>
                    apply Agree_bind_ignore (AgreeTrace_RepairWorktrees env x _)
                    apply Agree_bind (Agree_osGetwd env x)
                    rintro ⟨originalDir, e⟩
                    cases e with
                    | some e => exact Agree_pure _
                    | none =>
                      apply Agree_bind (Agree_osChdir env x _)
                      intro e
                      cases e with
                      | some e =>
                        exact Agree_bind (Agree_osChdir env x _) (fun _ => Agree_pure _)
                      | none =>
                        apply Agree_bind (Agree_RunInDir env x _ _ (by simp))
                        intro e
                        cases e with
                        | some e =>
                          exact Agree_bind (Agree_osChdir env x _) (fun _ => Agree_pure _)
                        | none =>
                          apply Agree_bind (Agree_self_MarkAvailable ops manager poolSlot)
                          rintro ⟨e, manager⟩
                          exact Agree_bind (Agree_osChdir env x _) (fun _ => Agree_pure _)

end FlowAgreement

/-! ## Where the flows move and repair -/

section Discipline

variable {M : Type}

theorem Quiet_pure {α : Type} (v : α) : Sim.Quiet (pure v : Sim α) :=
  fun tr => ⟨[], by simp [pure, pure_apply], by simp⟩

theorem Quiet_bind {α β : Type} {a : Sim α} {f : α → Sim β} (ha : Sim.Quiet a)
    (hf : ∀ v, Sim.Quiet (f v)) : Sim.Quiet (a >>= f) := by
  intro tr
  obtain ⟨e1, h1, q1⟩ := ha tr
  obtain ⟨e2, h2, q2⟩ := hf (a tr).1 (a tr).2
  refine ⟨e1 ++ e2, ?_, ?_⟩
  · simp only [bind, bind_apply]
    rw [h2, h1, List.append_assoc]
  · intro s hs
    rcases List.mem_append.1 hs with h | h
    · exact q1 s h
    · exact q2 s h

theorem Quiet_record {α : Type} (v : List Step → α) (s : List Step → Step)
    (hs : ∀ tr, (s tr).quiet = true) : Sim.Quiet (fun tr => (v tr, tr ++ [s tr]) : Sim α) :=
  fun tr => ⟨[s tr], rfl, by simpa using hs tr⟩

theorem Quiet_runCommand (env : Env) (dir name : String) (args : List String)
    (hq : ∀ res, (Step.exec dir name args res).quiet = true) :
    Sim.Quiet (runCommand env dir name args) :=
  fun tr => ⟨[Step.exec dir name args (env.exec tr.length dir name args)], rfl,
    by simpa using hq _⟩

/-- A git command that starts neither with `worktree move` nor with `worktree repair`. -/
theorem quiet_git (dir : String) (args : List String) (res : ExecResult)
    (h1 : List.isPrefixOf ["worktree", "move"] args = false)
    (h2 : List.isPrefixOf ["worktree", "repair"] args = false) :
    (Step.exec dir "git" args res).quiet = true := by
  simp [Step.quiet, Step.isGit, h1, h2]

theorem Quiet_run (env : Env) (r : git.Repository) (args : List String)
    (h1 : List.isPrefixOf ["worktree", "move"] args = false)
    (h2 : List.isPrefixOf ["worktree", "repair"] args = false) :
    Sim.Quiet (r.run env args) := by
  unfold git.Repository.run
  apply Quiet_bind (Quiet_runCommand env _ _ _ (fun res => quiet_git _ _ res h1 h2))
  intro res
  cases res.err <;> exact Quiet_pure _

theorem Quiet_output (env : Env) (r : git.Repository) (args : List String)
    (h1 : List.isPrefixOf ["worktree", "move"] args = false)
    (h2 : List.isPrefixOf ["worktree", "repair"] args = false) :
    Sim.Quiet (r.output env args) := by
  unfold git.Repository.output
  apply Quiet_bind (Quiet_runCommand env _ _ _ (fun res => quiet_git _ _ res h1 h2))
  intro res
  cases res.err <;> exact Quiet_pure _

theorem Quiet_RunInDir (env : Env) (dir : String) (args : List String)
    (h1 : List.isPrefixOf ["worktree", "move"] args = false)
    (h2 : List.isPrefixOf ["worktree", "repair"] args = false) :
    Sim.Quiet (git.RunInDir env dir args) := by
  unfold git.RunInDir
  apply Quiet_bind (Quiet_runCommand env _ _ _ (fun res => quiet_git _ _ res h1 h2))
  intro res
  cases res.err <;> exact Quiet_pure _

theorem Quiet_NewRepository (env : Env) (path : String) :
    Sim.Quiet (git.NewRepository env path) := by
  unfold git.NewRepository
  apply Quiet_bind (Quiet_run env _ _ (by decide) (by decide))
  intro e
  cases e
  · apply Quiet_bind (Quiet_output env _ _ (by decide) (by decide))
    rintro ⟨o, e⟩
    apply Quiet_bind (Quiet_output env _ _ (by decide) (by decide))
    rintro ⟨o', e'⟩
    exact Quiet_pure _
  · exact Quiet_pure _

theorem Quiet_GetTopLevel (env : Env) (r : git.Repository) : Sim.Quiet (r.GetTopLevel env) := by
  unfold git.Repository.GetTopLevel
  apply Quiet_bind (Quiet_output env _ _ (by decide) (by decide))
  rintro ⟨o, e⟩
  cases e
  · exact Quiet_pure _
  · apply Quiet_bind (Quiet_output env _ _ (by decide) (by decide))
    rintro ⟨o', e'⟩
    cases e' <;> exact Quiet_pure _

theorem Quiet_ListWorktrees (env : Env) (r : git.Repository) :
    Sim.Quiet (r.ListWorktrees env) := by
  unfold git.Repository.ListWorktrees
  apply Quiet_bind (Quiet_output env _ _ (by decide) (by decide))
  rintro ⟨o, e⟩
  cases e <;> exact Quiet_pure _

theorem Quiet_osStat (env : Env) (path : String) : Sim.Quiet (osStat env path) :=
  fun tr => ⟨[Step.stat path (env.stat tr.length path)], rfl, by simp [Step.quiet, Step.isGit]⟩

theorem Quiet_osGetwd (env : Env) : Sim.Quiet (osGetwd env) :=
  fun tr => ⟨[Step.getwd (env.getwd tr.length).1 (env.getwd tr.length).2], rfl,
    by simp [Step.quiet, Step.isGit]⟩

theorem Quiet_osChdir (env : Env) (dir : String) : Sim.Quiet (osChdir env dir) :=
  fun tr => ⟨[Step.chdir dir (env.chdir tr.length dir)], rfl, by simp [Step.quiet, Step.isGit]⟩

theorem Quiet_NewManager (ops : pool.ManagerOps M) (repo : git.Repository) :
    Sim.Quiet (pool.NewManager ops repo) := by
  intro tr
  unfold pool.NewManager
  cases ops.NewManager repo
  · exact ⟨[Step.NewManager (some _)], rfl, by simp [Step.quiet, Step.isGit]⟩
  · exact ⟨[Step.NewManager none], rfl, by simp [Step.quiet, Step.isGit]⟩

theorem Quiet_GetStatus (ops : pool.ManagerOps M) (m : M) : Sim.Quiet (pool.GetStatus ops m) :=
  fun tr => ⟨[Step.GetStatus (ops.GetStatus m).1.1 (ops.GetStatus m).1.2], rfl,
    by simp [Step.quiet, Step.isGit]⟩

theorem Quiet_MarkAvailable (ops : pool.ManagerOps M) (m : M) (name : String) :
    Sim.Quiet (pool.MarkAvailable ops m name) :=
  fun tr => ⟨[Step.MarkAvailable name (ops.MarkAvailable m name).1], rfl,
    by simp [Step.quiet, Step.isGit]⟩

theorem Quiet_MarkInUse (ops : pool.ManagerOps M) (m : M) (name : String) :
    Sim.Quiet (pool.MarkInUse ops m name) :=
  fun tr => ⟨[Step.MarkInUse name (ops.MarkInUse m name).1], rfl,
    by simp [Step.quiet, Step.isGit]⟩

theorem Quiet_GetAvailable (ops : pool.ManagerOps M) (m : M) :
    Sim.Quiet (pool.GetAvailable ops m) :=
  fun tr => ⟨[Step.GetAvailable (ops.GetAvailable m).1.1 (ops.GetAvailable m).1.2.1
    (ops.GetAvailable m).1.2.2], rfl, by simp [Step.quiet, Step.isGit]⟩

theorem Quiet_goRefill : Sim.Quiet cmd.goRefillPoolAsync :=
  fun _ => ⟨[Step.goRefill], rfl, by simp [Step.quiet, Step.isGit]⟩

theorem Quiet_openInEditor (env : Env) (cfg : config.Config) (path : String) :
    Sim.Quiet (cmd.openInEditor env cfg path) := by
  intro tr
  refine ⟨[cmd.editorStep cfg path
    (env.exec tr.length path (cmd.editorName cfg) (cmd.editorArgs cfg))], rfl, ?_⟩
  intro s hs
  rw [List.mem_singleton] at hs
  subst hs
  simp [Step.quiet, editorStep_isGit cfg path _ "worktree" _ (by decide)]

end Discipline

/-! ## The rule of the repair in both flows -/

section RepairRule

variable {M : Type}

theorem quiet_not_move (s : Step) (h : s.quiet = true) : s.isGit ["worktree", "move"] = false := by
  simp only [Step.quiet, Bool.and_eq_true, Bool.not_eq_true'] at h
  exact h.1

theorem quiet_not_repair (s : Step) (h : s.quiet = true) :
    s.isGit ["worktree", "repair"] = false := by
  simp only [Step.quiet, Bool.and_eq_true, Bool.not_eq_true'] at h
  exact h.2

/-- A move in a tail is its first step. -/
theorem RepairTail_rule (tail : List Step) (h : cmd.RepairTail tail) :
    cmd.RepairDiscipline tail := by
  intro pre s post ht hs
  cases h with
  | unmoved => simp at ht
  | failed m rest hm he hrest =>
    rcases pre with _ | ⟨p, pre⟩
    · simp only [List.nil_append, List.cons.injEq] at ht
      obtain ⟨rfl, rfl⟩ := ht
      exact ⟨fun h => absurd h he, fun _ r hr => quiet_not_repair r (hrest r hr)⟩
    · simp only [List.cons_append, List.cons.injEq] at ht
      have hmem : s ∈ rest := by rw [ht.2]; simp
      rw [quiet_not_move s (hrest s hmem)] at hs
      cases hs
  | repaired m x rest hm he hrest =>
    rcases pre with _ | ⟨p, pre⟩
    · simp only [List.nil_append, List.cons.injEq] at ht
      obtain ⟨rfl, rfl⟩ := ht
      exact ⟨fun _ => ⟨x, rest, rfl⟩, fun h => absurd he h⟩
    · simp only [List.cons_append, List.cons.injEq] at ht
      have hmem : s ∈ cmd.repairStep x :: rest := by rw [ht.2]; simp
      rcases List.mem_cons.1 hmem with h | h
      · rw [h] at hs
        simp [cmd.repairStep, Step.isGit, List.isPrefixOf] at hs
      · rw [quiet_not_move s (hrest s h)] at hs
        cases hs

/-- Steps that are neither a move nor a repair, put in front, change nothing. -/
theorem RepairDiscipline_append (quiet tail : List Step) (hq : ∀ s ∈ quiet, s.quiet = true)
    (h : cmd.RepairDiscipline tail) : cmd.RepairDiscipline (quiet ++ tail) := by
  induction quiet with
  | nil => simpa using h
  | cons a quiet ih =>
    intro pre s post ht hs
    rcases pre with _ | ⟨p, pre⟩
    · simp only [List.nil_append, List.cons_append, List.cons.injEq] at ht
      rw [← ht.1, quiet_not_move a (hq a (by simp))] at hs
      cases hs
    · simp only [List.cons_append, List.cons.injEq] at ht
      exact ih (fun s hs => hq s (by simp [hs])) pre s post ht.2 hs

/-- The trace of a disciplined computation that starts the process obeys the rule. -/
theorem Disciplined_rule {α : Type} (a : Sim α) (h : a.Disciplined) :
    cmd.RepairDiscipline a.trace := by
  obtain ⟨quiet, tail, ht, hq, htail⟩ := h []
  have : a.trace = quiet ++ tail := by simpa [Sim.trace, StateT.run] using ht
  rw [this]
  exact RepairDiscipline_append quiet tail hq (RepairTail_rule tail htail)

theorem Disciplined_of_quiet {α : Type} {a : Sim α} (h : a.Quiet) : a.Disciplined := by
  intro tr
  obtain ⟨ext, h1, h2⟩ := h tr
  exact ⟨ext, [], by simpa using h1, h2, cmd.RepairTail.unmoved⟩

theorem Disciplined_bind {α β : Type} {a : Sim α} {f : α → Sim β} (ha : a.Quiet)
    (hf : ∀ v, (∃ tr, (a tr).1 = v) → (f v).Disciplined) : (a >>= f).Disciplined := by
  intro tr
  obtain ⟨e1, h1, q1⟩ := ha tr
  obtain ⟨e2, tail, h2, q2, ht⟩ := hf (a tr).1 ⟨tr, rfl⟩ (a tr).2
  refine ⟨e1 ++ e2, tail, ?_, ?_, ht⟩
  · simp only [bind, bind_apply]
    rw [h2, h1]
    simp only [List.append_assoc]
  · intro s hs
    rcases List.mem_append.1 hs with h | h
    · exact q1 s h
    · exact q2 s h

/-- The shared end of both flows: `MoveWorktree`, and after a successful move
`RepairWorktrees` before anything else. -/
theorem Disciplined_move {β : Type} (env : Env) (r : git.Repository) (hp : r.Path = ".")
    (src dst : String) (k : Option Error → Sim β) (k' : Sim β)
    (hfail : ∀ e, (k (some e)).Quiet)
    (hok : k none = (r.RepairWorktrees env >>= fun _ => k')) (hk' : k'.Quiet) :
    (r.MoveWorktree env src dst >>= k).Disciplined := by
  intro tr
  simp only [bind, bind_apply, git.Repository.MoveWorktree, run_apply, hp]
  generalize hm : Step.exec "." "git" ["worktree", "move", src, dst]
    (env.exec tr.length "." "git" ["worktree", "move", src, dst]) = m
  have hmove : m.isGit ["worktree", "move"] = true := by
    rw [← hm]
    simp [Step.isGit, List.isPrefixOf]
  cases hg : m.gitError with
  | some e =>
    obtain ⟨ext, h1, h2⟩ := hfail e (tr ++ [m])
    refine ⟨[], m :: ext, ?_, by simp, cmd.RepairTail.failed m ext hmove ?_ h2⟩
    · rw [h1]
      simp
    · rw [hg]
      simp
  | none =>
    rw [hok]
    simp only [bind, bind_apply, git.Repository.RepairWorktrees, run_apply, hp]
    generalize env.exec (tr ++ [m]).length "." "git" ["worktree", "repair"] = x
    obtain ⟨ext, h1, h2⟩ := hk' (tr ++ [m] ++ [Step.exec "." "git" ["worktree", "repair"] x])
    refine ⟨[], m :: cmd.repairStep x :: ext, ?_, by simp,
      cmd.RepairTail.repaired m x ext hmove hg h2⟩
    rw [h1]
    simp [cmd.repairStep]

end RepairRule

/-! ## Both flows obey the rule of the repair -/

section FlowDiscipline

variable {M : Type}

theorem Quiet_RemoteBranchExists (env : Env) (r : git.Repository) (branch : String) :
    Sim.Quiet (r.RemoteBranchExists env branch) := by
  unfold git.Repository.RemoteBranchExists
  apply Quiet_bind (Quiet_output env _ _ (by simp [List.isPrefixOf]) (by simp [List.isPrefixOf]))
  rintro ⟨o, e⟩
  exact Quiet_pure _

theorem Quiet_createWorktreeDirect (env : Env) (repo : git.Repository) (path b : String) :
    Sim.Quiet (cmd.createWorktreeDirect env repo path b) := by
  unfold cmd.createWorktreeDirect
  apply Quiet_bind (Quiet_RemoteBranchExists env _ _)
  intro v
  cases v
  · exact Quiet_run env _ _ (by simp [List.isPrefixOf]) (by simp [List.isPrefixOf])
  · exact Quiet_run env _ _ (by simp [List.isPrefixOf]) (by simp [List.isPrefixOf])

theorem Quiet_setupBranchInPool (env : Env) (repo : git.Repository) (poolPath b : String) :
    Sim.Quiet (cmd.setupBranchInPool env repo poolPath b) := by
  unfold cmd.setupBranchInPool
  apply Quiet_bind (Quiet_RunInDir env _ _ (by decide) (by decide))
  intro e
  cases e
  · apply Quiet_bind (Quiet_RemoteBranchExists env _ _)
    intro v
    cases v
    · exact Quiet_RunInDir env _ _ (by simp [List.isPrefixOf]) (by simp [List.isPrefixOf])
    · exact Quiet_RunInDir env _ _ (by simp [List.isPrefixOf]) (by simp [List.isPrefixOf])
  · exact Quiet_pure _

theorem Quiet_findSlotLoop (env : Env) (consts : pool.Constants) (topLevel : String) :
    ∀ n i : Nat, Sim.Quiet (cmd.findSlotLoop env consts topLevel n i) := by
  intro n
  induction n with
  | zero =>
    intro i
    exact Quiet_pure _
  | succ n ih =>
    intro i
    unfold cmd.findSlotLoop
    apply Quiet_bind (Quiet_osStat env _)
    intro st
    cases st
    · exact ih _
    · exact Quiet_pure _
    · exact ih _

theorem Quiet_findOrCreatePoolSlot (env : Env) (ops : pool.ManagerOps M)
    (consts : pool.Constants) (manager : M) (repo : git.Repository) :
    Sim.Quiet (cmd.findOrCreatePoolSlot env ops consts manager repo) := by
  unfold cmd.findOrCreatePoolSlot
  apply Quiet_bind (Quiet_GetTopLevel env _)
  rintro ⟨topLevel, e⟩
  cases e with
  | some e => exact Quiet_pure _
  | none =>
    apply Quiet_bind (Quiet_GetStatus ops manager)
    rintro ⟨⟨total, _⟩, manager⟩
    apply Quiet_bind (Quiet_findSlotLoop env consts topLevel _ _)
    intro r
    cases r <;> exact Quiet_pure _

theorem Disciplined_createWorktree (env : Env) (ops : pool.ManagerOps M) (cfg : config.Config)
    (b : String) : (cmd.createWorktree env ops cfg b).Disciplined := by
  unfold cmd.createWorktree
  apply Disciplined_bind (Quiet_NewRepository env _)
  intro r hr
  cases r with
  | error e => exact Disciplined_of_quiet (Quiet_pure _)
  | ok repo =>
    have hp : repo.Path = "." := by
      obtain ⟨tr, h⟩ := hr
      exact NewRepository_path env "." tr repo h
    apply Disciplined_bind (Quiet_GetTopLevel env _)
    rintro ⟨topLevel, e⟩ -
    cases e with
    | some e => exact Disciplined_of_quiet (Quiet_pure _)
    | none =>
      apply Disciplined_bind (Quiet_ListWorktrees env _)
      rintro ⟨worktrees, e⟩ -
      cases e with
      | some e => exact Disciplined_of_quiet (Quiet_pure _)
      | none =>
        dsimp only
        split
        · exact Disciplined_of_quiet
            (Quiet_bind (Quiet_openInEditor env _ _) (fun _ => Quiet_pure _))
        · apply Disciplined_bind (Quiet_NewManager ops repo)
          intro m _
          cases m with
          | error e => exact Disciplined_of_quiet (Quiet_pure _)
          | ok manager =>
            apply Disciplined_bind (Quiet_GetAvailable ops manager)
            rintro ⟨⟨poolPath, poolName, e⟩, manager⟩ -
            cases e with
            | some e =>
              exact Disciplined_of_quiet
                (Quiet_bind (Quiet_createWorktreeDirect env _ _ _) (fun _ => Quiet_pure _))
            | none =>
              apply Disciplined_bind (Quiet_MarkInUse ops manager poolName)
              rintro ⟨e, manager⟩ -
              cases e with
              | some e => exact Disciplined_of_quiet (Quiet_pure _)
              | none =>
                apply Disciplined_bind (Quiet_osStat env _)
                intro st _
                have hrest : Sim.Disciplined
                    (do
                      match ← cmd.setupBranchInPool env repo poolPath b with
                      | some err => do
                        let (_, manager) ← pool.MarkAvailable ops manager poolName
                        pure (some err, some manager)
                      | none =>
                        match ← repo.MoveWorktree env poolPath
                            (filepath.Join [topLevel, strings.ReplaceAll b "/" "-"]) with
                        | some err => do
                          let (_, manager) ← pool.MarkAvailable ops manager poolName
                          pure (some err, some manager)
                        | none => do
                          let _ ← repo.RepairWorktrees env
                          cmd.goRefillPoolAsync
                          let err ← cmd.openInEditor env cfg
                            (filepath.Join [topLevel, strings.ReplaceAll b "/" "-"])
                          pure (err, some manager) : Sim (Option Error × Option M)) := by
                  apply Disciplined_bind (Quiet_setupBranchInPool env _ _ _)
                  intro e _
                  cases e with
                  | some e =>
                    exact Disciplined_of_quiet
                      (Quiet_bind (Quiet_MarkAvailable ops manager poolName)
                        (fun _ => Quiet_pure _))
                  | none =>
                    refine Disciplined_move env repo hp _ _ _
                      (do
                        cmd.goRefillPoolAsync
                        let err ← cmd.openInEditor env cfg
                          (filepath.Join [topLevel, strings.ReplaceAll b "/" "-"])
                        pure (err, some manager)) ?_ rfl ?_
                    · intro e
                      exact Quiet_bind (Quiet_MarkAvailable ops manager poolName)
                        (fun _ => Quiet_pure _)
                    · apply Quiet_bind Quiet_goRefill
                      intro _
                      exact Quiet_bind (Quiet_openInEditor env _ _) (fun _ => Quiet_pure _)
                cases st with
                | found =>
                  apply Disciplined_of_quiet
                  apply Quiet_bind (Quiet_MarkAvailable ops manager poolName)
                  rintro ⟨_, manager⟩
                  exact Quiet_bind (Quiet_openInEditor env _ _) (fun _ => Quiet_pure _)
                | notExist => exact hrest
                | failed => exact hrest

theorem Disciplined_returnWorktreeToPool (env : Env) (ops : pool.ManagerOps M)
    (consts : pool.Constants) (b : String) :
    (cmd.returnWorktreeToPool env ops consts b).Disciplined := by
  unfold cmd.returnWorktreeToPool
  apply Disciplined_bind (Quiet_NewRepository env _)
  intro r hr
  cases r with
  | error e => exact Disciplined_of_quiet (Quiet_pure _)
  | ok repo =>
    have hp : repo.Path = "." := by
      obtain ⟨tr, h⟩ := hr
      exact NewRepository_path env "." tr repo h
    apply Disciplined_bind (Quiet_GetTopLevel env _)
    rintro ⟨topLevel, e⟩ -
    cases e with
    | some e => exact Disciplined_of_quiet (Quiet_pure _)
    | none =>
      apply Disciplined_bind (Quiet_ListWorktrees env _)
      rintro ⟨worktrees, e⟩ -
      cases e with
      | some e => exact Disciplined_of_quiet (Quiet_pure _)
      | none =>
        dsimp only
        split
        · exact Disciplined_of_quiet (Quiet_pure _)
        · apply Disciplined_bind (Quiet_NewManager ops repo)
          intro m _
          cases m with
          | error e => exact Disciplined_of_quiet (Quiet_pure _)
          | ok manager =>
            apply Disciplined_bind (Quiet_findOrCreatePoolSlot env ops consts manager repo)
            rintro ⟨⟨poolSlot, e⟩, manager⟩ -
            cases e with
            | some e => exact Disciplined_of_quiet (Quiet_pure _)
            | none =>
              apply Disciplined_bind
              · apply Quiet_bind (Quiet_osStat env _)
                intro st
                cases st
                · exact Quiet_run env _ _ (by simp [List.isPrefixOf]) (by simp [List.isPrefixOf])
                · exact Quiet_pure _
                · exact Quiet_pure _
              · intro removed _
                cases removed with
                | some e => exact Disciplined_of_quiet (Quiet_pure _)
                | none =>
                  refine Disciplined_move env repo hp _ _ _
                    (do
                      let (originalDir, err) ← osGetwd env
                      match err with
                      | some err => pure (some err, some manager)
                      | none =>
                        match ← osChdir env
                            (filepath.Join [topLevel, consts.PoolDir, poolSlot]) with
                        | some err => do
                          let _ ← osChdir env originalDir
                          pure (some err, some manager)
                        | none =>
                          match ← git.RunInDir env
                              (filepath.Join [topLevel, consts.PoolDir, poolSlot])
                              ["checkout", "-B", poolSlot, repo.DefaultBranch] with
                          | some err => do
                            let _ ← osChdir env originalDir
                            pure (errors.Wrapf (some err) "failed to reset pool worktree",
                              some manager)
                          | none =>
                            let (err, manager) ← pool.MarkAvailable ops manager poolSlot
                            let _ ← osChdir env originalDir
                            pure (err, some manager)) ?_ rfl ?_
                  · intro e
                    exact Quiet_pure _
                  · apply Quiet_bind (Quiet_osGetwd env)
                    rintro ⟨originalDir, e⟩
                    cases e with
                    | some e => exact Quiet_pure _
                    | none =>
                      apply Quiet_bind (Quiet_osChdir env _)
                      intro e
                      cases e with
                      | some e => exact Quiet_bind (Quiet_osChdir env _) (fun _ => Quiet_pure _)
                      | none =>
                        apply Quiet_bind
                          (Quiet_RunInDir env _ _ (by simp [List.isPrefixOf])
                            (by simp [List.isPrefixOf]))
                        intro e
                        cases e with
                        | some e =>
                          exact Quiet_bind (Quiet_osChdir env _) (fun _ => Quiet_pure _)
                        | none =>
                          apply Quiet_bind (Quiet_MarkAvailable ops manager poolSlot)
                          rintro ⟨e, manager⟩
                          exact Quiet_bind (Quiet_osChdir env _) (fun _ => Quiet_pure _)

end FlowDiscipline

/-! ## The claim on the repair -/

section RepairClaim

variable {M : Type}

/-- C7: in the claim flow (`createWorktree`) and in the return flow
(`returnWorktreeToPool`) alike, wherever the trace holds a `git worktree move`, the next
step is `repo.RepairWorktrees()` when the move succeeded, and no `git worktree repair`
follows when it failed; and the answer of `git worktree repair` changes nothing: in
the world where it is answered with any `x`, each flow returns the same result (error
and manager) and leaves the same trace, up to that answer. -/
theorem repair_follows_move_and_never_decides (env : Env) (ops : pool.ManagerOps M)
    (cfg : config.Config) (consts : pool.Constants) (b : String) (x : ExecResult) :
    (cmd.RepairDiscipline (cmd.createWorktree env ops cfg b).trace ∧
      cmd.RepairDiscipline (cmd.returnWorktreeToPool env ops consts b).trace) ∧
    ((cmd.createWorktree (env.withRepair x) ops cfg b).result =
        (cmd.createWorktree env ops cfg b).result ∧
      (cmd.createWorktree (env.withRepair x) ops cfg b).trace.map Step.forgetRepair =
        (cmd.createWorktree env ops cfg b).trace.map Step.forgetRepair) ∧
    ((cmd.returnWorktreeToPool (env.withRepair x) ops consts b).result =
        (cmd.returnWorktreeToPool env ops consts b).result ∧
      (cmd.returnWorktreeToPool (env.withRepair x) ops consts b).trace.map Step.forgetRepair =
        (cmd.returnWorktreeToPool env ops consts b).trace.map Step.forgetRepair) := by
  refine ⟨⟨Disciplined_rule _ (Disciplined_createWorktree env ops cfg b),
    Disciplined_rule _ (Disciplined_returnWorktreeToPool env ops consts b)⟩, ?_, ?_⟩
  · obtain ⟨h1, h2⟩ := Agree_createWorktree env x ops cfg b [] [] rfl
    exact ⟨h1.symm, h2.symm⟩
  · obtain ⟨h1, h2⟩ := Agree_returnWorktreeToPool env x ops consts b [] [] rfl
    exact ⟨h1.symm, h2.symm⟩

end RepairClaim

/-! ## Sample runs with a failing repair -/

section RepairSamples

/-- The claim flow in the sample world when `git worktree repair` fails: the move of
`pool-2` succeeds, the repair is the next step, and the flow ends without error. -/
theorem createWorktree_repair_failure_sample :
    (cmd.createWorktree (sample.env sample.mainOnly sample.nothing [["worktree", "repair"]])
        sample.manager sample.cfg "feature/a").result.1 = none ∧
    (cmd.createWorktree (sample.env sample.mainOnly sample.nothing [["worktree", "repair"]])
        sample.manager sample.cfg "feature/a").trace.drop 12 =
      [cmd.moveStep "/repo/.worktree-pool/pool-2" "/repo/feature-a"
          { err := none, stdout := "", stderr := "" },
        cmd.repairStep { err := some sample.exitError, stdout := "", stderr := "fatal" },
        Step.goRefill,
        cmd.editorStep sample.cfg "/repo/feature-a"
          { err := none, stdout := "", stderr := "" }] := by
  decide

/-- The return flow in the sample world when `git worktree repair` fails: the move to
the free slot `pool-2` succeeds, the repair is the next step, and the flow ends without
error. -/
theorem returnWorktreeToPool_repair_failure_sample :
    (cmd.returnWorktreeToPool
        (sample.env sample.withFeature
          (sample.among ["/repo/.worktree-pool/pool-1", "/repo/.worktree-pool/pool-3"])
          [["worktree", "repair"]])
        sample.manager sample.consts "feature/a").result.1 = none ∧
    (cmd.returnWorktreeToPool
        (sample.env sample.withFeature
          (sample.among ["/repo/.worktree-pool/pool-1", "/repo/.worktree-pool/pool-3"])
          [["worktree", "repair"]])
        sample.manager sample.consts "feature/a").trace.drop 11 =
      [cmd.moveStep "/repo/feature-a" "/repo/.worktree-pool/pool-2"
          { err := none, stdout := "", stderr := "" },
        cmd.repairStep { err := some sample.exitError, stdout := "", stderr := "fatal" },
        Step.getwd "/repo" none,
        Step.chdir "/repo/.worktree-pool/pool-2" none,
        cmd.checkoutStep "/repo/.worktree-pool/pool-2" "pool-2" ""
          { err := none, stdout := "", stderr := "" },
        Step.MarkAvailable "pool-2" none,
        Step.chdir "/repo" none] := by
  decide

end RepairSamples

/-! ## The runs of `returnWorktreeToPool` -/

section ReturnFlow

variable {M : Type}

theorem Runs_bind {α β : Type} (a : Sim α) (f : α → Sim β) (tr : List Step) (v : β)
    (tr'' : List Step) :
    Sim.Runs (a >>= f) tr v tr'' ↔ ∃ u tr', Sim.Runs a tr u tr' ∧ Sim.Runs (f u) tr' v tr'' := by
  unfold Sim.Runs
  simp only [bind, bind_apply]
  constructor
  · intro h
    exact ⟨(a tr).1, (a tr).2, rfl, h⟩
  · rintro ⟨u, tr', h1, h2⟩
    rw [h1]
    exact h2

theorem Runs_pure {α : Type} (u v : α) (tr tr' : List Step) :
    Sim.Runs (pure u : Sim α) tr v tr' ↔ v = u ∧ tr' = tr := by
  unfold Sim.Runs
  simp only [pure, pure_apply]
  constructor
  · intro h
    obtain ⟨h1, h2⟩ := Prod.mk.inj h
    exact ⟨h1.symm, h2.symm⟩
  · rintro ⟨h1, h2⟩
    rw [h1, h2]

theorem Runs_run (env : Env) (r : git.Repository) (args : List String) (tr : List Step)
    (e : Option Error) (tr' : List Step) (h : Sim.Runs (r.run env args) tr e tr') :
    ∃ res, tr' = tr ++ [Step.exec r.Path "git" args res] ∧
      e = res.err.map (fun x => errors.NewGitError (strings.Join args " ") x "") := by
  unfold Sim.Runs at h
  rw [run_apply] at h
  obtain ⟨h1, h2⟩ := Prod.mk.inj h
  exact ⟨_, h2.symm, h1.symm⟩

theorem Runs_RunInDir (env : Env) (dir : String) (args : List String) (tr : List Step)
    (e : Option Error) (tr' : List Step) (h : Sim.Runs (git.RunInDir env dir args) tr e tr') :
    ∃ res, tr' = tr ++ [Step.exec dir "git" args res] ∧
      e = res.err.map (fun x => errors.NewGitError (strings.Join args " ") x "") := by
  unfold Sim.Runs at h
  rw [RunInDir_apply] at h
  obtain ⟨h1, h2⟩ := Prod.mk.inj h
  exact ⟨_, h2.symm, h1.symm⟩

/-- The error of `GetTopLevel` is a `GitError`. -/
theorem GetTopLevel_error (env : Env) (r : git.Repository) (tr : List Step) (e : Error)
    (h : (r.GetTopLevel env tr).1.2 = some e) : e.fromGit = true := by
  simp only [git.Repository.GetTopLevel, bind, bind_apply, output_apply] at h
  generalize env.exec tr.length r.Path "git" ["rev-parse", "--show-toplevel"] = a at h
  rcases a with ⟨_ | ae, ao, ax⟩
  · simp [pure, pure_apply] at h
  · simp only [bind_apply, output_apply] at h
    generalize env.exec _ r.Path "git" ["rev-parse", "--git-dir"] = c at h
    rcases c with ⟨_ | ce, co, cx⟩
    · simp [pure, pure_apply] at h
    · simp only [pure, pure_apply, Option.some.injEq] at h
      rw [← h]
      rfl

/-- The error of `NewRepository` is `ErrNotGitRepo`. -/
theorem NewRepository_error (env : Env) (path : String) (tr : List Step) (e : Error)
    (h : (git.NewRepository env path tr).1 = Except.error e) : e.fromGit = true := by
  simp only [git.NewRepository, bind, bind_apply, run_apply, Step.gitError] at h
  generalize env.exec tr.length path "git" ["rev-parse", "--git-dir"] = a at h
  rcases a with ⟨_ | ae, ao, ax⟩
  · simp only [Option.map_none', bind_apply, output_apply, pure, pure_apply] at h
    generalize env.exec _ path "git" ["rev-parse", "--is-bare-repository"] = c at h
    generalize env.exec _ _ "git" ["symbolic-ref", "refs/remotes/origin/HEAD"] = d at h
    rcases c with ⟨_ | ce, co, cx⟩ <;> rcases d with ⟨_ | de, do', dx⟩ <;> cases h
  · simp only [Option.map_some', pure, pure_apply, Except.error.injEq] at h
    rw [← h]
    rfl

theorem Runs_osStat (env : Env) (path : String) (tr : List Step) (st : StatResult)
    (tr' : List Step) (h : Sim.Runs (osStat env path) tr st tr') :
    tr' = tr ++ [Step.stat path st] := by
  obtain ⟨h1, h2⟩ := Prod.mk.inj (show (env.stat tr.length path,
    tr ++ [Step.stat path (env.stat tr.length path)]) = (st, tr') from h)
  rw [← h2, h1]

theorem Runs_osGetwd (env : Env) (tr : List Step) (v : String × Option Error)
    (tr' : List Step) (h : Sim.Runs (osGetwd env) tr v tr') :
    tr' = tr ++ [Step.getwd v.1 v.2] := by
  obtain ⟨h1, h2⟩ := Prod.mk.inj (show (env.getwd tr.length,
    tr ++ [Step.getwd (env.getwd tr.length).1 (env.getwd tr.length).2]) = (v, tr') from h)
  rw [← h2, h1]

theorem Runs_osChdir (env : Env) (dir : String) (tr : List Step) (e : Option Error)
    (tr' : List Step) (h : Sim.Runs (osChdir env dir) tr e tr') :
    tr' = tr ++ [Step.chdir dir e] := by
  obtain ⟨h1, h2⟩ := Prod.mk.inj (show (env.chdir tr.length dir,
    tr ++ [Step.chdir dir (env.chdir tr.length dir)]) = (e, tr') from h)
  rw [← h2, h1]

theorem Runs_MarkAvailable (ops : pool.ManagerOps M) (m : M) (name : String) (tr : List Step)
    (v : Option Error × M) (tr' : List Step)
    (h : Sim.Runs (pool.MarkAvailable ops m name) tr v tr') :
    v = ops.MarkAvailable m name ∧
      tr' = tr ++ [Step.MarkAvailable name (ops.MarkAvailable m name).1] := by
  obtain ⟨h1, h2⟩ := Prod.mk.inj (show (ops.MarkAvailable m name,
    tr ++ [Step.MarkAvailable name (ops.MarkAvailable m name).1]) = (v, tr') from h)
  exact ⟨h1.symm, h2.symm⟩

theorem Runs_NewManager (ops : pool.ManagerOps M) (repo : git.Repository) (tr : List Step)
    (v : Except Error M) (tr' : List Step) (h : Sim.Runs (pool.NewManager ops repo) tr v tr') :
    v = ops.NewManager repo ∧
      (∀ e, v = Except.error e → tr' = tr ++ [Step.NewManager (some e)]) ∧
      (∀ m, v = Except.ok m → tr' = tr ++ [Step.NewManager none]) := by
  unfold Sim.Runs pool.NewManager at h
  cases hm : ops.NewManager repo <;> rw [hm] at h <;>
    obtain ⟨h1, h2⟩ := Prod.mk.inj h <;> subst h1 <;> simp [h2.symm]

end ReturnFlow

section ReturnFlowShape

variable {M : Type}

/-- Every run of `returnWorktreeToPool` has one of the shapes of `ReturnRun`. -/
theorem returnWorktreeToPool_runs (env : Env) (ops : pool.ManagerOps M)
    (consts : pool.Constants) (b : String) (r : Option Error × Option M) (t : List Step)
    (h : Sim.Runs (cmd.returnWorktreeToPool env ops consts b) [] r t) :
    cmd.ReturnRun env ops consts b r.1 r.2 t := by
  unfold cmd.returnWorktreeToPool at h
  rw [Runs_bind] at h
  obtain ⟨u, tr1, h1, h⟩ := h
  have h1' : git.NewRepository env "." [] = (u, tr1) := h1
  obtain ⟨ext1, hx1, hq1⟩ := NewRepository_ext env "." []
  rw [h1', List.nil_append] at hx1
  simp only at hx1
  subst hx1
  cases u with
  | error e =>
    rw [Runs_pure] at h
    obtain ⟨rfl, rfl⟩ := h
    exact cmd.ReturnRun.early _ _ hq1 (NewRepository_error env "." [] e (by rw [h1']))
  | ok repo =>
    have hrepo : cmd.repoIn env = repo := by
      simp only [cmd.repoIn, StateT.run, h1']
    subst hrepo
    simp only at h
    rw [Runs_bind] at h
    obtain ⟨⟨topLevel, err⟩, tr2, h2, h⟩ := h
    have h2' : (cmd.repoIn env).GetTopLevel env tr1 = ((topLevel, err), tr2) := h2
    obtain ⟨ext2, hx2, hq2⟩ := GetTopLevel_ext env (cmd.repoIn env) tr1
    rw [h2'] at hx2
    simp only at hx2
    subst hx2
    have hpre : ∀ s ∈ tr1 ++ ext2, s.isQuery = true := by
      intro s hs
      rcases List.mem_append.1 hs with hs | hs
      · exact hq1 s hs
      · exact hq2 s hs
    have htl : cmd.topLevel env = topLevel := by
      simp only [cmd.topLevel, StateT.run, h1', h2']
    subst htl
    have htp : filepath.Join [cmd.topLevel env, strings.ReplaceAll b "/" "-"] =
        cmd.targetPath env b := rfl
    have hsp : ∀ s, filepath.Join [cmd.topLevel env, consts.PoolDir, s] =
        cmd.slotPath env consts s := fun _ => rfl
    have hp : (cmd.repoIn env).Path = "." :=
      NewRepository_path env "." [] (cmd.repoIn env) (by rw [h1'])
    cases err with
    | some e =>
      simp only at h
      rw [Runs_pure] at h
      obtain ⟨rfl, rfl⟩ := h
      exact cmd.ReturnRun.early _ _ hpre
        (GetTopLevel_error env _ tr1 e (by rw [h2']))
    | none =>
      simp only [htp, hsp] at h
      rw [Runs_bind] at h
      obtain ⟨⟨worktrees, lerr⟩, tr3, h3, h⟩ := h
      have h3' : (cmd.repoIn env).ListWorktrees env (tr1 ++ ext2) = ((worktrees, lerr), tr3) := h3
      rw [ListWorktrees_apply, hp] at h3'
      generalize env.exec (tr1 ++ ext2).length "." "git" ["worktree", "list", "--porcelain"] = l
        at h3'
      obtain ⟨hv, ht⟩ := Prod.mk.inj h3'
      subst ht
      rcases hl : l.err with _ | le
      · rw [hl] at hv
        obtain ⟨rfl, rfl⟩ := Prod.mk.inj hv
        simp only at h
        by_cases hany : (git.parseWorktrees l.stdout).any
            (fun wt => wt.Path == cmd.targetPath env b) = true
        · have hin : ∃ wt ∈ git.parseWorktrees l.stdout, wt.Path = cmd.targetPath env b := by
            simpa [List.any_eq_true] using hany
          simp only [hany, Bool.not_true, Bool.false_eq_true, if_false] at h
          rw [Runs_bind] at h
          obtain ⟨mres, tr4, h4, h⟩ := h
          obtain ⟨hmv, hte, htm⟩ := Runs_NewManager ops _ _ _ _ h4
          cases mres with
          | error e =>
            have ht4 := hte e rfl
            subst ht4
            simp only at h
            rw [Runs_pure] at h
            obtain ⟨rfl, rfl⟩ := h
            have := @cmd.ReturnRun.noManager _ env ops consts b (tr1 ++ ext2) l e hpre hl hin
            simpa [cmd.listStep] using this
          | ok m =>
            have ht4 := htm m rfl
            subst ht4
            simp only at h
            have hstart : tr1 ++ ext2 ++ [Step.exec "." "git" ["worktree", "list", "--porcelain"] l] ++
                [Step.NewManager none] = tr1 ++ ext2 ++ [cmd.listStep l, Step.NewManager none] := by
              simp [cmd.listStep]
            rw [hstart] at h
            refine cmd.ReturnRun.found (tr1 ++ ext2) l m _ _ _ hpre hl hin hmv.symm ?_
            rw [Runs_bind] at h
            obtain ⟨⟨⟨slot, serr⟩, m'⟩, tr5, h5, h⟩ := h
            have h5' : cmd.findOrCreatePoolSlot env ops consts m (cmd.repoIn env)
                (tr1 ++ ext2 ++ [cmd.listStep l, Step.NewManager none]) =
                  (((slot, serr), m'), tr5) := h5
            cases serr with
            | some e =>
              simp only at h
              rw [Runs_pure] at h
              obtain ⟨rfl, rfl⟩ := h
              exact cmd.ReturnTail.slotFailed slot e m' _ h5'
            | none =>
              simp only at h
              rw [Runs_bind] at h
              obtain ⟨removed, tr6, h6, h⟩ := h
              have hclear : ∃ st rr,
                  tr6 = tr5 ++ cmd.clearSteps (cmd.slotPath env consts slot) st rr ∧
                  ((removed = none ∧ rr.err = none) ∨
                    (st = StatResult.found ∧ ∃ e, rr.err = some e ∧
                      removed = some (errors.NewGitError
                        (strings.Join ["worktree", "remove", cmd.slotPath env consts slot] " ")
                        e ""))) := by
                rw [Runs_bind] at h6
                obtain ⟨st, tr6', h6a, h6b⟩ := h6
                have hst := Runs_osStat _ _ _ _ _ h6a
                subst hst
                cases st with
                | found =>
                  simp only [git.Repository.RemoveWorktree] at h6b
                  obtain ⟨res, hres, hrem⟩ := Runs_run env _ _ _ _ _ h6b
                  rw [hp] at hres
                  refine ⟨StatResult.found, res, by simp [cmd.clearSteps, cmd.removeStep, hres], ?_⟩
                  rcases hre : res.err with _ | e
                  · left
                    simp [hrem, hre]
                  · right
                    exact ⟨rfl, e, rfl, by simp [hrem, hre]⟩
                | notExist =>
                  simp only at h6b
                  rw [Runs_pure] at h6b
                  obtain ⟨rfl, rfl⟩ := h6b
                  exact ⟨StatResult.notExist, ⟨none, "", ""⟩, by simp [cmd.clearSteps],
                    Or.inl ⟨rfl, rfl⟩⟩
                | failed =>
                  simp only at h6b
                  rw [Runs_pure] at h6b
                  obtain ⟨rfl, rfl⟩ := h6b
                  exact ⟨StatResult.failed, ⟨none, "", ""⟩, by simp [cmd.clearSteps],
                    Or.inl ⟨rfl, rfl⟩⟩
              obtain ⟨st, rr, rfl, hcase⟩ := hclear
              rcases hcase with ⟨rfl, hrr⟩ | ⟨rfl, e, hrr, rfl⟩
              · simp only at h
                rw [Runs_bind] at h
                obtain ⟨mv, tr7, h7, h⟩ := h
                simp only [git.Repository.MoveWorktree] at h7
                obtain ⟨v, hv7, hmvv⟩ := Runs_run env _ _ _ _ _ h7
                rw [hp] at hv7
                subst hv7
                rcases hve : v.err with _ | e
                · rw [hve] at hmvv
                  simp only [Option.map_none'] at hmvv
                  subst hmvv
                  simp only at h
                  rw [Runs_bind] at h
                  obtain ⟨rp, tr8, h8, h⟩ := h
                  simp only [git.Repository.RepairWorktrees] at h8
                  obtain ⟨x, hx8, -⟩ := Runs_run env _ _ _ _ _ h8
                  rw [hp] at hx8
                  subst hx8
                  rw [Runs_bind] at h
                  obtain ⟨⟨d, gerr⟩, tr9, h9, h⟩ := h
                  have hg := Runs_osGetwd _ _ _ _ h9
                  subst hg
                  cases gerr with
                  | some e =>
                    simp only at h
                    rw [Runs_pure] at h
                    obtain ⟨rfl, rfl⟩ := h
                    have := cmd.ReturnTail.getwdFailed (b := b) slot m' tr5 st rr v x d e h5' hrr hve
                    simpa [cmd.moveStep, cmd.repairStep] using this
                  | none =>
                    simp only at h
                    rw [Runs_bind] at h
                    obtain ⟨cerr, tr10, h10, h⟩ := h
                    have hc := Runs_osChdir _ _ _ _ _ h10
                    subst hc
                    cases cerr with
                    | some e =>
                      simp only at h
                      rw [Runs_bind] at h
                      obtain ⟨back, tr11, h11, h⟩ := h
                      have hb := Runs_osChdir _ _ _ _ _ h11
                      subst hb
                      rw [Runs_pure] at h
                      obtain ⟨rfl, rfl⟩ := h
                      have := cmd.ReturnTail.chdirFailed (b := b) slot m' tr5 st rr v x d e back
                        h5' hrr hve
                      simpa [cmd.moveStep, cmd.repairStep] using this
                    | none =>
                      simp only at h
                      rw [Runs_bind] at h
                      obtain ⟨ce, tr11, h11, h⟩ := h
                      obtain ⟨c, hc11, hce⟩ := Runs_RunInDir env _ _ _ _ _ h11
                      subst hc11
                      rcases hcerr : c.err with _ | e
                      · rw [hcerr] at hce
                        simp only [Option.map_none'] at hce
                        subst hce
                        simp only at h
                        rw [Runs_bind] at h
                        obtain ⟨mk, tr12, h12, h⟩ := h
                        obtain ⟨hmk, ht12⟩ := Runs_MarkAvailable ops _ _ _ _ _ h12
                        subst ht12
                        subst hmk
                        rw [Runs_bind] at h
                        obtain ⟨back, tr13, h13, h⟩ := h
                        have hb := Runs_osChdir _ _ _ _ _ h13
                        subst hb
                        rw [Runs_pure] at h
                        obtain ⟨rfl, rfl⟩ := h
                        have := cmd.ReturnTail.marked (b := b) slot m' tr5 st rr v x c d back
                          h5' hrr hve hcerr
                        simpa [cmd.moveStep, cmd.repairStep, cmd.checkoutStep] using this
                      · rw [hcerr] at hce
                        simp only [Option.map_some'] at hce
                        subst hce
                        simp only at h
                        rw [Runs_bind] at h
                        obtain ⟨back, tr13, h13, h⟩ := h
                        have hb := Runs_osChdir _ _ _ _ _ h13
                        subst hb
                        rw [Runs_pure] at h
                        obtain ⟨rfl, rfl⟩ := h
                        have := cmd.ReturnTail.checkoutFailed (b := b) slot m' tr5 st rr v x c d e
                          back h5' hrr hve hcerr
                        simpa [cmd.moveStep, cmd.repairStep, cmd.checkoutStep, errors.Wrapf]
                          using this
                · rw [hve] at hmvv
                  simp only [Option.map_some'] at hmvv
                  subst hmvv
                  simp only at h
                  rw [Runs_pure] at h
                  obtain ⟨rfl, rfl⟩ := h
                  have := cmd.ReturnTail.moveFailed (b := b) slot m' tr5 st rr v e h5' hrr hve
                  simpa [cmd.moveStep, errors.Wrapf] using this
              · simp only at h
                rw [Runs_pure] at h
                obtain ⟨rfl, rfl⟩ := h
                have := cmd.ReturnTail.removeFailed (b := b) slot m' tr5 rr e h5' hrr
                simpa [cmd.clearSteps, errors.Wrapf] using this
        · have hout : ∀ wt ∈ git.parseWorktrees l.stdout, wt.Path ≠ cmd.targetPath env b := by
            intro wt hwt heq
            apply hany
            rw [List.any_eq_true]
            exact ⟨wt, hwt, by simp [heq]⟩
          simp only [hany, Bool.not_false, if_true] at h
          rw [Runs_pure] at h
          obtain ⟨rfl, rfl⟩ := h
          exact cmd.ReturnRun.notFound _ l hpre hl hout
      · rw [hl] at hv
        obtain ⟨rfl, rfl⟩ := Prod.mk.inj hv
        simp only at h
        rw [Runs_pure] at h
        obtain ⟨rfl, rfl⟩ := h
        exact cmd.ReturnRun.listFailed _ l _ hpre (by rw [hl]; simp) rfl

end ReturnFlowShape

/-! ## Claims on the return flow -/

section ReturnFlowClaims

variable {M : Type}

theorem findSlotLoop_ext (env : Env) (consts : pool.Constants) (topLevel : String) :
    ∀ (n i : Nat) (tr : List Step),
      ∃ ext, (cmd.findSlotLoop env consts topLevel n i tr).2 = tr ++ ext ∧
        ∀ s ∈ ext, s.isScan = true := by
  intro n
  induction n with
  | zero =>
    intro i tr
    exact ⟨[], by simp [cmd.findSlotLoop, pure, pure_apply], by simp⟩
  | succ n ih =>
    intro i tr
    simp only [cmd.findSlotLoop, bind, bind_apply, osStat_apply]
    generalize env.stat tr.length
      (filepath.Join [topLevel, consts.PoolDir, consts.PoolPrefix ++ toString i]) = st
    have hrec : ∃ ext, (cmd.findSlotLoop env consts topLevel n (i + 1) (tr ++ [Step.stat
        (filepath.Join [topLevel, consts.PoolDir, consts.PoolPrefix ++ toString i]) st])).2 =
          tr ++ ext ∧ ∀ s ∈ ext, s.isScan = true := by
      obtain ⟨ext, h1, h2⟩ := ih (i + 1) (tr ++ [Step.stat
        (filepath.Join [topLevel, consts.PoolDir, consts.PoolPrefix ++ toString i]) st])
      refine ⟨Step.stat
        (filepath.Join [topLevel, consts.PoolDir, consts.PoolPrefix ++ toString i]) st :: ext,
        ?_, ?_⟩
      · rw [h1]
        simp
      · intro s hs
        rcases List.mem_cons.1 hs with h | h
        · rw [h]
          rfl
        · exact h2 s h
    cases st
    · exact hrec
    · exact ⟨[Step.stat
        (filepath.Join [topLevel, consts.PoolDir, consts.PoolPrefix ++ toString i])
        StatResult.notExist], rfl, by simp [Step.isScan]⟩
    · exact hrec

/-- The scan for a free slot records git queries, one `GetStatus` and calls of `os.Stat`. -/
theorem findOrCreatePoolSlot_ext (env : Env) (ops : pool.ManagerOps M)
    (consts : pool.Constants) (manager : M) (repo : git.Repository) (tr : List Step) :
    ∃ ext, (cmd.findOrCreatePoolSlot env ops consts manager repo tr).2 = tr ++ ext ∧
      ∀ s ∈ ext, s.isScan = true := by
  obtain ⟨e1, h1, q1⟩ := GetTopLevel_ext env repo tr
  simp only [cmd.findOrCreatePoolSlot, bind, bind_apply]
  cases (repo.GetTopLevel env tr).1.2 with
  | some e =>
    refine ⟨e1, by simpa [pure, pure_apply] using h1, ?_⟩
    intro s hs
    have := q1 s hs
    cases s <;> simp_all [Step.isScan, Step.isQuery]
  | none =>
    simp only [bind_apply, GetStatus_apply, pure, pure_apply]
    obtain ⟨e2, h2, q2⟩ := findSlotLoop_ext env consts (repo.GetTopLevel env tr).1.1
      ((ops.GetStatus manager).1.1 + 1).toNat 1
      ((repo.GetTopLevel env tr).2 ++
        [Step.GetStatus (ops.GetStatus manager).1.1 (ops.GetStatus manager).1.2])
    refine ⟨e1 ++ Step.GetStatus (ops.GetStatus manager).1.1 (ops.GetStatus manager).1.2 :: e2,
      ?_, ?_⟩
    · cases hres : (cmd.findSlotLoop env consts (repo.GetTopLevel env tr).1.1
        ((ops.GetStatus manager).1.1 + 1).toNat 1
        ((repo.GetTopLevel env tr).2 ++
          [Step.GetStatus (ops.GetStatus manager).1.1 (ops.GetStatus manager).1.2])).1 <;>
        simp only [] <;> rw [h2, h1] <;> simp <;> rfl
    · intro s hs
      rcases List.mem_append.1 hs with h | h
      · have := q1 s h
        cases s <;> simp_all [Step.isScan, Step.isQuery]
      · rcases List.mem_cons.1 h with h | h
        · rw [h]
          rfl
        · exact q2 s h

/-- The error of `findOrCreatePoolSlot` is a `GitError` or its own
`unable to find available pool slot`. -/
theorem findOrCreatePoolSlot_error (env : Env) (ops : pool.ManagerOps M)
    (consts : pool.Constants) (manager : M) (repo : git.Repository) (tr : List Step)
    (e : Error)
    (h : (cmd.findOrCreatePoolSlot env ops consts manager repo tr).1.1.2 = some e) :
    e.fromGit = true ∨ e = Error.errorf "unable to find available pool slot" := by
  rw [findOrCreatePoolSlot_apply] at h
  cases htop : (repo.GetTopLevel env tr).1.2 with
  | some e' =>
    rw [htop] at h
    simp only [Option.some.injEq] at h
    subst h
    exact Or.inl (GetTopLevel_error env repo tr e' htop)
  | none =>
    rw [htop] at h
    simp only at h
    split at h
    · simp at h
    · simp only [Option.some.injEq] at h
      exact Or.inr h.symm

theorem notFoundError_ne_unable (env : Env) (b : String) :
    cmd.notFoundError env b ≠ Error.errorf "unable to find available pool slot" := by
  intro h
  simp only [cmd.notFoundError, Error.errorf.injEq] at h
  have := congrArg (fun s : String => s.data.head?) h
  simp [String.data_append] at this

theorem isScan_not_list (s : Step) (h : s.isScan = true) :
    s.isGit ["worktree", "list"] = false := by
  cases s with
  | exec dir name args res =>
    exact isQuery_isGit (Step.exec dir name args res) h "worktree" ["list"] (by decide)
      (by decide)
  | _ => rfl

theorem clearSteps_not_list (path : String) (st : StatResult) (r : ExecResult) :
    ∀ s ∈ cmd.clearSteps path st r, s.isGit ["worktree", "list"] = false := by
  intro s hs
  unfold cmd.clearSteps at hs
  split at hs <;> simp at hs
  · rcases hs with rfl | rfl <;> simp [Step.isGit, cmd.removeStep, List.isPrefixOf]
  · subst hs
    rfl

/-- What the runs of the return flow have in common from `findOrCreatePoolSlot` on: they
only add steps to the trace, none of them `git worktree list`, and an error they return is
a `GitError`, the error of the scan, a wrapped error, or the answer of a call recorded
in the trace. -/
theorem ReturnTail_facts (env : Env) (ops : pool.ManagerOps M) (consts : pool.Constants)
    (b : String) (repo : git.Repository) (m : M) (tr : List Step) (err : Option Error)
    (left : Option M) (t : List Step)
    (h : cmd.ReturnTail env ops consts b repo m tr err left t) :
    (∃ rest, t = tr ++ rest ∧ ∀ s ∈ rest, s.isGit ["worktree", "list"] = false) ∧
    ∀ e, err = some e →
      e.fromGit = true ∨ e = Error.errorf "unable to find available pool slot" ∨
        (∃ msg e', e = Error.wrapped msg e') ∨ ∃ s ∈ t, s.answeredError = some e := by
  obtain ⟨ext, hx, hq⟩ := findOrCreatePoolSlot_ext env ops consts m repo tr
  have hq' : ∀ s ∈ ext, s.isGit ["worktree", "list"] = false :=
    fun s hs => isScan_not_list s (hq s hs)
  cases h with
  | slotFailed slot e m' scan hslot =>
    rw [hslot] at hx
    simp only at hx
    subst hx
    refine ⟨⟨ext, rfl, hq'⟩, ?_⟩
    intro e' he'
    simp only [Option.some.injEq] at he'
    subst he'
    rcases findOrCreatePoolSlot_error env ops consts m repo tr e (by rw [hslot]) with h | h
    · exact Or.inl h
    · exact Or.inr (Or.inl h)
  | removeFailed slot m' scan r e hslot hr =>
    rw [hslot] at hx
    simp only at hx
    subst hx
    refine ⟨⟨ext ++ [Step.stat (cmd.slotPath env consts slot) StatResult.found,
      cmd.removeStep (cmd.slotPath env consts slot) r], by simp, ?_⟩, ?_⟩
    · intro s hs
      rcases List.mem_append.1 hs with h | h
      · exact hq' s h
      · simp at h
        rcases h with rfl | rfl <;> simp [Step.isGit, cmd.removeStep, List.isPrefixOf]
    · intro e' he'
      exact Or.inr (Or.inr (Or.inl ⟨_, _, (Option.some.inj he').symm⟩))
  | moveFailed slot m' scan st r v e hslot hr hv =>
    rw [hslot] at hx
    simp only at hx
    subst hx
    refine ⟨⟨ext ++ cmd.clearSteps (cmd.slotPath env consts slot) st r ++
      [cmd.moveStep (cmd.targetPath env b) (cmd.slotPath env consts slot) v], by simp, ?_⟩, ?_⟩
    · intro s hs
      simp only [List.mem_append, List.mem_singleton] at hs
      rcases hs with (h | h) | rfl
      · exact hq' s h
      · exact clearSteps_not_list _ _ _ s h
      · simp [Step.isGit, cmd.moveStep, List.isPrefixOf]
    · intro e' he'
      exact Or.inr (Or.inr (Or.inl ⟨_, _, (Option.some.inj he').symm⟩))
  | getwdFailed slot m' scan st r v x d e hslot hr hv =>
    rw [hslot] at hx
    simp only at hx
    subst hx
    refine ⟨⟨ext ++ cmd.clearSteps (cmd.slotPath env consts slot) st r ++
      [cmd.moveStep (cmd.targetPath env b) (cmd.slotPath env consts slot) v, cmd.repairStep x,
        Step.getwd d (some e)], by simp, ?_⟩, ?_⟩
    · intro s hs
      simp only [List.mem_append, List.mem_cons, List.mem_singleton, List.not_mem_nil,
        or_false] at hs
      rcases hs with (h | h) | rfl | rfl | rfl
      · exact hq' s h
      · exact clearSteps_not_list _ _ _ s h
      all_goals simp [Step.isGit, cmd.moveStep, cmd.repairStep, List.isPrefixOf]
    · intro e' he'
      simp only [Option.some.injEq] at he'
      subst he'
      exact Or.inr (Or.inr (Or.inr ⟨Step.getwd d (some e), by simp, rfl⟩))
  | chdirFailed slot m' scan st r v x d e back hslot hr hv =>
    rw [hslot] at hx
    simp only at hx
    subst hx
    refine ⟨⟨ext ++ cmd.clearSteps (cmd.slotPath env consts slot) st r ++
      [cmd.moveStep (cmd.targetPath env b) (cmd.slotPath env consts slot) v, cmd.repairStep x,
        Step.getwd d none, Step.chdir (cmd.slotPath env consts slot) (some e),
        Step.chdir d back], by simp, ?_⟩, ?_⟩
    · intro s hs
      simp only [List.mem_append, List.mem_cons, List.mem_singleton, List.not_mem_nil,
        or_false] at hs
      rcases hs with (h | h) | rfl | rfl | rfl | rfl | rfl
      · exact hq' s h
      · exact clearSteps_not_list _ _ _ s h
      all_goals simp [Step.isGit, cmd.moveStep, cmd.repairStep, List.isPrefixOf]
    · intro e' he'
      simp only [Option.some.injEq] at he'
      subst he'
      exact Or.inr (Or.inr (Or.inr
        ⟨Step.chdir (cmd.slotPath env consts slot) (some e), by simp, rfl⟩))
  | checkoutFailed slot m' scan st r v x c d e back hslot hr hv hc =>
    rw [hslot] at hx
    simp only at hx
    subst hx
    refine ⟨⟨ext ++ cmd.clearSteps (cmd.slotPath env consts slot) st r ++
      [cmd.moveStep (cmd.targetPath env b) (cmd.slotPath env consts slot) v, cmd.repairStep x,
        Step.getwd d none, Step.chdir (cmd.slotPath env consts slot) none,
        cmd.checkoutStep (cmd.slotPath env consts slot) slot repo.DefaultBranch c,
        Step.chdir d back], by simp, ?_⟩, ?_⟩
    · intro s hs
      simp only [List.mem_append, List.mem_cons, List.mem_singleton, List.not_mem_nil,
        or_false] at hs
      rcases hs with (h | h) | rfl | rfl | rfl | rfl | rfl | rfl
      · exact hq' s h
      · exact clearSteps_not_list _ _ _ s h
      all_goals
        simp [Step.isGit, cmd.moveStep, cmd.repairStep, cmd.checkoutStep, List.isPrefixOf]
    · intro e' he'
      exact Or.inr (Or.inr (Or.inl ⟨_, _, (Option.some.inj he').symm⟩))
  | marked slot m' scan st r v x c d back hslot hr hv hc =>
    rw [hslot] at hx
    simp only at hx
    subst hx
    refine ⟨⟨ext ++ cmd.clearSteps (cmd.slotPath env consts slot) st r ++
      [cmd.moveStep (cmd.targetPath env b) (cmd.slotPath env consts slot) v, cmd.repairStep x,
        Step.getwd d none, Step.chdir (cmd.slotPath env consts slot) none,
        cmd.checkoutStep (cmd.slotPath env consts slot) slot repo.DefaultBranch c,
        Step.MarkAvailable slot (ops.MarkAvailable m' slot).1,
        Step.chdir d back], by simp, ?_⟩, ?_⟩
    · intro s hs
      simp only [List.mem_append, List.mem_cons, List.mem_singleton, List.not_mem_nil,
        or_false] at hs
      rcases hs with (h | h) | rfl | rfl | rfl | rfl | rfl | rfl | rfl
      · exact hq' s h
      · exact clearSteps_not_list _ _ _ s h
      all_goals
        simp [Step.isGit, cmd.moveStep, cmd.repairStep, cmd.checkoutStep, List.isPrefixOf]
    · intro e' he'
      exact Or.inr (Or.inr (Or.inr
        ⟨Step.MarkAvailable slot (ops.MarkAvailable m' slot).1, by simp, he'⟩))

end ReturnFlowClaims

section ReturnFlowClaims2

variable {M : Type}

theorem isQuery_quiet_calls (s : Step) (h : s.isQuery = true) :
    s.isManagerCall = false ∧ s.isGit ["worktree", "remove"] = false ∧
      s.isGit ["worktree", "move"] = false ∧ s.isGit ["checkout"] = false ∧
      s.isGit ["worktree", "list"] = false :=
  ⟨(isQuery_other s h).1, isQuery_isGit s h _ _ (by decide) (by decide),
    isQuery_isGit s h _ _ (by decide) (by decide), isQuery_isGit s h _ _ (by decide) (by decide),
    isQuery_isGit s h _ _ (by decide) (by decide)⟩

/-- C12: in a run of `returnWorktreeToPool` that obtained the worktree list, and in which
no call of the operating system or of the pool manager answers with the flow's own
`no worktree found` error, the flow fails with that error if and only if no entry of
the list has the target path computed from the branch name; and when it fails this way
the run holds no call of the pool manager and no `git worktree remove`,
`git worktree move` or `git checkout`. -/
theorem returnWorktreeToPool_not_found_iff (env : Env) (ops : pool.ManagerOps M)
    (consts : pool.Constants) (b : String) (l : ExecResult)
    (hstep : cmd.listStep l ∈ (cmd.returnWorktreeToPool env ops consts b).trace)
    (hl : l.err = none)
    (hforeign : ∀ s ∈ (cmd.returnWorktreeToPool env ops consts b).trace,
      s.answeredError ≠ some (cmd.notFoundError env b)) :
    ((cmd.returnWorktreeToPool env ops consts b).result.1 = some (cmd.notFoundError env b) ↔
      ∀ wt ∈ git.parseWorktrees l.stdout, wt.Path ≠ cmd.targetPath env b) ∧
    ((cmd.returnWorktreeToPool env ops consts b).result.1 = some (cmd.notFoundError env b) →
      ∀ s ∈ (cmd.returnWorktreeToPool env ops consts b).trace,
        s.isManagerCall = false ∧ s.isGit ["worktree", "remove"] = false ∧
          s.isGit ["worktree", "move"] = false ∧ s.isGit ["checkout"] = false) := by
  have h := returnWorktreeToPool_runs env ops consts b
    (cmd.returnWorktreeToPool env ops consts b).result
    (cmd.returnWorktreeToPool env ops consts b).trace rfl
  generalize (cmd.returnWorktreeToPool env ops consts b).trace = t at h hstep hforeign ⊢
  generalize (cmd.returnWorktreeToPool env ops consts b).result = r at h ⊢
  obtain ⟨err, left⟩ := r
  simp only at h ⊢
  have hlist : ∀ (pre : List Step) (l' : ExecResult) (rest : List Step),
      (∀ s ∈ pre, s.isQuery = true) → (∀ s ∈ rest, s.isGit ["worktree", "list"] = false) →
      cmd.listStep l ∈ pre ++ cmd.listStep l' :: rest → l = l' := by
    intro pre l' rest hpre hrest hmem
    simp only [List.mem_append, List.mem_cons] at hmem
    rcases hmem with hm | hm | hm
    · have := (isQuery_quiet_calls _ (hpre _ hm)).2.2.2.2
      simp [cmd.listStep, Step.isGit, List.isPrefixOf] at this
    · simpa [cmd.listStep] using hm
    · have := hrest _ hm
      simp [cmd.listStep, Step.isGit, List.isPrefixOf] at this
  cases h with
  | early pre e hpre he =>
    exfalso
    have := (isQuery_quiet_calls _ (hpre _ hstep)).2.2.2.2
    simp [cmd.listStep, Step.isGit, List.isPrefixOf] at this
  | listFailed pre l' e hpre hl' he =>
    exfalso
    have := hlist pre l' [] hpre (by simp) hstep
    subst this
    exact hl' hl
  | notFound pre l' hpre hl' hout =>
    have := hlist pre l' [] hpre (by simp) hstep
    subst this
    refine ⟨⟨fun _ => hout, fun _ => rfl⟩, ?_⟩
    intro _ s hs
    simp only [List.mem_append, List.mem_singleton] at hs
    rcases hs with hs | rfl
    · have := isQuery_quiet_calls s (hpre s hs)
      exact ⟨this.1, this.2.1, this.2.2.1, this.2.2.2.1⟩
    · simp [cmd.listStep, Step.isManagerCall, Step.isGit, List.isPrefixOf]
  | noManager pre l' e hpre hl' hin =>
    have := hlist pre l' [Step.NewManager (some e)] hpre (by simp [Step.isGit]) hstep
    subst this
    have hne : some e ≠ some (cmd.notFoundError env b) :=
      hforeign (Step.NewManager (some e)) (by simp)
    obtain ⟨wt, hwt, hp⟩ := hin
    exact ⟨⟨fun h => absurd h hne, fun h => absurd hp (h wt hwt)⟩, fun h => absurd h hne⟩
  | found pre l' m err left t' hpre hl' hin hm htail =>
    obtain ⟨⟨rest, ht, hrest⟩, herr⟩ := ReturnTail_facts env ops consts b _ m _ _ _ _ htail
    subst ht
    have := hlist pre l' (Step.NewManager none :: rest) hpre
      (by
        intro s hs
        rcases List.mem_cons.1 hs with h | h
        · rw [h]
          rfl
        · exact hrest s h)
      (by simpa using hstep)
    subst this
    have hne : err ≠ some (cmd.notFoundError env b) := by
      intro he
      rcases herr _ he with h | h | ⟨msg, e', h⟩ | ⟨s, hs, h⟩
      · simp [cmd.notFoundError, Error.fromGit] at h
      · exact notFoundError_ne_unable env b h
      · simp [cmd.notFoundError] at h
      · exact hforeign s hs h
    obtain ⟨wt, hwt, hp⟩ := hin
    exact ⟨⟨fun h => absurd h hne, fun h => absurd hp (h wt hwt)⟩, fun h => absurd h hne⟩

end ReturnFlowClaims2

/-! ## The status store of the specification -/

section StoreLemmas

/-- A name is looked up successfully exactly when it is a key of the store. -/
theorem lookup_isSome_iff (ws : List (String × pool.SlotState)) (name : String) :
    (ws.lookup name).isSome = true ↔ name ∈ ws.map Prod.fst := by
  induction ws with
  | nil => simp
  | cons kv ws ih =>
    obtain ⟨k, v⟩ := kv
    by_cases hk : name = k
    · subst hk
      simp [List.lookup]
    · have hne : (name == k) = false := by simpa using hk
      simp only [List.lookup, hne, List.map_cons, List.mem_cons, hk, false_or]
      exact ih

/-- Writing the state of a slot changes no other slot. -/
theorem PoolStatus_lookup_set_other (ws : List (String × pool.SlotState)) (name other : String)
    (st : pool.SlotState) (h : other ≠ name) :
    (pool.PoolStatus.set { Worktrees := ws } name st).Worktrees.lookup other =
      ws.lookup other := by
  induction ws with
  | nil => rfl
  | cons kv ws ih =>
    obtain ⟨k, v⟩ := kv
    simp only [pool.PoolStatus.set, List.map_cons] at ih ⊢
    by_cases hk : k = name
    · have e1 : (if (k, v).1 = name then ((k, v).1, st) else (k, v)) = (k, st) := by
        simp [hk]
      have hne : (other == k) = false := by
        simpa using fun h' => h (h'.trans hk)
      rw [e1]
      simp only [List.lookup, hne]
      exact ih
    · have e1 : (if (k, v).1 = name then ((k, v).1, st) else (k, v)) = (k, v) := by
        simp [hk]
      rw [e1]
      cases hok : other == k
      · simp only [List.lookup, hok]
        exact ih
      · simp only [List.lookup, hok]

/-- Writing the state of a slot keeps the keys of the store, in their order. -/
theorem PoolStatus_keys_set (ws : List (String × pool.SlotState)) (name : String)
    (st : pool.SlotState) :
    (pool.PoolStatus.set { Worktrees := ws } name st).Worktrees.map Prod.fst =
      ws.map Prod.fst := by
  simp only [pool.PoolStatus.set, List.map_map]
  apply List.map_congr_left
  intro kv _
  simp only [Function.comp]
  split <;> rfl

/-- Writing the state of a name that is no key changes nothing. -/
theorem PoolStatus_set_absent (ws : List (String × pool.SlotState)) (name : String)
    (st : pool.SlotState) (h : name ∉ ws.map Prod.fst) :
    (pool.PoolStatus.set { Worktrees := ws } name st).Worktrees = ws := by
  simp only [pool.PoolStatus.set]
  conv_rhs => rw [← List.map_id ws]
  apply List.map_congr_left
  intro kv hkv
  have : kv.1 ≠ name := by
    intro heq
    exact h (heq ▸ List.mem_map_of_mem Prod.fst hkv)
  simp [this]

/-- The number of Available slots. -/
theorem available_count_set (ws : List (String × pool.SlotState)) (name : String)
    (old st : pool.SlotState) (hkeys : (ws.map Prod.fst).Nodup)
    (hold : ws.lookup name = some old) :
    ((pool.PoolStatus.set { Worktrees := ws } name st).Worktrees.filter
        (fun kv => kv.2 = pool.SlotState.Available)).length +
      (if old = pool.SlotState.Available then 1 else 0) =
    (ws.filter (fun kv => kv.2 = pool.SlotState.Available)).length +
      (if st = pool.SlotState.Available then 1 else 0) := by
  induction ws with
  | nil => simp at hold
  | cons kv ws ih =>
    obtain ⟨k, v⟩ := kv
    have hnd : k ∉ ws.map Prod.fst ∧ (ws.map Prod.fst).Nodup := by
      simpa using hkeys
    by_cases hk : k = name
    · subst hk
      have hv : v = old := by simpa [List.lookup] using hold
      subst hv
      have htail := PoolStatus_set_absent ws k st hnd.1
      simp only [pool.PoolStatus.set] at htail
      simp only [pool.PoolStatus.set, List.map_cons, if_true, htail, List.filter_cons]
      cases v <;> cases st <;> simp
    · have hne : (name == k) = false := by
        simpa using fun h' => hk h'.symm
      simp only [List.lookup, hne] at hold
      have := ih hnd.2 hold
      simp only [pool.PoolStatus.set] at this
      simp only [pool.PoolStatus.set, List.map_cons, hk, if_false, List.filter_cons]
      cases v <;> simp <;> omega

/-- A state that is looked up belongs to an entry of the store. -/
theorem lookup_mem (ws : List (String × pool.SlotState)) (name : String)
    (st : pool.SlotState) (h : ws.lookup name = some st) : (name, st) ∈ ws := by
  induction ws with
  | nil => simp at h
  | cons kv ws ih =>
    obtain ⟨k, v⟩ := kv
    cases hk : name == k
    · simp only [List.lookup, hk] at h
      exact List.mem_cons_of_mem _ (ih h)
    · simp only [List.lookup, hk, Option.some.injEq] at h
      have : name = k := by simpa using hk
      subst this
      subst h
      exact List.mem_cons_self _ _

/-- Writing the state of a slot keeps the number of slots. -/
theorem PoolStatus_length_set (s : pool.PoolStatus) (name : String) (st : pool.SlotState) :
    (s.set name st).Worktrees.length = s.Worktrees.length := by
  simp [pool.PoolStatus.set]

end StoreLemmas

section ReturnFlowClaims3

/-- When `git rev-parse` is answered alike at every moment, `GetTopLevel` returns the
same value at every moment of the run. -/
theorem GetTopLevel_static (env : Env) (r : git.Repository) (tr tr' : List Step)
    (htop : ∀ n n' dir args, env.exec n dir "git" ("rev-parse" :: args) =
      env.exec n' dir "git" ("rev-parse" :: args)) :
    (r.GetTopLevel env tr).1 = (r.GetTopLevel env tr').1 := by
  obtain ⟨a, ha⟩ : ∃ a, ∀ n, env.exec n r.Path "git" ["rev-parse", "--show-toplevel"] = a :=
    ⟨_, fun n => htop n 0 _ _⟩
  obtain ⟨c, hc⟩ : ∃ c, ∀ n, env.exec n r.Path "git" ["rev-parse", "--git-dir"] = c :=
    ⟨_, fun n => htop n 0 _ _⟩
  simp only [git.Repository.GetTopLevel, bind, bind_apply, output_apply, ha]
  rcases a with ⟨_ | ae, ao, ax⟩
  · rfl
  · simp only [bind_apply, output_apply, hc]
    rcases c with ⟨_ | ce, co, cx⟩ <;> rfl

end ReturnFlowClaims3

/-! ## Sample runs of the return flow -/

section ReturnFlowSamples

/-- Counterexample to C11: the pool has two slots, both InUse, and their directories
left the pool when they were claimed.  The return flow for `feature/a` ends without
error, but it selects `pool-1`, not `pool-3`: its only move goes to the path of
`pool-1`, and the status afterwards is `(2, 1)`, not `(3, 1)`. -/
theorem returnWorktreeToPool_reuses_lowest_slot :
    (pool.Manager.GetStatus (pool.Manager.Load "/repo/.worktree-pool" "pool-"
      (some sample.fullStore))).1 = (2, 0) ∧
    (cmd.returnWorktreeToPool (sample.env sample.withFeature sample.nothing [])
      sample.fullManager sample.consts "feature/a").result.1 = none ∧
    (cmd.returnWorktreeToPool (sample.env sample.withFeature sample.nothing [])
      sample.fullManager sample.consts "feature/a").trace.filter
        (fun s => s.isGit ["worktree", "move"]) =
      [cmd.moveStep "/repo/feature-a" "/repo/.worktree-pool/pool-1" sample.ok] ∧
    ((cmd.returnWorktreeToPool (sample.env sample.withFeature sample.nothing [])
      sample.fullManager sample.consts "feature/a").result.2.map
        (fun m => (pool.Manager.GetStatus m).1)) = some (2, 1) := by
  decide

/-- The return flow when both slot directories are still in the pool: the scan selects the
new name `pool-3` and the worktree is moved there, but the manager of the specification
does not know that name, `MarkAvailable` fails and the status stays `(2, 0)`. -/
theorem returnWorktreeToPool_new_slot_sample :
    (cmd.returnWorktreeToPool
      (sample.env sample.withFeature
        (sample.among ["/repo/.worktree-pool/pool-1", "/repo/.worktree-pool/pool-2"]) [])
      sample.fullManager sample.consts "feature/a").result.1 = some errors.ErrBranchNotFound ∧
    (cmd.returnWorktreeToPool
      (sample.env sample.withFeature
        (sample.among ["/repo/.worktree-pool/pool-1", "/repo/.worktree-pool/pool-2"]) [])
      sample.fullManager sample.consts "feature/a").trace.filter
        (fun s => s.isGit ["worktree", "move"]) =
      [cmd.moveStep "/repo/feature-a" "/repo/.worktree-pool/pool-3" sample.ok] ∧
    ((cmd.returnWorktreeToPool
      (sample.env sample.withFeature
        (sample.among ["/repo/.worktree-pool/pool-1", "/repo/.worktree-pool/pool-2"]) [])
      sample.fullManager sample.consts "feature/a").result.2.map
        (fun m => (pool.Manager.GetStatus m).1)) = some (2, 0) := by
  decide

/-- Witness of C12: the sample world lists the main worktree only. -/
theorem returnWorktreeToPool_not_found_iff_witness :
    ((cmd.returnWorktreeToPool (sample.env sample.mainOnly sample.nothing []) sample.manager
        sample.consts "feature/a").result.1 =
      some (cmd.notFoundError (sample.env sample.mainOnly sample.nothing []) "feature/a") ↔
      ∀ wt ∈ git.parseWorktrees sample.mainOnly,
        wt.Path ≠ cmd.targetPath (sample.env sample.mainOnly sample.nothing []) "feature/a") ∧
    ((cmd.returnWorktreeToPool (sample.env sample.mainOnly sample.nothing []) sample.manager
        sample.consts "feature/a").result.1 =
      some (cmd.notFoundError (sample.env sample.mainOnly sample.nothing []) "feature/a") →
      ∀ s ∈ (cmd.returnWorktreeToPool (sample.env sample.mainOnly sample.nothing [])
          sample.manager sample.consts "feature/a").trace,
        s.isManagerCall = false ∧ s.isGit ["worktree", "remove"] = false ∧
          s.isGit ["worktree", "move"] = false ∧ s.isGit ["checkout"] = false) :=
  returnWorktreeToPool_not_found_iff (sample.env sample.mainOnly sample.nothing [])
    sample.manager sample.consts "feature/a"
    { err := none, stdout := sample.mainOnly, stderr := "" } (by decide) rfl (by decide)

end ReturnFlowSamples

/-! ## Slot names -/

section SlotNames

theorem digitValue_digitChar (k : Nat) (h : k < 10) : digitValue (Nat.digitChar k) = k := by
  interval_cases k <;> rfl

theorem digitsValue_toDigitsCore (fuel n : Nat) (ds : List Char) (h : n < fuel) :
    digitsValue 0 (Nat.toDigitsCore 10 fuel n ds) = digitsValue n ds := by
  induction fuel generalizing n ds with
  | zero => omega
  | succ fuel ih =>
    unfold Nat.toDigitsCore
    simp only
    split
    · rename_i h0
      have hn : n < 10 := by omega
      simp only [digitsValue, List.foldl_cons, Nat.zero_mul, Nat.zero_add]
      rw [digitValue_digitChar _ (Nat.mod_lt _ (by decide)), Nat.mod_eq_of_lt hn]
    · rename_i h0
      rw [ih (n / 10) _ (by omega)]
      simp only [digitsValue, List.foldl_cons]
      rw [digitValue_digitChar _ (Nat.mod_lt _ (by decide))]
      congr 1
      omega

/-- Decimal notation determines the number. -/
theorem toString_injective (a b : Nat) (h : toString a = toString b) : a = b := by
  have h' : Nat.toDigits 10 a = Nat.toDigits 10 b := by
    have := congrArg String.data h
    simpa [toString, Nat.repr] using this
  have ha : digitsValue 0 (Nat.toDigits 10 a) = a :=
    digitsValue_toDigitsCore (a + 1) a [] (by omega)
  have hb : digitsValue 0 (Nat.toDigits 10 b) = b :=
    digitsValue_toDigitsCore (b + 1) b [] (by omega)
  rw [← ha, ← hb, h']

/-- Slots with different indices have different names. -/
theorem slotName_injective (slotPrefix : String) (a b : Nat)
    (h : pool.slotName slotPrefix a = pool.slotName slotPrefix b) : a = b := by
  apply toString_injective
  have := congrArg String.data h
  simp only [pool.slotName, String.data_append] at this
  exact String.ext (List.append_cancel_left this)

/-- In a list of entries whose keys are the names of distinct indices, the name of an
index is looked up to the state listed for it. -/
theorem lookup_slotName (slotPrefix : String) (g : Nat → pool.SlotState) (idx : List Nat)
    (j : Nat) (hj : j ∈ idx) :
    (idx.map (fun i => (pool.slotName slotPrefix i, g i))).lookup (pool.slotName slotPrefix j) =
      some (g j) := by
  induction idx with
  | nil => simp at hj
  | cons i idx ih =>
    simp only [List.map_cons, List.lookup]
    cases hk : pool.slotName slotPrefix j == pool.slotName slotPrefix i
    · simp only
      have hne : j ≠ i := by
        intro h
        rw [h] at hk
        simp at hk
      rcases List.mem_cons.1 hj with h | h
      · exact absurd h hne
      · exact ih h
    · have := slotName_injective slotPrefix j i (by simpa using hk)
      simp [this]

/-- A name of an index that is not listed is not found. -/
theorem lookup_slotName_none (slotPrefix : String) (g : Nat → pool.SlotState) (idx : List Nat)
    (j : Nat) (hj : j ∉ idx) :
    (idx.map (fun i => (pool.slotName slotPrefix i, g i))).lookup (pool.slotName slotPrefix j) =
      none := by
  induction idx with
  | nil => rfl
  | cons i idx ih =>
    simp only [List.map_cons, List.lookup]
    have hne : j ≠ i := fun h => hj (h ▸ List.mem_cons_self _ _)
    have hk : (pool.slotName slotPrefix j == pool.slotName slotPrefix i) = false := by
      simpa using fun h => hne (slotName_injective slotPrefix j i h)
    simp only [hk]
    exact ih (fun h => hj (List.mem_cons_of_mem _ h))

end SlotNames

/-! ## Claims on the manager of the specification -/

section ManagerClaims

/-- What writing the state of a known slot does to the store of a manager. -/
theorem Manager_set_facts (s : pool.PoolStatus) (name : String) (old st : pool.SlotState)
    (hkeys : (s.Worktrees.map Prod.fst).Nodup) (hold : s.Worktrees.lookup name = some old) :
    (s.set name st).Worktrees.lookup name = some st ∧
    (∀ other, other ≠ name →
      (s.set name st).Worktrees.lookup other = s.Worktrees.lookup other) ∧
    (s.set name st).Worktrees.map Prod.fst = s.Worktrees.map Prod.fst ∧
    (s.set name st).Worktrees.length = s.Worktrees.length ∧
    ((s.set name st).Worktrees.filter (fun kv => kv.2 = pool.SlotState.Available)).length +
        (if old = pool.SlotState.Available then 1 else 0) =
      (s.Worktrees.filter (fun kv => kv.2 = pool.SlotState.Available)).length +
        (if st = pool.SlotState.Available then 1 else 0) := by
  have hsome : (s.Worktrees.lookup name).isSome = true := by rw [hold]; rfl
  exact ⟨PoolStatus_lookup_set _ _ _ hsome,
    fun other h => PoolStatus_lookup_set_other _ _ _ _ h,
    PoolStatus_keys_set _ _ _, PoolStatus_length_set _ _ _,
    available_count_set _ _ _ _ hkeys hold⟩

/-- C15: in the manager of the specification, whose store is a map (its keys are
distinct): `MarkInUse(name)` on a known slot succeeds and sets that slot to InUse,
`MarkAvailable(name)` sets it to Available; either leaves the keys of the store, the
total and the state of every other slot as they were, and changes the number of
Available slots by exactly the change of that one slot (marking an Available slot InUse
lowers it by one); for a name that is not in the store both fail with the
slot-not-found error and leave the manager unchanged. -/
theorem Manager_mark_sets_exactly_one_slot (m : pool.Manager) (name : String)
    (hkeys : (m.Status.Worktrees.map Prod.fst).Nodup) :
    (∀ old, m.Status.Worktrees.lookup name = some old →
      ((m.MarkInUse name).1 = none ∧
        (m.MarkInUse name).2.Status.Worktrees.lookup name = some pool.SlotState.InUse ∧
        (∀ other, other ≠ name →
          (m.MarkInUse name).2.Status.Worktrees.lookup other =
            m.Status.Worktrees.lookup other) ∧
        (m.MarkInUse name).2.Status.Worktrees.map Prod.fst = m.Status.Worktrees.map Prod.fst ∧
        (m.MarkInUse name).2.GetStatus.1.1 = m.GetStatus.1.1 ∧
        (m.MarkInUse name).2.GetStatus.1.2 =
          m.GetStatus.1.2 - (if old = pool.SlotState.Available then 1 else 0)) ∧
      ((m.MarkAvailable name).1 = none ∧
        (m.MarkAvailable name).2.Status.Worktrees.lookup name = some pool.SlotState.Available ∧
        (∀ other, other ≠ name →
          (m.MarkAvailable name).2.Status.Worktrees.lookup other =
            m.Status.Worktrees.lookup other) ∧
        (m.MarkAvailable name).2.Status.Worktrees.map Prod.fst =
          m.Status.Worktrees.map Prod.fst ∧
        (m.MarkAvailable name).2.GetStatus.1.1 = m.GetStatus.1.1 ∧
        (m.MarkAvailable name).2.GetStatus.1.2 =
          m.GetStatus.1.2 + (if old = pool.SlotState.InUse then 1 else 0))) ∧
    (m.Status.Worktrees.lookup name = none →
      m.MarkInUse name = (some errors.ErrBranchNotFound, m) ∧
      m.MarkAvailable name = (some errors.ErrBranchNotFound, m)) := by
  constructor
  · intro old hold
    have hsome : (m.Status.Worktrees.lookup name).isSome = true := by rw [hold]; rfl
    have hU := Manager_set_facts m.Status name old pool.SlotState.InUse hkeys hold
    have hA := Manager_set_facts m.Status name old pool.SlotState.Available hkeys hold
    simp only [pool.Manager.MarkInUse, pool.Manager.MarkAvailable, hsome, if_true,
      pool.Manager.GetStatus]
    refine ⟨⟨trivial, hU.1, hU.2.1, hU.2.2.1, ?_, ?_⟩, ⟨trivial, hA.1, hA.2.1, hA.2.2.1, ?_, ?_⟩⟩
    · rw [hU.2.2.2.1]
    · have := hU.2.2.2.2
      cases old <;> simp at this ⊢ <;> omega
    · rw [hA.2.2.2.1]
    · have := hA.2.2.2.2
      cases old <;> simp at this ⊢ <;> omega
  · intro hnone
    simp [pool.Manager.MarkInUse, pool.Manager.MarkAvailable, hnone]

end ManagerClaims

/-! ## Initialize and the claim scenario in the manager of the specification -/

section InitializeClaims

/-- The store in which the slots `1 .. n` exist and those up to `k` are InUse, as a list
over the indices. -/
theorem slots_as_indices (p : String) (n k : Nat) :
    (List.range n).map (fun j => (pool.slotName p (j + 1),
        if j + 1 ≤ k then pool.SlotState.InUse else pool.SlotState.Available)) =
      ((List.range n).map (fun j => j + 1)).map (fun i => (pool.slotName p i,
        if i ≤ k then pool.SlotState.InUse else pool.SlotState.Available)) := by
  rw [List.map_map]
  rfl

theorem freshSlots_eq (p : String) (n : Nat) :
    pool.freshSlots p n = (List.range n).map (fun j => (pool.slotName p (j + 1),
      if j + 1 ≤ 0 then pool.SlotState.InUse else pool.SlotState.Available)) := by
  unfold pool.freshSlots
  apply List.map_congr_left
  intro j _
  simp

theorem mem_indices (n i : Nat) : i ∈ (List.range n).map (fun j => j + 1) ↔ 1 ≤ i ∧ i ≤ n := by
  simp only [List.mem_map, List.mem_range]
  constructor
  · rintro ⟨j, hj, rfl⟩
    omega
  · rintro ⟨h1, h2⟩
    exact ⟨i - 1, by omega, by omega⟩

/-- The scan of `GetAvailable` over a store whose slots up to `k` are InUse. -/
theorem firstAvailable_slots (m : pool.Manager) (n k : Nat)
    (hs : m.Status.Worktrees = (List.range n).map (fun j => (pool.slotName m.SlotPrefix (j + 1),
      if j + 1 ≤ k then pool.SlotState.InUse else pool.SlotState.Available))) :
    ∀ fuel i, 1 ≤ i → i ≤ k + 1 → i + fuel = n + 1 →
      m.firstAvailable fuel i =
        if k < n then some (pool.slotName m.SlotPrefix (k + 1)) else none := by
  intro fuel
  induction fuel with
  | zero =>
    intro i h1 h2 h3
    have : ¬ k < n := by omega
    simp [pool.Manager.firstAvailable, this]
  | succ fuel ih =>
    intro i h1 h2 h3
    have hlook : m.Status.Worktrees.lookup (m.SlotPrefix ++ toString i) =
        some (if i ≤ k then pool.SlotState.InUse else pool.SlotState.Available) := by
      rw [hs, slots_as_indices]
      exact lookup_slotName m.SlotPrefix
        (fun i => if i ≤ k then pool.SlotState.InUse else pool.SlotState.Available) _ i
        ((mem_indices n i).2 ⟨h1, by omega⟩)
    unfold pool.Manager.firstAvailable
    rw [hlook]
    by_cases hik : i ≤ k
    · simp only [hik, if_true]
      rw [if_neg (by decide)]
      exact ih (i + 1) (by omega) (by omega) (by omega)
    · have hi : i = k + 1 := by omega
      have hkn : k < n := by omega
      simp only [hik, if_false, if_true, hkn]
      rw [hi]
      rfl

/-- Marking the slot `k+1` InUse in a store whose slots up to `k` are InUse. -/
theorem set_next_slot (p : String) (n k : Nat) :
    (pool.PoolStatus.set { Worktrees := (List.range n).map (fun j => (pool.slotName p (j + 1),
        if j + 1 ≤ k then pool.SlotState.InUse else pool.SlotState.Available)) }
      (pool.slotName p (k + 1)) pool.SlotState.InUse).Worktrees =
    (List.range n).map (fun j => (pool.slotName p (j + 1),
      if j + 1 ≤ k + 1 then pool.SlotState.InUse else pool.SlotState.Available)) := by
  simp only [pool.PoolStatus.set, List.map_map]
  apply List.map_congr_left
  intro j _
  simp only [Function.comp]
  by_cases hj : j = k
  · subst hj
    simp
  · have hne : pool.slotName p (j + 1) ≠ pool.slotName p (k + 1) := by
      intro h
      have := slotName_injective p _ _ h
      omega
    simp only [hne, if_false, Prod.mk.injEq, true_and]
    by_cases hjk : j + 1 ≤ k
    · simp [hjk, Nat.le_succ_of_le hjk]
    · have : ¬ j + 1 ≤ k + 1 := by omega
      simp [hjk, this]

/-- The scenario of the claims, from a store whose slots up to `k` are InUse. -/
theorem claim_slots (n : Nat) :
    ∀ (c k : Nat) (m : pool.Manager), k + c ≤ n →
      m.Status.Worktrees = (List.range n).map (fun j => (pool.slotName m.SlotPrefix (j + 1),
        if j + 1 ≤ k then pool.SlotState.InUse else pool.SlotState.Available)) →
      (pool.Manager.claim c m).1 =
          (List.range c).map (fun j => pool.slotName m.SlotPrefix (k + j + 1)) ∧
        (pool.Manager.claim c m).2.SlotPrefix = m.SlotPrefix ∧
        (pool.Manager.claim c m).2.Status.Worktrees =
          (List.range n).map (fun j => (pool.slotName m.SlotPrefix (j + 1),
            if j + 1 ≤ k + c then pool.SlotState.InUse else pool.SlotState.Available)) := by
  intro c
  induction c with
  | zero =>
    intro k m _ hs
    exact ⟨rfl, rfl, hs⟩
  | succ c ih =>
    intro k m hk hs
    have hfirst := firstAvailable_slots m n k hs n 1 (le_refl _) (by omega) (by omega)
    have hlen : m.Status.Worktrees.length = n := by rw [hs]; simp
    have hkn : k < n := by omega
    rw [if_pos hkn] at hfirst
    have hget : m.GetAvailable =
        ((filepath.Join [m.PoolDir, pool.slotName m.SlotPrefix (k + 1)],
          pool.slotName m.SlotPrefix (k + 1), none), m) := by
      simp only [pool.Manager.GetAvailable, hlen, hfirst]
    have hlook : (m.Status.Worktrees.lookup (pool.slotName m.SlotPrefix (k + 1))).isSome =
        true := by
      rw [hs, slots_as_indices, lookup_slotName m.SlotPrefix _ _ (k + 1)
        ((mem_indices n (k + 1)).2 ⟨by omega, by omega⟩)]
      rfl
    have hmark : (m.MarkInUse (pool.slotName m.SlotPrefix (k + 1))).2 =
        pool.Manager.mk m.PoolDir m.SlotPrefix
          (m.Status.set (pool.slotName m.SlotPrefix (k + 1)) pool.SlotState.InUse) := by
      simp only [pool.Manager.MarkInUse, hlook, if_true]
    have hnext := ih (k + 1) (m.MarkInUse (pool.slotName m.SlotPrefix (k + 1))).2 (by omega)
      (by
        rw [hmark]
        simp only
        have e : m.Status = { Worktrees := m.Status.Worktrees } := rfl
        rw [e, hs]
        exact set_next_slot m.SlotPrefix n k)
    have hp : (m.MarkInUse (pool.slotName m.SlotPrefix (k + 1))).2.SlotPrefix = m.SlotPrefix := by
      rw [hmark]
    rw [hp] at hnext
    simp only [pool.Manager.claim, hget]
    refine ⟨?_, hnext.2.1, ?_⟩
    · rw [hnext.1, List.range_succ_eq_map, List.map_cons, List.map_map]
      simp only [Nat.add_zero, List.cons.injEq, true_and]
      apply List.map_congr_left
      intro j _
      simp only [Function.comp]
      congr 1
      omega
    · rw [hnext.2.2]
      apply List.map_congr_left
      intro j _
      have : k + 1 + c = k + (c + 1) := by omega
      rw [this]

/-- The names of the slots `1 .. n` are distinct. -/
theorem slotNames_nodup (p : String) (n : Nat) :
    ((List.range n).map (fun j => pool.slotName p (j + 1))).Nodup := by
  apply List.Nodup.map_on
  · intro a _ c _ h
    have := slotName_injective p _ _ h
    omega
  · exact List.nodup_range n

theorem Initialize_fresh (poolDir slotPrefix statusFile : String) (n : Nat) (hn : 1 ≤ n) :
    (pool.Manager.Load poolDir slotPrefix none).Initialize statusFile none (n : Int) =
      (none, pool.Manager.mk poolDir slotPrefix { Worktrees := pool.freshSlots slotPrefix n },
        some ((pool.freshSlots slotPrefix n).map Prod.fst ++ [statusFile])) := by
  have h1 : ¬ ((n : Int) < 1) := by omega
  simp [pool.Manager.Initialize, pool.Manager.Load, h1]

/-- C13: in the manager of the specification, for every `n ≥ 1`, `Initialize(n)` on a
repository without a pool (no pool directory, an empty store) succeeds, leaves the
status `(n, n)`, and creates the pool directory with the `n` slot worktrees
`<prefix>1 .. <prefix>n` and the status file: `n + 1` entries, all different as long
as the status file is not named like a slot. -/
theorem Manager_Initialize_fills_pool (poolDir slotPrefix statusFile : String) (n : Nat)
    (hn : 1 ≤ n) (hfile : ∀ i, statusFile ≠ pool.slotName slotPrefix i) :
    ((pool.Manager.Load poolDir slotPrefix none).Initialize statusFile none (n : Int)).1 =
      none ∧
    ((pool.Manager.Load poolDir slotPrefix none).Initialize statusFile none
      (n : Int)).2.1.GetStatus.1 = ((n : Int), (n : Int)) ∧
    ((pool.Manager.Load poolDir slotPrefix none).Initialize statusFile none (n : Int)).2.2 =
      some ((List.range n).map (fun j => pool.slotName slotPrefix (j + 1)) ++ [statusFile]) ∧
    ((List.range n).map (fun j => pool.slotName slotPrefix (j + 1)) ++ [statusFile]).length =
      n + 1 ∧
    ((List.range n).map (fun j => pool.slotName slotPrefix (j + 1)) ++ [statusFile]).Nodup := by
  rw [Initialize_fresh poolDir slotPrefix statusFile n hn]
  refine ⟨rfl, ?_, ?_, by simp, ?_⟩
  · simp only [pool.Manager.GetStatus, pool.freshSlots, List.length_map, List.length_range,
      Prod.mk.injEq, true_and]
    rw [List.filter_eq_self.2]
    · simp
    · intro kv hkv
      simp only [List.mem_map] at hkv
      obtain ⟨j, _, rfl⟩ := hkv
      simp
  · simp [pool.freshSlots, List.map_map, Function.comp]
  · rw [List.nodup_append]
    refine ⟨slotNames_nodup slotPrefix n, by simp, ?_⟩
    intro a ha hb
    simp only [List.mem_map, List.mem_singleton] at ha hb
    obtain ⟨j, _, rfl⟩ := ha
    exact hfile (j + 1) hb.symm

/-- C14: in the manager of the specification, after `Initialize(n)` on a repository
without a pool, `GetAvailable` followed by `MarkInUse` of the returned name, `n` times
in a row, returns the names `<prefix>1, <prefix>2, .., <prefix>n` in this order, all
different; after `k ≤ n` rounds exactly the slots up to `k` are InUse, so every round
returned the Available slot of lowest index; and the next `GetAvailable` fails with
`NoPoolAvailable`. -/
theorem Manager_claims_in_ascending_order (poolDir slotPrefix statusFile : String) (n : Nat) :
    (pool.Manager.claim n ((pool.Manager.Load poolDir slotPrefix none).Initialize statusFile
        none (n : Int)).2.1).1 =
      (List.range n).map (fun j => pool.slotName slotPrefix (j + 1)) ∧
    ((List.range n).map (fun j => pool.slotName slotPrefix (j + 1))).Nodup ∧
    (∀ k, k ≤ n →
      (pool.Manager.claim k ((pool.Manager.Load poolDir slotPrefix none).Initialize statusFile
          none (n : Int)).2.1).1 =
        (List.range k).map (fun j => pool.slotName slotPrefix (j + 1)) ∧
      (pool.Manager.claim k ((pool.Manager.Load poolDir slotPrefix none).Initialize statusFile
          none (n : Int)).2.1).2.Status.Worktrees =
        (List.range n).map (fun j => (pool.slotName slotPrefix (j + 1),
          if j + 1 ≤ k then pool.SlotState.InUse else pool.SlotState.Available))) ∧
    (pool.Manager.claim n ((pool.Manager.Load poolDir slotPrefix none).Initialize statusFile
        none (n : Int)).2.1).2.GetAvailable.1 = ("", "", some errors.ErrNoPoolAvailable) := by
  have hstart : ∃ m0 : pool.Manager,
      ((pool.Manager.Load poolDir slotPrefix none).Initialize statusFile none (n : Int)).2.1 =
        m0 ∧ m0.SlotPrefix = slotPrefix ∧
      m0.Status.Worktrees = (List.range n).map (fun j => (pool.slotName m0.SlotPrefix (j + 1),
        if j + 1 ≤ 0 then pool.SlotState.InUse else pool.SlotState.Available)) := by
    rcases Nat.eq_zero_or_pos n with h0 | hpos
    · subst h0
      refine ⟨pool.Manager.Load poolDir slotPrefix none, ?_, rfl, rfl⟩
      simp [pool.Manager.Initialize]
    · refine ⟨_, rfl, ?_, ?_⟩
      · rw [Initialize_fresh poolDir slotPrefix statusFile n hpos]
      · rw [Initialize_fresh poolDir slotPrefix statusFile n hpos]
        exact freshSlots_eq slotPrefix n
  obtain ⟨m0, hm0, hp, hs⟩ := hstart
  rw [hm0]
  have hall : ∀ k, k ≤ n →
      (pool.Manager.claim k m0).1 =
          (List.range k).map (fun j => pool.slotName slotPrefix (j + 1)) ∧
        (pool.Manager.claim k m0).2.SlotPrefix = slotPrefix ∧
        (pool.Manager.claim k m0).2.Status.Worktrees =
          (List.range n).map (fun j => (pool.slotName slotPrefix (j + 1),
            if j + 1 ≤ k then pool.SlotState.InUse else pool.SlotState.Available)) := by
    intro k hk
    have := claim_slots n k 0 m0 (by omega) hs
    simpa [hp] using this
  refine ⟨(hall n (le_refl _)).1, slotNames_nodup slotPrefix n,
    fun k hk => ⟨(hall k hk).1, (hall k hk).2.2⟩, ?_⟩
  obtain ⟨-, hpn, hsn⟩ := hall n (le_refl _)
  have hfirst := firstAvailable_slots (pool.Manager.claim n m0).2 n n (by rw [hpn]; exact hsn)
    n 1 (le_refl _) (by omega) (by omega)
  have hlen : (pool.Manager.claim n m0).2.Status.Worktrees.length = n := by
    rw [hsn]
    simp
  simp only [pool.Manager.GetAvailable, hlen, hfirst, lt_irrefl, if_false]

end InitializeClaims

/-! ## Refill in the manager of the specification -/

section RefillClaims

/-- The index `freeIndex` settles on is not the index of a slot of the store: among
`total + 1` candidates one is free. -/
theorem freeIndex_free (s : pool.PoolStatus) (p : String) :
    ∀ fuel i, 1 ≤ i → (∀ j, 1 ≤ j → j < i → pool.slotName p j ∈ s.Worktrees.map Prod.fst) →
      (i - 1) + fuel = s.Worktrees.length →
      pool.slotName p (s.freeIndex p fuel i) ∉ s.Worktrees.map Prod.fst := by
  intro fuel
  induction fuel with
  | zero =>
    intro i h1 hvis hlen hmem
    simp only [pool.PoolStatus.freeIndex] at hmem
    have hsub : (List.range (i - 1)).map (fun j => pool.slotName p (j + 1)) ⊆
        s.Worktrees.map Prod.fst := by
      intro a ha
      simp only [List.mem_map, List.mem_range] at ha
      obtain ⟨j, hj, rfl⟩ := ha
      exact hvis (j + 1) (by omega) (by omega)
    have hperm := (List.subperm_of_subset (slotNames_nodup p (i - 1)) hsub).perm_of_length_le
      (by simp; omega)
    have := hperm.mem_iff.2 hmem
    simp only [List.mem_map, List.mem_range] at this
    obtain ⟨j, hj, hname⟩ := this
    have := slotName_injective p _ _ hname
    omega
  | succ fuel ih =>
    intro i h1 hvis hlen
    unfold pool.PoolStatus.freeIndex
    by_cases hk : (s.Worktrees.lookup (pool.slotName p i)).isSome = true
    · rw [if_pos hk]
      apply ih (i + 1) (by omega) _ (by omega)
      intro j hj1 hj2
      rcases Nat.lt_succ_iff_lt_or_eq.1 hj2 with h | h
      · exact hvis j hj1 h
      · rw [h]
        exact (lookup_isSome_iff _ _).1 hk
    · rw [if_neg hk]
      exact fun hmem => hk ((lookup_isSome_iff _ _).2 hmem)

/-- What `grow` adds to a store. -/
theorem grow_facts (p : String) :
    ∀ (n : Nat) (s : pool.PoolStatus),
      ∃ added, (pool.PoolStatus.grow p n s).Worktrees = s.Worktrees ++ added ∧
        added.length = n ∧ (∀ kv ∈ added, kv.2 = pool.SlotState.Available) ∧
        ((s.Worktrees.map Prod.fst).Nodup → ((s.Worktrees ++ added).map Prod.fst).Nodup) := by
  intro n
  induction n with
  | zero =>
    intro s
    exact ⟨[], by simp [pool.PoolStatus.grow], rfl, by simp, by simp⟩
  | succ n ih =>
    intro s
    obtain ⟨added, h1, h2, h3, h4⟩ := ih
      { Worktrees := s.Worktrees ++
          [(pool.slotName p (s.freeIndex p s.Worktrees.length 1), pool.SlotState.Available)] }
    have hfree := freeIndex_free s p s.Worktrees.length 1 (le_refl _)
      (fun j h1 h2 => by omega) (by omega)
    refine ⟨(pool.slotName p (s.freeIndex p s.Worktrees.length 1), pool.SlotState.Available) ::
      added, ?_, by simp [h2], ?_, ?_⟩
    · simp only [pool.PoolStatus.grow]
      rw [h1]
      simp
    · intro kv hkv
      rcases List.mem_cons.1 hkv with h | h
      · rw [h]
      · exact h3 kv h
    · intro hnd
      have := h4 (by
        simp only [List.map_append, List.map_cons, List.map_nil]
        rw [List.nodup_append]
        refine ⟨hnd, by simp, ?_⟩
        intro a ha hb
        simp only [List.mem_singleton] at hb
        subst hb
        exact hfree ha)
      simpa using this

/-- A slot that is found in a store is found in every extension of it. -/
theorem lookup_append_some (ws added : List (String × pool.SlotState)) (name : String)
    (st : pool.SlotState) (h : ws.lookup name = some st) :
    (ws ++ added).lookup name = some st := by
  induction ws with
  | nil => simp at h
  | cons kv ws ih =>
    obtain ⟨k, v⟩ := kv
    cases hk : name == k
    · simp only [List.lookup, hk, List.cons_append] at h ⊢
      exact ih h
    · simp only [List.lookup, hk, List.cons_append] at h ⊢
      exact h

/-- C16 (as amended): in the manager of the specification, for every initialized pool,
that is every store with a total `t ≥ 1`, and every size `s`: `Refill(s)` succeeds and
only appends entries: the total becomes `max(t, s)`, exactly `max(0, s - t)` slots are
added, all of them Available (the number of Available slots grows by that much) and
under names that keep the keys distinct, and every slot that was there keeps its state;
`Refill(s)` with `s ≤ t` changes nothing, and a second `Refill(s)` changes nothing.
For a manager without slots, the manager of a repository that was never initialized,
`Refill(s)` fails with `PoolNotFound` and changes nothing. -/
theorem Manager_Refill_tops_up (m : pool.Manager) (size : Int)
    (hinit : m.Status.Worktrees ≠ []) :
    (m.Refill size).1 = none ∧
    ((m.Refill size).2.Status.Worktrees.length : Int) =
      max (m.Status.Worktrees.length : Int) size ∧
    (∃ added, (m.Refill size).2.Status.Worktrees = m.Status.Worktrees ++ added ∧
      (added.length : Int) = max 0 (size - m.Status.Worktrees.length) ∧
      (∀ kv ∈ added, kv.2 = pool.SlotState.Available) ∧
      ((m.Status.Worktrees.map Prod.fst).Nodup →
        ((m.Refill size).2.Status.Worktrees.map Prod.fst).Nodup)) ∧
    (m.Refill size).2.GetStatus.1.2 =
      m.GetStatus.1.2 + max 0 (size - m.Status.Worktrees.length) ∧
    (∀ name st, m.Status.Worktrees.lookup name = some st →
      (m.Refill size).2.Status.Worktrees.lookup name = some st) ∧
    (size ≤ m.Status.Worktrees.length → m.Refill size = (none, m)) ∧
    (m.Refill size).2.Refill size = (none, (m.Refill size).2) ∧
    ∀ m₀ : pool.Manager, m₀.Status.Worktrees = [] →
      m₀.Refill size = (some errors.ErrPoolNotFound, m₀) := by
  have hempty : ∀ m₀ : pool.Manager, m₀.Status.Worktrees = [] →
      m₀.Refill size = (some errors.ErrPoolNotFound, m₀) := by
    intro m₀ h
    simp [pool.Manager.Refill, h]
  by_cases hd : size - (m.Status.Worktrees.length : Int) ≤ 0
  · have hr : m.Refill size = (none, m) := by
      simp [pool.Manager.Refill, hd, hinit]
    rw [hr]
    refine ⟨rfl, ?_, ⟨[], by simp, ?_, by simp, fun h => h⟩, ?_, fun _ _ h => h,
      fun _ => rfl, hr, hempty⟩
    · simp only
      omega
    · simp only [List.length_nil]
      omega
    · simp only
      omega
  · obtain ⟨added, h1, h2, h3, h4⟩ := grow_facts m.SlotPrefix
      (size - (m.Status.Worktrees.length : Int)).toNat m.Status
    have hr : m.Refill size = (none, pool.Manager.mk m.PoolDir m.SlotPrefix
        (pool.PoolStatus.grow m.SlotPrefix (size - (m.Status.Worktrees.length : Int)).toNat
          m.Status)) := by
      simp [pool.Manager.Refill, hd, hinit]
    have hlen : ((m.Refill size).2.Status.Worktrees.length : Int) = size := by
      rw [hr]
      simp only [h1, List.length_append, h2]
      omega
    have hne : (m.Refill size).2.Status.Worktrees ≠ [] := by
      rw [hr]
      simp only [h1]
      intro h
      exact hinit (List.append_eq_nil.1 h).1
    refine ⟨by rw [hr], ?_, ⟨added, by rw [hr]; exact h1, ?_, h3, ?_⟩, ?_, ?_, ?_, ?_, hempty⟩
    · rw [hlen]
      omega
    · rw [h2]
      omega
    · intro hnd
      rw [hr]
      simp only [h1]
      exact h4 hnd
    · have hadd : (added.filter (fun kv => kv.2 = pool.SlotState.Available)).length =
          added.length := by
        rw [List.filter_eq_self.2]
        intro kv hkv
        simp [h3 kv hkv]
      rw [hr]
      simp only [pool.Manager.GetStatus, h1, List.filter_append, List.length_append, hadd, h2]
      push_cast
      omega
    · intro name st hl
      rw [hr]
      simp only [h1]
      exact lookup_append_some _ _ _ _ hl
    · intro hle
      exact absurd (by omega) hd
    · have hfull : ∀ m2 : pool.Manager, m2.Status.Worktrees ≠ [] →
          (m2.Status.Worktrees.length : Int) = size → m2.Refill size = (none, m2) := by
        intro m2 hne2 h
        have : size - (m2.Status.Worktrees.length : Int) ≤ 0 := by omega
        simp [pool.Manager.Refill, this, hne2]
      exact hfull _ hne hlen

end RefillClaims

/-! ## Claims on the size of the pool and on the errors of git -/

section InitClaims

/-- A configuration that `Load` returns passed `Validate`: its pool size is at least 1. -/
theorem Load_PoolSize (s : config.Sources) (c : config.Config) (h : config.Load s = .ok c) :
    1 ≤ c.PoolSize := by
  unfold config.Load at h
  simp only at h
  split at h
  · cases h
  · split at h
    · cases h
    · rename_i c' _
      split at h
      · cases h
      · rename_i hv
        simp only [Except.ok.injEq] at h
        subst h
        unfold config.Config.Validate at hv
        by_contra hlt
        rw [if_pos (by omega)] at hv
        cases hv

/-- The size that the configuration or the default hands to a command is at least 1. -/
theorem rootInit_poolSize (s : config.Sources) : 1 ≤ (cmd.rootInit s).cfg.PoolSize := by
  unfold cmd.rootInit
  simp only
  cases h : config.Load s with
  | ok c => exact Load_PoolSize s c h
  | error e =>
    show (1 : Int) ≤ config.DefaultConfig.PoolSize
    decide

/-- The ways `initializePool` ends: with an error before the manager exists, or with
what `Initialize` answers for the manager that `NewManager` made. -/
theorem initializePool_runs {M : Type} (env : Env) (ops : pool.ManagerOps M)
    (setup : pool.SetupOps M) (size : Int) (tr : List Step) (r : Option Error × Option M)
    (t : List Step) (h : Sim.Runs (cmd.initializePool env ops setup size) tr r t) :
    (r.2 = none ∧ r.1 ≠ none) ∨
    ∃ repo m, ops.NewManager repo = Except.ok m ∧
      r = ((setup.Initialize m size).1, some (setup.Initialize m size).2) ∧
      Step.Initialize size (setup.Initialize m size).1 ∈ t := by
  unfold cmd.initializePool at h
  rw [Runs_bind] at h
  obtain ⟨u, tr1, _, h⟩ := h
  cases u with
  | error e =>
    simp only at h
    rw [Runs_pure] at h
    left
    rw [h.1]
    simp
  | ok repo =>
    simp only at h
    rw [Runs_bind] at h
    obtain ⟨b, tr2, _, h⟩ := h
    cases b with
    | true =>
      simp only [if_true] at h
      rw [Runs_pure] at h
      left
      rw [h.1]
      simp
    | false =>
      simp only [Bool.false_eq_true, if_false] at h
      rw [Runs_bind] at h
      obtain ⟨v, tr3, h3, h⟩ := h
      obtain ⟨hv, -, -⟩ := Runs_NewManager ops repo tr2 v tr3 h3
      cases v with
      | error e =>
        simp only at h
        rw [Runs_pure] at h
        left
        rw [h.1]
        simp
      | ok m =>
        simp only at h
        rw [Runs_bind] at h
        obtain ⟨w, tr4, h4, h⟩ := h
        obtain ⟨err, m2⟩ := w
        simp only at h
        rw [Runs_pure] at h
        unfold Sim.Runs pool.Initialize at h4
        obtain ⟨h5, h6⟩ := Prod.mk.inj h4
        right
        refine ⟨repo, m, hv.symm, ?_, ?_⟩
        · rw [h.1, h5]
        · rw [h.2, ← h6]
          simp

/-- C17: a size of 0 or less reaches the initialization through the flag `--pool-size`
only (the size taken from the configuration or from the default is at least 1); and
whenever it does, `pool init` over the manager of the specification fails, the error
of `Initialize` is the validation error, the manager is left as it was loaded and
`Initialize` creates nothing in the pool directory. -/
theorem init_rejects_nonpositive_size (env : Env) (poolDir slotPrefix statusFile : String)
    (stored : Option pool.PoolStatus) (dir : pool.Directory) (s : config.Sources)
    (flag : Option Int)
    (hsize : (cmd.persistentPreRun (cmd.rootInit s) flag).poolSize < 1) :
    flag = some (cmd.persistentPreRun (cmd.rootInit s) flag).poolSize ∧
    (cmd.runInit env (pool.specManager poolDir slotPrefix stored) (pool.specSetup statusFile)
      s flag).result.1 ≠ none ∧
    (∀ m, (cmd.runInit env (pool.specManager poolDir slotPrefix stored)
        (pool.specSetup statusFile) s flag).result.2 = some m →
      (cmd.runInit env (pool.specManager poolDir slotPrefix stored) (pool.specSetup statusFile)
        s flag).result.1 =
          some (errors.NewValidationError "pool_size" "" "must be at least 1") ∧
      m = pool.Manager.Load poolDir slotPrefix stored) ∧
    (pool.Manager.Load poolDir slotPrefix stored).Initialize statusFile dir
        (cmd.persistentPreRun (cmd.rootInit s) flag).poolSize =
      (some (errors.NewValidationError "pool_size" "" "must be at least 1"),
        pool.Manager.Load poolDir slotPrefix stored, dir) := by
  have hflag : flag = some (cmd.persistentPreRun (cmd.rootInit s) flag).poolSize := by
    cases flag with
    | some v => rfl
    | none =>
      exfalso
      have := rootInit_poolSize s
      simp only [cmd.persistentPreRun] at hsize
      omega
  generalize (cmd.persistentPreRun (cmd.rootInit s) flag).poolSize = size at hsize hflag ⊢
  have hinit : ∀ (m : pool.Manager) (d : pool.Directory), m.Initialize statusFile d size =
      (some (errors.NewValidationError "pool_size" "" "must be at least 1"), m, d) := by
    intro m d
    simp [pool.Manager.Initialize, hsize]
  have hrun := initializePool_runs env (pool.specManager poolDir slotPrefix stored)
    (pool.specSetup statusFile) size []
    (cmd.initializePool env (pool.specManager poolDir slotPrefix stored)
      (pool.specSetup statusFile) size []).1
    (cmd.initializePool env (pool.specManager poolDir slotPrefix stored)
      (pool.specSetup statusFile) size []).2 rfl
  have hsz : (cmd.persistentPreRun (cmd.rootInit s) flag).poolSize = size := by
    rw [hflag]
    rfl
  have hres : (cmd.runInit env (pool.specManager poolDir slotPrefix stored)
      (pool.specSetup statusFile) s flag).result =
      (cmd.initializePool env (pool.specManager poolDir slotPrefix stored)
        (pool.specSetup statusFile) size []).1 := by
    unfold cmd.runInit Sim.result
    rw [hsz]
    rfl
  rw [hres]
  generalize (cmd.initializePool env (pool.specManager poolDir slotPrefix stored)
    (pool.specSetup statusFile) size []).1 = r at hrun
  refine ⟨hflag, ?_, ?_, hinit _ _⟩
  · rcases hrun with ⟨-, h⟩ | ⟨repo, m, -, hr, -⟩
    · exact h
    · rw [hr]
      simp [pool.specSetup, hinit]
  · intro m hm
    rcases hrun with ⟨h, -⟩ | ⟨repo, m0, hnew, hr, -⟩
    · rw [h] at hm
      cases hm
    · rw [hr] at hm ⊢
      simp only [pool.specSetup, hinit, Option.some.injEq] at hm ⊢
      simp only [pool.specManager, Except.ok.injEq] at hnew
      exact ⟨trivial, by rw [← hm, ← hnew]⟩

end InitClaims

section GitErrorClaims

/-- C20 (as amended): a git invocation made through `Repository.run`,
`Repository.output` or `RunInDir` fails exactly when the command fails, and the
error is then a `GitError` with the arguments joined by spaces as its command and the
command's error inside; the `GitError` of `Repository.output` carries the standard
error output of the command, the one of `Repository.run` and of `RunInDir` carries no
output; and the message of a `GitError` is `git <command> failed: <err>`, followed
by a line `Output: <output>` when the output is not empty. -/
theorem git_failure_is_GitError (env : Env) (r : git.Repository) (dir : String)
    (args : List String) (tr : List Step) :
    (r.run env args tr).1 =
      (env.exec tr.length r.Path "git" args).err.map
        (fun err => Error.git (strings.Join args " ") "" err) ∧
    (r.output env args tr).1.2 =
      (env.exec tr.length r.Path "git" args).err.map
        (fun err => Error.git (strings.Join args " ")
          (env.exec tr.length r.Path "git" args).stderr err) ∧
    (git.RunInDir env dir args tr).1 =
      (env.exec tr.length dir "git" args).err.map
        (fun err => Error.git (strings.Join args " ") "" err) ∧
    ∀ command output err,
      (output ≠ "" → (Error.git command output err).message =
        "git " ++ command ++ " failed: " ++ err.message ++ "\nOutput: " ++ output) ∧
      (output = "" → (Error.git command output err).message =
        "git " ++ command ++ " failed: " ++ err.message) := by
  refine ⟨?_, ?_, ?_, ?_⟩
  · rw [run_apply]
    rfl
  · rw [output_apply]
    cases (env.exec tr.length r.Path "git" args).err <;> rfl
  · rw [RunInDir_apply]
    rfl
  · intro command output err
    constructor
    · intro h
      simp [Error.message, h]
    · intro h
      simp [Error.message, h]

end GitErrorClaims

/-! ## The parser of `git worktree list --porcelain` -/

section PorcelainClaims

theorem splitChars_line (l rest : List Char) (h : '\n' ∉ l) :
    strings.splitChars '\n' (l ++ '\n' :: rest) = l :: strings.splitChars '\n' rest := by
  induction l with
  | nil => simp [strings.splitChars]
  | cons c cs ih =>
    have hc : c ≠ '\n' := fun hc => h (by simp [hc])
    have hcs : '\n' ∉ cs := fun hcs => h (by simp [hcs])
    rw [List.cons_append, strings.splitChars, if_neg hc, ih hcs]

theorem foldl_append_data (xs : List String) (a : String) :
    (xs.foldl (fun r s => r ++ s) a).data = a.data ++ xs.flatMap String.data := by
  induction xs generalizing a with
  | nil => simp
  | cons x xs ih => simp [ih, String.data_append]

theorem join_lines_data (ls : List String) :
    (String.join (ls.map (fun l => l ++ "\n"))).data =
      ls.flatMap (fun l => l.data ++ ['\n']) := by
  unfold String.join
  rw [foldl_append_data]
  induction ls with
  | nil => rfl
  | cons l ls ih =>
    simp only [List.map_cons, List.flatMap_cons, String.data_append] at ih ⊢
    rw [← ih]
    rfl

theorem splitChars_lines (ls : List String) (h : ∀ l ∈ ls, '\n' ∉ l.data) :
    strings.splitChars '\n' (ls.flatMap (fun l => l.data ++ ['\n'])) =
      ls.map String.data ++ [[]] := by
  induction ls with
  | nil => rfl
  | cons l ls ih =>
    rw [List.flatMap_cons, List.append_assoc, List.singleton_append,
      splitChars_line _ _ (h l (by simp)), ih (fun x hx => h x (by simp [hx]))]
    rfl

/-- The scanner returns the lines of an output whose lines are all scannable. -/
theorem ScanLines_lines (ls : List String) (h : ∀ l ∈ ls, git.scannable l = true) :
    bufio.ScanLines (String.join (ls.map (fun l => l ++ "\n"))) = ls := by
  have h1 : ∀ l ∈ ls, '\n' ∉ l.data := by
    intro l hl hmem
    have := h l hl
    simp [git.scannable, hmem] at this
  unfold bufio.ScanLines bufio.rawLines
  rw [join_lines_data, splitChars_lines ls h1]
  have hlast : (ls.map String.data ++ [[]]).getLast? = some [] := by simp
  simp only [hlast, if_true, List.dropLast_concat]
  rw [List.takeWhile_eq_self_iff.2, List.map_map]
  · conv_rhs => rw [← List.map_id ls]
    apply List.map_congr_left
    intro l hl
    have := h l hl
    simp only [git.scannable, Bool.and_eq_true, beq_iff_eq] at this
    simp only [Function.comp, this.1.2, id]
  · intro l hl
    simp only [List.mem_map] at hl
    obtain ⟨x, hx, rfl⟩ := hl
    have := h x hx
    simp only [git.scannable, Bool.and_eq_true] at this
    exact this.2

theorem HasPrefix_append (p s : String) : strings.HasPrefix (p ++ s) p = true := by
  simp [strings.HasPrefix, String.data_append]

theorem TrimPrefix_append (p s : String) : strings.TrimPrefix (p ++ s) p = s := by
  simp [strings.TrimPrefix, HasPrefix_append, String.data_append]

theorem HasPrefix_head (h : String) :
    strings.HasPrefix ("HEAD " ++ h) "worktree " = false ∧
    strings.HasPrefix ("HEAD " ++ h) "branch refs/heads/" = false := by
  constructor <;> rfl

theorem HasPrefix_branch (b : String) :
    strings.HasPrefix ("branch refs/heads/" ++ b) "worktree " = false := rfl

/-- The loop of `ListWorktrees` over the lines of one record: the worktree being read is
filed when it has a path, and the worktree of the record takes its place. -/
theorem parseLine_record (r : git.PorcelainRecord) (acc : List git.Worktree)
    (cur : git.Worktree) :
    r.lines.foldl git.parseLine (acc, cur) =
      ((if cur.Path ≠ "" then acc ++ [cur] else acc), r.worktree) := by
  obtain ⟨path, head, branch, bare, blank⟩ := r
  have hblank : ∀ a : List git.Worktree × git.Worktree, git.parseLine a "" = a := by
    intro a
    rfl
  have hbare : ∀ (ws : List git.Worktree) (w : git.Worktree),
      git.parseLine (ws, w) "bare" = (ws, { w with Bare := true }) := by
    intro ws w
    rfl
  have hhead : ∀ (ws : List git.Worktree) (w : git.Worktree) (h : String),
      git.parseLine (ws, w) ("HEAD " ++ h) = (ws, { w with Commit := h }) := by
    intro ws w h
    simp only [git.parseLine, HasPrefix_head, HasPrefix_append, TrimPrefix_append]
    simp
  have hbranch : ∀ (ws : List git.Worktree) (w : git.Worktree) (b : String),
      git.parseLine (ws, w) ("branch refs/heads/" ++ b) = (ws, { w with Branch := b }) := by
    intro ws w b
    simp only [git.parseLine, HasPrefix_branch, HasPrefix_append, TrimPrefix_append]
    simp
  have hwt : git.parseLine (acc, cur) ("worktree " ++ path) =
      ((if cur.Path ≠ "" then acc ++ [cur] else acc),
        { Path := path, Branch := "", Commit := "", Bare := false }) := by
    simp only [git.parseLine, HasPrefix_append, TrimPrefix_append]
    simp
  simp only [git.PorcelainRecord.lines, List.foldl_append, List.foldl_cons, List.foldl_nil, hwt,
    git.PorcelainRecord.worktree]
  cases head <;> cases branch <;> cases bare <;> cases blank <;>
    simp [hblank, hbare, hhead, hbranch]

/-- The loop of `ListWorktrees` over the lines of a list of records. -/
theorem parseLine_records (recs : List git.PorcelainRecord)
    (h : ∀ r ∈ recs, r.Path ≠ "") (acc : List git.Worktree) (cur : git.Worktree) :
    (if ((recs.flatMap git.PorcelainRecord.lines).foldl git.parseLine (acc, cur)).2.Path ≠ ""
      then ((recs.flatMap git.PorcelainRecord.lines).foldl git.parseLine (acc, cur)).1 ++
        [((recs.flatMap git.PorcelainRecord.lines).foldl git.parseLine (acc, cur)).2]
      else ((recs.flatMap git.PorcelainRecord.lines).foldl git.parseLine (acc, cur)).1) =
    (if cur.Path ≠ "" then acc ++ [cur] else acc) ++
      recs.map git.PorcelainRecord.worktree := by
  induction recs generalizing acc cur with
  | nil => simp
  | cons r rs ih =>
    rw [List.flatMap_cons, List.foldl_append, parseLine_record,
      ih (fun x hx => h x (by simp [hx]))]
    have hr : r.worktree.Path ≠ "" := h r (by simp)
    simp only [hr, ne_eq, not_false_eq_true, if_true, List.map_cons, List.append_assoc,
      List.singleton_append]

/-- C19: for every list of `k` records, each with a non-empty path and with lines that the
scanner hands over as they stand, `ListWorktrees` makes of the output that consists of
these records exactly the `k` worktrees of the records, in the order of the input: each
with the path of its record, with the hash of the `HEAD` line as `Commit` and the name of
the `branch refs/heads/` line as `Branch` (empty when the line is missing), and with
`Bare` set exactly when the record has the line `bare`. -/
theorem ListWorktrees_parses_records (recs : List git.PorcelainRecord)
    (hpath : ∀ r ∈ recs, r.Path ≠ "")
    (hlines : ∀ r ∈ recs, ∀ l ∈ r.lines, git.scannable l = true) :
    git.parseWorktrees (git.renderPorcelain recs) = recs.map git.PorcelainRecord.worktree ∧
    (git.parseWorktrees (git.renderPorcelain recs)).length = recs.length ∧
    (∀ (env : Env) (repo : git.Repository) (tr : List Step),
      env.exec tr.length repo.Path "git" ["worktree", "list", "--porcelain"] =
        { err := none, stdout := git.renderPorcelain recs, stderr := "" } →
      (repo.ListWorktrees env tr).1 = (recs.map git.PorcelainRecord.worktree, none)) ∧
    (∀ r ∈ recs, r.worktree.Path = r.Path ∧ r.worktree.Commit = r.Head.getD "" ∧
      r.worktree.Branch = r.Branch.getD "" ∧ r.worktree.Bare = r.Bare) := by
  have hparse : git.parseWorktrees (git.renderPorcelain recs) =
      recs.map git.PorcelainRecord.worktree := by
    unfold git.parseWorktrees git.renderPorcelain
    rw [ScanLines_lines]
    · have := parseLine_records recs hpath []
        { Path := "", Branch := "", Commit := "", Bare := false }
      simp only [ne_eq, not_true_eq_false, if_false, List.nil_append] at this
      exact this
    · intro l hl
      simp only [List.mem_flatMap] at hl
      obtain ⟨r, hr, hl⟩ := hl
      exact hlines r hr l hl
  refine ⟨hparse, by rw [hparse, List.length_map], ?_, fun r _ => ⟨rfl, rfl, rfl, rfl⟩⟩
  intro env repo tr hexec
  simp only [git.Repository.ListWorktrees, bind, bind_apply, output_apply, hexec, pure,
    pure_apply, hparse]

end PorcelainClaims

/-! ## Sample runs of the pool manager, of `pool init`, of the parser and of git failures -/

section SetupSamples

/-- Witness of C13: three slots, as in the test `PoolInit`, which expects four entries
in the pool directory. -/
theorem Manager_Initialize_fills_pool_witness :
    ((1 : Nat) ≤ 3 ∧ ∀ i, ".pool-status.json" ≠ pool.slotName "pool-" i) ∧
    ((pool.Manager.Load "/repo/.worktree-pool" "pool-" none).Initialize ".pool-status.json"
        none ((3 : Nat) : Int)).1 = none ∧
    ((pool.Manager.Load "/repo/.worktree-pool" "pool-" none).Initialize ".pool-status.json"
        none ((3 : Nat) : Int)).2.1.GetStatus.1 = (((3 : Nat) : Int), ((3 : Nat) : Int)) ∧
    ((pool.Manager.Load "/repo/.worktree-pool" "pool-" none).Initialize ".pool-status.json"
        none ((3 : Nat) : Int)).2.2 =
      some ((List.range 3).map (fun j => pool.slotName "pool-" (j + 1)) ++
        [".pool-status.json"]) ∧
    ((List.range 3).map (fun j => pool.slotName "pool-" (j + 1)) ++
      [".pool-status.json"]).length = 3 + 1 ∧
    ((List.range 3).map (fun j => pool.slotName "pool-" (j + 1)) ++
      [".pool-status.json"]).Nodup :=
  have hfile : ∀ i, ".pool-status.json" ≠ pool.slotName "pool-" i := by
    intro i h
    have h2 := congrArg (fun s => s.data.head?) h
    simp only [pool.slotName, String.data_append] at h2
    cases h2
  ⟨⟨by decide, hfile⟩,
    Manager_Initialize_fills_pool "/repo/.worktree-pool" "pool-" ".pool-status.json" 3
      (by decide) hfile⟩

/-- The entries of the pool directory after `Initialize(3)`. -/
theorem Manager_Initialize_sample :
    ((pool.Manager.Load "/repo/.worktree-pool" "pool-" none).Initialize ".pool-status.json"
        none 3).2.2 = some ["pool-1", "pool-2", "pool-3", ".pool-status.json"] := by
  decide

/-- The scenario of C14 with three slots. -/
theorem Manager_claim_sample :
    (pool.Manager.claim 3 ((pool.Manager.Load "/repo/.worktree-pool" "pool-" none).Initialize
      ".pool-status.json" none 3).2.1).1 = ["pool-1", "pool-2", "pool-3"] := by
  decide

/-- Witness of C15: the slot `pool-2` of the sample pool. -/
theorem Manager_mark_sets_exactly_one_slot_witness :
    (sample.loaded.Status.Worktrees.map Prod.fst).Nodup ∧
    (sample.loaded.MarkInUse "pool-2").1 = none ∧
    (sample.loaded.MarkInUse "pool-2").2.Status.Worktrees.lookup "pool-2" =
      some pool.SlotState.InUse ∧
    (sample.loaded.MarkInUse "pool-2").2.GetStatus.1.1 = sample.loaded.GetStatus.1.1 ∧
    (sample.loaded.MarkInUse "pool-2").2.GetStatus.1.2 = sample.loaded.GetStatus.1.2 - 1 :=
  have h := ((Manager_mark_sets_exactly_one_slot sample.loaded "pool-2" (by decide)).1
    pool.SlotState.Available (by decide)).1
  ⟨by decide, h.1, h.2.1, h.2.2.2.2.1, h.2.2.2.2.2⟩

/-- Witness of the amended C16, the scenario of §8 for `Refill`: the initialized pool of
three slots, two of them Available, is refilled to five and `Refill(5)` succeeds. -/
theorem Manager_Refill_tops_up_witness :
    sample.loaded.Status.Worktrees ≠ [] ∧
    (sample.loaded.Refill 5).1 = none ∧
    ((sample.loaded.Refill 5).2.Status.Worktrees.length : Int) =
      max (sample.loaded.Status.Worktrees.length : Int) 5 ∧
    (sample.loaded.Refill 5).2.Refill 5 = (none, (sample.loaded.Refill 5).2) :=
  have h := Manager_Refill_tops_up sample.loaded 5 (by decide)
  ⟨by decide, h.1, h.2.1, h.2.2.2.2.2.2.1⟩

/-- The scenario of §8 for `Refill`, evaluated: `(3, 2)` becomes `(5, 4)` after
`Refill(5)`, the new slots are `pool-4` and `pool-5`, and a `Refill(3)` afterwards
changes nothing. -/
theorem Manager_Refill_sample :
    sample.loaded.GetStatus.1 = (3, 2) ∧
    (sample.loaded.Refill 5).2.GetStatus.1 = (5, 4) ∧
    (sample.loaded.Refill 5).2.Status.Worktrees.map Prod.fst =
      ["pool-1", "pool-2", "pool-3", "pool-4", "pool-5"] ∧
    ((sample.loaded.Refill 5).2.Refill 3).2.GetStatus.1 = (5, 4) := by
  decide

/-- Counterexample to C16: the manager of a repository that was never initialized has
the status `(0, 0)`; `Refill(5)` fails with `PoolNotFound` and adds no slot, so the
total stays `0` and is not `max(0, 5)`.  The command `pool refill` in that repository
returns the same error. -/
theorem Manager_Refill_needs_initialized_pool :
    (pool.Manager.Load "/repo/.worktree-pool" "pool-" none).GetStatus.1 = (0, 0) ∧
    (pool.Manager.Load "/repo/.worktree-pool" "pool-" none).Refill 5 =
      (some errors.ErrPoolNotFound, pool.Manager.Load "/repo/.worktree-pool" "pool-" none) ∧
    ((pool.Manager.Load "/repo/.worktree-pool" "pool-" none).Refill 5).2.GetStatus.1.1 ≠
      max 0 5 ∧
    (cmd.refillPool (sample.env sample.mainOnly sample.nothing []) sample.emptyManager
      (pool.specSetup ".pool-status.json") 5).result.1 = some errors.ErrPoolNotFound ∧
    Step.Refill 5 (some errors.ErrPoolNotFound) ∈
      (cmd.refillPool (sample.env sample.mainOnly sample.nothing []) sample.emptyManager
        (pool.specSetup ".pool-status.json") 5).trace := by
  decide

/-- The command `pool refill` (size 5) in the sample repository with its initialized
pool of three slots: it calls `Refill(5)` and leaves the status `(5, 4)`. -/
theorem refillPool_sample :
    (cmd.refillPool (sample.env sample.mainOnly sample.nothing []) sample.manager
      (pool.specSetup ".pool-status.json") 5).result.1 = none ∧
    (cmd.refillPool (sample.env sample.mainOnly sample.nothing []) sample.manager
      (pool.specSetup ".pool-status.json") 5).result.2.map
        (fun m => (pool.Manager.GetStatus m).1) = some (5, 4) ∧
    Step.Refill 5 none ∈
      (cmd.refillPool (sample.env sample.mainOnly sample.nothing []) sample.manager
        (pool.specSetup ".pool-status.json") 5).trace := by
  decide

/-- Witness of C17: `pool init --pool-size 0` in the sample repository. -/
theorem init_rejects_nonpositive_size_witness :
    (cmd.persistentPreRun (cmd.rootInit sample.sources) (some 0)).poolSize < 1 ∧
    (cmd.runInit (sample.env sample.mainOnly sample.nothing [])
      (pool.specManager "/repo/.worktree-pool" "pool-" none)
      (pool.specSetup ".pool-status.json") sample.sources (some 0)).result.1 ≠ none :=
  ⟨by decide,
    (init_rejects_nonpositive_size (sample.env sample.mainOnly sample.nothing [])
      "/repo/.worktree-pool" "pool-" ".pool-status.json" none none sample.sources (some 0)
      (by decide)).2.1⟩

/-- The run of `pool init --pool-size 0` in the sample repository: `Initialize(0)` is
called, answers the validation error, and the manager has no slots. -/
theorem runInit_zero_sample :
    (cmd.runInit (sample.env sample.mainOnly sample.nothing [])
      (pool.specManager "/repo/.worktree-pool" "pool-" none)
      (pool.specSetup ".pool-status.json") sample.sources (some 0)).result =
      (some (Error.validation "pool_size" "" "must be at least 1"),
        some (pool.Manager.Load "/repo/.worktree-pool" "pool-" none)) ∧
    Step.Initialize 0 (some (Error.validation "pool_size" "" "must be at least 1")) ∈
      (cmd.runInit (sample.env sample.mainOnly sample.nothing [])
        (pool.specManager "/repo/.worktree-pool" "pool-" none)
        (pool.specSetup ".pool-status.json") sample.sources (some 0)).trace := by
  decide

/-- A size of 0 in `WORKTREE_POOL_SIZE` does not reach the initialization: `Load` fails
validation, the commands fall back to the default configuration and the size is 5. -/
theorem rootInit_env_zero_sample :
    (config.Load { sample.sources with PoolSizeEnv := some 0 }) =
      Except.error (Error.validation "pool_size" "" "must be at least 1") ∧
    (cmd.persistentPreRun (cmd.rootInit { sample.sources with PoolSizeEnv := some 0 })
      none).poolSize = 5 :=
  ⟨rfl, by decide⟩

end SetupSamples

section ParserSamples

/-- Witness of C19: the two records of the sample output. -/
theorem ListWorktrees_parses_records_witness :
    ((∀ r ∈ sample.records, r.Path ≠ "") ∧
      ∀ r ∈ sample.records, ∀ l ∈ r.lines, git.scannable l = true) ∧
    git.renderPorcelain sample.records = sample.withFeature ∧
    git.parseWorktrees (git.renderPorcelain sample.records) =
      sample.records.map git.PorcelainRecord.worktree :=
  ⟨⟨by decide, by decide⟩, by decide,
    (ListWorktrees_parses_records sample.records (by decide) (by decide)).1⟩

end ParserSamples

section GitErrorSamples

/-- Counterexample to C20: `git fetch origin` fails and writes `fatal` to its standard
error output; the error that `Repository.run` (the method behind `FetchOrigin`) and
`RunInDir` return is a `GitError` with an empty output, and its message has no
`Output:` line. -/
theorem run_failure_drops_stderr :
    ((sample.env sample.mainOnly sample.nothing [["fetch", "origin"]]).exec 0 "." "git"
      ["fetch", "origin"]).stderr = "fatal" ∧
    (sample.repo.run (sample.env sample.mainOnly sample.nothing [["fetch", "origin"]])
      ["fetch", "origin"] []).1 = some (Error.git "fetch origin" "" sample.exitError) ∧
    (git.RunInDir (sample.env sample.mainOnly sample.nothing [["fetch", "origin"]]) "."
      ["fetch", "origin"] []).1 = some (Error.git "fetch origin" "" sample.exitError) ∧
    (Error.git "fetch origin" "" sample.exitError).message =
      "git fetch origin failed: exit status 1" ∧
    (sample.repo.output (sample.env sample.mainOnly sample.nothing [["fetch", "origin"]])
      ["fetch", "origin"] []).1.2 = some (Error.git "fetch origin" "fatal" sample.exitError) ∧
    (Error.git "fetch origin" "fatal" sample.exitError).message =
      "git fetch origin failed: exit status 1\nOutput: fatal" := by
  decide

end GitErrorSamples

/-! ## Claims on the configuration and on the errors -/

section ConfigClaims

/-- C21: `Validate` returns `nil` exactly for a configuration with `1 ≤ PoolSize ≤ 50`
and non-empty `PoolPrefix`, `DefaultBranch` and `Editor`; otherwise it returns the
`ValidationError` of the first violated field in the order `pool_size`, `pool_prefix`,
`default_branch`, `editor`, with an empty value; and `DefaultConfig()` validates. -/
theorem Validate_accepts_iff (c : config.Config) :
    (c.Validate = none ↔
      1 ≤ c.PoolSize ∧ c.PoolSize ≤ 50 ∧ c.PoolPrefix ≠ "" ∧ c.DefaultBranch ≠ "" ∧
        c.Editor ≠ "") ∧
    (c.PoolSize < 1 →
      c.Validate = some (Error.validation "pool_size" "" "must be at least 1")) ∧
    (50 < c.PoolSize →
      c.Validate = some (Error.validation "pool_size" "" "must be at most 50")) ∧
    (1 ≤ c.PoolSize → c.PoolSize ≤ 50 → c.PoolPrefix = "" →
      c.Validate = some (Error.validation "pool_prefix" "" "cannot be empty")) ∧
    (1 ≤ c.PoolSize → c.PoolSize ≤ 50 → c.PoolPrefix ≠ "" → c.DefaultBranch = "" →
      c.Validate = some (Error.validation "default_branch" "" "cannot be empty")) ∧
    (1 ≤ c.PoolSize → c.PoolSize ≤ 50 → c.PoolPrefix ≠ "" → c.DefaultBranch ≠ "" →
      c.Editor = "" → c.Validate = some (Error.validation "editor" "" "cannot be empty")) ∧
    config.DefaultConfig.Validate = none := by
  refine ⟨?_, ?_, ?_, ?_, ?_, ?_, by decide⟩
  · unfold config.Config.Validate
    constructor
    · intro h
      split at h
      · cases h
      · split at h
        · cases h
        · split at h
          · cases h
          · split at h
            · cases h
            · split at h
              · cases h
              · refine ⟨by omega, by omega, ?_, ?_, ?_⟩ <;> assumption
    · rintro ⟨h1, h2, h3, h4, h5⟩
      rw [if_neg (by omega), if_neg (by omega), if_neg h3, if_neg h4, if_neg h5]
  · intro h
    unfold config.Config.Validate
    rw [if_pos h]
    rfl
  · intro h
    unfold config.Config.Validate
    rw [if_neg (by omega), if_pos (by omega)]
    rfl
  · intro h1 h2 h3
    unfold config.Config.Validate
    rw [if_neg (by omega), if_neg (by omega), if_pos h3]
    rfl
  · intro h1 h2 h3 h4
    unfold config.Config.Validate
    rw [if_neg (by omega), if_neg (by omega), if_neg h3, if_pos h4]
    rfl
  · intro h1 h2 h3 h4 h5
    unfold config.Config.Validate
    rw [if_neg (by omega), if_neg (by omega), if_neg h3, if_neg h4, if_pos h5]
    rfl

theorem lookup_cons_pair (k k1 v1 : String) (rest : List (String × String)) :
    ((k1, v1) :: rest).lookup k = if k = k1 then some v1 else rest.lookup k := by
  by_cases h : k = k1
  · subst h
    simp [List.lookup]
  · have h2 : (k == k1) = false := by simpa using h
    simp [List.lookup, h2, h]

theorem lookup_replace (l : List (String × String)) (k1 v1 k : String) :
    (l.map (fun a => if a.1 = k1 then (k1, v1) else a)).lookup k =
      if k = k1 then (if l.any (fun a => a.1 == k1) then some v1 else none)
      else l.lookup k := by
  induction l with
  | nil => simp [List.lookup]
  | cons a rest ih =>
    obtain ⟨ak, av⟩ := a
    by_cases ha : ak = k1
    · subst ha
      simp only [List.map_cons, if_true, lookup_cons_pair, List.any_cons, beq_self_eq_true,
        Bool.true_or]
      by_cases hk : k = ak
      · simp [hk]
      · simp only [if_neg hk] at ih ⊢
        exact ih
    · have ha2 : (ak == k1) = false := by simpa using ha
      simp only [List.map_cons, if_neg ha, lookup_cons_pair, List.any_cons, ha2, Bool.false_or]
      by_cases hk : k = ak
      · subst hk
        simp [ha]
      · simp only [if_neg hk]
        exact ih

theorem lookup_append_pair (l : List (String × String)) (k1 v1 k : String) :
    (l ++ [(k1, v1)]).lookup k =
      match l.lookup k with
      | some v => some v
      | none => if k = k1 then some v1 else none := by
  induction l with
  | nil =>
    rw [List.nil_append, lookup_cons_pair]
    rfl
  | cons a rest ih =>
    obtain ⟨ak, av⟩ := a
    simp only [List.cons_append, lookup_cons_pair]
    by_cases hk : k = ak
    · simp [hk]
    · simp only [if_neg hk]
      exact ih

theorem lookup_none_of_not_any (l : List (String × String)) (k : String)
    (h : l.any (fun a => a.1 == k) = false) : l.lookup k = none := by
  induction l with
  | nil => rfl
  | cons a rest ih =>
    obtain ⟨ak, av⟩ := a
    simp only [List.any_cons, Bool.or_eq_false_iff, beq_eq_false_iff_ne, ne_eq] at h
    rw [lookup_cons_pair, if_neg (fun hk => h.1 hk.symm)]
    exact ih h.2

theorem lookup_some_of_any (l : List (String × String)) (k : String)
    (h : l.any (fun a => a.1 == k) = true) : ∃ v, l.lookup k = some v := by
  induction l with
  | nil => simp at h
  | cons a rest ih =>
    obtain ⟨ak, av⟩ := a
    rw [lookup_cons_pair]
    by_cases hk : k = ak
    · exact ⟨av, by simp [hk]⟩
    · simp only [List.any_cons, Bool.or_eq_true, beq_iff_eq] at h
      rcases h with h | h
      · exact absurd h.symm hk
      · simp only [if_neg hk]
        exact ih h

/-- The value under a key after `c.Aliases[k] = v`. -/
theorem lookup_setAlias (aliases : List (String × String)) (kv : String × String)
    (k : String) :
    (config.setAlias aliases kv).lookup k =
      if k = kv.1 then some kv.2 else aliases.lookup k := by
  obtain ⟨k1, v1⟩ := kv
  unfold config.setAlias
  cases hany : aliases.any (fun a => a.1 == k1)
  · simp only [Bool.false_eq_true, if_false, lookup_append_pair]
    by_cases hk : k = k1
    · subst hk
      rw [lookup_none_of_not_any aliases k hany]
    · simp only [if_neg hk]
      cases aliases.lookup k <;> rfl
  · simp only [if_true, lookup_replace, hany]

/-- The value under a key after the loop `for k, v := range other.Aliases`. -/
theorem lookup_foldl_setAlias (more : List (String × String))
    (hmore : (more.map Prod.fst).Nodup) (aliases : List (String × String)) (k : String) :
    (more.foldl config.setAlias aliases).lookup k =
      match more.lookup k with
      | some v => some v
      | none => aliases.lookup k := by
  induction more generalizing aliases with
  | nil => rfl
  | cons kv rest ih =>
    obtain ⟨k1, v1⟩ := kv
    simp only [List.map_cons, List.nodup_cons, List.mem_map, not_exists, not_and] at hmore
    rw [List.foldl_cons, ih hmore.2, lookup_setAlias]
    by_cases hk : k = k1
    · subst hk
      have hrest : rest.lookup k = none := by
        cases h : rest.lookup k with
        | none => rfl
        | some v =>
          exfalso
          have hmem : (k, v) ∈ rest := by
            clear ih hmore
            induction rest with
            | nil => cases h
            | cons a rest ih =>
              obtain ⟨ak, av⟩ := a
              by_cases hka : k = ak
              · subst hka
                simp only [List.lookup, beq_self_eq_true, Option.some.injEq] at h
                subst h
                exact List.mem_cons_self _ _
              · have hk2 : (k == ak) = false := by simpa using hka
                simp only [List.lookup, hk2] at h
                exact List.mem_cons_of_mem _ (ih h)
          exact hmore.1 (k, v) hmem rfl
      simp [List.lookup, hrest]
    · have hk2 : (k == k1) = false := by simpa using hk
      simp only [List.lookup, hk2, if_neg hk]

/-- C22: `base.merge(override)` takes `PoolSize` from the override when that is
positive, and `PoolPrefix`, `DefaultBranch` and `Editor` when they are not empty, and
keeps the field of the base otherwise; a `nil` map of aliases in the override leaves
the aliases of the base as they are, and otherwise (the keys of a map being distinct)
the merged map holds under every key the value of the override when the override has
the key and the value of the base when it has not. -/
theorem merge_overrides_set_fields (c other : config.Config) :
    (0 < other.PoolSize → (c.merge other).PoolSize = other.PoolSize) ∧
    (other.PoolSize ≤ 0 → (c.merge other).PoolSize = c.PoolSize) ∧
    (other.PoolPrefix ≠ "" → (c.merge other).PoolPrefix = other.PoolPrefix) ∧
    (other.PoolPrefix = "" → (c.merge other).PoolPrefix = c.PoolPrefix) ∧
    (other.DefaultBranch ≠ "" → (c.merge other).DefaultBranch = other.DefaultBranch) ∧
    (other.DefaultBranch = "" → (c.merge other).DefaultBranch = c.DefaultBranch) ∧
    (other.Editor ≠ "" → (c.merge other).Editor = other.Editor) ∧
    (other.Editor = "" → (c.merge other).Editor = c.Editor) ∧
    (other.Aliases = none → (c.merge other).Aliases = c.Aliases) ∧
    (∀ more, other.Aliases = some more → (more.map Prod.fst).Nodup →
      ∃ merged, (c.merge other).Aliases = some merged ∧
        ∀ k, merged.lookup k =
          match more.lookup k with
          | some v => some v
          | none => (c.Aliases.getD []).lookup k) := by
  refine ⟨?_, ?_, ?_, ?_, ?_, ?_, ?_, ?_, ?_, ?_⟩
  · intro h
    simp [config.Config.merge, h]
  · intro h
    have : ¬ other.PoolSize > 0 := by omega
    simp [config.Config.merge, this]
  · intro h
    simp [config.Config.merge, h]
  · intro h
    simp [config.Config.merge, h]
  · intro h
    simp [config.Config.merge, h]
  · intro h
    simp [config.Config.merge, h]
  · intro h
    simp [config.Config.merge, h]
  · intro h
    simp [config.Config.merge, h]
  · intro h
    simp [config.Config.merge, h]
  · intro more h hmore
    refine ⟨more.foldl config.setAlias (c.Aliases.getD []), by simp [config.Config.merge, h],
      fun k => lookup_foldl_setAlias more hmore _ k⟩

/-- The test `TestConfigMerge`: the merged configuration. -/
theorem merge_sample :
    sample.mergeBase.merge sample.mergeOverride =
      { PoolSize := 10, PoolPrefix := "pool-", DefaultBranch := "main", Editor := "nvim",
        AutoRefill := false, CleanupOnExit := false,
        Aliases := some [("f", "feature"), ("b", "bugfix")] } := by
  decide

end ConfigClaims

section ErrorClaims

/-- C25: `Wrap(nil, msg)` and `Wrapf(nil, ...)` are `nil`; for an error `err` that is not
`nil`, `Wrap(err, msg)` is an error that is not `nil`, its message is `msg`, a colon and
a blank, and the message of `err`, and it unwraps to `err`; and `Wrapf` returns what
`Wrap` returns for the expanded format. -/
theorem Wrap_wraps (err : Error) (msg : String) :
    errors.Wrap none msg = none ∧
    errors.Wrapf none msg = none ∧
    (∃ w, errors.Wrap (some err) msg = some w ∧
      w.message = msg ++ ": " ++ err.message ∧ w.Unwrap = some err) ∧
    (∀ e : Option Error, errors.Wrapf e msg = errors.Wrap e msg) :=
  ⟨rfl, rfl, ⟨Error.wrapped msg err, rfl, rfl, rfl⟩, fun _ => rfl⟩

/-- C26: the message of `NewValidationError(field, value, msg)` is
`validation failed for <field>=<value>: <msg>` when the value is not empty and
`validation failed for <field>: <msg>` when it is. -/
theorem ValidationError_message (field value msg : String) :
    (value ≠ "" → (errors.NewValidationError field value msg).message =
      "validation failed for " ++ field ++ "=" ++ value ++ ": " ++ msg) ∧
    (value = "" → (errors.NewValidationError field value msg).message =
      "validation failed for " ++ field ++ ": " ++ msg) := by
  constructor
  · intro h
    simp [errors.NewValidationError, Error.message, h]
  · intro h
    simp [errors.NewValidationError, Error.message, h]

/-- The cases of the test `TestValidationError`. -/
theorem ValidationError_message_sample :
    (errors.NewValidationError "pool_size" "100" "must be at most 50").message =
      "validation failed for pool_size=100: must be at most 50" ∧
    (errors.NewValidationError "editor" "" "cannot be empty").message =
      "validation failed for editor: cannot be empty" := by
  decide

end ErrorClaims

/-! ## The merged branches -/

section MergedClaims

theorem foldl_mergedLine (d : String) (lines : List String) (acc : List String) :
    lines.foldl (git.mergedLine d) acc =
      acc ++ (((lines.map strings.TrimSpace).filter
        (fun b => strings.HasPrefix b "origin/" && !strings.Contains b d)).map
          (fun b => strings.TrimPrefix b "origin/")) := by
  induction lines generalizing acc with
  | nil => simp
  | cons l ls ih =>
    rw [List.foldl_cons, ih]
    unfold git.mergedLine
    cases h1 : strings.Contains (strings.TrimSpace l) d <;>
      cases h2 : strings.HasPrefix (strings.TrimSpace l) "origin/" <;>
      simp [h1, h2]

theorem containsChars_append (sub p s : List Char) (h : strings.containsChars sub s = true) :
    strings.containsChars sub (p ++ s) = true := by
  induction p with
  | nil => exact h
  | cons c cs ih =>
    rw [List.cons_append, strings.containsChars, ih, Bool.or_true]

theorem containsChars_self (s : List Char) : strings.containsChars s s = true := by
  cases s with
  | nil => rfl
  | cons c cs => simp [strings.containsChars]

/-- A string with the prefix `p` is `p` followed by what `TrimPrefix` leaves. -/
theorem HasPrefix_split (s p : String) (h : strings.HasPrefix s p = true) :
    s.data = p.data ++ (strings.TrimPrefix s p).data := by
  unfold strings.TrimPrefix
  rw [if_pos h]
  unfold strings.HasPrefix at h
  obtain ⟨t, ht⟩ := List.isPrefixOf_iff_prefix.1 h
  rw [← ht]
  simp

/-- C30: when `git branch -r --merged origin/<default>` succeeds, `GetMergedBranches`
returns, in the order of the output, the lines of the trimmed output, each trimmed,
that start with `origin/` and do not contain the name of the default branch, without
the prefix `origin/`; when the command fails it returns that error and no branch.  So
every name it returns comes from such a line, differs from the default branch and does
not contain its name. -/
theorem GetMergedBranches_keeps_foreign_lines (env : Env) (r : git.Repository)
    (tr : List Step) :
    ((env.exec tr.length r.Path "git"
        ["branch", "-r", "--merged", "origin/" ++ r.DefaultBranch]).err = none →
      (r.GetMergedBranches env tr).1 =
        (((((strings.Split (strings.TrimSpace (env.exec tr.length r.Path "git"
            ["branch", "-r", "--merged", "origin/" ++ r.DefaultBranch]).stdout) '\n').map
          strings.TrimSpace).filter
            (fun b => strings.HasPrefix b "origin/" && !strings.Contains b r.DefaultBranch)).map
          (fun b => strings.TrimPrefix b "origin/")), none)) ∧
    (∀ e, (env.exec tr.length r.Path "git"
        ["branch", "-r", "--merged", "origin/" ++ r.DefaultBranch]).err = some e →
      (r.GetMergedBranches env tr).1 =
        ([], some (errors.NewGitError
          (strings.Join ["branch", "-r", "--merged", "origin/" ++ r.DefaultBranch] " ") e
          (env.exec tr.length r.Path "git"
            ["branch", "-r", "--merged", "origin/" ++ r.DefaultBranch]).stderr))) ∧
    (∀ x ∈ (r.GetMergedBranches env tr).1.1,
      (∃ line ∈ strings.Split (strings.TrimSpace (env.exec tr.length r.Path "git"
          ["branch", "-r", "--merged", "origin/" ++ r.DefaultBranch]).stdout) '\n',
        (strings.TrimSpace line).data = "origin/".data ++ x.data) ∧
      x ≠ r.DefaultBranch ∧ strings.Contains x r.DefaultBranch = false) := by
  have hrun : ∀ res : ExecResult,
      env.exec tr.length r.Path "git"
        ["branch", "-r", "--merged", "origin/" ++ r.DefaultBranch] = res →
      (r.GetMergedBranches env tr).1 =
        match res.err with
        | some e => ([], some (errors.NewGitError
            (strings.Join ["branch", "-r", "--merged", "origin/" ++ r.DefaultBranch] " ") e
            res.stderr))
        | none => (((((strings.Split (strings.TrimSpace res.stdout) '\n').map
            strings.TrimSpace).filter
              (fun b => strings.HasPrefix b "origin/" &&
                !strings.Contains b r.DefaultBranch)).map
            (fun b => strings.TrimPrefix b "origin/")), none) := by
    intro res hres
    simp only [git.Repository.GetMergedBranches, bind, bind_apply, output_apply, hres]
    rcases res with ⟨_ | e, out, errOut⟩
    · simp only [pure, pure_apply, foldl_mergedLine, List.nil_append]
    · rfl
  generalize env.exec tr.length r.Path "git"
    ["branch", "-r", "--merged", "origin/" ++ r.DefaultBranch] = res at hrun ⊢
  have h := hrun res rfl
  refine ⟨?_, ?_, ?_⟩
  · intro he
    rw [h, he]
  · intro e he
    rw [h, he]
  · intro x hx
    rw [h] at hx
    rcases res with ⟨_ | e, out, errOut⟩
    · simp only [List.mem_map, List.mem_filter, Bool.and_eq_true, Bool.not_eq_true',
        exists_exists_and_eq_and] at hx
      obtain ⟨b, ⟨⟨line, hline, rfl⟩, hp, hc⟩, rfl⟩ := hx
      have hsplit := HasPrefix_split _ _ hp
      refine ⟨⟨line, hline, hsplit⟩, ?_, ?_⟩
      · intro hxd
        have hself := containsChars_self r.DefaultBranch.data
        have hcon := containsChars_append r.DefaultBranch.data "origin/".data
          (strings.TrimPrefix (strings.TrimSpace line) "origin/").data
          (by rw [hxd]; exact hself)
        rw [← hsplit] at hcon
        unfold strings.Contains at hc
        rw [hcon] at hc
        cases hc
      · cases hcx : strings.Contains (strings.TrimPrefix (strings.TrimSpace line) "origin/")
          r.DefaultBranch
        · rfl
        · exfalso
          have hcon := containsChars_append r.DefaultBranch.data "origin/".data _ hcx
          rw [← hsplit] at hcon
          unfold strings.Contains at hc
          rw [hcon] at hc
          cases hc
    · simp at hx

/-- With the default branch `main`: the default branch itself, the pointer `origin/HEAD`,
the branches `origin/domain` and `origin/main-fix`, whose names contain `main`, and the
branch of another remote are left out. -/
theorem GetMergedBranches_sample :
    (git.Repository.GetMergedBranches
      { exec := fun _ _ _ _ => { err := none, stdout := sample.mergedOutput, stderr := "" },
        stat := fun _ _ => StatResult.notExist, getwd := fun _ => ("/repo", none),
        chdir := fun _ _ => none }
      sample.repo []).1 = (["feature-a", "fix/b"], none) := by
  decide

end MergedClaims

/-! ## Runs that only take steps of one kind -/

section EmitsLemmas

variable {M : Type}

theorem Emits_pure {α : Type} (P : Step → Prop) (v : α) : Sim.Emits P (pure v : Sim α) :=
  fun tr => ⟨[], by simp [pure, pure_apply], by simp⟩

theorem Emits_bind {α β : Type} {P : Step → Prop} {a : Sim α} {f : α → Sim β}
    (ha : Sim.Emits P a) (hf : ∀ v, (∃ tr, (a tr).1 = v) → Sim.Emits P (f v)) :
    Sim.Emits P (a >>= f) := by
  intro tr
  obtain ⟨e1, h1, q1⟩ := ha tr
  obtain ⟨e2, h2, q2⟩ := hf (a tr).1 ⟨tr, rfl⟩ (a tr).2
  refine ⟨e1 ++ e2, ?_, ?_⟩
  · simp only [bind, bind_apply]
    rw [h2, h1, List.append_assoc]
  · intro s hs
    rcases List.mem_append.1 hs with h | h
    · exact q1 s h
    · exact q2 s h

theorem Emits_step {α : Type} {P : Step → Prop} (v : List Step → α) (s : List Step → Step)
    (hs : ∀ tr, P (s tr)) : Sim.Emits P (fun tr => (v tr, tr ++ [s tr]) : Sim α) :=
  fun tr => ⟨[s tr], rfl, by simpa using hs tr⟩

/-- A computation whose steps all have the property `Q` emits `P` when `Q` implies `P`. -/
theorem Emits_of_ext {α : Type} {P : Step → Prop} (Q : Step → Prop) (a : Sim α)
    (ha : ∀ tr, ∃ ext, (a tr).2 = tr ++ ext ∧ ∀ s ∈ ext, Q s) (hq : ∀ s, Q s → P s) :
    Sim.Emits P a := by
  intro tr
  obtain ⟨ext, h1, h2⟩ := ha tr
  exact ⟨ext, h1, fun s hs => hq s (h2 s hs)⟩

theorem Emits_run {P : Step → Prop} (env : Env) (r : git.Repository) (args : List String)
    (hP : ∀ res, P (Step.exec r.Path "git" args res)) : Sim.Emits P (r.run env args) := by
  intro tr
  refine ⟨[Step.exec r.Path "git" args (env.exec tr.length r.Path "git" args)], ?_, ?_⟩
  · rw [run_apply]
  · simpa using hP _

theorem Emits_output {P : Step → Prop} (env : Env) (r : git.Repository) (args : List String)
    (hP : ∀ res, P (Step.exec r.Path "git" args res)) : Sim.Emits P (r.output env args) := by
  intro tr
  refine ⟨[Step.exec r.Path "git" args (env.exec tr.length r.Path "git" args)], ?_, ?_⟩
  · rw [output_apply]
  · simpa using hP _

theorem Emits_RunInDir {P : Step → Prop} (env : Env) (dir : String) (args : List String)
    (hP : ∀ res, P (Step.exec dir "git" args res)) : Sim.Emits P (git.RunInDir env dir args) := by
  intro tr
  refine ⟨[Step.exec dir "git" args (env.exec tr.length dir "git" args)], ?_, ?_⟩
  · rw [RunInDir_apply]
  · simpa using hP _

theorem Emits_NewManager {P : Step → Prop} (ops : pool.ManagerOps M) (repo : git.Repository)
    (hP : ∀ e, P (Step.NewManager e)) : Sim.Emits P (pool.NewManager ops repo) := by
  intro tr
  unfold pool.NewManager
  cases ops.NewManager repo
  · exact ⟨[Step.NewManager (some _)], rfl, by simpa using hP _⟩
  · exact ⟨[Step.NewManager none], rfl, by simpa using hP _⟩

theorem Emits_NewRepository {P : Step → Prop} (env : Env) (path : String)
    (hP : ∀ s, s.isQuery = true → P s) : Sim.Emits P (git.NewRepository env path) :=
  Emits_of_ext (fun s => s.isQuery = true) _ (NewRepository_ext env path) hP

theorem Emits_GetTopLevel {P : Step → Prop} (env : Env) (r : git.Repository)
    (hP : ∀ s, s.isQuery = true → P s) : Sim.Emits P (r.GetTopLevel env) :=
  Emits_of_ext (fun s => s.isQuery = true) _ (GetTopLevel_ext env r) hP

theorem Emits_ListWorktrees {P : Step → Prop} (env : Env) (r : git.Repository)
    (hP : ∀ res, P (Step.exec r.Path "git" ["worktree", "list", "--porcelain"] res)) :
    Sim.Emits P (r.ListWorktrees env) := by
  intro tr
  rw [ListWorktrees_apply]
  exact ⟨[_], rfl, by simpa using hP _⟩

end EmitsLemmas

section RemoveClaims

variable {M : Type}

theorem spares_of_isScan (fs : String → StatResult) (s : Step) (h : s.isScan = true) :
    s.spares fs := by
  constructor
  · cases s with
    | exec dir name args res =>
      have h' : (Step.exec dir name args res).isQuery = true := h
      exact isQuery_isGit _ h' _ _ (by decide) (by decide)
    | _ => rfl
  · intro src dst v hs
    subst hs
    simp [cmd.moveStep, Step.isScan, Step.isQuery] at h

theorem spares_of_isQuery (fs : String → StatResult) (s : Step) (h : s.isQuery = true) :
    s.spares fs :=
  spares_of_isScan fs s (by cases s <;> simp_all [Step.isScan])

/-- On a file system that stays as it is, the slot `findOrCreatePoolSlot` returns has a
missing path. -/
theorem findOrCreatePoolSlot_missing (env : Env) (ops : pool.ManagerOps M)
    (consts : pool.Constants) (manager : M) (repo : git.Repository) (tr : List Step)
    (fs : String → StatResult) (hfs : ∀ n p, env.stat n p = fs p) (slot : String) (m' : M)
    (h : (cmd.findOrCreatePoolSlot env ops consts manager repo tr).1 = ((slot, none), m')) :
    fs (filepath.Join [(repo.GetTopLevel env tr).1.1, consts.PoolDir, slot]) =
      StatResult.notExist := by
  rw [findOrCreatePoolSlot_apply] at h
  cases hg : (repo.GetTopLevel env tr).1.2 with
  | some e =>
    rw [hg] at h
    cases h
  | none =>
    rw [hg] at h
    simp only at h
    rcases findSlotLoop_spec env consts (repo.GetTopLevel env tr).1.1 fs hfs
      ((ops.GetStatus manager).1.1 + 1).toNat 1
      ((repo.GetTopLevel env tr).2 ++
        [Step.GetStatus (ops.GetStatus manager).1.1 (ops.GetStatus manager).1.2]) with
      ⟨hnone, -⟩ | ⟨k, -, -, hsome, hmiss, -⟩
    · rw [hnone] at h
      cases h
    · rw [hsome] at h
      simp only [Prod.mk.injEq, and_true] at h
      rw [← h.1]
      exact hmiss

/-- C27: on a file system and a repository that stay as they are during the run, the
return flow never runs `git worktree remove`: the slot that `findOrCreatePoolSlot`
returns has a missing path, so the check before the move finds nothing to remove, and
every `git worktree move` of the run goes to a path that is missing.  A directory that
occupies the path of a slot is passed over by the scan and left as it is. -/
theorem returnWorktreeToPool_never_removes (env : Env) (ops : pool.ManagerOps M)
    (consts : pool.Constants) (b : String) (fs : String → StatResult)
    (hfs : ∀ n p, env.stat n p = fs p)
    (htop : ∀ n n' dir args, env.exec n dir "git" ("rev-parse" :: args) =
      env.exec n' dir "git" ("rev-parse" :: args)) :
    (∀ s ∈ (cmd.returnWorktreeToPool env ops consts b).trace,
      s.isGit ["worktree", "remove"] = false) ∧
    (∀ src dst v, cmd.moveStep src dst v ∈ (cmd.returnWorktreeToPool env ops consts b).trace →
      fs dst = StatResult.notExist) ∧
    (∀ (manager : M) (repo : git.Repository) (tr : List Step) (slot : String) (m' : M),
      (cmd.findOrCreatePoolSlot env ops consts manager repo tr).1 = ((slot, none), m') →
      fs (filepath.Join [(repo.GetTopLevel env tr).1.1, consts.PoolDir, slot]) =
        StatResult.notExist) := by
  have hemits : Sim.Emits (Step.spares fs) (cmd.returnWorktreeToPool env ops consts b) := by
    have hq : ∀ s : Step, s.isQuery = true → s.spares fs := spares_of_isQuery fs
    have hother : ∀ s : Step, (∀ dir name args res, s ≠ Step.exec dir name args res) →
        s.spares fs := by
      intro s hs
      constructor
      · cases s with
        | exec dir name args res => exact absurd rfl (hs dir name args res)
        | _ => rfl
      · intro src dst v h
        exact absurd h (hs _ _ _ _)
    unfold cmd.returnWorktreeToPool
    apply Emits_bind (Emits_NewRepository env _ hq)
    intro r hr
    cases r with
    | error e => exact Emits_pure _ _
    | ok repo =>
      have hp : repo.Path = "." := by
        obtain ⟨tr, h⟩ := hr
        exact NewRepository_path env "." tr repo h
      apply Emits_bind (Emits_GetTopLevel env _ hq)
      rintro ⟨topLevel, e⟩ htl
      cases e with
      | some e => exact Emits_pure _ _
      | none =>
        apply Emits_bind (Emits_ListWorktrees env _ (by
          intro res
          refine ⟨by simp [Step.isGit, List.isPrefixOf], ?_⟩
          intro src dst v h
          simp [cmd.moveStep] at h))
        rintro ⟨worktrees, e⟩ -
        cases e with
        | some e => exact Emits_pure _ _
        | none =>
          dsimp only
          split
          · exact Emits_pure _ _
          · apply Emits_bind (Emits_NewManager ops repo (fun e => hother _ (by simp)))
            intro m _
            cases m with
            | error e => exact Emits_pure _ _
            | ok manager =>
              apply Emits_bind (Emits_of_ext (fun s => s.isScan = true) _
                (findOrCreatePoolSlot_ext env ops consts manager repo) (spares_of_isScan fs))
              rintro ⟨⟨poolSlot, e⟩, manager'⟩ hslot
              cases e with
              | some e => exact Emits_pure _ _
              | none =>
                have hmiss : fs (filepath.Join [topLevel, consts.PoolDir, poolSlot]) =
                    StatResult.notExist := by
                  obtain ⟨tr1, h1⟩ := hslot
                  obtain ⟨tr0, h0⟩ := htl
                  have := findOrCreatePoolSlot_missing env ops consts manager repo tr1 fs hfs
                    poolSlot manager' h1
                  rw [GetTopLevel_static env repo tr1 tr0 htop, h0] at this
                  exact this
                apply Emits_bind
                · apply Emits_bind (Emits_step _ _ (fun tr => hother _ (by simp)))
                  rintro st ⟨tr, hst⟩
                  have hst' : st = StatResult.notExist := by
                    rw [← hst]
                    show env.stat _ _ = _
                    rw [hfs]
                    exact hmiss
                  subst hst'
                  exact Emits_pure _ _
                · intro removed _
                  cases removed with
                  | some e => exact Emits_pure _ _
                  | none =>
                    apply Emits_bind (Emits_run env repo _ (by
                      intro res
                      refine ⟨by simp [Step.isGit, List.isPrefixOf], ?_⟩
                      intro src dst v h
                      simp only [cmd.moveStep, Step.exec.injEq, List.cons.injEq, and_true,
                        true_and] at h
                      rw [← h.2.1.2]
                      exact hmiss))
                    intro e _
                    cases e with
                    | some e => exact Emits_pure _ _
                    | none =>
                      apply Emits_bind (Emits_run env repo _ (by
                        intro res
                        refine ⟨by simp [Step.isGit, List.isPrefixOf], ?_⟩
                        intro src dst v h
                        simp [cmd.moveStep] at h))
                      intro _ _
                      apply Emits_bind (Emits_step _ _ (fun tr => hother _ (by simp)))
                      rintro ⟨originalDir, e⟩ -
                      cases e with
                      | some e => exact Emits_pure _ _
                      | none =>
                        apply Emits_bind (Emits_step _ _ (fun tr => hother _ (by simp)))
                        intro e _
                        cases e with
                        | some e =>
                          exact Emits_bind (Emits_step _ _ (fun tr => hother _ (by simp)))
                            (fun _ _ => Emits_pure _ _)
                        | none =>
                          apply Emits_bind (Emits_RunInDir env _ _ (by
                            intro res
                            refine ⟨by simp [Step.isGit, List.isPrefixOf], ?_⟩
                            intro src dst v h
                            simp [cmd.moveStep] at h))
                          intro e _
                          cases e with
                          | some e =>
                            exact Emits_bind (Emits_step _ _ (fun tr => hother _ (by simp)))
                              (fun _ _ => Emits_pure _ _)
                          | none =>
                            apply Emits_bind (Emits_step _ _ (fun tr => hother _ (by simp)))
                            rintro ⟨err, mgr⟩ -
                            exact Emits_bind (Emits_step _ _ (fun tr => hother _ (by simp)))
                              (fun _ _ => Emits_pure _ _)
  obtain ⟨ext, hext, hall⟩ := hemits []
  have htrace : (cmd.returnWorktreeToPool env ops consts b).trace = ext := by
    unfold Sim.trace
    simpa using hext
  rw [htrace]
  refine ⟨fun s hs => (hall s hs).1, fun src dst v h => (hall _ h).2 src dst v rfl, ?_⟩
  intro manager repo tr slot m' h
  exact findOrCreatePoolSlot_missing env ops consts manager repo tr fs hfs slot m' h

end RemoveClaims

/-! ## The path of a branch -/

section PathClaims

variable {M : Type}

theorem replaceChars_slash_free :
    ∀ (fuel : Nat) (s : List Char), '/' ∉ strings.replaceChars ['/'] ['-'] fuel s ∨
      fuel < s.length := by
  intro fuel
  induction fuel with
  | zero =>
    intro s
    cases s with
    | nil => left; simp [strings.replaceChars]
    | cons c cs => right; simp
  | succ n ih =>
    intro s
    cases s with
    | nil => left; simp [strings.replaceChars]
    | cons c cs =>
      rcases ih cs with h | h
      · left
        by_cases hc : c = '/'
        · subst hc
          simp only [strings.replaceChars, List.isPrefixOf, beq_self_eq_true, Bool.and_self,
            if_true, List.length_singleton, List.drop_succ_cons, List.drop_zero,
            List.singleton_append, List.mem_cons, not_or]
          exact ⟨by decide, h⟩
        · have hc2 : (('/' : Char) == c) = false := by simpa using fun h => hc h.symm
          simp only [strings.replaceChars, List.isPrefixOf, hc2, Bool.false_and,
            Bool.false_eq_true, if_false, List.mem_cons, not_or]
          exact ⟨fun h => hc h.symm, h⟩
      · right
        simp only [List.length_cons]
        omega

/-- The name both flows join to the top level holds no `/`. -/
theorem ReplaceAll_slash_free (b : String) : '/' ∉ (strings.ReplaceAll b "/" "-").data := by
  unfold strings.ReplaceAll
  rw [if_neg (by decide)]
  rcases replaceChars_slash_free b.data.length b.data with h | h
  · exact h
  · omega

end PathClaims

/-! ## The dry run of the clean-up commands -/

section CleanClaims

variable {M : Type}

theorem previews_other (t : String) (s : Step)
    (hs : ∀ dir name args res, s ≠ Step.exec dir name args res) : s.previews t := by
  cases s with
  | exec dir name args res => exact absurd rfl (hs dir name args res)
  | _ => exact ⟨rfl, fun h => by cases h⟩

theorem previews_isQuery (t : String) (s : Step) (h : s.isQuery = true) : s.previews t := by
  have h1 := isQuery_isGit s h "worktree" ["prune"] (by decide) (by decide)
  have h2 := isQuery_isGit s h "worktree" ["remove"] (by decide) (by decide)
  have h3 := isQuery_isGit s h "reset" [] (by decide) (by decide)
  have h4 := isQuery_isGit s h "clean" [] (by decide) (by decide)
  have h5 := isQuery_isGit s h "fetch" [] (by decide) (by decide)
  refine ⟨?_, ?_⟩
  · simp only [Step.cleans, h1, h2, h3, h4, Bool.or_self]
  · intro hf
    rw [h5] at hf
    cases hf

/-- A git command that is none of `worktree prune`, `worktree remove`, `reset`, `clean`
and `fetch`. -/
theorem previews_git (t dir : String) (args : List String) (res : ExecResult)
    (h1 : List.isPrefixOf ["worktree", "prune"] args = false)
    (h2 : List.isPrefixOf ["worktree", "remove"] args = false)
    (h3 : List.isPrefixOf ["reset"] args = false)
    (h4 : List.isPrefixOf ["clean"] args = false)
    (h5 : List.isPrefixOf ["fetch"] args = false) :
    (Step.exec dir "git" args res).previews t := by
  simp [Step.previews, Step.cleans, Step.isGit, h1, h2, h3, h4, h5]

theorem Emits_RemoteBranchExists {P : Step → Prop} (env : Env) (r : git.Repository)
    (branch : String)
    (hP : ∀ res, P (Step.exec r.Path "git" ["ls-remote", "--heads", "origin", branch] res)) :
    Sim.Emits P (r.RemoteBranchExists env branch) := by
  unfold git.Repository.RemoteBranchExists
  exact Emits_bind (Emits_output env r _ hP) (fun _ _ => Emits_pure _ _)

theorem Emits_cleanStaleLoop (env : Env) (consts : pool.Constants) (repo : git.Repository)
    (t : String) (worktrees : List git.Worktree) :
    Sim.Emits (Step.previews t) (cmd.cleanStaleLoop env consts true repo worktrees) := by
  induction worktrees with
  | nil => exact Emits_pure _ _
  | cons wt rest ih =>
    unfold cmd.cleanStaleLoop
    split
    · exact ih
    · split
      · apply Emits_bind (Emits_RemoteBranchExists env repo _
          (fun res => previews_git t _ _ res rfl rfl rfl rfl rfl))
        intro found _
        cases found
        · exact ih
        · exact ih
      · exact ih

theorem Emits_cleanStale (env : Env) (consts : pool.Constants) (repo : git.Repository)
    (t : String) : Sim.Emits (Step.previews t) (cmd.cleanStale env consts true repo) := by
  unfold cmd.cleanStale
  apply Emits_bind (Emits_ListWorktrees env repo
    (fun res => previews_git t _ _ res rfl rfl rfl rfl rfl))
  rintro ⟨worktrees, e⟩ -
  cases e with
  | some e => exact Emits_pure _ _
  | none =>
    exact Emits_bind (Emits_cleanStaleLoop env consts repo t worktrees)
      (fun _ _ => Emits_pure _ _)

theorem Emits_cleanMergedBranch (env : Env) (repo : git.Repository) (t : String)
    (wt : git.Worktree) (merged : List String) :
    Sim.Emits (Step.previews t) (cmd.cleanMergedBranch env true repo wt merged) := by
  induction merged with
  | nil => exact Emits_pure _ _
  | cons m rest ih =>
    unfold cmd.cleanMergedBranch
    split
    · exact Emits_pure _ _
    · exact ih

theorem Emits_cleanMergedLoop (env : Env) (consts : pool.Constants) (repo : git.Repository)
    (t : String) (merged : List String) (worktrees : List git.Worktree) :
    Sim.Emits (Step.previews t) (cmd.cleanMergedLoop env consts true repo merged worktrees) := by
  induction worktrees with
  | nil => exact Emits_pure _ _
  | cons wt rest ih =>
    unfold cmd.cleanMergedLoop
    split
    · exact ih
    · exact Emits_bind (Emits_cleanMergedBranch env repo t wt merged) (fun _ _ => ih)

theorem Emits_GetMergedBranches {P : Step → Prop} (env : Env) (r : git.Repository)
    (hP : ∀ res, P (Step.exec r.Path "git"
      ["branch", "-r", "--merged", "origin/" ++ r.DefaultBranch] res)) :
    Sim.Emits P (r.GetMergedBranches env) := by
  unfold git.Repository.GetMergedBranches
  apply Emits_bind (Emits_output env r _ hP)
  rintro ⟨output, e⟩ -
  cases e <;> exact Emits_pure _ _

theorem Emits_cleanMergedFetched (env : Env) (consts : pool.Constants)
    (repo : git.Repository) (t : String) :
    Sim.Emits (Step.previews t) (cmd.cleanMergedFetched env consts true repo) := by
  unfold cmd.cleanMergedFetched
  apply Emits_bind (Emits_GetMergedBranches env repo
    (fun res => previews_git t _ _ res rfl rfl rfl rfl rfl))
  rintro ⟨merged, e⟩ -
  cases e with
  | some e => exact Emits_pure _ _
  | none =>
    apply Emits_bind (Emits_ListWorktrees env repo
      (fun res => previews_git t _ _ res rfl rfl rfl rfl rfl))
    rintro ⟨worktrees, e⟩ -
    cases e with
    | some e => exact Emits_pure _ _
    | none =>
      exact Emits_bind (Emits_cleanMergedLoop env consts repo t merged worktrees)
        (fun _ _ => Emits_pure _ _)

theorem Emits_cleanMerged (env : Env) (consts : pool.Constants) (repo : git.Repository)
    (t : String) (ht : t = "merged" ∨ t = "all") :
    Sim.Emits (Step.previews t) (cmd.cleanMerged env consts true repo) := by
  unfold cmd.cleanMerged
  apply Emits_bind (Emits_run env repo _ (fun res => ⟨rfl, fun _ => ht⟩))
  intro e _
  cases e with
  | some e => exact Emits_pure _ _
  | none => exact Emits_cleanMergedFetched env consts repo t

theorem Emits_cleanPoolLoop (env : Env) (consts : pool.Constants)
    (available : M → String → Bool) (repo : git.Repository) (manager : M) (t : String)
    (worktrees : List git.Worktree) :
    Sim.Emits (Step.previews t)
      (cmd.cleanPoolLoop env consts true available repo manager worktrees) := by
  induction worktrees with
  | nil => exact Emits_pure _ _
  | cons wt rest ih =>
    unfold cmd.cleanPoolLoop
    split
    · split
      · apply Emits_bind (Emits_step _ _ (fun tr => previews_other t _ (by simp)))
        rintro ⟨oldDir, e⟩ -
        apply Emits_bind (Emits_step _ _ (fun tr => previews_other t _ (by simp)))
        intro _ _
        apply Emits_bind
        · unfold git.Repository.HasUncommittedChanges
          exact Emits_bind (Emits_run env repo _
            (fun res => previews_git t _ _ res rfl rfl rfl rfl rfl)) (fun _ _ => Emits_pure _ _)
        · intro dirty _
          cases dirty
          · exact Emits_bind (Emits_step _ _ (fun tr => previews_other t _ (by simp)))
              (fun _ _ => ih)
          · exact Emits_bind (Emits_step _ _ (fun tr => previews_other t _ (by simp)))
              (fun _ _ => ih)
      · exact ih
    · exact ih

theorem Emits_cleanPool (env : Env) (ops : pool.ManagerOps M) (consts : pool.Constants)
    (available : M → String → Bool) (repo : git.Repository) (t : String) :
    Sim.Emits (Step.previews t) (cmd.cleanPool env ops consts true available repo) := by
  unfold cmd.cleanPool
  apply Emits_bind (Emits_NewManager ops repo (fun e => previews_other t _ (by simp)))
  intro m _
  cases m with
  | error e => exact Emits_pure _ _
  | ok manager =>
    apply Emits_bind (Emits_ListWorktrees env repo
      (fun res => previews_git t _ _ res rfl rfl rfl rfl rfl))
    rintro ⟨worktrees, e⟩ -
    cases e with
    | some e => exact Emits_pure _ _
    | none =>
      exact Emits_bind (Emits_cleanPoolLoop env consts available repo manager t worktrees)
        (fun _ _ => Emits_pure _ _)

theorem Emits_runClean (env : Env) (ops : pool.ManagerOps M) (consts : pool.Constants)
    (available : M → String → Bool) (t : String) :
    Sim.Emits (Step.previews t) (cmd.runClean env ops consts true available t) := by
  unfold cmd.runClean
  apply Emits_bind (Emits_NewRepository env _ (previews_isQuery t))
  intro r _
  cases r with
  | error e => exact Emits_pure _ _
  | ok repo =>
    dsimp only
    split
    · exact Emits_pure _ _
    · split
      · exact Emits_cleanStale env consts repo t
      · split
        · exact Emits_cleanMerged env consts repo t (Or.inl (by assumption))
        · split
          · exact Emits_cleanPool env ops consts available repo t
          · split
            · apply Emits_bind (Emits_pure _ _)
              intro _ _
              apply Emits_bind (Emits_cleanStale env consts repo t)
              intro _ _
              apply Emits_bind (Emits_cleanPool env ops consts available repo t)
              intro _ _
              exact Emits_bind (Emits_cleanMerged env consts repo t (Or.inr (by assumption)))
                (fun _ _ => Emits_pure _ _)
            · exact Emits_pure _ _

/-- The first step of `cleanMerged` is the pruning fetch, whatever `dryRun` is. -/
theorem cleanMerged_fetches (env : Env) (consts : pool.Constants) (repo : git.Repository)
    (tr : List Step) :
    ∃ res, Step.exec repo.Path "git" ["fetch", "origin", "--prune"] res ∈
      (cmd.cleanMerged env consts true repo tr).2 := by
  refine ⟨env.exec tr.length repo.Path "git" ["fetch", "origin", "--prune"], ?_⟩
  simp only [cmd.cleanMerged, git.Repository.FetchOriginPrune, bind, bind_apply, run_apply]
  generalize env.exec tr.length repo.Path "git" ["fetch", "origin", "--prune"] = res
  cases hg : (Step.exec repo.Path "git" ["fetch", "origin", "--prune"] res).gitError with
  | some e => simp [pure, pure_apply]
  | none =>
    obtain ⟨ext, hext, -⟩ := Emits_cleanMergedFetched env consts repo "merged"
      (tr ++ [Step.exec repo.Path "git" ["fetch", "origin", "--prune"] res])
    simp only []
    rw [hext]
    simp

/-- C24 (code bug): with `--dry-run` set, `runClean` runs no `git worktree prune`, no
`git worktree remove`, no `git reset` and no `git clean`, whatever the clean type, and
for the types `orphaned`, `stale` and `pool` and for an unknown type it runs no
`git fetch` either; but for the types `merged` and `all` it runs
`git fetch origin --prune` in every repository: `cleanMerged` fetches before it looks at
`dryRun`. -/
theorem runClean_dry_run_fetches (env : Env) (ops : pool.ManagerOps M)
    (consts : pool.Constants) (available : M → String → Bool) :
    (∀ t, ∀ s ∈ (cmd.runClean env ops consts true available t).trace,
      s.isGit ["worktree", "prune"] = false ∧ s.isGit ["worktree", "remove"] = false ∧
        s.isGit ["reset"] = false ∧ s.isGit ["clean"] = false ∧
        (s.isGit ["fetch"] = true → t = "merged" ∨ t = "all")) ∧
    (∀ t repo, t = "merged" ∨ t = "all" →
      (git.NewRepository env "." []).1 = Except.ok repo →
      ∃ res, Step.exec "." "git" ["fetch", "origin", "--prune"] res ∈
        (cmd.runClean env ops consts true available t).trace) := by
  constructor
  · intro t s hs
    obtain ⟨ext, hext, hall⟩ := Emits_runClean env ops consts available t []
    have htrace : (cmd.runClean env ops consts true available t).trace = ext := by
      unfold Sim.trace
      simpa using hext
    rw [htrace] at hs
    obtain ⟨hc, hf⟩ := hall s hs
    simp only [Step.cleans, Bool.or_eq_false_iff] at hc
    exact ⟨hc.1.1.1, hc.1.1.2, hc.1.2, hc.2, hf⟩
  · intro t repo ht hrepo
    have hp : repo.Path = "." := NewRepository_path env "." [] repo hrepo
    unfold Sim.trace
    simp only [cmd.runClean, bind, bind_apply, StateT.run, hrepo]
    rcases ht with rfl | rfl
    · simp only [show ("merged" : String) ≠ "orphaned" by decide,
        show ("merged" : String) ≠ "stale" by decide, if_false, if_true]
      obtain ⟨res, hres⟩ := cleanMerged_fetches env consts repo (git.NewRepository env "." []).2
      rw [hp] at hres
      exact ⟨res, hres⟩
    · simp only [show ("all" : String) ≠ "orphaned" by decide,
        show ("all" : String) ≠ "stale" by decide, show ("all" : String) ≠ "merged" by decide,
        show ("all" : String) ≠ "pool" by decide, if_false, if_true, bind_apply, pure,
        pure_apply]
      obtain ⟨res, hres⟩ := cleanMerged_fetches env consts repo
        (cmd.cleanPool env ops consts true available repo
          (cmd.cleanStale env consts true repo
            (cmd.cleanOrphaned env true repo (git.NewRepository env "." []).2).2).2).2
      rw [hp] at hres
      exact ⟨res, hres⟩

end CleanClaims

/-! ## The bytes of a text -/

section Utf8Lemmas

theorem Char_toNat_valid (c : Char) :
    c.toNat < 0xD800 ∨ (0xDFFF < c.toNat ∧ c.toNat < 0x110000) := c.valid

/-- Decoding reads back the rune that was encoded, and passes over its bytes. -/
theorem DecodeRune_EncodeRune (n : Nat)
    (hv : n < 0xD800 ∨ (0xDFFF < n ∧ n < 0x110000)) (rest : List Nat) :
    utf8.DecodeRune (utf8.EncodeRune n ++ rest) = (n, (utf8.EncodeRune n).length) := by
  unfold utf8.EncodeRune
  by_cases h1 : n ≤ 0x7F
  · rw [if_pos h1]
    simp only [List.singleton_append, utf8.DecodeRune]
    rw [if_pos (by omega)]
    rfl
  · rw [if_neg h1]
    by_cases h2 : n ≤ 0x7FF
    · rw [if_pos h2]
      simp only [List.cons_append, List.nil_append, utf8.DecodeRune]
      rw [if_neg (by omega), if_neg (by omega), if_pos (by omega), if_pos (by omega)]
      simp only [List.length_cons, List.length_nil, Prod.mk.injEq, and_true]
      omega
    · rw [if_neg h2, if_neg (by omega)]
      by_cases h3 : n ≤ 0xFFFF
      · rw [if_pos h3]
        simp only [List.cons_append, List.nil_append, utf8.DecodeRune]
        rw [if_neg (by omega), if_neg (by omega), if_neg (by omega), if_pos (by omega),
          if_pos (by
            unfold utf8.acceptLo utf8.acceptHi
            split_ifs <;> omega)]
        simp only [List.length_cons, List.length_nil, Prod.mk.injEq, and_true]
        omega
      · rw [if_neg h3]
        simp only [List.cons_append, List.nil_append, utf8.DecodeRune]
        rw [if_neg (by omega), if_neg (by omega), if_neg (by omega), if_neg (by omega),
          if_pos (by
            unfold utf8.acceptLo utf8.acceptHi
            split_ifs <;> omega)]
        simp only [List.length_cons, List.length_nil, Prod.mk.injEq, and_true]
        omega

theorem EncodeRune_length (n : Nat) :
    1 ≤ (utf8.EncodeRune n).length ∧ (utf8.EncodeRune n).length ≤ 4 := by
  unfold utf8.EncodeRune
  split_ifs <;> simp

theorem runesLoop_bytes (cs : List Char) (fuel : Nat) (h : cs.length ≤ fuel) :
    utf8.runesLoop fuel (cs.flatMap (fun c => utf8.EncodeRune c.toNat)) =
      cs.map Char.toNat := by
  induction cs generalizing fuel with
  | nil =>
    cases fuel <;> rfl
  | cons c cs ih =>
    cases fuel with
    | zero => simp at h
    | succ fuel =>
      have hlen := EncodeRune_length c.toNat
      have hdec := DecodeRune_EncodeRune c.toNat (Char_toNat_valid c)
        (cs.flatMap (fun c => utf8.EncodeRune c.toNat))
      rw [List.flatMap_cons]
      cases henc : utf8.EncodeRune c.toNat with
      | nil => simp [henc] at hlen
      | cons b p =>
        rw [henc] at hdec
        simp only [List.cons_append] at hdec ⊢
        rw [utf8.runesLoop, hdec]
        simp only [List.map_cons, List.cons.injEq, true_and]
        rw [← List.cons_append, List.drop_left, ih fuel (by simpa using h)]

/-- The text of the bytes of a text is that text: a Go string that holds text is written
to a JSON document as it is. -/
theorem coerce_bytes (s : String) : json.coerce (utf8.bytes s) = s := by
  unfold json.coerce utf8.runes utf8.bytes
  rw [runesLoop_bytes s.data _ ?_]
  · rw [List.map_map]
    have : (Char.ofNat ∘ Char.toNat) = id := by
      funext c
      simp [Char.ofNat_toNat]
    rw [this, List.map_id]
  · induction s.data with
    | nil => simp
    | cons c cs ih =>
      have := (EncodeRune_length c.toNat).1
      simp only [List.flatMap_cons, List.length_append, List.length_cons]
      omega

theorem bytes_injective (s t : String) (h : utf8.bytes s = utf8.bytes t) : s = t := by
  rw [← coerce_bytes s, ← coerce_bytes t, h]

theorem bytes_eq_nil (s : String) : utf8.bytes s = [] ↔ s = "" := by
  constructor
  · intro h
    exact bytes_injective s "" (by rw [h]; rfl)
  · intro h
    rw [h]
    rfl

end Utf8Lemmas

/-! ## Saving the configuration and reading it back -/

section SaveClaims

theorem lookup_pair_mem (l : List (String × String)) (k v : String)
    (h : l.lookup k = some v) : (k, v) ∈ l := by
  induction l with
  | nil => cases h
  | cons a rest ih =>
    obtain ⟨ak, av⟩ := a
    rw [lookup_cons_pair] at h
    by_cases hk : k = ak
    · rw [if_pos hk] at h
      simp only [Option.some.injEq] at h
      rw [hk, h]
      exact List.mem_cons_self _ _
    · rw [if_neg hk] at h
      exact List.mem_cons_of_mem _ (ih h)

theorem lookup_of_mem_nodup (l : List (String × String)) (k v : String)
    (hmem : (k, v) ∈ l) (hnd : (l.map Prod.fst).Nodup) : l.lookup k = some v := by
  induction l with
  | nil => cases hmem
  | cons a rest ih =>
    obtain ⟨ak, av⟩ := a
    simp only [List.map_cons, List.nodup_cons, List.mem_map, not_exists, not_and] at hnd
    rw [lookup_cons_pair]
    rcases List.mem_cons.1 hmem with h | h
    · simp only [Prod.mk.injEq] at h
      rw [if_pos h.1, h.2]
    · have hk : k ≠ ak := fun hk => hnd.1 (k, v) h hk
      rw [if_neg hk]
      exact ih h hnd.2

/-- Two lists with the same pairs and distinct keys hold the same value under every key. -/
theorem lookup_perm (l l' : List (String × String)) (hp : l.Perm l')
    (hnd : (l.map Prod.fst).Nodup) (k : String) : l'.lookup k = l.lookup k := by
  have hnd' : (l'.map Prod.fst).Nodup := (hp.map Prod.fst).nodup_iff.1 hnd
  cases h : l.lookup k with
  | some v => exact lookup_of_mem_nodup l' k v (hp.subset (lookup_pair_mem l k v h)) hnd'
  | none =>
    cases h' : l'.lookup k with
    | none => rfl
    | some v =>
      have := lookup_of_mem_nodup l k v (hp.symm.subset (lookup_pair_mem l' k v h')) hnd
      rw [h] at this
      cases this

theorem decodeMembers_append (c : config.Config) (l1 l2 : List (String × json.Value)) :
    config.decodeMembers c (l1 ++ l2) =
      match config.decodeMembers c l1 with
      | .ok c' => config.decodeMembers c' l2
      | .error e => .error e := by
  induction l1 generalizing c with
  | nil => rfl
  | cons a rest ih =>
    obtain ⟨k, v⟩ := a
    simp only [List.cons_append, config.decodeMembers]
    cases config.decodeMember c k v with
    | ok c' => exact ih c'
    | error e => rfl

theorem decodeAliases_strings (pairs : List (String × String)) (m : List (String × String)) :
    config.decodeAliases m (pairs.map (fun kv => (kv.1, json.Value.string kv.2))) =
      .ok (pairs.foldl config.setAlias m) := by
  induction pairs generalizing m with
  | nil => rfl
  | cons a rest ih =>
    obtain ⟨k, v⟩ := a
    simp only [List.map_cons, config.decodeAliases, List.foldl_cons]
    exact ih _

/-- The members written for the aliases of a configuration whose strings are text: the
pairs of the map, in some order. -/
theorem aliasMembers_raw (l : List (String × String)) :
    ∃ pairs : List (String × String), pairs.Perm l ∧
      config.aliasMembers (l.map (fun kv => (utf8.bytes kv.1, utf8.bytes kv.2))) =
        pairs.map (fun kv => (kv.1, json.Value.string kv.2)) := by
  refine ⟨((l.map (fun kv => (utf8.bytes kv.1, utf8.bytes kv.2))).insertionSort
      (fun a b => config.bytesLe a.1 b.1 = true)).map
        (fun kv => (json.coerce kv.1, json.coerce kv.2)), ?_, ?_⟩
  · have hp := List.perm_insertionSort (fun a b : List Nat × List Nat =>
      config.bytesLe a.1 b.1 = true) (l.map (fun kv => (utf8.bytes kv.1, utf8.bytes kv.2)))
    have hp2 := hp.map (fun kv : List Nat × List Nat => (json.coerce kv.1, json.coerce kv.2))
    have hid : (l.map (fun kv => (utf8.bytes kv.1, utf8.bytes kv.2))).map
        (fun kv : List Nat × List Nat => (json.coerce kv.1, json.coerce kv.2)) = l := by
      rw [List.map_map]
      conv_rhs => rw [← List.map_id l]
      apply List.map_congr_left
      intro kv _
      simp [coerce_bytes]
    rw [hid] at hp2
    exact hp2
  · unfold config.aliasMembers
    rw [List.map_map]
    rfl

/-- C23 (as amended): for every configuration whose strings are text, whose pool size
is a Go `int` and whose aliases have distinct keys (they are a map), decoding the
document that `Save` writes succeeds and yields a configuration with the same
`PoolSize`, `PoolPrefix`, `DefaultBranch`, `Editor`, `AutoRefill` and `CleanupOnExit` and
with the same value under every alias; the fields that `omitempty` leaves out come back
as the zero values they had. -/
theorem Save_round_trip (c : config.Config)
    (hsize : -(2 : Int) ^ 63 ≤ c.PoolSize ∧ c.PoolSize < (2 : Int) ^ 63)
    (hkeys : ((c.Aliases.getD []).map Prod.fst).Nodup) :
    ∃ loaded, config.Unmarshal c.raw.Marshal = .ok loaded ∧
      loaded.PoolSize = c.PoolSize ∧ loaded.PoolPrefix = c.PoolPrefix ∧
      loaded.DefaultBranch = c.DefaultBranch ∧ loaded.Editor = c.Editor ∧
      loaded.AutoRefill = c.AutoRefill ∧ loaded.CleanupOnExit = c.CleanupOnExit ∧
      ∀ k, (loaded.Aliases.getD []).lookup k = (c.Aliases.getD []).lookup k := by
  obtain ⟨size, pre, branch, editor, refill, cleanup, aliases⟩ := c
  simp only at hsize hkeys
  obtain ⟨pairs, hperm, hmembers⟩ := aliasMembers_raw (aliases.getD [])
  have hraw : (aliases.map (fun m => m.map
      (fun kv => (utf8.bytes kv.1, utf8.bytes kv.2)))).getD [] =
      (aliases.getD []).map (fun kv => (utf8.bytes kv.1, utf8.bytes kv.2)) := by
    cases aliases <;> rfl
  have hnd : (pairs.map Prod.fst).Nodup := (hperm.map Prod.fst).nodup_iff.2 hkeys
  have hlook : ∀ k, (pairs.foldl config.setAlias []).lookup k = (aliases.getD []).lookup k := by
    intro k
    rw [lookup_foldl_setAlias pairs hnd [] k, ← lookup_perm pairs (aliases.getD []) hperm hnd k]
    cases (aliases.getD []).lookup k <;> rfl
  have h1 : ∀ (cfg : config.Config) (rest : List (String × json.Value)), cfg.PoolSize = 0 →
      config.decodeMembers cfg
        ((if size = 0 then [] else [("pool_size", json.Value.integer size)]) ++ rest) =
      config.decodeMembers { cfg with PoolSize := size } rest := by
    intro cfg rest hz
    by_cases h : size = 0
    · subst h
      rw [if_pos rfl, List.nil_append, ← hz]
    · rw [if_neg h, List.singleton_append, config.decodeMembers]
      unfold config.decodeMember
      rw [if_pos rfl]
      simp only [hsize, and_self, if_true]
  have hstr : ∀ (s : String) (tag : String) (rest : List (String × json.Value)),
      (if utf8.bytes s = [] then []
        else [(tag, json.Value.string (json.coerce (utf8.bytes s)))]) ++ rest =
      (if s = "" then [] else [(tag, json.Value.string s)]) ++ rest := by
    intro s tag rest
    by_cases h : s = ""
    · rw [if_pos h, if_pos ((bytes_eq_nil s).2 h)]
    · rw [if_neg h, if_neg (fun hb => h ((bytes_eq_nil s).1 hb)), coerce_bytes]
  have h2 : ∀ (cfg : config.Config) (rest : List (String × json.Value)), cfg.PoolPrefix = "" →
      config.decodeMembers cfg
        ((if pre = "" then [] else [("pool_prefix", json.Value.string pre)]) ++ rest) =
      config.decodeMembers { cfg with PoolPrefix := pre } rest := by
    intro cfg rest hz
    by_cases h : pre = ""
    · subst h
      rw [if_pos rfl, List.nil_append, ← hz]
    · rw [if_neg h, List.singleton_append, config.decodeMembers]
      unfold config.decodeMember
      rw [if_neg (by decide), if_pos rfl]
  have h3 : ∀ (cfg : config.Config) (rest : List (String × json.Value)),
      cfg.DefaultBranch = "" →
      config.decodeMembers cfg
        ((if branch = "" then [] else [("default_branch", json.Value.string branch)]) ++
          rest) =
      config.decodeMembers { cfg with DefaultBranch := branch } rest := by
    intro cfg rest hz
    by_cases h : branch = ""
    · subst h
      rw [if_pos rfl, List.nil_append, ← hz]
    · rw [if_neg h, List.singleton_append, config.decodeMembers]
      unfold config.decodeMember
      rw [if_neg (by decide), if_neg (by decide), if_pos rfl]
  have h4 : ∀ (cfg : config.Config) (rest : List (String × json.Value)), cfg.Editor = "" →
      config.decodeMembers cfg
        ((if editor = "" then [] else [("editor", json.Value.string editor)]) ++ rest) =
      config.decodeMembers { cfg with Editor := editor } rest := by
    intro cfg rest hz
    by_cases h : editor = ""
    · subst h
      rw [if_pos rfl, List.nil_append, ← hz]
    · rw [if_neg h, List.singleton_append, config.decodeMembers]
      unfold config.decodeMember
      rw [if_neg (by decide), if_neg (by decide), if_neg (by decide), if_pos rfl]
  have h5 : ∀ (cfg : config.Config) (rest : List (String × json.Value)),
      cfg.AutoRefill = false →
      config.decodeMembers cfg
        ((if refill = true then [("auto_refill", json.Value.bool true)] else []) ++ rest) =
      config.decodeMembers { cfg with AutoRefill := refill } rest := by
    intro cfg rest hz
    cases refill
    · rw [if_neg (by decide), List.nil_append, ← hz]
    · rw [if_pos rfl, List.singleton_append, config.decodeMembers]
      unfold config.decodeMember
      rw [if_neg (by decide), if_neg (by decide), if_neg (by decide), if_neg (by decide),
        if_pos rfl]
  have h6 : ∀ (cfg : config.Config) (rest : List (String × json.Value)),
      cfg.CleanupOnExit = false →
      config.decodeMembers cfg
        ((if cleanup = true then [("cleanup_on_exit", json.Value.bool true)] else []) ++
          rest) =
      config.decodeMembers { cfg with CleanupOnExit := cleanup } rest := by
    intro cfg rest hz
    cases cleanup
    · rw [if_neg (by decide), List.nil_append, ← hz]
    · rw [if_pos rfl, List.singleton_append, config.decodeMembers]
      unfold config.decodeMember
      rw [if_neg (by decide), if_neg (by decide), if_neg (by decide), if_neg (by decide),
        if_neg (by decide), if_pos rfl]
  have h7 : ∀ (cfg : config.Config), cfg.Aliases = none →
      ∃ m, config.decodeMembers cfg
        (if (aliases.getD []).map (fun kv => (utf8.bytes kv.1, utf8.bytes kv.2)) = [] then []
          else [("aliases", json.Value.object (config.aliasMembers
            ((aliases.getD []).map (fun kv => (utf8.bytes kv.1, utf8.bytes kv.2)))))]) =
        .ok { cfg with Aliases := m } ∧
        ∀ k, (m.getD []).lookup k = (aliases.getD []).lookup k := by
    intro cfg hz
    by_cases h : (aliases.getD []).map (fun kv => (utf8.bytes kv.1, utf8.bytes kv.2)) = []
    · rw [if_pos h]
      refine ⟨none, by rw [config.decodeMembers, ← hz], ?_⟩
      intro k
      rw [List.map_eq_nil_iff] at h
      rw [h]
      rfl
    · rw [if_neg h]
      refine ⟨some (pairs.foldl config.setAlias []), ?_, hlook⟩
      rw [config.decodeMembers]
      unfold config.decodeMember
      rw [if_neg (by decide), if_neg (by decide), if_neg (by decide), if_neg (by decide),
        if_neg (by decide), if_neg (by decide), if_pos rfl]
      simp only [hmembers, hz, Option.getD_none, decodeAliases_strings, config.decodeMembers]
  obtain ⟨m, hm, hmk⟩ := h7
    { PoolSize := size, PoolPrefix := pre, DefaultBranch := branch, Editor := editor,
      AutoRefill := refill, CleanupOnExit := cleanup, Aliases := none } rfl
  refine ⟨config.Config.mk size pre branch editor refill cleanup m, ?_, rfl, rfl, rfl, rfl,
    rfl, rfl, hmk⟩
  unfold config.Unmarshal config.RawConfig.Marshal config.Config.raw
  simp only [hraw, List.append_assoc]
  rw [h1 _ _ rfl, hstr, h2 _ _ rfl, hstr, h3 _ _ rfl, hstr, h4 _ _ rfl, h5 _ _ rfl,
    h6 _ _ rfl]
  exact hm

end SaveClaims

section SaveSamples

/-- Counterexample to C23: a Go configuration whose pool prefix is the byte `0xff`.  The
document `Save` writes holds U+FFFD in its place, and decoding the document yields the
prefix `0xef 0xbf 0xbd`, three bytes, not the one that was saved. -/
theorem Save_replaces_invalid_bytes :
    json.coerce sample.broken.PoolPrefix = String.mk [Char.ofNat 0xFFFD] ∧
    ∃ loaded, config.Unmarshal sample.broken.Marshal = .ok loaded ∧
      loaded.raw.PoolPrefix = [0xEF, 0xBF, 0xBD] ∧
      loaded.raw.PoolPrefix ≠ sample.broken.PoolPrefix ∧
      loaded.PoolSize = sample.broken.PoolSize ∧
      loaded.raw.Editor = sample.broken.Editor :=
  ⟨by decide,
    { PoolSize := 5, PoolPrefix := String.mk [Char.ofNat 0xFFFD], DefaultBranch := "main",
      Editor := "code", AutoRefill := true, CleanupOnExit := false, Aliases := none },
    rfl, by decide, by decide, by decide, by decide⟩

/-- Witness of the amended C23: the configuration of the test `TestConfigSaveLoad`. -/
theorem Save_round_trip_witness :
    (-(2 : Int) ^ 63 ≤ sample.saved.PoolSize ∧ sample.saved.PoolSize < (2 : Int) ^ 63) ∧
    ((sample.saved.Aliases.getD []).map Prod.fst).Nodup ∧
    ∃ loaded, config.Unmarshal sample.saved.raw.Marshal = .ok loaded ∧
      loaded.PoolSize = sample.saved.PoolSize ∧ loaded.PoolPrefix = sample.saved.PoolPrefix ∧
      loaded.DefaultBranch = sample.saved.DefaultBranch ∧
      loaded.Editor = sample.saved.Editor ∧
      loaded.AutoRefill = sample.saved.AutoRefill ∧
      loaded.CleanupOnExit = sample.saved.CleanupOnExit ∧
      ∀ k, (loaded.Aliases.getD []).lookup k = (sample.saved.Aliases.getD []).lookup k :=
  ⟨by decide, by decide, Save_round_trip sample.saved (by decide) (by decide)⟩

end SaveSamples

section MergeBooleans

theorem decodeMember_AutoRefill (c c' : config.Config) (k : String) (v : json.Value)
    (hk : json.foldName k ≠ json.foldName "auto_refill")
    (h : config.decodeMember c k v = .ok c') : c'.AutoRefill = c.AutoRefill := by
  cases v <;>
    (unfold config.decodeMember at h
     try simp only [] at h
     split_ifs at h
     all_goals
       first
       | exact absurd ‹json.foldName k = json.foldName "auto_refill"› hk
       | (cases h; rfl)
       | cases h
       | (split at h <;> first | (cases h; rfl) | cases h))

theorem decodeMembers_AutoRefill (members : List (String × json.Value))
    (hk : ∀ kv ∈ members, json.foldName kv.1 ≠ json.foldName "auto_refill")
    (c c' : config.Config) (h : config.decodeMembers c members = .ok c') :
    c'.AutoRefill = c.AutoRefill := by
  induction members generalizing c with
  | nil =>
    simp only [config.decodeMembers, Except.ok.injEq] at h
    rw [← h]
  | cons a rest ih =>
    obtain ⟨k, v⟩ := a
    rw [config.decodeMembers] at h
    cases hm : config.decodeMember c k v with
    | error e =>
      rw [hm] at h
      cases h
    | ok c1 =>
      rw [hm] at h
      rw [ih (fun kv hkv => hk kv (List.mem_cons_of_mem _ hkv)) c1 h]
      exact decodeMember_AutoRefill c c1 k v (hk (k, v) (List.mem_cons_self _ _)) hm

/-- C29: after `c.merge(other)` the two boolean fields of `c` are those of `other`,
whatever they were before.  So a configuration file that omits `auto_refill` (no member
of its document matches that name) is decoded with `AutoRefill = false`, merging it
into the default configuration turns the default `true` into `false`, and `Load`
returns `AutoRefill = false` whenever the last file it loads is such a file. -/
theorem merge_copies_booleans (c other : config.Config) :
    (c.merge other).AutoRefill = other.AutoRefill ∧
    (c.merge other).CleanupOnExit = other.CleanupOnExit ∧
    config.DefaultConfig.AutoRefill = true ∧
    (∀ doc fileConfig,
      (∀ members, doc = json.Value.object members →
        ∀ kv ∈ members, json.foldName kv.1 ≠ json.foldName "auto_refill") →
      config.Unmarshal doc = .ok fileConfig →
      fileConfig.AutoRefill = false ∧
        (config.DefaultConfig.merge fileConfig).AutoRefill = false) ∧
    (∀ (s : config.Sources) (fileConfig loaded : config.Config),
      (s.Local = config.FileLoad.loaded fileConfig ∨
        (s.Global = config.FileLoad.loaded fileConfig ∧
          s.Local = config.FileLoad.skipped)) →
      fileConfig.AutoRefill = false → config.Load s = .ok loaded →
      loaded.AutoRefill = false) := by
  have hmerge : ∀ a b : config.Config, (a.merge b).AutoRefill = b.AutoRefill := by
    intro a b
    unfold config.Config.merge
    simp only
    split_ifs with h
    · rfl
    · exact (not_not.1 h).symm
  refine ⟨hmerge c other, ?_, rfl, ?_, ?_⟩
  · unfold config.Config.merge
    simp only
    split_ifs with h
    · rfl
    · exact (not_not.1 h).symm
  · intro doc fileConfig homit h
    have hfalse : fileConfig.AutoRefill = false := by
      cases doc with
      | null =>
        simp only [config.Unmarshal, Except.ok.injEq] at h
        rw [← h]
        rfl
      | object members =>
        simp only [config.Unmarshal] at h
        exact decodeMembers_AutoRefill members (homit members rfl) config.zero fileConfig h
      | _ => simp [config.Unmarshal] at h
    exact ⟨hfalse, by rw [hmerge, hfalse]⟩
  · intro s fileConfig loaded hs hfalse hload
    unfold config.Load at hload
    simp only at hload
    rcases hs with hl | ⟨hg, hl⟩
    · rw [hl] at hload
      split at hload
      · cases hload
      · simp only at hload
        split at hload
        · cases hload
        · simp only [Except.ok.injEq] at hload
          rw [← hload, hmerge, hfalse]
    · rw [hg, hl] at hload
      simp only at hload
      split at hload
      · cases hload
      · simp only [Except.ok.injEq] at hload
        rw [← hload, hmerge, hfalse]

/-- The default configuration after a file that sets the editor and nothing else. -/
theorem merge_booleans_sample :
    ∃ fileConfig, config.Unmarshal
        (json.Value.object [("editor", json.Value.string "nvim")]) = .ok fileConfig ∧
      config.DefaultConfig.merge fileConfig =
        { PoolSize := 5, PoolPrefix := "pool-", DefaultBranch := "main", Editor := "nvim",
          AutoRefill := false, CleanupOnExit := false, Aliases := some [] } :=
  ⟨{ config.zero with Editor := "nvim" }, rfl, by decide⟩

end MergeBooleans

/-! ## Sample runs of the return flow, of the path of a branch and of the dry run -/

section LateSamples

/-- Witness of C27: the pool has two slots in use and a directory occupies the path of
`pool-1`. -/
theorem returnWorktreeToPool_never_removes_witness :
    (∀ s ∈ (cmd.returnWorktreeToPool
        (sample.env sample.withFeature (sample.among ["/repo/.worktree-pool/pool-1"]) [])
        sample.fullManager sample.consts "feature/a").trace,
      s.isGit ["worktree", "remove"] = false) ∧
    (∀ src dst v, cmd.moveStep src dst v ∈ (cmd.returnWorktreeToPool
        (sample.env sample.withFeature (sample.among ["/repo/.worktree-pool/pool-1"]) [])
        sample.fullManager sample.consts "feature/a").trace →
      sample.among ["/repo/.worktree-pool/pool-1"] dst = StatResult.notExist) :=
  ⟨(returnWorktreeToPool_never_removes
      (sample.env sample.withFeature (sample.among ["/repo/.worktree-pool/pool-1"]) [])
      sample.fullManager sample.consts "feature/a"
      (sample.among ["/repo/.worktree-pool/pool-1"]) (fun _ _ => rfl)
      (fun _ _ _ _ => rfl)).1,
    (returnWorktreeToPool_never_removes
      (sample.env sample.withFeature (sample.among ["/repo/.worktree-pool/pool-1"]) [])
      sample.fullManager sample.consts "feature/a"
      (sample.among ["/repo/.worktree-pool/pool-1"]) (fun _ _ => rfl)
      (fun _ _ _ _ => rfl)).2.1⟩

/-- The same run: the directory at the path of `pool-1` is passed over, the worktree is
moved to the path of `pool-2`, and nothing is removed. -/
theorem returnWorktreeToPool_skips_occupied_slot_sample :
    (cmd.returnWorktreeToPool
        (sample.env sample.withFeature (sample.among ["/repo/.worktree-pool/pool-1"]) [])
        sample.fullManager sample.consts "feature/a").trace.filter
          (fun s => s.isGit ["worktree", "move"] || s.isGit ["worktree", "remove"]) =
      [cmd.moveStep "/repo/feature-a" "/repo/.worktree-pool/pool-2" sample.ok] ∧
    Step.stat "/repo/.worktree-pool/pool-1" StatResult.found ∈
      (cmd.returnWorktreeToPool
        (sample.env sample.withFeature (sample.among ["/repo/.worktree-pool/pool-1"]) [])
        sample.fullManager sample.consts "feature/a").trace := by
  decide

/-- The branches `a/b` and `a-b`: the worktree of `a/b` lies at `/repo/a-b`, and a claim
of `a-b` opens the editor there without a call of the pool manager, while returning
`a-b` moves that worktree into the pool. -/
theorem targetPath_collision_sample :
    cmd.targetPath (sample.env sample.withSlashBranch sample.nothing []) "a/b" = "/repo/a-b" ∧
    cmd.targetPath (sample.env sample.withSlashBranch sample.nothing []) "a-b" = "/repo/a-b" ∧
    (git.parseWorktrees sample.withSlashBranch).map (fun wt => (wt.Path, wt.Branch)) =
      [("/repo", "main"), ("/repo/a-b", "a/b")] ∧
    (cmd.createWorktree (sample.env sample.withSlashBranch sample.nothing []) sample.manager
      sample.cfg "a-b").trace.getLast? =
        some (cmd.editorStep sample.cfg "/repo/a-b" sample.ok) ∧
    (cmd.createWorktree (sample.env sample.withSlashBranch sample.nothing []) sample.manager
      sample.cfg "a-b").trace.all (fun s => !s.isManagerCall) = true ∧
    (cmd.returnWorktreeToPool (sample.env sample.withSlashBranch sample.nothing [])
      sample.fullManager sample.consts "a-b").trace.filter
        (fun s => s.isGit ["worktree", "move"]) =
      [cmd.moveStep "/repo/a-b" "/repo/.worktree-pool/pool-1" sample.ok] := by
  decide

/-- The run `pool clean merged --dry-run` in the sample repository: it ends without
error and has run `git fetch origin --prune`. -/
theorem runClean_dry_run_sample :
    (cmd.runClean (sample.env sample.withFeature sample.nothing []) sample.manager
      sample.consts true pool.Manager.isAvailable "merged").result = none ∧
    (cmd.runClean (sample.env sample.withFeature sample.nothing []) sample.manager
      sample.consts true pool.Manager.isAvailable "merged").trace.filter
        (fun s => s.isGit ["fetch"]) =
      [Step.exec "." "git" ["fetch", "origin", "--prune"] sample.ok] ∧
    (cmd.runClean (sample.env sample.withFeature sample.nothing []) sample.manager
      sample.consts true pool.Manager.isAvailable "orphaned").trace.filter
        (fun s => s.isGit ["fetch"]) = [] := by
  decide

end LateSamples

/-! ## Runs in a repository that answers alike at every moment -/

section StaticRuns

variable {M : Type}

/-- The top level both flows obtain, in a repository that answers `git` as `g` does. -/
theorem topLevel_static (env : Env) (g : String → List String → ExecResult)
    (hgit : ∀ n dir args, env.exec n dir "git" args = g dir args)
    (hgok : ∀ dir args, (g dir args).err = none) :
    cmd.topLevel env = strings.TrimSpace (g "." ["rev-parse", "--show-toplevel"]).stdout := by
  simp only [cmd.topLevel, cmd.repoIn, StateT.run, git.NewRepository,
    git.Repository.GetTopLevel, bind, bind_apply, run_apply, output_apply, hgit, hgok,
    Step.gitError, Option.map_none', pure, pure_apply]

theorem targetPath_static (env : Env) (g : String → List String → ExecResult)
    (hgit : ∀ n dir args, env.exec n dir "git" args = g dir args)
    (hgok : ∀ dir args, (g dir args).err = none) (b : String) :
    cmd.targetPath env b =
      filepath.Join [strings.TrimSpace (g "." ["rev-parse", "--show-toplevel"]).stdout,
        strings.ReplaceAll b "/" "-"] := by
  simp only [cmd.targetPath, cmd.repoIn, StateT.run, git.NewRepository,
    git.Repository.GetTopLevel, bind, bind_apply, run_apply, output_apply, hgit, hgok,
    Step.gitError, Option.map_none', pure, pure_apply]

theorem repoIn_static (env : Env) (g : String → List String → ExecResult)
    (hgit : ∀ n dir args, env.exec n dir "git" args = g dir args)
    (hgok : ∀ dir args, (g dir args).err = none) :
    cmd.repoIn env =
      { Path := ".",
        IsBare := decide (strings.TrimSpace
          (g "." ["rev-parse", "--is-bare-repository"]).stdout = "true"),
        DefaultBranch := strings.TrimPrefix (strings.TrimSpace
          (g "." ["symbolic-ref", "refs/remotes/origin/HEAD"]).stdout)
            "refs/remotes/origin/" } := by
  simp only [cmd.repoIn, StateT.run, git.NewRepository, bind, bind_apply, run_apply,
    output_apply, hgit, hgok, Step.gitError, Option.map_none', pure, pure_apply]

/-- In a repository in which every git command succeeds, a claim for a branch at whose
target path a worktree is listed opens the editor there and does nothing else. -/
theorem createWorktree_resumes_static (env : Env) (ops : pool.ManagerOps M)
    (cfg : config.Config) (g : String → List String → ExecResult)
    (hgit : ∀ n dir args, env.exec n dir "git" args = g dir args)
    (hgok : ∀ dir args, (g dir args).err = none) (b : String)
    (hin : ∃ wt ∈ git.parseWorktrees (g "." ["worktree", "list", "--porcelain"]).stdout,
      wt.Path = cmd.targetPath env b) :
    ∃ pre r, (∀ s ∈ pre, s.isQuery = true) ∧
      (cmd.createWorktree env ops cfg b).trace =
        pre ++ [cmd.listStep (g "." ["worktree", "list", "--porcelain"]),
          cmd.editorStep cfg (cmd.targetPath env b) r] ∧
      (cmd.createWorktree env ops cfg b).result = (r.err, none) := by
  rw [targetPath_static env g hgit hgok] at hin ⊢
  have hany : (git.parseWorktrees (g "." ["worktree", "list", "--porcelain"]).stdout).any
      (fun wt => wt.Path == filepath.Join
        [strings.TrimSpace (g "." ["rev-parse", "--show-toplevel"]).stdout,
          strings.ReplaceAll b "/" "-"]) = true := by
    rw [List.any_eq_true]
    obtain ⟨wt, hwt, hp⟩ := hin
    exact ⟨wt, hwt, by simp [hp]⟩
  simp only [Sim.trace, Sim.result, StateT.run, cmd.createWorktree, git.NewRepository,
    git.Repository.GetTopLevel, bind, bind_apply, run_apply, output_apply,
    ListWorktrees_apply, hgit, hgok, Step.gitError, Option.map_none', pure, pure_apply, hany,
    if_true, openInEditor_apply]
  refine ⟨[Step.exec "." "git" ["rev-parse", "--git-dir"] (g "." ["rev-parse", "--git-dir"]),
    Step.exec "." "git" ["rev-parse", "--is-bare-repository"]
      (g "." ["rev-parse", "--is-bare-repository"]),
    Step.exec "." "git" ["symbolic-ref", "refs/remotes/origin/HEAD"]
      (g "." ["symbolic-ref", "refs/remotes/origin/HEAD"]),
    Step.exec "." "git" ["rev-parse", "--show-toplevel"]
      (g "." ["rev-parse", "--show-toplevel"])], _, ?_, ?_, rfl⟩
  · intro s hs
    simp only [List.mem_cons, List.mem_singleton, List.not_mem_nil, or_false] at hs
    rcases hs with rfl | rfl | rfl | rfl <;> rfl
  · simp [cmd.listStep]

/-- In a repository in which every git command succeeds, the return flow for a branch at
whose target path no worktree is listed fails with `no worktree found`, naming the
branch and the path. -/
theorem returnWorktreeToPool_not_found_static (env : Env) (ops : pool.ManagerOps M)
    (consts : pool.Constants) (g : String → List String → ExecResult)
    (hgit : ∀ n dir args, env.exec n dir "git" args = g dir args)
    (hgok : ∀ dir args, (g dir args).err = none) (b : String)
    (hout : ∀ wt ∈ git.parseWorktrees (g "." ["worktree", "list", "--porcelain"]).stdout,
      wt.Path ≠ cmd.targetPath env b) :
    ∃ pre, (∀ s ∈ pre, s.isQuery = true) ∧
      (cmd.returnWorktreeToPool env ops consts b).trace =
        pre ++ [cmd.listStep (g "." ["worktree", "list", "--porcelain"])] ∧
      (cmd.returnWorktreeToPool env ops consts b).result =
        (some (Error.errorf ("no worktree found for branch " ++ b ++ " at " ++
          cmd.targetPath env b)), none) := by
  rw [targetPath_static env g hgit hgok] at hout ⊢
  have hany : (git.parseWorktrees (g "." ["worktree", "list", "--porcelain"]).stdout).any
      (fun wt => wt.Path == filepath.Join
        [strings.TrimSpace (g "." ["rev-parse", "--show-toplevel"]).stdout,
          strings.ReplaceAll b "/" "-"]) = false := by
    rw [List.any_eq_false]
    intro wt hwt
    simpa using hout wt hwt
  simp only [Sim.trace, Sim.result, StateT.run, cmd.returnWorktreeToPool, git.NewRepository,
    git.Repository.GetTopLevel, bind, bind_apply, run_apply, output_apply,
    ListWorktrees_apply, hgit, hgok, Step.gitError, Option.map_none', pure, pure_apply, hany,
    Bool.not_false, if_true]
  refine ⟨[Step.exec "." "git" ["rev-parse", "--git-dir"] (g "." ["rev-parse", "--git-dir"]),
    Step.exec "." "git" ["rev-parse", "--is-bare-repository"]
      (g "." ["rev-parse", "--is-bare-repository"]),
    Step.exec "." "git" ["symbolic-ref", "refs/remotes/origin/HEAD"]
      (g "." ["symbolic-ref", "refs/remotes/origin/HEAD"]),
    Step.exec "." "git" ["rev-parse", "--show-toplevel"]
      (g "." ["rev-parse", "--show-toplevel"])], ?_, ?_, trivial⟩
  · intro s hs
    simp only [List.mem_cons, List.mem_singleton, List.not_mem_nil, or_false] at hs
    rcases hs with rfl | rfl | rfl | rfl <;> rfl
  · simp [cmd.listStep]

end StaticRuns

section StaticRuns2

variable {M : Type}

/-- `GetTopLevel` in a repository that answers `git` as `g` does. -/
theorem GetTopLevel_static_value (env : Env) (g : String → List String → ExecResult)
    (hgit : ∀ n dir args, env.exec n dir "git" args = g dir args)
    (hgok : ∀ dir args, (g dir args).err = none) (r : git.Repository) (tr : List Step) :
    (r.GetTopLevel env tr).1 =
      (strings.TrimSpace (g r.Path ["rev-parse", "--show-toplevel"]).stdout, none) := by
  simp only [git.Repository.GetTopLevel, bind, bind_apply, output_apply, hgit, hgok, pure,
    pure_apply]

/-- The scan for a free slot on a file system and in a repository that stay as they
are: the steps are steps of the scan, the manager is the one `GetStatus` leaves, and
the result is the first candidate reported missing, or the error when there is none. -/
theorem findOrCreatePoolSlot_static (env : Env) (ops : pool.ManagerOps M)
    (consts : pool.Constants) (fs : String → StatResult)
    (g : String → List String → ExecResult)
    (hfs : ∀ n p, env.stat n p = fs p)
    (hgit : ∀ n dir args, env.exec n dir "git" args = g dir args)
    (hgok : ∀ dir args, (g dir args).err = none)
    (m : M) (r : git.Repository) (tr : List Step)
    (F : ((String × Option Error) × M) × List Step)
    (hF : cmd.findOrCreatePoolSlot env ops consts m r tr = F) :
    ∃ ext, F.2 = tr ++ ext ∧
      (∀ s ∈ ext, s.isScan = true) ∧
      F.1.2 = (ops.GetStatus m).2 ∧
      ((∀ i ∈ cmd.candidates (ops.GetStatus m).1.1,
          fs (cmd.candidatePath consts
            (strings.TrimSpace (g r.Path ["rev-parse", "--show-toplevel"]).stdout) i) ≠
              StatResult.notExist) →
        F.1.1 = ("", some (Error.errorf "unable to find available pool slot"))) ∧
      (∀ i : Nat, 1 ≤ i → (i : Int) ≤ (ops.GetStatus m).1.1 + 1 →
        fs (cmd.candidatePath consts
          (strings.TrimSpace (g r.Path ["rev-parse", "--show-toplevel"]).stdout) i) =
            StatResult.notExist →
        (∀ j : Nat, 1 ≤ j → j < i →
          fs (cmd.candidatePath consts
            (strings.TrimSpace (g r.Path ["rev-parse", "--show-toplevel"]).stdout) j) ≠
              StatResult.notExist) →
        F.1.1 = (cmd.candidateName consts i, none)) := by
  subst hF
  obtain ⟨ext, hx, hq⟩ := findOrCreatePoolSlot_ext env ops consts m r tr
  have htop := GetTopLevel_static_value env g hgit hgok r tr
  have h1 : (r.GetTopLevel env tr).1.1 =
      strings.TrimSpace (g r.Path ["rev-parse", "--show-toplevel"]).stdout := by rw [htop]
  have h2 : (r.GetTopLevel env tr).1.2 = none := by rw [htop]
  have hap := findOrCreatePoolSlot_apply env ops consts m r tr
  rw [h2, h1] at hap
  simp only at hap
  refine ⟨ext, hx, hq, ?_, ?_, ?_⟩
  · rw [hap]
    split <;> rfl
  · intro hall
    rw [hap]
    rcases findSlotLoop_spec env consts
        (strings.TrimSpace (g r.Path ["rev-parse", "--show-toplevel"]).stdout) fs hfs
        ((ops.GetStatus m).1.1 + 1).toNat 1
        ((r.GetTopLevel env tr).2 ++
          [Step.GetStatus (ops.GetStatus m).1.1 (ops.GetStatus m).1.2]) with
      ⟨hn, _⟩ | ⟨k, hk1, hk2, hres, hk, _⟩
    · rw [hn]
    · exfalso
      exact hall k ((mem_candidates _ _).2 ⟨hk1, by omega⟩) hk
  · intro i hi1 hi2 hmiss hleast
    rw [hap]
    rcases findSlotLoop_spec env consts
        (strings.TrimSpace (g r.Path ["rev-parse", "--show-toplevel"]).stdout) fs hfs
        ((ops.GetStatus m).1.1 + 1).toNat 1
        ((r.GetTopLevel env tr).2 ++
          [Step.GetStatus (ops.GetStatus m).1.1 (ops.GetStatus m).1.2]) with
      ⟨_, hall⟩ | ⟨k, hk1, hk2, hres, hk, hall⟩
    · exfalso
      exact hall i hi1 (by omega) hmiss
    · rw [hres]
      have hik : i = k := by
        rcases Nat.lt_trichotomy i k with h | h | h
        · exact absurd hmiss (hall i hi1 h)
        · exact h
        · exact absurd hk (hleast k hk1 h)
      subst hik
      rfl

/-- The return flow in a repository in which every git command succeeds and answers
alike at every moment, on a file system that stays as it is, when `os.Getwd` and
`os.Chdir` succeed, a worktree is listed at the target path and the manager is
created.  After the queries, the listing and the scan for a slot, either no candidate
is reported missing and the flow stops with the error of the scan, or the worktree is
moved to the first candidate reported missing, the slot is reset there, and
`MarkAvailable` of that candidate decides the result. -/
theorem returnWorktreeToPool_static (env : Env) (ops : pool.ManagerOps M)
    (consts : pool.Constants) (fs : String → StatResult)
    (g : String → List String → ExecResult)
    (hfs : ∀ n p, env.stat n p = fs p)
    (hgit : ∀ n dir args, env.exec n dir "git" args = g dir args)
    (hgok : ∀ dir args, (g dir args).err = none)
    (hwd : ∀ n, (env.getwd n).2 = none)
    (hcd : ∀ n dir, env.chdir n dir = none)
    (b : String)
    (hin : ∃ wt ∈ git.parseWorktrees (g "." ["worktree", "list", "--porcelain"]).stdout,
      wt.Path = cmd.targetPath env b)
    (m : M) (hm : ops.NewManager (cmd.repoIn env) = Except.ok m) :
    ∃ pre scan, (∀ s ∈ pre, s.isQuery = true) ∧ (∀ s ∈ scan, s.isScan = true) ∧
      ((∀ i ∈ cmd.candidates (ops.GetStatus m).1.1,
          fs (cmd.candidatePath consts (cmd.topLevel env) i) ≠ StatResult.notExist) →
        (cmd.returnWorktreeToPool env ops consts b).trace =
          pre ++ [cmd.listStep (g "." ["worktree", "list", "--porcelain"]),
            Step.NewManager none] ++ scan ∧
        (cmd.returnWorktreeToPool env ops consts b).result =
          (some (Error.errorf "unable to find available pool slot"),
            some (ops.GetStatus m).2)) ∧
      (∀ i : Nat, 1 ≤ i → (i : Int) ≤ (ops.GetStatus m).1.1 + 1 →
        fs (cmd.candidatePath consts (cmd.topLevel env) i) = StatResult.notExist →
        (∀ j : Nat, 1 ≤ j → j < i →
          fs (cmd.candidatePath consts (cmd.topLevel env) j) ≠ StatResult.notExist) →
        ∃ d,
          (cmd.returnWorktreeToPool env ops consts b).trace =
            pre ++ [cmd.listStep (g "." ["worktree", "list", "--porcelain"]),
              Step.NewManager none] ++ scan ++
            [Step.stat (cmd.candidatePath consts (cmd.topLevel env) i) StatResult.notExist,
              cmd.moveStep (cmd.targetPath env b) (cmd.candidatePath consts (cmd.topLevel env) i)
                (g "." ["worktree", "move", cmd.targetPath env b,
                  cmd.candidatePath consts (cmd.topLevel env) i]),
              cmd.repairStep (g "." ["worktree", "repair"]),
              Step.getwd d none,
              Step.chdir (cmd.candidatePath consts (cmd.topLevel env) i) none,
              cmd.checkoutStep (cmd.candidatePath consts (cmd.topLevel env) i)
                (cmd.candidateName consts i) (cmd.repoIn env).DefaultBranch
                (g (cmd.candidatePath consts (cmd.topLevel env) i)
                  ["checkout", "-B", cmd.candidateName consts i,
                    (cmd.repoIn env).DefaultBranch]),
              Step.MarkAvailable (cmd.candidateName consts i)
                (ops.MarkAvailable (ops.GetStatus m).2 (cmd.candidateName consts i)).1,
              Step.chdir d none] ∧
          (cmd.returnWorktreeToPool env ops consts b).result =
            ((ops.MarkAvailable (ops.GetStatus m).2 (cmd.candidateName consts i)).1,
              some (ops.MarkAvailable (ops.GetStatus m).2 (cmd.candidateName consts i)).2)) := by
  rw [targetPath_static env g hgit hgok] at hin ⊢
  rw [repoIn_static env g hgit hgok] at hm ⊢
  rw [topLevel_static env g hgit hgok]
  have hany : (git.parseWorktrees (g "." ["worktree", "list", "--porcelain"]).stdout).any
      (fun wt => wt.Path == filepath.Join
        [strings.TrimSpace (g "." ["rev-parse", "--show-toplevel"]).stdout,
          strings.ReplaceAll b "/" "-"]) = true := by
    rw [List.any_eq_true]
    obtain ⟨wt, hwt, hp⟩ := hin
    exact ⟨wt, hwt, by simp [hp]⟩
  simp only [Sim.trace, Sim.result, StateT.run, cmd.returnWorktreeToPool, git.NewRepository,
    git.Repository.GetTopLevel, bind, bind_apply, run_apply, output_apply,
    ListWorktrees_apply, hgit, hgok, Step.gitError, Option.map_none', pure, pure_apply, hany,
    Bool.not_true, Bool.false_eq_true, if_false, pool.NewManager, hm]
  generalize hF : cmd.findOrCreatePoolSlot env ops consts m _ _ = F
  obtain ⟨ext, hx, hq, hm', hA, hB⟩ :=
    findOrCreatePoolSlot_static env ops consts fs g hfs hgit hgok m _ _ F hF
  obtain ⟨⟨⟨slot, serr⟩, m'⟩, tr5⟩ := F
  simp only at hx hm' hA hB ⊢
  subst hx hm'
  refine ⟨[Step.exec "." "git" ["rev-parse", "--git-dir"] (g "." ["rev-parse", "--git-dir"]),
    Step.exec "." "git" ["rev-parse", "--is-bare-repository"]
      (g "." ["rev-parse", "--is-bare-repository"]),
    Step.exec "." "git" ["symbolic-ref", "refs/remotes/origin/HEAD"]
      (g "." ["symbolic-ref", "refs/remotes/origin/HEAD"]),
    Step.exec "." "git" ["rev-parse", "--show-toplevel"]
      (g "." ["rev-parse", "--show-toplevel"])], ext, ?_, hq, ?_, ?_⟩
  · intro s hs
    simp only [List.mem_cons, List.mem_singleton, List.not_mem_nil, or_false] at hs
    rcases hs with rfl | rfl | rfl | rfl <;> rfl
  · intro hall
    obtain ⟨rfl, rfl⟩ := Prod.mk.inj (hA hall)
    simp only [pure_apply]
    exact ⟨by simp [cmd.listStep], trivial⟩
  · intro i hi1 hi2 hmiss hleast
    obtain ⟨rfl, rfl⟩ := Prod.mk.inj (hB i hi1 hi2 hmiss hleast)
    have hmiss' : fs (filepath.Join
        [strings.TrimSpace (g "." ["rev-parse", "--show-toplevel"]).stdout, consts.PoolDir,
          cmd.candidateName consts i]) = StatResult.notExist := hmiss
    simp only [osStat_apply, hfs, hmiss', bind_apply, pure_apply, git.Repository.MoveWorktree,
      git.Repository.RepairWorktrees, run_apply, hgit, hgok, Step.gitError, Option.map_none',
      osGetwd_apply, hwd, osChdir_apply, hcd, RunInDir_apply, MarkAvailable_apply]
    generalize (env.getwd _).1 = d
    exact ⟨d, by simp [cmd.listStep, cmd.moveStep, cmd.repairStep, cmd.checkoutStep,
      cmd.candidatePath, cmd.candidateName], trivial⟩

end StaticRuns2

section StaticRuns3

variable {M : Type}

/-- The return flow when `pool.NewManager` fails, in a repository in which every git
command succeeds and a worktree is listed at the target path. -/
theorem returnWorktreeToPool_no_manager_static (env : Env) (ops : pool.ManagerOps M)
    (consts : pool.Constants) (g : String → List String → ExecResult)
    (hgit : ∀ n dir args, env.exec n dir "git" args = g dir args)
    (hgok : ∀ dir args, (g dir args).err = none) (b : String)
    (hin : ∃ wt ∈ git.parseWorktrees (g "." ["worktree", "list", "--porcelain"]).stdout,
      wt.Path = cmd.targetPath env b)
    (e : Error) (hm : ops.NewManager (cmd.repoIn env) = Except.error e) :
    ∃ pre, (∀ s ∈ pre, s.isQuery = true) ∧
      (cmd.returnWorktreeToPool env ops consts b).trace =
        pre ++ [cmd.listStep (g "." ["worktree", "list", "--porcelain"]),
          Step.NewManager (some e)] ∧
      (cmd.returnWorktreeToPool env ops consts b).result = (some e, none) := by
  rw [targetPath_static env g hgit hgok] at hin
  rw [repoIn_static env g hgit hgok] at hm
  have hany : (git.parseWorktrees (g "." ["worktree", "list", "--porcelain"]).stdout).any
      (fun wt => wt.Path == filepath.Join
        [strings.TrimSpace (g "." ["rev-parse", "--show-toplevel"]).stdout,
          strings.ReplaceAll b "/" "-"]) = true := by
    rw [List.any_eq_true]
    obtain ⟨wt, hwt, hp⟩ := hin
    exact ⟨wt, hwt, by simp [hp]⟩
  simp only [Sim.trace, Sim.result, StateT.run, cmd.returnWorktreeToPool, git.NewRepository,
    git.Repository.GetTopLevel, bind, bind_apply, run_apply, output_apply,
    ListWorktrees_apply, hgit, hgok, Step.gitError, Option.map_none', pure, pure_apply, hany,
    Bool.not_true, Bool.false_eq_true, if_false, pool.NewManager, hm]
  refine ⟨[Step.exec "." "git" ["rev-parse", "--git-dir"] (g "." ["rev-parse", "--git-dir"]),
    Step.exec "." "git" ["rev-parse", "--is-bare-repository"]
      (g "." ["rev-parse", "--is-bare-repository"]),
    Step.exec "." "git" ["symbolic-ref", "refs/remotes/origin/HEAD"]
      (g "." ["symbolic-ref", "refs/remotes/origin/HEAD"]),
    Step.exec "." "git" ["rev-parse", "--show-toplevel"]
      (g "." ["rev-parse", "--show-toplevel"])], ?_, ?_, ?_⟩
  · intro s hs
    simp only [List.mem_cons, List.mem_singleton, List.not_mem_nil, or_false] at hs
    rcases hs with rfl | rfl | rfl | rfl <;> rfl
  · simp [cmd.listStep]
  · first | rfl | trivial

theorem filter_nil_of (P : Step → Bool) (l : List Step) (h : ∀ s ∈ l, P s = false) :
    l.filter P = [] := by
  rw [List.filter_eq_nil_iff]
  intro s hs
  simp [h s hs]

/-- A step of the scan for a free slot moves no worktree and marks no slot. -/
theorem isScan_quiet (s : Step) (h : s.isScan = true) :
    s.isGit ["worktree", "move"] = false ∧ s.isMark = false := by
  cases s with
  | exec dir name args res =>
    exact ⟨isQuery_isGit (Step.exec dir name args res) h "worktree" ["move"] (by decide)
      (by decide), rfl⟩
  | _ => exact ⟨rfl, by first | rfl | cases h⟩

/-- The store of `n` claimed slots: its status is `(n, 0)`; marking the slot of an index
of `1 .. n` Available succeeds and gives the status `(n, 1)`; the name of any other
index is unknown, `MarkAvailable` fails with the slot-not-found error and changes
nothing. -/
theorem claimedSlots_facts (poolDir p : String) (n i : Nat) :
    (pool.Manager.Load poolDir p (some { Worktrees := pool.claimedSlots p n })).GetStatus =
      (((n : Int), (0 : Int)),
        pool.Manager.Load poolDir p (some { Worktrees := pool.claimedSlots p n })) ∧
    (1 ≤ i → i ≤ n →
      ((pool.Manager.Load poolDir p (some { Worktrees := pool.claimedSlots p n })).MarkAvailable
        (pool.slotName p i)).1 = none ∧
      (((pool.Manager.Load poolDir p (some { Worktrees := pool.claimedSlots p n })).MarkAvailable
        (pool.slotName p i)).2.GetStatus).1 = ((n : Int), (1 : Int)) ∧
      ((pool.Manager.Load poolDir p (some { Worktrees := pool.claimedSlots p n })).MarkAvailable
        (pool.slotName p i)).2.Status.Worktrees.lookup (pool.slotName p i) =
          some pool.SlotState.Available) ∧
    (n < i →
      (pool.Manager.Load poolDir p (some { Worktrees := pool.claimedSlots p n })).MarkAvailable
        (pool.slotName p i) =
        (some errors.ErrBranchNotFound,
          pool.Manager.Load poolDir p (some { Worktrees := pool.claimedSlots p n }))) := by
  have hform : pool.claimedSlots p n =
      ((List.range n).map (fun k => k + 1)).map
        (fun i => (pool.slotName p i, (fun _ => pool.SlotState.InUse) i)) := by
    simp [pool.claimedSlots, List.map_map, Function.comp]
  have hlen : (pool.claimedSlots p n).length = n := by simp [pool.claimedSlots]
  have hzero : ((pool.claimedSlots p n).filter
      (fun kv => kv.2 = pool.SlotState.Available)).length = 0 := by
    rw [List.length_eq_zero, List.filter_eq_nil_iff]
    intro kv hkv
    simp only [pool.claimedSlots, List.mem_map, List.mem_range] at hkv
    obtain ⟨k, _, rfl⟩ := hkv
    simp
  have hkeys : ((pool.claimedSlots p n).map Prod.fst).Nodup := by
    have := slotNames_nodup p n
    simpa [pool.claimedSlots, List.map_map, Function.comp] using this
  refine ⟨?_, ?_, ?_⟩
  · simp only [pool.Manager.GetStatus, pool.Manager.Load, Option.getD_some, hlen, hzero]
    rfl
  · intro h1 h2
    have hold : (pool.claimedSlots p n).lookup (pool.slotName p i) =
        some pool.SlotState.InUse := by
      rw [hform]
      exact lookup_slotName p (fun _ => pool.SlotState.InUse) _ i
        (by simp only [List.mem_map, List.mem_range]; exact ⟨i - 1, by omega, by omega⟩)
    have hsome : ((pool.claimedSlots p n).lookup (pool.slotName p i)).isSome = true := by
      rw [hold]
      rfl
    have hf := Manager_set_facts { Worktrees := pool.claimedSlots p n } (pool.slotName p i)
      pool.SlotState.InUse pool.SlotState.Available hkeys hold
    simp only [pool.Manager.MarkAvailable, pool.Manager.Load, Option.getD_some, hsome, if_true,
      pool.Manager.GetStatus]
    refine ⟨trivial, ?_, hf.1⟩
    have h4 := hf.2.2.2.1
    have h5 := hf.2.2.2.2
    simp only [if_true, if_neg (show pool.SlotState.InUse ≠ pool.SlotState.Available from
      by decide), hzero, hlen] at h4 h5
    rw [h4]
    have : ((pool.PoolStatus.set { Worktrees := pool.claimedSlots p n } (pool.slotName p i)
        pool.SlotState.Available).Worktrees.filter
          (fun kv => kv.2 = pool.SlotState.Available)).length = 1 := by omega
    rw [this]
    rfl
  · intro h
    have hnone : (pool.claimedSlots p n).lookup (pool.slotName p i) = none := by
      rw [hform]
      exact lookup_slotName_none p (fun _ => pool.SlotState.InUse) _ i
        (by simp only [List.mem_map, List.mem_range]; rintro ⟨k, hk, hki⟩; omega)
    simp [pool.Manager.MarkAvailable, pool.Manager.Load, hnone]

end StaticRuns3

section StaticRuns4

/-- The store of `n` claimed slots under the `MarkAvailable` that adds an unknown name:
for an index of `1 .. n` it does what the `MarkAvailable` of §4.1 does, and for a larger
index it adds the slot, which gives the status `(n + 1, 1)`. -/
theorem claimedSlots_growing_facts (poolDir p : String) (n i : Nat) :
    (1 ≤ i → i ≤ n →
      (pool.Manager.Load poolDir p
        (some { Worktrees := pool.claimedSlots p n })).MarkAvailableOrAdd (pool.slotName p i) =
      (pool.Manager.Load poolDir p
        (some { Worktrees := pool.claimedSlots p n })).MarkAvailable (pool.slotName p i)) ∧
    (n < i →
      ((pool.Manager.Load poolDir p
        (some { Worktrees := pool.claimedSlots p n })).MarkAvailableOrAdd
          (pool.slotName p i)).1 = none ∧
      (((pool.Manager.Load poolDir p
        (some { Worktrees := pool.claimedSlots p n })).MarkAvailableOrAdd
          (pool.slotName p i)).2.GetStatus).1 = (((n + 1 : Nat) : Int), (1 : Int)) ∧
      ((pool.Manager.Load poolDir p
        (some { Worktrees := pool.claimedSlots p n })).MarkAvailableOrAdd
          (pool.slotName p i)).2.Status.Worktrees =
        pool.claimedSlots p n ++ [(pool.slotName p i, pool.SlotState.Available)]) := by
  have hform : pool.claimedSlots p n =
      ((List.range n).map (fun k => k + 1)).map
        (fun i => (pool.slotName p i, (fun _ => pool.SlotState.InUse) i)) := by
    simp [pool.claimedSlots, List.map_map, Function.comp]
  have hlen : (pool.claimedSlots p n).length = n := by simp [pool.claimedSlots]
  have hzero : (pool.claimedSlots p n).filter
      (fun kv => kv.2 = pool.SlotState.Available) = [] := by
    rw [List.filter_eq_nil_iff]
    intro kv hkv
    simp only [pool.claimedSlots, List.mem_map, List.mem_range] at hkv
    obtain ⟨k, _, rfl⟩ := hkv
    simp
  constructor
  · intro h1 h2
    have hold : (pool.claimedSlots p n).lookup (pool.slotName p i) =
        some pool.SlotState.InUse := by
      rw [hform]
      exact lookup_slotName p (fun _ => pool.SlotState.InUse) _ i
        (by simp only [List.mem_map, List.mem_range]; exact ⟨i - 1, by omega, by omega⟩)
    simp [pool.Manager.MarkAvailableOrAdd, pool.Manager.MarkAvailable, pool.Manager.Load, hold]
  · intro h
    have hnone : (pool.claimedSlots p n).lookup (pool.slotName p i) = none := by
      rw [hform]
      exact lookup_slotName_none p (fun _ => pool.SlotState.InUse) _ i
        (by simp only [List.mem_map, List.mem_range]; rintro ⟨k, hk, hki⟩; omega)
    simp only [pool.Manager.MarkAvailableOrAdd, pool.Manager.Load, Option.getD_some, hnone,
      Option.isSome_none, Bool.false_eq_true, if_false, pool.Manager.GetStatus,
      List.length_append, hlen, List.filter_append, hzero]
    exact ⟨trivial, by simp, trivial⟩

variable {M : Type}

/-- The return flow over a manager whose status is `(total, available)` with every
candidate path's answer known, in a repository that answers alike at every moment and
lets every git command succeed: nothing is moved or marked when no candidate is
reported missing; otherwise the only move goes to the first candidate reported missing,
the only marking call is `MarkAvailable` of that candidate, and its answer and the
manager it leaves are the result of the flow. -/
theorem returnWorktreeToPool_selects (env : Env) (ops : pool.ManagerOps M)
    (consts : pool.Constants) (fs : String → StatResult)
    (g : String → List String → ExecResult)
    (hfs : ∀ n p, env.stat n p = fs p)
    (hgit : ∀ n dir args, env.exec n dir "git" args = g dir args)
    (hgok : ∀ dir args, (g dir args).err = none)
    (hwd : ∀ n, (env.getwd n).2 = none)
    (hcd : ∀ n dir, env.chdir n dir = none)
    (b : String)
    (hin : ∃ wt ∈ git.parseWorktrees (g "." ["worktree", "list", "--porcelain"]).stdout,
      wt.Path = cmd.targetPath env b)
    (m : M) (hm : ops.NewManager (cmd.repoIn env) = Except.ok m) :
    ((∀ i ∈ cmd.candidates (ops.GetStatus m).1.1,
        fs (cmd.candidatePath consts (cmd.topLevel env) i) ≠ StatResult.notExist) →
      (cmd.returnWorktreeToPool env ops consts b).result =
        (some (Error.errorf "unable to find available pool slot"),
          some (ops.GetStatus m).2) ∧
      (cmd.returnWorktreeToPool env ops consts b).trace.filter
        (fun s => s.isGit ["worktree", "move"] || s.isMark) = []) ∧
    (∀ i : Nat, 1 ≤ i → (i : Int) ≤ (ops.GetStatus m).1.1 + 1 →
      fs (cmd.candidatePath consts (cmd.topLevel env) i) = StatResult.notExist →
      (∀ j : Nat, 1 ≤ j → j < i →
        fs (cmd.candidatePath consts (cmd.topLevel env) j) ≠ StatResult.notExist) →
      (cmd.returnWorktreeToPool env ops consts b).result =
        ((ops.MarkAvailable (ops.GetStatus m).2 (cmd.candidateName consts i)).1,
          some (ops.MarkAvailable (ops.GetStatus m).2 (cmd.candidateName consts i)).2) ∧
      (cmd.returnWorktreeToPool env ops consts b).trace.filter
          (fun s => s.isGit ["worktree", "move"]) =
        [cmd.moveStep (cmd.targetPath env b) (cmd.candidatePath consts (cmd.topLevel env) i)
          (g "." ["worktree", "move", cmd.targetPath env b,
            cmd.candidatePath consts (cmd.topLevel env) i])] ∧
      (cmd.returnWorktreeToPool env ops consts b).trace.filter (fun s => s.isMark) =
        [Step.MarkAvailable (cmd.candidateName consts i)
          (ops.MarkAvailable (ops.GetStatus m).2 (cmd.candidateName consts i)).1]) := by
  obtain ⟨pre, scan, hpre, hscan, hA, hB⟩ :=
    returnWorktreeToPool_static env ops consts fs g hfs hgit hgok hwd hcd b hin m hm
  have hpreq : ∀ (P : Step → Bool), (∀ s, s.isQuery = true → P s = false) →
      pre.filter P = [] := fun P hP => filter_nil_of P pre (fun s hs => hP s (hpre s hs))
  have hscanq : ∀ (P : Step → Bool), (∀ s, s.isScan = true → P s = false) →
      scan.filter P = [] := fun P hP => filter_nil_of P scan (fun s hs => hP s (hscan s hs))
  have hqm : ∀ s : Step, s.isQuery = true → s.isGit ["worktree", "move"] = false :=
    fun s h => (isQuery_quiet_calls s h).2.2.1
  have hqk : ∀ s : Step, s.isQuery = true → s.isMark = false :=
    fun s h => (isQuery_other s h).2.1
  constructor
  · intro hall
    obtain ⟨ht, hr⟩ := hA hall
    rw [ht, hr]
    refine ⟨rfl, ?_⟩
    simp only [List.filter_append]
    rw [hpreq _ (fun s h => by simp [hqm s h, hqk s h]),
      hscanq _ (fun s h => by simp [(isScan_quiet s h).1, (isScan_quiet s h).2])]
    simp [cmd.listStep, Step.isGit, Step.isMark, List.isPrefixOf]
  · intro i hi1 hi2 hmiss hleast
    obtain ⟨d, ht, hr⟩ := hB i hi1 hi2 hmiss hleast
    rw [ht, hr]
    refine ⟨rfl, ?_, ?_⟩
    · simp only [List.filter_append]
      rw [hpreq _ hqm, hscanq _ (fun s h => (isScan_quiet s h).1)]
      simp [cmd.listStep, cmd.moveStep, cmd.repairStep, cmd.checkoutStep, Step.isGit,
        List.isPrefixOf]
    · simp only [List.filter_append]
      rw [hpreq _ hqk, hscanq _ (fun s h => (isScan_quiet s h).2)]
      simp [cmd.listStep, cmd.moveStep, cmd.repairStep, cmd.checkoutStep, Step.isMark]

end StaticRuns4

section ReturnFlowClaims4

/-- Every git command of the sample world succeeds when none is listed as failing. -/
theorem sample_git_ok (listing : String) (dir : String) (args : List String) :
    (sample.git listing [] dir args).err = none := by
  simp only [sample.git, sample.env, List.not_mem_nil, if_true, if_false]
  split_ifs <;> rfl

/-- C11 (as amended): the pool has the `N` slots `<prefix>1 .. <prefix>N`, all of them
InUse (status `(N, 0)`); every git command succeeds and answers alike at every moment,
the file system stays as it is, `os.Getwd` and `os.Chdir` succeed, and the branch has a
worktree at its target path.  Over the manager of the specification, and as well over
the manager whose `MarkAvailable` adds a name the store does not know: when no
candidate of `1 .. N+1` is reported missing the return flow fails with `unable to find
available pool slot`, moves nothing and marks nothing; otherwise it selects the first
candidate `i` reported missing: its only move takes the worktree of the branch to the
path of `<prefix>i`, its only marking call is `MarkAvailable(<prefix>i)`, whose answer
is the result of the flow, and for `i ≤ N` the flow ends without error with the slot
Available and the status `(N, 1)`.  The candidate `N+1` is selected only when the paths
of all `N` slots are not reported missing; the store does not know its name: with the
`MarkAvailable` of §4.1 the flow fails with the slot-not-found error after the move
and the status stays `(N, 0)`, and with the `MarkAvailable` that adds the name the
flow ends without error and the status is `(N+1, 1)`. -/
theorem returnWorktreeToPool_fills_first_missing_slot (env : Env) (consts : pool.Constants)
    (poolDir : String) (N : Nat) (b : String) (fs : String → StatResult)
    (g : String → List String → ExecResult)
    (hfs : ∀ n p, env.stat n p = fs p)
    (hgit : ∀ n dir args, env.exec n dir "git" args = g dir args)
    (hgok : ∀ dir args, (g dir args).err = none)
    (hwd : ∀ n, (env.getwd n).2 = none)
    (hcd : ∀ n dir, env.chdir n dir = none)
    (hin : ∃ wt ∈ git.parseWorktrees (g "." ["worktree", "list", "--porcelain"]).stdout,
      wt.Path = cmd.targetPath env b) :
    (pool.Manager.Load poolDir consts.PoolPrefix
      (some { Worktrees := pool.claimedSlots consts.PoolPrefix N })).GetStatus.1 =
        ((N : Int), (0 : Int)) ∧
    (∀ ops : pool.ManagerOps pool.Manager,
      (ops = pool.specManager poolDir consts.PoolPrefix
          (some { Worktrees := pool.claimedSlots consts.PoolPrefix N }) ∨
        ops = pool.growingManager poolDir consts.PoolPrefix
          (some { Worktrees := pool.claimedSlots consts.PoolPrefix N })) →
      ((∀ i : Nat, 1 ≤ i → i ≤ N + 1 →
          fs (cmd.candidatePath consts (cmd.topLevel env) i) ≠ StatResult.notExist) →
        (cmd.returnWorktreeToPool env ops consts b).result.1 =
          some (Error.errorf "unable to find available pool slot") ∧
        (cmd.returnWorktreeToPool env ops consts b).trace.filter
          (fun s => s.isGit ["worktree", "move"] || s.isMark) = [] ∧
        (cmd.returnWorktreeToPool env ops consts b).result.2.map
          (fun m => (pool.Manager.GetStatus m).1) = some ((N : Int), (0 : Int))) ∧
      (∀ i : Nat, 1 ≤ i → i ≤ N + 1 →
        fs (cmd.candidatePath consts (cmd.topLevel env) i) = StatResult.notExist →
        (∀ j : Nat, 1 ≤ j → j < i →
          fs (cmd.candidatePath consts (cmd.topLevel env) j) ≠ StatResult.notExist) →
        (cmd.returnWorktreeToPool env ops consts b).trace.filter
            (fun s => s.isGit ["worktree", "move"]) =
          [cmd.moveStep (cmd.targetPath env b)
            (cmd.candidatePath consts (cmd.topLevel env) i)
            (g "." ["worktree", "move", cmd.targetPath env b,
              cmd.candidatePath consts (cmd.topLevel env) i])] ∧
        (cmd.returnWorktreeToPool env ops consts b).trace.filter (fun s => s.isMark) =
          [Step.MarkAvailable (cmd.candidateName consts i)
            (cmd.returnWorktreeToPool env ops consts b).result.1] ∧
        (i ≤ N →
          (cmd.returnWorktreeToPool env ops consts b).result.1 = none ∧
          (cmd.returnWorktreeToPool env ops consts b).result.2.map
            (fun m => (pool.Manager.GetStatus m).1) = some ((N : Int), (1 : Int)) ∧
          (cmd.returnWorktreeToPool env ops consts b).result.2.map
            (fun m => m.Status.Worktrees.lookup (cmd.candidateName consts i)) =
              some (some pool.SlotState.Available)))) ∧
    ((∀ j : Nat, 1 ≤ j → j ≤ N →
        fs (cmd.candidatePath consts (cmd.topLevel env) j) ≠ StatResult.notExist) →
      fs (cmd.candidatePath consts (cmd.topLevel env) (N + 1)) = StatResult.notExist →
      ((cmd.returnWorktreeToPool env (pool.specManager poolDir consts.PoolPrefix
          (some { Worktrees := pool.claimedSlots consts.PoolPrefix N })) consts b).result.1 =
            some errors.ErrBranchNotFound ∧
        (cmd.returnWorktreeToPool env (pool.specManager poolDir consts.PoolPrefix
          (some { Worktrees := pool.claimedSlots consts.PoolPrefix N })) consts b).result.2.map
            (fun m => (pool.Manager.GetStatus m).1) = some ((N : Int), (0 : Int))) ∧
      ((cmd.returnWorktreeToPool env (pool.growingManager poolDir consts.PoolPrefix
          (some { Worktrees := pool.claimedSlots consts.PoolPrefix N })) consts b).result.1 =
            none ∧
        (cmd.returnWorktreeToPool env (pool.growingManager poolDir consts.PoolPrefix
          (some { Worktrees := pool.claimedSlots consts.PoolPrefix N })) consts b).result.2.map
            (fun m => (pool.Manager.GetStatus m).1) =
              some (((N + 1 : Nat) : Int), (1 : Int)))) := by
  have hst := (claimedSlots_facts poolDir consts.PoolPrefix N 0).1
  have hsel : ∀ ops : pool.ManagerOps pool.Manager,
      (ops = pool.specManager poolDir consts.PoolPrefix
          (some { Worktrees := pool.claimedSlots consts.PoolPrefix N }) ∨
        ops = pool.growingManager poolDir consts.PoolPrefix
          (some { Worktrees := pool.claimedSlots consts.PoolPrefix N })) →
      ops.NewManager (cmd.repoIn env) = Except.ok (pool.Manager.Load poolDir consts.PoolPrefix
        (some { Worktrees := pool.claimedSlots consts.PoolPrefix N })) ∧
      ops.GetStatus (pool.Manager.Load poolDir consts.PoolPrefix
        (some { Worktrees := pool.claimedSlots consts.PoolPrefix N })) =
        (((N : Int), (0 : Int)), pool.Manager.Load poolDir consts.PoolPrefix
          (some { Worktrees := pool.claimedSlots consts.PoolPrefix N })) ∧
      ∀ i, 1 ≤ i → i ≤ N →
        ops.MarkAvailable (pool.Manager.Load poolDir consts.PoolPrefix
          (some { Worktrees := pool.claimedSlots consts.PoolPrefix N }))
          (cmd.candidateName consts i) =
        (pool.Manager.Load poolDir consts.PoolPrefix
          (some { Worktrees := pool.claimedSlots consts.PoolPrefix N })).MarkAvailable
            (pool.slotName consts.PoolPrefix i) := by
    rintro ops (rfl | rfl)
    · exact ⟨rfl, hst, fun _ _ _ => rfl⟩
    · exact ⟨rfl, hst, fun i h1 h2 =>
        (claimedSlots_growing_facts poolDir consts.PoolPrefix N i).1 h1 h2⟩
  refine ⟨by rw [hst], ?_, ?_⟩
  · intro ops hops
    obtain ⟨hnew, hstat, hmark⟩ := hsel ops hops
    obtain ⟨hA, hB⟩ := returnWorktreeToPool_selects env ops consts fs g hfs hgit hgok hwd hcd
      b hin _ hnew
    rw [hstat] at hA hB
    simp only at hA hB
    constructor
    · intro hall
      obtain ⟨hr, ht⟩ := hA (fun i hi => hall i ((mem_candidates _ _).1 hi).1
        (by have := ((mem_candidates _ _).1 hi).2; omega))
      rw [hr]
      exact ⟨rfl, ht, by simp only [Option.map_some', hst]⟩
    · intro i hi1 hi2 hmiss hleast
      obtain ⟨hr, hmove, hmk⟩ := hB i hi1 (by exact_mod_cast hi2) hmiss hleast
      refine ⟨hmove, by rw [hmk, hr], ?_⟩
      intro hle
      obtain ⟨h1, h2, h3⟩ := (claimedSlots_facts poolDir consts.PoolPrefix N i).2.1 hi1 hle
      rw [hr, hmark i hi1 hle]
      exact ⟨h1, by simp only [Option.map_some']; exact congrArg some h2,
        by simp only [Option.map_some']; exact congrArg some h3⟩
  · intro hpresent hmiss
    have hleast : ∀ j : Nat, 1 ≤ j → j < N + 1 →
        fs (cmd.candidatePath consts (cmd.topLevel env) j) ≠ StatResult.notExist :=
      fun j h1 h2 => hpresent j h1 (by omega)
    constructor
    · obtain ⟨hnew, hstat, -⟩ := hsel _ (Or.inl rfl)
      obtain ⟨-, hB⟩ := returnWorktreeToPool_selects env _ consts fs g hfs hgit hgok hwd hcd
        b hin _ hnew
      rw [hstat] at hB
      simp only at hB
      obtain ⟨hr, -, -⟩ := hB (N + 1) (by omega) (by push_cast; omega) hmiss hleast
      have h := (claimedSlots_facts poolDir consts.PoolPrefix N (N + 1)).2.2 (by omega)
      have h' : (pool.specManager poolDir consts.PoolPrefix
          (some { Worktrees := pool.claimedSlots consts.PoolPrefix N })).MarkAvailable
          (pool.Manager.Load poolDir consts.PoolPrefix
            (some { Worktrees := pool.claimedSlots consts.PoolPrefix N }))
          (cmd.candidateName consts (N + 1)) = (some errors.ErrBranchNotFound,
            pool.Manager.Load poolDir consts.PoolPrefix
              (some { Worktrees := pool.claimedSlots consts.PoolPrefix N })) := h
      rw [hr, h']
      exact ⟨rfl, by simp only [Option.map_some', hst]⟩
    · obtain ⟨hnew, hstat, -⟩ := hsel _ (Or.inr rfl)
      obtain ⟨-, hB⟩ := returnWorktreeToPool_selects env _ consts fs g hfs hgit hgok hwd hcd
        b hin _ hnew
      rw [hstat] at hB
      simp only at hB
      obtain ⟨hr, -, -⟩ := hB (N + 1) (by omega) (by push_cast; omega) hmiss hleast
      obtain ⟨h1, h2, -⟩ :=
        (claimedSlots_growing_facts poolDir consts.PoolPrefix N (N + 1)).2 (by omega)
      rw [hr]
      exact ⟨h1, by simp only [Option.map_some']; exact congrArg some h2⟩

end ReturnFlowClaims4

section PathClaims2

variable {M : Type}

/-- C28: in a repository in which every git command succeeds and answers alike at every
moment (on a file system that stays as it is, `os.Getwd` and `os.Chdir` succeeding),
both flows act on the path `targetPath`, the branch name with every `/` replaced by `-`
joined to the top level.  The claim flow opens the editor at that path, and does nothing
else, when a worktree is listed there; the return flow fails with `no worktree found`,
naming that path, when none is listed there, and otherwise goes on to the pool manager
and moves no worktree but the one at that path, which it does move when a slot is free.
The joined name holds no `/`.  The mapping is not injective: the different names `a/b`
and `a-b` have the same path, and whenever two branches have the same path and the
worktree of one is listed there, a claim for the other resumes that worktree and a
return of the other takes that worktree to the pool. -/
theorem targetPath_not_injective (env : Env) (ops : pool.ManagerOps M) (cfg : config.Config)
    (consts : pool.Constants) (fs : String → StatResult)
    (g : String → List String → ExecResult)
    (hfs : ∀ n p, env.stat n p = fs p)
    (hgit : ∀ n dir args, env.exec n dir "git" args = g dir args)
    (hgok : ∀ dir args, (g dir args).err = none)
    (hwd : ∀ n, (env.getwd n).2 = none)
    (hcd : ∀ n dir, env.chdir n dir = none) :
    (∀ b, cmd.targetPath env b =
      filepath.Join [strings.TrimSpace (g "." ["rev-parse", "--show-toplevel"]).stdout,
        strings.ReplaceAll b "/" "-"]) ∧
    (∀ b, '/' ∉ (strings.ReplaceAll b "/" "-").data) ∧
    ("a/b" ≠ "a-b" ∧ cmd.targetPath env "a/b" = cmd.targetPath env "a-b") ∧
    (∀ b,
      (∃ wt ∈ git.parseWorktrees (g "." ["worktree", "list", "--porcelain"]).stdout,
        wt.Path = cmd.targetPath env b) →
      ∃ pre r, (∀ s ∈ pre, s.isQuery = true) ∧
        (cmd.createWorktree env ops cfg b).trace =
          pre ++ [cmd.listStep (g "." ["worktree", "list", "--porcelain"]),
            cmd.editorStep cfg (cmd.targetPath env b) r] ∧
        (cmd.createWorktree env ops cfg b).result = (r.err, none)) ∧
    (∀ b,
      (∀ wt ∈ git.parseWorktrees (g "." ["worktree", "list", "--porcelain"]).stdout,
        wt.Path ≠ cmd.targetPath env b) →
      ∃ pre, (∀ s ∈ pre, s.isQuery = true) ∧
        (cmd.returnWorktreeToPool env ops consts b).trace =
          pre ++ [cmd.listStep (g "." ["worktree", "list", "--porcelain"])] ∧
        (cmd.returnWorktreeToPool env ops consts b).result =
          (some (Error.errorf ("no worktree found for branch " ++ b ++ " at " ++
            cmd.targetPath env b)), none)) ∧
    (∀ b,
      (∃ wt ∈ git.parseWorktrees (g "." ["worktree", "list", "--porcelain"]).stdout,
        wt.Path = cmd.targetPath env b) →
      (∃ pre e rest, (∀ s ∈ pre, s.isQuery = true) ∧
        (cmd.returnWorktreeToPool env ops consts b).trace =
          pre ++ [cmd.listStep (g "." ["worktree", "list", "--porcelain"]),
            Step.NewManager e] ++ rest ∧
        ∀ src dst v, cmd.moveStep src dst v ∈ rest → src = cmd.targetPath env b) ∧
      ∀ m, ops.NewManager (cmd.repoIn env) = Except.ok m →
        ∀ i : Nat, 1 ≤ i → (i : Int) ≤ (ops.GetStatus m).1.1 + 1 →
          fs (cmd.candidatePath consts (cmd.topLevel env) i) = StatResult.notExist →
          (∀ j : Nat, 1 ≤ j → j < i →
            fs (cmd.candidatePath consts (cmd.topLevel env) j) ≠ StatResult.notExist) →
          cmd.moveStep (cmd.targetPath env b)
              (cmd.candidatePath consts (cmd.topLevel env) i)
              (g "." ["worktree", "move", cmd.targetPath env b,
                cmd.candidatePath consts (cmd.topLevel env) i]) ∈
            (cmd.returnWorktreeToPool env ops consts b).trace) ∧
    (∀ b b', cmd.targetPath env b = cmd.targetPath env b' →
      (∃ wt ∈ git.parseWorktrees (g "." ["worktree", "list", "--porcelain"]).stdout,
        wt.Path = cmd.targetPath env b' ∧ wt.Branch = b') →
      (∃ pre r, (∀ s ∈ pre, s.isQuery = true) ∧
        (cmd.createWorktree env ops cfg b).trace =
          pre ++ [cmd.listStep (g "." ["worktree", "list", "--porcelain"]),
            cmd.editorStep cfg (cmd.targetPath env b') r] ∧
        (cmd.createWorktree env ops cfg b).result = (r.err, none)) ∧
      ∃ pre e rest, (∀ s ∈ pre, s.isQuery = true) ∧
        (cmd.returnWorktreeToPool env ops consts b).trace =
          pre ++ [cmd.listStep (g "." ["worktree", "list", "--porcelain"]),
            Step.NewManager e] ++ rest ∧
        ∀ src dst v, cmd.moveStep src dst v ∈ rest → src = cmd.targetPath env b') := by
  have hclaim : ∀ b,
      (∃ wt ∈ git.parseWorktrees (g "." ["worktree", "list", "--porcelain"]).stdout,
        wt.Path = cmd.targetPath env b) →
      ∃ pre r, (∀ s ∈ pre, s.isQuery = true) ∧
        (cmd.createWorktree env ops cfg b).trace =
          pre ++ [cmd.listStep (g "." ["worktree", "list", "--porcelain"]),
            cmd.editorStep cfg (cmd.targetPath env b) r] ∧
        (cmd.createWorktree env ops cfg b).result = (r.err, none) :=
    fun b hin => createWorktree_resumes_static env ops cfg g hgit hgok b hin
  have hreturn : ∀ b,
      (∃ wt ∈ git.parseWorktrees (g "." ["worktree", "list", "--porcelain"]).stdout,
        wt.Path = cmd.targetPath env b) →
      ∃ pre e rest, (∀ s ∈ pre, s.isQuery = true) ∧
        (cmd.returnWorktreeToPool env ops consts b).trace =
          pre ++ [cmd.listStep (g "." ["worktree", "list", "--porcelain"]),
            Step.NewManager e] ++ rest ∧
        ∀ src dst v, cmd.moveStep src dst v ∈ rest → src = cmd.targetPath env b := by
    intro b hin
    cases hm : ops.NewManager (cmd.repoIn env) with
    | error e =>
      obtain ⟨pre, hpre, ht, -⟩ :=
        returnWorktreeToPool_no_manager_static env ops consts g hgit hgok b hin e hm
      exact ⟨pre, some e, [], hpre, by simpa using ht, by simp⟩
    | ok m =>
      obtain ⟨pre, scan, hpre, hscan, hA, hB⟩ :=
        returnWorktreeToPool_static env ops consts fs g hfs hgit hgok hwd hcd b hin m hm
      have hscanmove : ∀ src dst v, cmd.moveStep src dst v ∉ scan := by
        intro src dst v hmem
        have := (isScan_quiet _ (hscan _ hmem)).1
        simp [cmd.moveStep, Step.isGit, List.isPrefixOf] at this
      rcases findSlotLoop_spec env consts (cmd.topLevel env) fs hfs
          ((ops.GetStatus m).1.1 + 1).toNat 1 [] with ⟨-, hall⟩ | ⟨k, hk1, hk2, -, hk, hall⟩
      · obtain ⟨ht, -⟩ := hA (fun i hi => hall i ((mem_candidates _ _).1 hi).1
          (by have := ((mem_candidates _ _).1 hi).2; omega))
        refine ⟨pre, none, scan, hpre, ht, ?_⟩
        intro src dst v hmem
        exact absurd hmem (hscanmove src dst v)
      · obtain ⟨d, ht, -⟩ := hB k hk1 (by omega) hk hall
        refine ⟨pre, none, _, hpre, by rw [ht, List.append_assoc], ?_⟩
        intro src dst v hmem
        rcases List.mem_append.1 hmem with h | h
        · exact absurd h (hscanmove src dst v)
        · simp [cmd.moveStep, cmd.repairStep, cmd.checkoutStep] at h
          exact h.1.1
  refine ⟨targetPath_static env g hgit hgok, ReplaceAll_slash_free, ⟨by decide, ?_⟩, hclaim,
    fun b hout => returnWorktreeToPool_not_found_static env ops consts g hgit hgok b hout,
    ?_, ?_⟩
  · unfold cmd.targetPath
    have : strings.ReplaceAll "a/b" "/" "-" = strings.ReplaceAll "a-b" "/" "-" := by decide
    rw [this]
  · intro b hin
    refine ⟨hreturn b hin, ?_⟩
    intro m hm i hi1 hi2 hmiss hleast
    obtain ⟨pre, scan, -, -, -, hB⟩ :=
      returnWorktreeToPool_static env ops consts fs g hfs hgit hgok hwd hcd b hin m hm
    obtain ⟨d, ht, -⟩ := hB i hi1 hi2 hmiss hleast
    rw [ht]
    simp
  · intro b b' heq hin
    obtain ⟨wt, hwt, hp, -⟩ := hin
    have hin' : ∃ wt ∈ git.parseWorktrees
        (g "." ["worktree", "list", "--porcelain"]).stdout, wt.Path = cmd.targetPath env b :=
      ⟨wt, hwt, by rw [heq]; exact hp⟩
    have h1 := hclaim b hin'
    have h2 := hreturn b hin'
    rw [heq] at h1 h2
    exact ⟨h1, h2⟩

end PathClaims2

/-! ## Sample runs in a repository that answers alike at every moment -/

section StaticSamples

/-- Witness of the amended C11: the pool has two slots, both InUse, and both slot
directories are still in the pool, so that the first candidate reported missing is
`pool-3`.  With the `MarkAvailable` of §4.1 the flow fails with the slot-not-found
error and the status stays `(2, 0)`; with the `MarkAvailable` that adds the name the
flow ends without error and the status is `(3, 1)`. -/
theorem returnWorktreeToPool_fills_first_missing_slot_witness :
    ((cmd.returnWorktreeToPool
        (sample.env sample.withFeature
          (sample.among ["/repo/.worktree-pool/pool-1", "/repo/.worktree-pool/pool-2"]) [])
        (pool.specManager "/repo/.worktree-pool" sample.consts.PoolPrefix
          (some { Worktrees := pool.claimedSlots sample.consts.PoolPrefix 2 }))
        sample.consts "feature/a").result.1 = some errors.ErrBranchNotFound ∧
      (cmd.returnWorktreeToPool
        (sample.env sample.withFeature
          (sample.among ["/repo/.worktree-pool/pool-1", "/repo/.worktree-pool/pool-2"]) [])
        (pool.specManager "/repo/.worktree-pool" sample.consts.PoolPrefix
          (some { Worktrees := pool.claimedSlots sample.consts.PoolPrefix 2 }))
        sample.consts "feature/a").result.2.map (fun m => (pool.Manager.GetStatus m).1) =
          some (((2 : Nat) : Int), (0 : Int))) ∧
    ((cmd.returnWorktreeToPool
        (sample.env sample.withFeature
          (sample.among ["/repo/.worktree-pool/pool-1", "/repo/.worktree-pool/pool-2"]) [])
        (pool.growingManager "/repo/.worktree-pool" sample.consts.PoolPrefix
          (some { Worktrees := pool.claimedSlots sample.consts.PoolPrefix 2 }))
        sample.consts "feature/a").result.1 = none ∧
      (cmd.returnWorktreeToPool
        (sample.env sample.withFeature
          (sample.among ["/repo/.worktree-pool/pool-1", "/repo/.worktree-pool/pool-2"]) [])
        (pool.growingManager "/repo/.worktree-pool" sample.consts.PoolPrefix
          (some { Worktrees := pool.claimedSlots sample.consts.PoolPrefix 2 }))
        sample.consts "feature/a").result.2.map (fun m => (pool.Manager.GetStatus m).1) =
          some (((2 + 1 : Nat) : Int), (1 : Int))) :=
  (returnWorktreeToPool_fills_first_missing_slot
    (sample.env sample.withFeature
      (sample.among ["/repo/.worktree-pool/pool-1", "/repo/.worktree-pool/pool-2"]) [])
    sample.consts "/repo/.worktree-pool" 2 "feature/a"
    (sample.among ["/repo/.worktree-pool/pool-1", "/repo/.worktree-pool/pool-2"])
    (sample.git sample.withFeature []) (fun _ _ => rfl) (fun _ _ _ => rfl)
    (sample_git_ok sample.withFeature) (fun _ => rfl) (fun _ _ => rfl)
    ⟨{ Path := "/repo/feature-a", Branch := "feature/a", Commit := "2222", Bare := false },
      by decide, by decide⟩).2.2
    (by intro j h1 h2; interval_cases j <;> decide) (by decide)

/-- The two readings of `MarkAvailable` for a name the store does not know, in the run
in which both slot directories are still in the pool and `pool-3` is selected: with the
`MarkAvailable` of §4.1 the flow fails and the status stays `(2, 0)`; only with a
`MarkAvailable` that adds the name does the status become `(3, 1)`.  In the run in
which the slot directories left the pool, `pool-1` is selected and the status is
`(2, 1)` under either reading. -/
theorem returnWorktreeToPool_unknown_slot_sample :
    ((cmd.returnWorktreeToPool
      (sample.env sample.withFeature
        (sample.among ["/repo/.worktree-pool/pool-1", "/repo/.worktree-pool/pool-2"]) [])
      (pool.specManager "/repo/.worktree-pool" "pool-" (some sample.fullStore))
      sample.consts "feature/a").result.2.map (fun m => (pool.Manager.GetStatus m).1)) =
        some (2, 0) ∧
    ((cmd.returnWorktreeToPool
      (sample.env sample.withFeature
        (sample.among ["/repo/.worktree-pool/pool-1", "/repo/.worktree-pool/pool-2"]) [])
      (pool.growingManager "/repo/.worktree-pool" "pool-" (some sample.fullStore))
      sample.consts "feature/a").result.2.map (fun m => (pool.Manager.GetStatus m).1)) =
        some (3, 1) ∧
    ((cmd.returnWorktreeToPool (sample.env sample.withFeature sample.nothing [])
      (pool.specManager "/repo/.worktree-pool" "pool-" (some sample.fullStore))
      sample.consts "feature/a").result.2.map (fun m => (pool.Manager.GetStatus m).1)) =
        some (2, 1) ∧
    ((cmd.returnWorktreeToPool (sample.env sample.withFeature sample.nothing [])
      (pool.growingManager "/repo/.worktree-pool" "pool-" (some sample.fullStore))
      sample.consts "feature/a").result.2.map (fun m => (pool.Manager.GetStatus m).1)) =
        some (2, 1) := by
  decide

/-- Witness of C28: in the sample repository the worktree of the branch `a/b` lies at
`/repo/a-b`.  A claim of the branch `a-b` opens the editor in that worktree and makes
no other step after the listing, and a return of `a-b` goes on to the pool manager with
that worktree. -/
theorem targetPath_not_injective_witness :
    (cmd.targetPath (sample.env sample.withSlashBranch sample.nothing []) "a-b" =
      cmd.targetPath (sample.env sample.withSlashBranch sample.nothing []) "a/b" ∧
      ∃ wt ∈ git.parseWorktrees
        (sample.git sample.withSlashBranch [] "." ["worktree", "list", "--porcelain"]).stdout,
        wt.Path = cmd.targetPath (sample.env sample.withSlashBranch sample.nothing []) "a/b" ∧
          wt.Branch = "a/b") ∧
    (∃ pre r, (∀ s ∈ pre, s.isQuery = true) ∧
      (cmd.createWorktree (sample.env sample.withSlashBranch sample.nothing [])
        sample.fullManager sample.cfg "a-b").trace =
        pre ++ [cmd.listStep
            (sample.git sample.withSlashBranch [] "." ["worktree", "list", "--porcelain"]),
          cmd.editorStep sample.cfg
            (cmd.targetPath (sample.env sample.withSlashBranch sample.nothing []) "a/b") r] ∧
      (cmd.createWorktree (sample.env sample.withSlashBranch sample.nothing [])
        sample.fullManager sample.cfg "a-b").result = (r.err, none)) ∧
    ∃ pre e rest, (∀ s ∈ pre, s.isQuery = true) ∧
      (cmd.returnWorktreeToPool (sample.env sample.withSlashBranch sample.nothing [])
        sample.fullManager sample.consts "a-b").trace =
        pre ++ [cmd.listStep
            (sample.git sample.withSlashBranch [] "." ["worktree", "list", "--porcelain"]),
          Step.NewManager e] ++ rest ∧
      ∀ src dst v, cmd.moveStep src dst v ∈ rest →
        src = cmd.targetPath (sample.env sample.withSlashBranch sample.nothing []) "a/b" :=
  have hin : ∃ wt ∈ git.parseWorktrees
      (sample.git sample.withSlashBranch [] "." ["worktree", "list", "--porcelain"]).stdout,
      wt.Path = cmd.targetPath (sample.env sample.withSlashBranch sample.nothing []) "a/b" ∧
        wt.Branch = "a/b" :=
    ⟨{ Path := "/repo/a-b", Branch := "a/b", Commit := "2222", Bare := false },
      by decide, by decide, rfl⟩
  have h := (targetPath_not_injective (sample.env sample.withSlashBranch sample.nothing [])
    sample.fullManager sample.cfg sample.consts sample.nothing
    (sample.git sample.withSlashBranch []) (fun _ _ => rfl) (fun _ _ _ => rfl)
    (sample_git_ok sample.withSlashBranch) (fun _ => rfl) (fun _ _ => rfl)).2.2.2.2.2.2
    "a-b" "a/b" (by decide) hin
  ⟨⟨by decide, hin⟩, h.1, h.2⟩

end StaticSamples

end Pool
